import Mathlib

/-!
# Soundfile header codec and sample codec of `d_soundfile.c`

A shallow embedding of the soundfile routines of Pd (`src/pd/src/d_soundfile.c`)
and theorems about them.

Conventions of the embedding.

* The data model is the one of x86-64 Linux: `int` and `uint32` have 32 bits,
  `long`, `unsigned long` and `off_t` have 64 bits, the host is little-endian, so
  `garray_ambigendian()` is 0.  Integers are `Nat`/`Int`; every place where the C
  value is narrowed is written with an explicit reduction (`toInt32`, `% 2 ^ 32`, ...).
  Signed overflow wraps.
* `float`, `double`, `t_float` and `t_sample` are rationals (`ℚ`).  Where the source
  computes a floating-point value that need not be exact, the result is rounded
  (`to_float`, `to_double`): the byte rate of a WAVE header, the product of a sample
  and the scale factor in the 16- and 24-bit encoders, the normalisation factor.
  Operations that are exact on binary floats in range (a factor that is a power of two,
  sums and differences of small integers, `frexp`, `ldexp`) carry no rounding, and the
  exponent range of the formats is not modelled.  A floating value converted to an
  integer type is truncated toward zero; out of the range of the target the result is
  the one of the x86-64 conversion instructions (`d2i`, `f2u32`, `d2ul`).
* A file is the list of its bytes; the file offset and `errno` are carried in `Sys`.
  `read` returns the bytes that are left, at most the number asked for; `lseek` fails
  for a negative offset and succeeds for every other one.
* Memory reached through a pointer (`buf`, `vecs[i]`) is a function from index to value.
-/

namespace Soundfile

/-! ## Machine integers and bytes -/

/-- An `unsigned char`; a stored value is reduced modulo 256 when it is loaded. -/
abbrev Byte := Nat

/-- Conversion of an integer to `int` (32 bits, two's complement). -/
def toInt32 (n : Int) : Int := (n + 2 ^ 31) % 2 ^ 32 - 2 ^ 31

/-- Conversion of an integer to `long` (64 bits, two's complement). -/
def toInt64 (n : Int) : Int := (n + 2 ^ 63) % 2 ^ 64 - 2 ^ 63

/-- Conversion of an integer to `uint32`. -/
def toUInt32 (n : Int) : Nat := (n % 2 ^ 32).toNat

/-- Conversion of an integer to `unsigned char`. -/
def toUInt8 (n : Int) : Nat := (n % 256).toNat

/-- Conversion of an integer to `char`, which is signed on this platform. -/
def toInt8 (n : Int) : Int := (n + 128) % 256 - 128

/-- Truncation toward zero, the rounding of a floating to integer conversion. -/
def truncQ (q : ℚ) : Int := if 0 ≤ q then ⌊q⌋ else ⌈q⌉

/-- Conversion `double`/`float` to `int`; out of range it gives `INT_MIN`. -/
def d2i (q : ℚ) : Int :=
  if -(2 ^ 31 : Int) ≤ truncQ q ∧ truncQ q < 2 ^ 31 then truncQ q else -(2 ^ 31)

/-- Conversion `double` to `unsigned long`. -/
def d2ul (q : ℚ) : Nat := (truncQ q % 2 ^ 64).toNat

/-- Conversion `float` to `uint32`. -/
def f2u32 (q : ℚ) : Nat := (truncQ q % 2 ^ 32).toNat

/-- The byte at index `i` of a byte sequence (0 beyond its end). -/
def byteAt (buf : List Byte) (i : Nat) : Nat := buf.getD i 0 % 256

/-- Native load of a `uint16` at byte offset `off` (little-endian host). -/
def load16 (buf : List Byte) (off : Nat) : Nat :=
  byteAt buf off + 2 ^ 8 * byteAt buf (off + 1)

/-- Native load of a `uint32` at byte offset `off` (little-endian host). -/
def load32 (buf : List Byte) (off : Nat) : Nat :=
  byteAt buf off + 2 ^ 8 * byteAt buf (off + 1) + 2 ^ 16 * byteAt buf (off + 2)
    + 2 ^ 24 * byteAt buf (off + 3)

/-- Native load of an `unsigned long` at byte offset `off` (little-endian host). -/
def load64 (buf : List Byte) (off : Nat) : Nat :=
  load32 buf off + 2 ^ 32 * load32 buf (off + 4)

/-- Native store of a `uint16`: its two bytes in memory order. -/
def store16 (n : Nat) : List Byte := [n % 256, n / 2 ^ 8 % 256]

/-- Native store of a `uint32`: its four bytes in memory order. -/
def store32 (n : Nat) : List Byte :=
  [n % 256, n / 2 ^ 8 % 256, n / 2 ^ 16 % 256, n / 2 ^ 24 % 256]

/-- The source's `memcpy(buf + off, src, src.length)` on a byte sequence. -/
def memcpy (buf : List Byte) (off : Nat) (src : List Byte) : List Byte :=
  buf.take off ++ src ++ buf.drop (off + src.length)

def MAXSFCHANS : Nat := 64
def FORMAT_WAVE : Int := 0
def FORMAT_AIFF : Int := 1
def FORMAT_NEXT : Int := 2
def NS_FORMAT_LINEAR_16 : Int := 3
def NS_FORMAT_LINEAR_24 : Int := 4
def NS_FORMAT_FLOAT : Int := 6
def WAV_INT : Nat := 1
def WAV_FLOAT : Nat := 3
/-- The source's `SCALE`, `1./(1024. * 1024. * 1024. * 2.)`. -/
def SCALE : ℚ := 1 / (1024 * 1024 * 1024 * 2)
def sizeof_nextstep : Nat := 28
def sizeof_wave : Nat := 44
def sizeof_fmt : Nat := 16
def sizeof_wavechunk : Nat := 8
def sizeof_datachunk : Nat := 16
def sizeof_comm : Nat := 18
/-- The value of `sizeof(t_aiff)`: 38 bytes of members, padded to the alignment 4. -/
def sizeof_aiff : Nat := 40
def AIFFHDRSIZE : Nat := 38
def AIFFPLUS : Nat := AIFFHDRSIZE + 16
def WHDR1 : Nat := sizeof_nextstep
def WHDR2 : Nat := if sizeof_wave > WHDR1 then sizeof_wave else WHDR1
def WRITEHDRSIZE : Nat := if AIFFPLUS > WHDR2 then AIFFPLUS else WHDR2
def READHDRSIZE : Nat := if 16 > WHDR2 + 2 then 16 else WHDR2 + 2
def EIO : Int := 5
def EINVAL : Int := 22

/-- The host byte order, `garray_ambigendian()`: 0 on the little-endian host. -/
def garray_ambigendian : Int := 0

/-- The characters `.snd`. -/
def str_snd : List Byte := [0x2e, 0x73, 0x6e, 0x64]
/-- The characters `dns.`. -/
def str_dns : List Byte := [0x64, 0x6e, 0x73, 0x2e]
/-- The characters `RIFF`. -/
def str_RIFF : List Byte := [0x52, 0x49, 0x46, 0x46]
/-- The characters `WAVE`. -/
def str_WAVE : List Byte := [0x57, 0x41, 0x56, 0x45]
/-- The characters `FORM`. -/
def str_FORM : List Byte := [0x46, 0x4f, 0x52, 0x4d]
/-- The characters `AIFF`. -/
def str_AIFF : List Byte := [0x41, 0x49, 0x46, 0x46]
/-- The characters `fmt ` (with the blank). -/
def str_fmt : List Byte := [0x66, 0x6d, 0x74, 0x20]
/-- The characters `data`. -/
def str_data : List Byte := [0x64, 0x61, 0x74, 0x61]
/-- The characters `COMM`. -/
def str_COMM : List Byte := [0x43, 0x4f, 0x4d, 0x4d]
/-- The characters `SSND`. -/
def str_SSND : List Byte := [0x53, 0x53, 0x4e, 0x44]
/-- The characters `Pd ` and the terminating NUL that `strcpy` copies. -/
def str_Pd : List Byte := [0x50, 0x64, 0x20, 0x00]

/-- The test `!strncmp(buf + off, lit, 4)` for a four-character literal `lit`. -/
def strncmp4 (buf : List Byte) (off : Nat) (lit : List Byte) : Bool :=
  decide ([byteAt buf off, byteAt buf (off + 1), byteAt buf (off + 2), byteAt buf (off + 3)]
    = lit)

/-! ## Byte swappers -/

def swap4 (n : Nat) (doit : Bool) : Nat :=
  if doit then
    (((n &&& 0xff) <<< 24) ||| ((n &&& 0xff00) <<< 8) |||
      ((n &&& 0xff0000) >>> 8) ||| ((n &&& 0xff000000) >>> 24))
  else n

/-- The result type is `uint16`, so the value returned is reduced modulo `2 ^ 16`. -/
def swap2 (n : Nat) (doit : Bool) : Nat :=
  if doit then
    (((n &&& 0xff) <<< 8) ||| ((n &&& 0xff00) >>> 8)) % 2 ^ 16
  else n % 2 ^ 16

/-- Reverses the four bytes at `off` when `doit` holds. -/
def swapstring (foo : List Byte) (off : Nat) (doit : Bool) : List Byte :=
  if doit then
    memcpy foo off [byteAt foo (off + 3), byteAt foo (off + 2), byteAt foo (off + 1),
      byteAt foo off]
  else foo

/-! ## 80-bit sample rates -/

/-- The loop `while (exp--) { last = mantissa; mantissa >>= 1; }`, run `exp` times. -/
def shiftloop : Nat → Nat × Nat → Nat × Nat
  | 0, st => st
  | exp + 1, (mantissa, _) => shiftloop exp (mantissa >>> 1, mantissa)

/-- The statements of `readaiffsamprate` from the `while` loop to the `return`: the
mantissa is shifted right `exp` times and incremented (as an `unsigned long`) when the
last bit shifted out was 1. -/
def shift_and_round (mantissa exp : Nat) : Nat :=
  let r := shiftloop exp (mantissa, 0)
  if r.2 &&& 0x00000001 ≠ 0 then (r.1 + 1) % 2 ^ 64 else r.1

/-- Reads a sample rate from the ten bytes at `off` of `shit`.  The mantissa is loaded
through an `unsigned long` pointer, that is eight bytes; `exp` is an `unsigned char`, so
`30 - shit[1]` is reduced modulo 256.  The bytes swapped in place are not handed back:
the callers overwrite them before they look at the buffer again. -/
def readaiffsamprate (shit : List Byte) (off : Nat) (swap : Bool) : ℚ :=
  let shit := swapstring shit (off + 2) swap
  let mantissa := load64 shit (off + 2)
  let exp := toUInt8 (30 - toInt8 (byteAt shit (off + 1)))
  (shift_and_round mantissa exp : ℚ)

/-- The number of binary digits of `n` minus one, `⌊log₂ n⌋`, for `n ≥ 1` (and 0 for 0);
`fuel` bounds the number of halvings. -/
def ilog2 : Nat → Nat → Nat
  | 0, _ => 0
  | fuel + 1, n => if n < 2 then 0 else ilog2 fuel (n / 2) + 1

/-- The exponent `e` that `frexp` gives for a positive `q`: `2 ^ (e - 1) ≤ q < 2 ^ e`. -/
def frexp_exponent (q : ℚ) : Int :=
  if 1 ≤ q then ((ilog2 ⌊q⌋.toNat ⌊q⌋.toNat + 1 : Nat) : Int)
  else -((ilog2 (⌈1 / q⌉.toNat - 1) (⌈1 / q⌉.toNat - 1) : Nat) : Int)

/-- The library function `frexp`: `q = m * 2 ^ e` with `1/2 ≤ |m| < 1`, and `(0, 0)` for 0. -/
def frexp (q : ℚ) : ℚ × Int :=
  if q = 0 then (0, 0)
  else (q / (2 : ℚ) ^ frexp_exponent |q|, frexp_exponent |q|)

/-- The library function `ldexp`. -/
def ldexp (m : ℚ) (e : Int) : ℚ := m * (2 : ℚ) ^ e

/-- Writes a sample rate as the ten bytes of an 80-bit number. -/
def makeaiffsamprate (sr : ℚ) : List Byte :=
  let exponent := (frexp sr).2
  let mantissa := (frexp sr).1
  let fixmantissa := d2ul (ldexp mantissa 32)
  [toUInt8 ((toInt32 (exponent + 16382)) >>> 8), toUInt8 (toInt32 (exponent + 16382)),
   (fixmantissa >>> 24) % 256, (fixmantissa >>> 16) % 256, (fixmantissa >>> 8) % 256,
   fixmantissa % 256, 0, 0, 0, 0]

/-! ## Binary floating point

`t_float` and `t_sample` are `float`, and an arithmetic operation on two `float`s gives
a `float`: the exact result rounded to 24 significant bits.  The functions below round
a rational number that way.  Only the places where the source rounds a value that need
not be a `float` already carry a rounding; the 32-bit sample paths keep their abstract
bit patterns. -/

/-- Rounding to the nearest integer, a tie to the even one. -/
def round_even (q : ℚ) : Int :=
  if q - ⌊q⌋ < 1 / 2 then ⌊q⌋
  else if 1 / 2 < q - ⌊q⌋ then ⌊q⌋ + 1
  else if ⌊q⌋ % 2 = 0 then ⌊q⌋ else ⌊q⌋ + 1

/-- Rounding to a binary floating-point number of `p` significant bits, to nearest with
ties to even: with `2 ^ (e - 1) ≤ |q| < 2 ^ e` the result is the multiple of
`2 ^ (e - p)` nearest to `q`.  This is the rounding of the hardware for results in the
normal range of the format; the limits of the exponent (overflow to infinity, gradual
underflow) are not modelled. -/
def fround (p : Nat) (q : ℚ) : ℚ :=
  if q = 0 then 0
  else (round_even (q / (2 : ℚ) ^ (frexp_exponent |q| - p)) : ℚ)
    * (2 : ℚ) ^ (frexp_exponent |q| - p)

/-- Rounding to `float` (24 significant bits). -/
def to_float (q : ℚ) : ℚ := fround 24 q

/-- Rounding to `double` (53 significant bits). -/
def to_double (q : ℚ) : ℚ := fround 53 q

/-! ## Files -/

/-- The state the system calls act on: the bytes of the file behind the descriptor,
its file offset, and `errno`. -/
structure Sys where
  data : List Byte
  pos : Nat
  errno : Int
deriving DecidableEq, Repr

/-- The call `read(fd, buf, n)`: the bytes read and the new state. -/
def Sys.read (s : Sys) (n : Nat) : List Byte × Sys :=
  let bytes := (s.data.drop s.pos).take n
  (bytes, { s with pos := s.pos + bytes.length })

/-- The call `lseek(fd, off, SEEK_SET)`: the value returned and the new state. -/
def Sys.lseek (s : Sys) (off : Int) : Int × Sys :=
  if off < 0 then (-1, { s with errno := EINVAL })
  else (off, { s with pos := off.toNat })

/-! ## Header parser -/

structure SoundfileInfo where
  samplerate : Int
  channels : Int
  bytespersample : Int
  headersize : Int
  bigendian : Int
  bytelimit : Int
deriving DecidableEq, Repr

/-- What `open_soundfile_via_fd` leaves behind: the value returned, the caller's
record `*p_info`, and the system state. -/
structure OpenResult where
  ret : Int
  info : SoundfileInfo
  sys : Sys
deriving DecidableEq, Repr

/-- The label `badheader`. -/
def badheader (p_info : SoundfileInfo) (s : Sys) : OpenResult :=
  { ret := -1, info := p_info, sys := { s with errno := EIO } }

/-- The end of `open_soundfile_via_fd`, from the comment "seek past header and any
sample frames to skip" on. -/
def seek_past_header (fd : Int) (p_info : SoundfileInfo) (skipframes : Int)
    (headersize bigendian nchannels bytespersamp bytelimit samprate : Int) (s : Sys) :
    OpenResult :=
  let r := s.lseek (toInt64 (nchannels * bytespersamp * skipframes + headersize))
  let sysrtn := r.1
  let s := r.2
  if sysrtn ≠ toInt64 (toInt32 (nchannels * bytespersamp) * skipframes + headersize) then
    { ret := -1, info := p_info, sys := s }
  else
    let bytelimit := toInt64 (bytelimit - toInt64 (toInt32 (nchannels * bytespersamp) * skipframes))
    let bytelimit := if bytelimit < 0 then 0 else bytelimit
    { ret := fd,
      info := { headersize := headersize, bigendian := bigendian, channels := nchannels,
                bytespersample := bytespersamp, bytelimit := bytelimit,
                samplerate := samprate },
      sys := s }

/-- How a walk over the chunks of a WAVE or AIFF file ends: at `badheader`, or at the
data chunk with the values found so far; `nofuel` when the loop was cut off. -/
inductive Walk where
  | bad (s : Sys)
  | found (headersize : Int) (buf : List Byte) (nchannels bytespersamp samprate : Int) (s : Sys)
  | nofuel
deriving DecidableEq, Repr

/-- The body of `if (!strncmp(wc_id, "fmt ", 4))`: `none` stands for `goto badheader`. -/
def wave_fmt (swap : Bool) (headersize : Int) (buf : List Byte) (s : Sys) :
    Option (List Byte × Int × Int × Int) × Sys :=
  let commblockonset := headersize + 8
  let r := s.lseek commblockonset
  let seekout := r.1
  let s := r.2
  if seekout ≠ commblockonset then (none, s)
  else
    let r := s.read sizeof_fmt
    let s := r.2
    if r.1.length < sizeof_fmt then (none, s)
    else
      let buf := memcpy buf 0 r.1
      let nchannels : Int := swap2 (load16 buf 2) swap
      let format : Int := swap2 (load16 buf 14) swap
      let samprate := toInt32 (swap4 (load32 buf 4) swap)
      if format = 16 then (some (buf, nchannels, 2, samprate), s)
      else if format = 24 then (some (buf, nchannels, 3, samprate), s)
      else if format = 32 then (some (buf, nchannels, 4, samprate), s)
      else (none, s)

/-- The loop "read chunks in loop until we get to the data chunk" of the WAVE branch;
`fuel` bounds the number of iterations. -/
def wave_chunks (swap : Bool) : Nat → Int → List Byte → Int → Int → Int → Sys → Walk
  | 0, _, _, _, _, _, _ => .nofuel
  | fuel + 1, headersize, buf, nchannels, bytespersamp, samprate, s =>
    if strncmp4 buf 0 str_data then .found headersize buf nchannels bytespersamp samprate s
    else
      let chunksize : Int := swap4 (load32 buf 4) swap
      let seekto : Int := headersize + chunksize + 8
      let seekto := if seekto % 2 = 1 then seekto + 1 else seekto
      let f := if strncmp4 buf 0 str_fmt then wave_fmt swap headersize buf s
               else (some (buf, nchannels, bytespersamp, samprate), s)
      match f with
      | (none, s) => .bad s
      | (some (buf, nchannels, bytespersamp, samprate), s) =>
        let r := s.lseek seekto
        let seekout := r.1
        let s := r.2
        if seekout ≠ seekto then .bad s
        else
          let r := s.read sizeof_wavechunk
          let s := r.2
          if r.1.length < sizeof_wavechunk then .bad s
          else
            wave_chunks swap fuel (toInt32 seekto) (memcpy buf 0 r.1) nchannels bytespersamp
              samprate s

/-- The body of `if (!strncmp(dc_id, "COMM", 4))`: `none` stands for `goto badheader`. -/
def aiff_comm (swap : Bool) (headersize : Int) (buf : List Byte) (s : Sys) :
    Option (List Byte × Int × Int × Int) × Sys :=
  let commblockonset := headersize + 8
  let r := s.lseek commblockonset
  let seekout := r.1
  let s := r.2
  if seekout ≠ commblockonset then (none, s)
  else
    let r := s.read sizeof_comm
    let s := r.2
    if r.1.length < sizeof_comm then (none, s)
    else
      let buf := memcpy buf 0 r.1
      let nchannels : Int := swap2 (load16 buf 0) swap
      let format : Int := swap2 (load16 buf 6) swap
      let samprate := d2i (readaiffsamprate buf 8 swap)
      if format = 16 then (some (buf, nchannels, 2, samprate), s)
      else if format = 24 then (some (buf, nchannels, 3, samprate), s)
      else (none, s)

/-- The loop "read chunks in loop until we get to the data chunk" of the AIFF branch;
`fuel` bounds the number of iterations. -/
def aiff_chunks (swap : Bool) : Nat → Int → List Byte → Int → Int → Int → Sys → Walk
  | 0, _, _, _, _, _, _ => .nofuel
  | fuel + 1, headersize, buf, nchannels, bytespersamp, samprate, s =>
    if strncmp4 buf 0 str_SSND then .found headersize buf nchannels bytespersamp samprate s
    else
      let chunksize : Int := swap4 (load32 buf 4) swap
      let seekto : Int := headersize + chunksize + 8
      let seekto := if seekto % 2 = 1 then seekto + 1 else seekto
      let f := if strncmp4 buf 0 str_COMM then aiff_comm swap headersize buf s
               else (some (buf, nchannels, bytespersamp, samprate), s)
      match f with
      | (none, s) => .bad s
      | (some (buf, nchannels, bytespersamp, samprate), s) =>
        let r := s.lseek seekto
        let seekout := r.1
        let s := r.2
        if seekout ≠ seekto then .bad s
        else
          let r := s.read sizeof_datachunk
          let s := r.2
          if r.1.length < sizeof_datachunk then .bad s
          else
            aiff_chunks swap fuel (toInt32 seekto) (memcpy buf 0 r.1) nchannels bytespersamp
              samprate s

/-- The classification at the head of the auto-detect branch, from `if (bytesread < 4)`
to the last `goto badheader` before `swap` is set: `buf` holds the `bytesread` bytes
that were read; the result is `(format, bigendian)`, and `none` stands for
`goto badheader`. -/
def detect_format (buf : List Byte) (bytesread : Int) : Option (Int × Int) :=
  if bytesread < 4 then none
  else if strncmp4 buf 0 str_snd then some (FORMAT_NEXT, 1)
  else if strncmp4 buf 0 str_dns then some (FORMAT_NEXT, 0)
  else if strncmp4 buf 0 str_RIFF then
    if bytesread < 12 || !strncmp4 buf 8 str_WAVE then none
    else some (FORMAT_WAVE, 0)
  else if strncmp4 buf 0 str_FORM then
    if bytesread < 12 || !strncmp4 buf 8 str_AIFF then none
    else some (FORMAT_AIFF, 1)
  else none

/-- The header parser.  `fd` is the descriptor number, `s` the state of the file behind
it, `p_info` the caller's record; `fuel` bounds the iterations of the chunk loops and
`none` is returned when a loop was cut off. -/
def open_soundfile_via_fd (fuel : Nat) (fd : Int) (s : Sys) (p_info : SoundfileInfo)
    (skipframes : Int) : Option OpenResult :=
  let s := { s with errno := 0 }
  if p_info.headersize ≥ 0 then
    some (seek_past_header fd p_info skipframes p_info.headersize p_info.bigendian
      p_info.channels p_info.bytespersample p_info.samplerate p_info.samplerate s)
  else
    let r := s.read READHDRSIZE
    let buf := r.1
    let bytesread : Int := buf.length
    let s := r.2
    match detect_format buf bytesread with
    | none => some (badheader p_info s)
    | some (format, bigendian) =>
      let swap : Bool := bigendian ≠ garray_ambigendian
      if format = FORMAT_NEXT then
        if bytesread < sizeof_nextstep then some (badheader p_info s)
        else
          let nchannels := toInt32 (swap4 (load32 buf 20) swap)
          let format := toInt32 (swap4 (load32 buf 12) swap)
          let headersize := toInt32 (swap4 (load32 buf 4) swap)
          let samprate := toInt32 (swap4 (load32 buf 16) swap)
          if format = NS_FORMAT_LINEAR_16 then
            some (seek_past_header fd p_info skipframes headersize bigendian nchannels 2
              0x7fffffff samprate s)
          else if format = NS_FORMAT_LINEAR_24 then
            some (seek_past_header fd p_info skipframes headersize bigendian nchannels 3
              0x7fffffff samprate s)
          else if format = NS_FORMAT_FLOAT then
            some (seek_past_header fd p_info skipframes headersize bigendian nchannels 4
              0x7fffffff samprate s)
          else some (badheader p_info s)
      else if format = FORMAT_WAVE then
        if bytesread < 20 then some (badheader p_info s)
        else
          match wave_chunks swap fuel 12
              (memcpy buf 0 ((buf.drop 12).take sizeof_wavechunk)) 1 2 44100 s with
          | .nofuel => none
          | .bad s => some (badheader p_info s)
          | .found headersize buf nchannels bytespersamp samprate s =>
            some (seek_past_header fd p_info skipframes (toInt32 (headersize + 8)) bigendian
              nchannels bytespersamp (swap4 (load32 buf 4) swap) samprate s)
      else
        if bytesread < 20 then some (badheader p_info s)
        else
          match aiff_chunks swap fuel 12
              (memcpy buf 0 ((buf.drop 12).take sizeof_datachunk)) 1 2 44100 s with
          | .nofuel => none
          | .bad s => some (badheader p_info s)
          | .found headersize buf nchannels bytespersamp samprate s =>
            some (seek_past_header fd p_info skipframes
              (toInt32 (headersize + sizeof_datachunk)) bigendian nchannels bytespersamp
              (toUInt32 ((swap4 (load32 buf 4) swap : Int) - 8)) samprate s)

/-! ## Header writer -/

/-- The header that `create_soundfile` builds in `headerbuf` and writes to the new
file, with `headersize`.  Creating the file and the `write` call are not modelled: the
result is what a successful call leaves in the file.  `headerbuf` starts out as zeros;
every byte below `headersize` is assigned in each branch. -/
def create_soundfile (filetype : Int) (nframes : Int) (bytespersamp : Int) (bigendian : Int)
    (nchannels : Int) (swap : Bool) (samplerate : ℚ) : List Byte × Int :=
  let headerbuf : List Byte := List.replicate WRITEHDRSIZE 0
  if filetype = FORMAT_NEXT then
    let h := memcpy headerbuf 0 (if bigendian ≠ 0 then str_snd else str_dns)
    let h := memcpy h 4 (store32 (swap4 sizeof_nextstep swap))
    let h := memcpy h 8 (store32 0)
    let h := memcpy h 12 (store32 (swap4 (toUInt32
      (if bytespersamp = 3 then NS_FORMAT_LINEAR_24
       else (if bytespersamp = 4 then NS_FORMAT_FLOAT else NS_FORMAT_LINEAR_16))) swap))
    let h := memcpy h 16 (store32 (swap4 (f2u32 samplerate) swap))
    let h := memcpy h 20 (store32 (swap4 (toUInt32 nchannels) swap))
    let h := memcpy h 24 str_Pd
    let h := swapstring h 24 swap
    (h.take sizeof_nextstep, sizeof_nextstep)
  else if filetype = FORMAT_AIFF then
    let datasize := toInt64 (nframes * nchannels * bytespersamp)
    let h := memcpy headerbuf 0 str_FORM
    let h := memcpy h 4 (store32 (swap4 (toUInt32 (datasize + sizeof_aiff + 4)) swap))
    let h := memcpy h 8 str_AIFF
    let h := memcpy h 12 str_COMM
    let h := memcpy h 16 (store32 (swap4 18 swap))
    let h := memcpy h 20 (store16 (swap2 (toUInt32 nchannels) swap))
    let h := memcpy h 22 (store32 (swap4 (toUInt32 nframes) swap))
    let h := memcpy h 26 (store16 (swap2 (toUInt32 (toInt32 (8 * bytespersamp))) swap))
    let h := memcpy h 28 (makeaiffsamprate samplerate)
    let h := memcpy h 38 str_SSND
    let h := memcpy h 42 (store32 (swap4 (toUInt32 (datasize + 8)) swap))
    let h := memcpy h 46 (List.replicate 8 0)
    (h.take AIFFPLUS, AIFFPLUS)
  else
    let datasize := toInt64 (nframes * nchannels * bytespersamp)
    let h := memcpy headerbuf 0 str_RIFF
    let h := memcpy h 4 (store32 (swap4 (toUInt32 (datasize + sizeof_wave - 8)) swap))
    let h := memcpy h 8 str_WAVE
    let h := memcpy h 12 str_fmt
    let h := memcpy h 16 (store32 (swap4 16 swap))
    let h := memcpy h 20 (store16 (swap2 (if bytespersamp = 4 then WAV_FLOAT else WAV_INT) swap))
    let h := memcpy h 22 (store16 (swap2 (toUInt32 nchannels) swap))
    let h := memcpy h 24 (store32 (swap4 (f2u32 samplerate) swap))
    let h := memcpy h 28 (store32 (swap4
      (toUInt32 (d2i (to_float (to_float (samplerate * to_float nchannels)
        * to_float bytespersamp)))) swap))
    let h := memcpy h 32 (store16 (swap2 (toUInt32 (toInt32 (nchannels * bytespersamp))) swap))
    let h := memcpy h 34 (store16 (swap2 (toUInt32 (toInt32 (8 * bytespersamp))) swap))
    let h := memcpy h 36 str_data
    let h := memcpy h 40 (store32 (swap4 (toUInt32 datasize) swap))
    (h.take sizeof_wave, sizeof_wave)

/-! ## Sample codec -/

/-- A `for` loop whose counter runs over `0 .. n - 1`. -/
def forloop {σ : Type} (n : Nat) (body : Nat → σ → σ) (init : σ) : σ :=
  (List.range n).foldl (fun st j => body j st) init

/-- The assignment `m[i] = v` in a memory `m`. -/
def poke {α : Type} (m : Nat → α) (i : Nat) (v : α) : Nat → α :=
  fun k => if k = i then v else m k

/-- The assignment `vecs[i][k] = v`. -/
def poke2 {α : Type} (vecs : Nat → Nat → α) (i k : Nat) (v : α) : Nat → Nat → α :=
  fun i2 => if i2 = i then poke (vecs i) k v else vecs i2

/-- The `int` value of `(b0 << 24) | (b1 << 16) | (b2 << 8) | b3` for bytes promoted
to `int`. -/
def int_of_bytes (b0 b1 b2 b3 : Nat) : Int :=
  toInt32 ((((b0 % 256) <<< 24) ||| ((b1 % 256) <<< 16) ||| ((b2 % 256) <<< 8)
    ||| (b3 % 256) : Nat) : Int)

/-- The value stored by the innermost statement of the decoders for the sample whose
first byte is `buf[p]`; `unbits` reads a `uint32` as the `float` with that bit pattern
(the union `t_aliasfloatuint`).  For other sample sizes nothing is stored. -/
def xferin_value (buf : Nat → Byte) (p : Nat) (bytespersamp : Int) (bigendian : Int)
    (unbits : Nat → ℚ) : Option ℚ :=
  if bytespersamp = 2 then
    if bigendian ≠ 0 then some (SCALE * int_of_bytes (buf p) (buf (p + 1)) 0 0)
    else some (SCALE * int_of_bytes (buf (p + 1)) (buf p) 0 0)
  else if bytespersamp = 3 then
    if bigendian ≠ 0 then
      some (SCALE * int_of_bytes (buf p) (buf (p + 1)) (buf (p + 2)) 0)
    else some (SCALE * int_of_bytes (buf (p + 2)) (buf (p + 1)) (buf p) 0)
  else if bytespersamp = 4 then
    if bigendian ≠ 0 then
      some (unbits (toUInt32 (int_of_bytes (buf p) (buf (p + 1)) (buf (p + 2)) (buf (p + 3)))))
    else
      some (unbits (toUInt32 (int_of_bytes (buf (p + 3)) (buf (p + 2)) (buf (p + 1)) (buf p))))
  else none

/-- The loop "zero out other outputs" of both decoders. -/
def xferin_zero (sfchannels nvecs : Nat) (vecs : Nat → Nat → ℚ) (nitems : Nat) :
    Nat → Nat → ℚ :=
  forloop (nvecs - sfchannels) (fun k vecs =>
    forloop nitems (fun j vecs => poke2 vecs (sfchannels + k) j 0) vecs) vecs

def soundfile_xferin_sample (sfchannels nvecs : Nat) (vecs : Nat → Nat → ℚ) (itemsread : Nat)
    (buf : Nat → Byte) (nitems : Nat) (bytespersamp : Int) (bigendian : Int)
    (unbits : Nat → ℚ) : Nat → Nat → ℚ :=
  let nchannels := if sfchannels < nvecs then sfchannels else nvecs
  let bytesperframe := bytespersamp.toNat * sfchannels
  let vecs := forloop nchannels (fun i vecs =>
    forloop nitems (fun j vecs =>
      match xferin_value buf (i * bytespersamp.toNat + j * bytesperframe) bytespersamp
          bigendian unbits with
      | some v => poke2 vecs i (itemsread + j) v
      | none => vecs) vecs) vecs
  xferin_zero sfchannels nvecs vecs nitems

def soundfile_xferin_float (sfchannels nvecs : Nat) (vecs : Nat → Nat → ℚ) (itemsread : Nat)
    (buf : Nat → Byte) (nitems : Nat) (bytespersamp : Int) (bigendian : Int) (spread : Nat)
    (unbits : Nat → ℚ) : Nat → Nat → ℚ :=
  let nchannels := if sfchannels < nvecs then sfchannels else nvecs
  let bytesperframe := bytespersamp.toNat * sfchannels
  let vecs := forloop nchannels (fun i vecs =>
    forloop nitems (fun j vecs =>
      match xferin_value buf (i * bytespersamp.toNat + j * bytesperframe) bytespersamp
          bigendian unbits with
      | some v => poke2 vecs i (spread * itemsread + j * spread) v
      | none => vecs) vecs) vecs
  xferin_zero sfchannels nvecs vecs nitems

/-- The integer `xx` that the 16- and 24-bit branches of the encoders store for the
sample `x`: `int xx = half + (x * ff); xx -= half;` and the two clipping tests, where
`half` is 32768 or 8388608.  The product `x * ff` is one of two `float`s and is rounded
to `float`; the sum with the constant is a `double` and exact. -/
def xferout_int (half : Int) (x ff : ℚ) : Int :=
  let xx := d2i ((half : ℚ) + to_float (x * ff))
  let xx := toInt32 (xx - half)
  let xx := if xx < -(half - 1) then -(half - 1) else xx
  let xx := if xx > half - 1 then half - 1 else xx
  xx

/-- The bytes the innermost statements of the encoders store for the sample `x`, in
memory order; `bits` gives the bit pattern of a `float` (the union `t_aliasfloatuint`).
For other sample sizes nothing is stored. -/
def xferout_bytes (x : ℚ) (bytespersamp : Int) (bigendian : Int) (normalfactor : ℚ)
    (bits : ℚ → Nat) : List Byte :=
  if bytespersamp = 2 then
    let ff := normalfactor * 32768
    let xx := xferout_int 32768 x ff
    if bigendian ≠ 0 then [toUInt8 (xx >>> 8), toUInt8 xx]
    else [toUInt8 xx, toUInt8 (xx >>> 8)]
  else if bytespersamp = 3 then
    let ff := normalfactor * 8388608
    let xx := xferout_int 8388608 x ff
    if bigendian ≠ 0 then [toUInt8 (xx >>> 16), toUInt8 (xx >>> 8), toUInt8 xx]
    else [toUInt8 xx, toUInt8 (xx >>> 8), toUInt8 (xx >>> 16)]
  else if bytespersamp = 4 then
    let xx : Int := (bits (x * normalfactor) % 2 ^ 32 : Nat)
    if bigendian ≠ 0 then
      [toUInt8 (xx >>> 24), toUInt8 (xx >>> 16), toUInt8 (xx >>> 8), toUInt8 xx]
    else [toUInt8 xx, toUInt8 (xx >>> 8), toUInt8 (xx >>> 16), toUInt8 (xx >>> 24)]
  else []

/-- The assignment of the bytes `bs` to `buf[p], buf[p + 1], ...`. -/
def pokes (buf : Nat → Byte) (p : Nat) (bs : List Byte) : Nat → Byte :=
  fun k => if p ≤ k ∧ k < p + bs.length then bs.getD (k - p) 0 else buf k

def soundfile_xferout_sample (nchannels : Nat) (vecs : Nat → Nat → ℚ) (buf : Nat → Byte)
    (nitems : Nat) (onset : Nat) (bytespersamp : Int) (bigendian : Int) (normalfactor : ℚ)
    (spread : Nat) (bits : ℚ → Nat) : Nat → Byte :=
  let bytesperframe := bytespersamp.toNat * nchannels
  forloop nchannels (fun i buf =>
    forloop nitems (fun j buf =>
      pokes buf (i * bytespersamp.toNat + j * bytesperframe)
        (xferout_bytes (vecs i (onset + j * spread)) bytespersamp bigendian normalfactor bits))
      buf) buf

def soundfile_xferout_float (nchannels : Nat) (vecs : Nat → Nat → ℚ) (buf : Nat → Byte)
    (nitems : Nat) (onset : Nat) (bytespersamp : Int) (bigendian : Int) (normalfactor : ℚ)
    (spread : Nat) (bits : ℚ → Nat) : Nat → Byte :=
  let bytesperframe := bytespersamp.toNat * nchannels
  forloop nchannels (fun i buf =>
    forloop nitems (fun j buf =>
      pokes buf (i * bytespersamp.toNat + j * bytesperframe)
        (xferout_bytes (vecs i (onset + j * spread)) bytespersamp bigendian normalfactor bits))
      buf) buf

/-! ## Arguments of the write methods

A message is a list of atoms; the name of a symbol is a list of characters.  The library
function `atom_getsymbol` is not part of the sources: the name of the symbol it returns
for an atom that is not a symbol is the parameter `nosym`. -/

/-- An atom of a message: a float, a symbol, or an atom of another type. -/
inductive Atom where
  | float (f : ℚ)
  | symbol (name : List Char)
  | other
deriving DecidableEq

/-- The name of `atom_getsymbol(a)`. -/
def atom_getsymbol (nosym : List Char) : Atom → List Char
  | .symbol name => name
  | _ => nosym

/-- Conversion `float` to `long`; out of range it gives `LONG_MIN`. -/
def d2l (q : ℚ) : Int :=
  if -(2 ^ 63 : Int) ≤ truncQ q ∧ truncQ q < 2 ^ 63 then truncQ q else -(2 ^ 63)

/-- What the routines print: a call of `argerror`, the warning about a file name that
looks like a flag (with the value of `nodash`), and the two `pd_error` calls about a
forced byte order. -/
inductive Msg where
  | argerror
  | looks_like_flag (nodash : Int)
  | forced_little
  | forced_big
deriving DecidableEq

/-- The test `flag_missing_floatarg(..., flagc, flagv)` on the atoms from the flag on:
true when no atom follows the flag or the next atom is not a float. -/
def flag_missing_floatarg : List Atom → Bool
  | _ :: Atom.float _ :: _ => false
  | _ => true

/-- The test `flag_has_unexpected_floatarg(..., flagc, flagv)` on the atoms from the
flag on: true when the atom after the flag is a float. -/
def flag_has_unexpected_floatarg : List Atom → Bool
  | _ :: Atom.float _ :: _ => true
  | _ => false

/-- The names `file_is_a_flag_name` compares with. -/
def flag_names : List (List Char) :=
  [['s', 'k', 'i', 'p'], ['n', 'f', 'r', 'a', 'm', 'e', 's'], ['b', 'y', 't', 'e', 's'],
   ['n', 'o', 'r', 'm', 'a', 'l', 'i', 'z', 'e'], ['w', 'a', 'v', 'e'],
   ['n', 'e', 'x', 't', 's', 't', 'e', 'p'], ['a', 'i', 'f', 'f'], ['b', 'i', 'g'],
   ['l', 'i', 't', 't', 'l', 'e'], ['r'], ['r', 'a', 't', 'e']]

/-- Returns the value of `file_is_a_flag_name(sym, &nodash)` and what it stores in
`nodash`. -/
def file_is_a_flag_name (sym : List Char) : Int × Int :=
  let s := if sym.head? = some '-' then sym.drop 1 else sym
  let nodash : Int := if sym.head? = some '-' then 1 else 0
  if s ∈ flag_names then (1, nodash) else (0, nodash)

/-- The locals of `soundfiler_writeargparse` that the flags set. -/
structure FlagState where
  bytespersamp : Int
  endianness : Int
  filetype : Int
  normalize : Int
  onset : Int
  nframes : Int
  rate : ℚ
deriving DecidableEq

/-- How one pass of the `while` loop of `soundfiler_writeargparse` ends: at `usage`
(after a call of `argerror`), with the loop condition false, or ready for the next pass
with the atoms left and the locals. -/
inductive FlagStep where
  | usage
  | done
  | next (av : List Atom) (st : FlagState)
deriving DecidableEq

/-- One pass of the `while` loop of `soundfiler_writeargparse` over the flags. -/
def flag_step (nosym : List Char) (av : List Atom) (st : FlagState) : FlagStep :=
  match av with
  | [] => FlagStep.done
  | a :: rest =>
    if (atom_getsymbol nosym a).head? = some '-' then
      let flag := atom_getsymbol nosym a
      if flag = ['-', 's', 'k', 'i', 'p'] then
        if flag_missing_floatarg (a :: rest) then FlagStep.usage
        else match rest with
          | Atom.float f :: rest2 =>
            if d2l f < 0 then FlagStep.usage
            else FlagStep.next rest2 { st with onset := d2l f }
          | _ => FlagStep.usage
      else if flag = ['-', 'n', 'f', 'r', 'a', 'm', 'e', 's'] then
        if flag_missing_floatarg (a :: rest) then FlagStep.usage
        else match rest with
          | Atom.float f :: rest2 =>
            if d2l f < 0 then FlagStep.usage
            else FlagStep.next rest2 { st with nframes := d2l f }
          | _ => FlagStep.usage
      else if flag = ['-', 'b', 'y', 't', 'e', 's'] then
        if flag_missing_floatarg (a :: rest) then FlagStep.usage
        else match rest with
          | Atom.float f :: rest2 =>
            if d2i f < 2 ∨ d2i f > 4 then FlagStep.usage
            else FlagStep.next rest2 { st with bytespersamp := d2i f }
          | _ => FlagStep.usage
      else if flag = ['-', 'n', 'o', 'r', 'm', 'a', 'l', 'i', 'z', 'e'] then
        if flag_has_unexpected_floatarg (a :: rest) then FlagStep.usage
        else FlagStep.next rest { st with normalize := 1 }
      else if flag = ['-', 'w', 'a', 'v', 'e'] then
        if flag_has_unexpected_floatarg (a :: rest) then FlagStep.usage
        else FlagStep.next rest { st with filetype := FORMAT_WAVE }
      else if flag = ['-', 'n', 'e', 'x', 't', 's', 't', 'e', 'p'] then
        if flag_has_unexpected_floatarg (a :: rest) then FlagStep.usage
        else FlagStep.next rest { st with filetype := FORMAT_NEXT }
      else if flag = ['-', 'a', 'i', 'f', 'f'] then
        if flag_has_unexpected_floatarg (a :: rest) then FlagStep.usage
        else FlagStep.next rest { st with filetype := FORMAT_AIFF }
      else if flag = ['-', 'b', 'i', 'g'] then
        if flag_has_unexpected_floatarg (a :: rest) then FlagStep.usage
        else FlagStep.next rest { st with endianness := 1 }
      else if flag = ['-', 'l', 'i', 't', 't', 'l', 'e'] then
        if flag_has_unexpected_floatarg (a :: rest) then FlagStep.usage
        else FlagStep.next rest { st with endianness := 0 }
      else if flag = ['-', 'r'] ∨ flag = ['-', 'r', 'a', 't', 'e'] then
        if flag_missing_floatarg (a :: rest) then FlagStep.usage
        else match rest with
          | Atom.float f :: rest2 =>
            if f ≤ 0 then FlagStep.usage else FlagStep.next rest2 { st with rate := f }
          | _ => FlagStep.usage
      else FlagStep.usage
    else FlagStep.done

/-- The `while` loop, run for at most `fuel + 1` passes: the atoms left and the locals
when the loop condition fails, `none` for `goto usage` (and when the passes run out). -/
def flag_loop (nosym : List Char) : Nat → List Atom → FlagState →
    Option (List Atom × FlagState)
  | 0, av, st =>
    match flag_step nosym av st with
    | FlagStep.done => some (av, st)
    | _ => none
  | fuel + 1, av, st =>
    match flag_step nosym av st with
    | FlagStep.usage => none
    | FlagStep.done => some (av, st)
    | FlagStep.next av2 st2 => flag_loop nosym fuel av2 st2

/-- The `while` loop of `soundfiler_writeargparse`: every pass that goes on consumes an
atom, so as many passes as there are atoms are enough. -/
def parse_flags (nosym : List Char) (av : List Atom) (st : FlagState) :
    Option (List Atom × FlagState) :=
  flag_loop nosym av.length av st

/-- The test `strlen(name) >= minlen && !strcmp(name + strlen(name) - n, suffix)` with
`n` the length of `suffix`. -/
def has_suffix (name : List Char) (minlen : Nat) (suffix : List Char) : Bool :=
  decide (minlen ≤ name.length) && decide (name.drop (name.length - suffix.length) = suffix)

/-- The block "check if format not specified and fill in". -/
def fill_in_filetype (filetype : Int) (name : List Char) : Int :=
  if filetype < 0 then
    let filetype :=
      if has_suffix name 5 ['.', 'a', 'i', 'f'] || has_suffix name 5 ['.', 'A', 'I', 'F']
      then FORMAT_AIFF else filetype
    let filetype :=
      if has_suffix name 6 ['.', 'a', 'i', 'f', 'f']
        || has_suffix name 6 ['.', 'A', 'I', 'F', 'F']
      then FORMAT_AIFF else filetype
    let filetype :=
      if has_suffix name 5 ['.', 's', 'n', 'd'] || has_suffix name 5 ['.', 'S', 'N', 'D']
      then FORMAT_NEXT else filetype
    let filetype :=
      if has_suffix name 4 ['.', 'a', 'u'] || has_suffix name 4 ['.', 'A', 'U']
      then FORMAT_NEXT else filetype
    if filetype < 0 then FORMAT_WAVE else filetype
  else filetype

/-- The initial values of the locals of `soundfiler_writeargparse`. -/
def flag_init : FlagState :=
  { bytespersamp := 2, endianness := -1, filetype := -1, normalize := 0, onset := 0,
    nframes := 0x7fffffff, rate := -1 }

/-- The output parameters of `soundfiler_writeargparse`; `argv` is the pair
`*p_argc`, `*p_argv`, which also carries the arguments in. -/
structure WriteArgs where
  argv : List Atom
  filesym : List Char
  filetype : Int
  bytespersamp : Int
  swap : Int
  bigendian : Int
  normalize : Int
  onset : Int
  nframes : Int
  rate : ℚ
deriving DecidableEq

/-- Parses the arguments of a write: the value returned, the output parameters (`p` is
what they held on entry) and what was printed. -/
def soundfiler_writeargparse (nosym : List Char) (p : WriteArgs) : Int × WriteArgs × List Msg :=
  match parse_flags nosym p.argv flag_init with
  | none => (-1, p, [Msg.argerror])
  | some ([], _) => (-1, p, [Msg.argerror])
  | some (Atom.symbol filesym :: av, st) =>
    let w := file_is_a_flag_name filesym
    let log := if w.1 ≠ 0 then [Msg.looks_like_flag w.2] else []
    let filetype := fill_in_filetype st.filetype filesym
    if st.bytespersamp = 4 ∧ filetype = FORMAT_AIFF then (-1, p, log ++ [Msg.argerror])
    else
      let r : Int × List Msg :=
        if filetype = FORMAT_WAVE then
          (0, if st.endianness = 1 then [Msg.forced_little] else [])
        else if filetype = FORMAT_AIFF then
          (1, if st.endianness = 0 then [Msg.forced_big] else [])
        else if st.endianness = -1 then (garray_ambigendian, [])
        else (st.endianness, [])
      let bigendian := r.1
      let swap : Int := if bigendian ≠ garray_ambigendian then 1 else 0
      (0, { argv := av, filesym := filesym, filetype := filetype,
            bytespersamp := st.bytespersamp, swap := swap, bigendian := bigendian,
            normalize := st.normalize, onset := st.onset, nframes := st.nframes,
            rate := st.rate }, log ++ r.2)
  | some (_ :: _, _) => (-1, p, [Msg.argerror])

/-- What `soundfiler_dowrite` leaves behind: the value returned, the caller's record
`*info`, whether `create_soundfile` was called, and the file. -/
structure DoWriteResult where
  ret : Int
  info : SoundfileInfo
  created : Bool
  /-- The bytes of the file that was written, empty when there is none. -/
  file : List Byte := []
  /-- Set when the model cut the write loop off for want of fuel. -/
  cutoff : Bool := false
deriving DecidableEq

/-- The routine `soundfiler_dowrite` up to the call of `soundfiler_writeargparse`; the
statements after the call are the parameter `rest`, which gets the record and the parsed
arguments.  `locals` is what the local variables hold before the call. -/
def soundfiler_dowrite (rest : SoundfileInfo → WriteArgs → DoWriteResult)
    (nosym : List Char) (locals : WriteArgs) (info : SoundfileInfo) (argv : List Atom) :
    DoWriteResult :=
  let r := soundfiler_writeargparse nosym
    { locals with argv := argv, bytespersamp := info.bytespersample,
                  bigendian := info.bigendian }
  if r.1 ≠ 0 then { ret := 0, info := info, created := false }
  else rest { info with bytespersample := r.2.1.bytespersamp, bigendian := r.2.1.bigendian }
    r.2.1

/-! ## Finishing a write -/

/-- The call `write(fd, bytes, bytes.length)` on a file that always takes the bytes: they
replace what is at the file offset (the file grows when they reach beyond its end) and
the offset moves behind them.  The value returned is the number of bytes. -/
def Sys.write (s : Sys) (bytes : List Byte) : Int × Sys :=
  ((bytes.length : Int),
    { s with
      data := s.data.take s.pos ++ List.replicate (s.pos - s.data.length) 0 ++ bytes
        ++ s.data.drop (s.pos + bytes.length),
      pos := s.pos + bytes.length })

/-- What `soundfile_finishwrite` prints. -/
inductive FinishMsg where
  /-- The text "... out of ... bytes written". -/
  | out_of (itemswritten nframes : Int)
  /-- The text printed at the label `baddonewrite`. -/
  | baddonewrite
deriving DecidableEq, Repr

/-- One `lseek` to `off` followed by the `write` of the four bytes at `&mofo`, where the
`long mofo` holds `v`.  The error case is the jump to `baddonewrite`, taken when `lseek`
returns 0 or `write` returns less than 4; it carries the state at the jump. -/
def finish_field (s : Sys) (off : Int) (v : Nat) : Except Sys Sys :=
  let r := s.lseek off
  if r.1 = 0 then .error r.2
  else
    let w := r.2.write (store32 v)
    if w.1 < 4 then .error w.2 else .ok w.2

/-- The routine `soundfile_finishwrite`: the state of the file behind `fd` afterwards, and
what was printed.  The offsets are those of `w_chunksize` (4) and `w_datachunksize` (40)
in `t_wave`, and of `a_nframeshi` (22) and `a_chunksize` (4) in `t_aiff`. -/
def soundfile_finishwrite (filetype : Int) (nframes itemswritten : Int) (bytesperframe : Int)
    (swap : Bool) (s : Sys) : Sys × List FinishMsg :=
  if itemswritten < nframes then
    let log := if nframes < 0x7fffffff then [FinishMsg.out_of itemswritten nframes] else []
    let wave : Except Sys Sys :=
      if filetype = FORMAT_WAVE then
        let datasize := toInt64 (itemswritten * bytesperframe)
        (finish_field s 4 (swap4 (toUInt32 (datasize + sizeof_wave - 8)) swap)).bind fun s =>
          finish_field s 40 (swap4 (toUInt32 datasize) swap)
      else .ok s
    let aiff : Except Sys Sys := wave.bind fun s =>
      if filetype = FORMAT_AIFF then
        (finish_field s 22 (swap4 (toUInt32 itemswritten) swap)).bind fun s =>
          (finish_field s 4
            (swap4 (toUInt32 ((toUInt32 itemswritten : Int) * bytesperframe + AIFFHDRSIZE))
              swap)).bind fun s =>
            finish_field s (AIFFHDRSIZE + 4)
              (swap4 (toUInt32 ((toUInt32 itemswritten : Int) * bytesperframe)) swap)
      else .ok s
    let next : Except Sys Sys := aiff.bind fun s =>
      if filetype = FORMAT_NEXT then finish_field s 8 0xffffffff
      else .ok s
    match next with
    | .ok s => (s, log)
    | .error s => (s, log ++ [FinishMsg.baddonewrite])
  else (s, [])

/-! ## Writing tables to a file -/

/-- What `soundfiler_dowrite` takes from the rest of Pd and from the machine. -/
structure WriteEnv where
  /-- The lookup `pd_findbyclass` followed by `garray_getfloatwords`: the `w_float`
  members of the words of the table with that name, if there is such a table. -/
  tables : List Char → Option (List ℚ)
  /-- The value of `sys_getsr()`. -/
  sys_getsr : ℚ
  /-- The quotient `sizeof(t_word)/sizeof(t_sample)`. -/
  spread : Nat
  /-- What is read as a `float` from the memory of a table at a place that is not the
  `w_float` member of one of its words. -/
  pad : Nat → ℚ
  /-- Whether `create_soundfile` gets the file opened and the header written. -/
  create_ok : Bool
  /-- The bit pattern of a `float`. -/
  bits : ℚ → Nat
  /-- What `sampbuf` holds on entry. -/
  sampbuf : Nat → Byte

/-- The words of a table seen through a `t_float *`: the `w_float` of word `m` is the
`float` at index `m * spread`. -/
def float_view (env : WriteEnv) (words : List ℚ) : Nat → ℚ :=
  fun k =>
    if k % env.spread = 0 ∧ k / env.spread < words.length then words.getD (k / env.spread) 0
    else env.pad k

/-- How the loop over the table names of `soundfiler_dowrite` ends: at `usage`, at `fail`,
or with the words of the tables and the clipped `nframes`. -/
inductive Tables where
  | usage
  | fail
  | ok (vecs : List (List ℚ)) (nframes : Int)

/-- The loop `for (i = 0; i < info->channels; i++)` over the table names. -/
def dowrite_tables (env : WriteEnv) (onset : Int) : List Atom → Int → Tables
  | [], nframes => .ok [] nframes
  | Atom.symbol name :: av, nframes =>
    match env.tables name with
    | none => .fail
    | some words =>
      let vecsize : Int := words.length
      let nframes := if nframes > vecsize - onset then vecsize - onset else nframes
      match dowrite_tables env onset av nframes with
      | .ok vecs n => .ok (words :: vecs) n
      | r => r
  | _ :: _, _ => .usage

/-- The loops under "find biggest sample for normalizing". -/
def dowrite_biggest (vecs : List (List ℚ)) (onset nframes : Int) : ℚ :=
  forloop vecs.length (fun i biggest =>
    forloop nframes.toNat (fun j biggest =>
      let v := (vecs.getD i []).getD (onset.toNat + j) 0
      if v > biggest then v
      else if -v > biggest then -v
      else biggest) biggest) 0

/-- The statements from `if (!normalize)` to the assignment of `normfactor`.  The
quotient `32767./(32768. * biggest)` is computed in `double` and stored in the `float`
variable `normfactor`. -/
def dowrite_normfactor (normalize : Int) (bytespersample : Int) (biggest : ℚ) : ℚ :=
  let normalize :=
    if normalize = 0 then (if bytespersample ≠ 4 ∧ biggest > 1 then 1 else normalize)
    else normalize
  if normalize ≠ 0 then
    (if biggest > 0 then to_float (to_double (32767 / to_double (32768 * biggest))) else 1)
  else 1

/-- The loop `for (itemswritten = 0; itemswritten < nframes; )`, at most `fuel` rounds of
it: `itemswritten` at its end, the file, and whether the rounds ran out. -/
def dowrite_loop (env : WriteEnv) (vecs : Nat → Nat → ℚ) (argc : Nat)
    (channels bytespersample bigendian : Int) (normfactor : ℚ) (nframes bufframes : Int) :
    Nat → Int → Int → (Nat → Byte) → Sys → Int × Sys × Bool
  | 0, itemswritten, _, _, s => (itemswritten, s, decide (itemswritten < nframes))
  | fuel + 1, itemswritten, onset, sampbuf, s =>
    if itemswritten < nframes then
      let thiswrite := toInt32 (nframes - itemswritten)
      let thiswrite := if thiswrite > bufframes then bufframes else thiswrite
      let sampbuf := soundfile_xferout_float argc vecs sampbuf thiswrite.toNat onset.toNat
        bytespersample bigendian normfactor env.spread env.bits
      let count := toInt32 (toInt32 (channels * bytespersample) * thiswrite)
      let w := s.write ((List.range count.toNat).map sampbuf)
      let nbytes := toInt32 w.1
      if nbytes < count then
        (if nbytes > 0 then
            itemswritten + Int.tdiv nbytes (toInt32 (channels * bytespersample))
          else itemswritten, w.2, false)
      else
        dowrite_loop env vecs argc channels bytespersample bigendian normfactor nframes
          bufframes fuel (itemswritten + thiswrite) (onset + thiswrite * env.spread) sampbuf w.2
    else (itemswritten, s, false)

/-- The statements of `soundfiler_dowrite` after the call of `soundfiler_writeargparse`;
`info` is the record with the two fields the parser has set, `w` the other values it
gave.  The new file starts out with the header alone; when `create_soundfile` fails
there is no file. -/
def dowrite_rest (env : WriteEnv) (info : SoundfileInfo) (w : WriteArgs) : DoWriteResult :=
  let argc := w.argv.length
  let info := { info with channels := (argc : Int) }
  if info.channels < 1 then { ret := 0, info := info, created := false }
  else if info.channels > MAXSFCHANS then { ret := 0, info := info, created := false }
  else
    let info :=
      { info with samplerate := if w.rate < 0 then d2i env.sys_getsr else d2i w.rate }
    match dowrite_tables env w.onset w.argv w.nframes with
    | .usage => { ret := 0, info := info, created := false }
    | .fail => { ret := 0, info := info, created := false }
    | .ok words nframes =>
      if nframes ≤ 0 then { ret := 0, info := info, created := false }
      else
        let biggest := dowrite_biggest words w.onset nframes
        if env.create_ok = false then { ret := 0, info := info, created := true }
        else
          let hdr := create_soundfile w.filetype nframes info.bytespersample info.bigendian
            info.channels (decide (w.swap ≠ 0)) info.samplerate
          let info := { info with headersize := hdr.2 }
          let normfactor := dowrite_normfactor w.normalize info.bytespersample biggest
          let bufframes := Int.tdiv 1024 (toInt32 (info.channels * info.bytespersample))
          let r := dowrite_loop env (fun i => float_view env (words.getD i [])) argc
            info.channels info.bytespersample info.bigendian normfactor nframes bufframes
            nframes.toNat 0 w.onset env.sampbuf
            { data := hdr.1, pos := hdr.1.length, errno := 0 }
          let itemswritten := r.1
          let fin := soundfile_finishwrite w.filetype nframes itemswritten
            (toInt32 (info.channels * info.bytespersample)) (decide (w.swap ≠ 0)) r.2.1
          { ret := itemswritten, info := info, created := true, file := fin.1.data,
            cutoff := r.2.2 }

/-! ## Reading a file into tables -/

/-- The routines `open_soundfile` and `open_soundfile_via_canvas`: `file` is the file that
`open_via_path` or `canvas_open` finds, if it finds one, and `fd` the descriptor it then
returns. -/
def open_soundfile (fuel : Nat) (file : Option Sys) (fd : Int) (p_info : SoundfileInfo)
    (skipframes : Int) : Option OpenResult :=
  match file with
  | none => some { ret := -1, info := p_info, sys := { data := [], pos := 0, errno := 2 } }
  | some s => open_soundfile_via_fd fuel fd s p_info skipframes

/-- What `soundfiler_read` takes from the rest of Pd. -/
structure ReadEnv where
  /-- The lookup `pd_findbyclass` followed by `garray_getfloatwords`: the number of words
  of the table with that name, if there is such a table. -/
  tables : List Char → Option Int
  /-- The call `garray_resize_long(garray, n)` followed by `garray_getfloatwords`: the
  number of words the table has then, `none` when `garray_getfloatwords` fails. -/
  resized : List Char → Int → Option Int

/-- How the loop over the table names of `soundfiler_read` ends: at `done`, or with the
names and the values of `finalsize` and `resize`. -/
inductive ReadTables where
  | done
  | ok (names : List (List Char)) (sizes : List Int) (finalsize : Int) (resize : Int)

/-- The loop `for (i = 0; i < ac; i++)` over the table names. -/
def read_tables (env : ReadEnv) : List Atom → Int → Int → ReadTables
  | [], finalsize, resize => .ok [] [] finalsize resize
  | Atom.symbol name :: av, finalsize, resize =>
    match env.tables name with
    | none => .done
    | some vecsize =>
      let resize := if finalsize ≠ 0 ∧ finalsize ≠ vecsize ∧ resize = 0 then 1 else resize
      match read_tables env av vecsize resize with
      | .ok names sizes f r => .ok (name :: names) (vecsize :: sizes) f r
      | .done => .done
  | _ :: _, _, _ => .done

/-- The loop that resizes the tables to `finalsize`: the sizes they have then, `none` at
the jump to `done` after "resize failed". -/
def read_resize (env : ReadEnv) (finalsize framesinfile : Int) : List (List Char) →
    Option (List Int)
  | [] => some []
  | name :: names =>
    match env.resized name finalsize with
    | none => none
    | some vecsize =>
      if vecsize ≠ framesinfile then none
      else (read_resize env finalsize framesinfile names).map (fun l => vecsize :: l)

/-- What `soundfiler_read` leaves behind, as far as the sizes go. -/
structure ReadResult where
  /-- Whether the routine came to the loop that reads the samples, instead of jumping to
  `done` before. -/
  ok : Bool
  /-- The record `info`. -/
  info : SoundfileInfo
  /-- The number of words of each table. -/
  sizes : List Int
  /-- The value of `finalsize` when the loop that reads the samples starts. -/
  finalsize : Int
deriving DecidableEq

/-- The statements of `soundfiler_read` from the loop over the table names to the
assignment of `bufframes`, with `-ascii` not given; `info`, `resize`, `skipframes` and
`maxsize` are what the flag loop left, `av` the arguments after the file name.  The
statements that follow read the samples; they change no size and do not jump to `done`.
`none` stands for a cut-off chunk loop in the parser or a division by zero. -/
def soundfiler_read_rest (env : ReadEnv) (fuel : Nat) (file : Option Sys) (fd : Int)
    (info : SoundfileInfo) (resize skipframes maxsize : Int) (av : List Atom) :
    Option ReadResult :=
  match read_tables env av 0 resize with
  | .done => some { ok := false, info := info, sizes := [], finalsize := 0 }
  | .ok names sizes finalsize resize =>
    match open_soundfile fuel file fd info skipframes with
    | none => none
    | some r =>
      let info := r.info
      if r.ret < 0 then some { ok := false, info := info, sizes := sizes, finalsize := finalsize }
      else
        let framesize := toInt32 (info.channels * info.bytespersample)
        if framesize = 0 then none
        else
          let sized : Option (List Int × Int) :=
            if resize ≠ 0 then
              let poswas : Int := r.sys.pos
              let eofis : Int := r.sys.data.length
              if poswas < 0 ∨ eofis < 0 ∨ eofis < poswas then none
              else
                let framesinfile := Int.tdiv (eofis - poswas) framesize
                let framesinfile := if framesinfile > maxsize then maxsize else framesinfile
                let framesinfile :=
                  if framesinfile > Int.tdiv info.bytelimit framesize then
                    Int.tdiv info.bytelimit framesize
                  else framesinfile
                (read_resize env framesinfile framesinfile names).map
                  (fun l => (l, framesinfile))
            else some (sizes, finalsize)
          match sized with
          | none => some { ok := false, info := info, sizes := sizes, finalsize := finalsize }
          | some (sizes, finalsize) =>
            let finalsize := if finalsize = 0 then 0x7fffffff else finalsize
            let finalsize :=
              if finalsize > Int.tdiv info.bytelimit framesize then
                Int.tdiv info.bytelimit framesize
              else finalsize
            some { ok := true, info := info, sizes := sizes, finalsize := finalsize }

/-! ## The streaming objects `readsf~` and `writesf~`

The record `t_readsf` is shared by both objects.  The model follows the fields that steer
the two threads; the sample buffer `x_buf`, the signal vectors and the bytes moved between
file and buffer are left out.  A method of the object runs in the parent thread from its
first statement to its last; where it waits on a condition (`readsf_perform`,
`writesf_perform`, `writesf_open`) the wait ends in a state in which the loop test fails,
and the statements behind the loop run from that state.  The child thread is a machine
whose steps are the stretches of `readsf_child_main` and `writesf_child_main` between two
places where the mutex is given up (around `sys_close`, `open_soundfile`, `read`,
`create_soundfile`, `write`, and in `pthread_cond_wait`). -/

def MAXVECSIZE : Int := 128
def READSIZE : Int := 65536
def WRITESIZE : Int := 65536
def DEFBUFPERCHAN : Int := 262144
def MINBUFSIZE : Int := 4 * READSIZE
def MAXBUFSIZE : Int := 16777216

def REQUEST_NOTHING : Int := 0
def REQUEST_OPEN : Int := 1
def REQUEST_CLOSE : Int := 2
def REQUEST_QUIT : Int := 3
def REQUEST_BUSY : Int := 4

def STATE_IDLE : Int := 0
def STATE_STARTUP : Int := 1
def STATE_STREAM : Int := 2

/-- The record `t_readsf`, without the Pd object header, the pointers and the thread
handles. -/
structure Readsf where
  x_bufsize : Int
  x_noutlets : Int
  x_vecsize : Int
  x_state : Int
  x_insamplerate : ℚ
  x_requestcode : Int
  x_filename : List Char
  x_fileerror : Int
  x_skipheaderbytes : Int
  x_bytespersample : Int
  x_bigendian : Int
  x_sfchannels : Int
  x_samplerate : ℚ
  x_onsetframes : Int
  x_bytelimit : Int
  x_fd : Int
  x_fifosize : Int
  x_fifohead : Int
  x_fifotail : Int
  x_eof : Int
  x_sigcountdown : Int
  x_sigperiod : Int
  x_filetype : Int
  x_itemswritten : Int
  x_swap : Int
  x_f : ℚ
deriving DecidableEq

/-- The clamping of the creation arguments that `readsf_new` and `writesf_new` share:
the channel count and the buffer size. -/
def new_sizes (fnchannels fbufsize : ℚ) : Int × Int :=
  let nchannels := d2i fnchannels
  let bufsize := d2i fbufsize
  let nchannels :=
    if nchannels < 1 then 1
    else if nchannels > MAXSFCHANS then (MAXSFCHANS : Int)
    else nchannels
  let bufsize :=
    if bufsize ≤ 0 then toInt32 (DEFBUFPERCHAN * nchannels)
    else if bufsize < MINBUFSIZE then MINBUFSIZE
    else if bufsize > MAXBUFSIZE then MAXBUFSIZE
    else bufsize
  (nchannels, bufsize)

/-- The routine `readsf_new`, for a buffer that could be allocated; `x` is the record
as `pd_new` hands it out. -/
def readsf_new (x : Readsf) (fnchannels fbufsize : ℚ) : Readsf :=
  let nb := new_sizes fnchannels fbufsize
  { x with
    x_noutlets := nb.1, x_vecsize := MAXVECSIZE, x_state := STATE_IDLE,
    x_bytespersample := 2, x_sfchannels := 1, x_fd := -1, x_bufsize := nb.2,
    x_fifosize := 0, x_fifohead := 0, x_fifotail := 0, x_requestcode := 0 }

/-- The routine `writesf_new`, for a buffer that could be allocated. -/
def writesf_new (x : Readsf) (fnchannels fbufsize : ℚ) : Readsf :=
  let nb := new_sizes fnchannels fbufsize
  { x with
    x_f := 0, x_sfchannels := nb.1, x_vecsize := MAXVECSIZE, x_insamplerate := 0,
    x_samplerate := 0, x_state := STATE_IDLE, x_bytespersample := 2, x_fd := -1,
    x_bufsize := nb.2, x_fifosize := 0, x_fifohead := 0, x_fifotail := 0,
    x_requestcode := 0 }

/-- The routines `readsf_start` and `writesf_start`; the flag tells whether the error
message was printed. -/
def readsf_start (x : Readsf) : Readsf × Bool :=
  if x.x_state = STATE_STARTUP then ({ x with x_state := STATE_STREAM }, false)
  else (x, true)

def writesf_start (x : Readsf) : Readsf × Bool :=
  if x.x_state = STATE_STARTUP then ({ x with x_state := STATE_STREAM }, false)
  else (x, true)

/-- The routines `readsf_stop` and `writesf_stop`. -/
def readsf_stop (x : Readsf) : Readsf :=
  { x with x_state := STATE_IDLE, x_requestcode := REQUEST_CLOSE }

def writesf_stop (x : Readsf) : Readsf :=
  { x with x_state := STATE_IDLE, x_requestcode := REQUEST_CLOSE }

def readsf_float (x : Readsf) (f : ℚ) : Readsf :=
  if f ≠ 0 then (readsf_start x).1 else readsf_stop x

/-- The routine `readsf_open`; the arguments are the values of its six local variables,
as `atom_getsymbolarg` and `atom_getfloatarg` deliver them (the empty name and 0 for an
argument that is missing or of the other type).  The flag tells whether the message about
the endianness was printed. -/
def readsf_open (x : Readsf) (filesym : List Char) (onsetframes headerbytes channels
    bytespersamp : ℚ) (endian : List Char) : Readsf × Bool :=
  if filesym = [] then (x, false)
  else
    ({ x with
       x_requestcode := REQUEST_OPEN, x_filename := filesym, x_fifotail := 0,
       x_fifohead := 0,
       x_bigendian :=
         if endian.head? = some 'b' then 1
         else if endian.head? = some 'l' then 0
         else if endian ≠ [] then x.x_bigendian
         else garray_ambigendian,
       x_onsetframes := d2l (if onsetframes > 0 then onsetframes else 0),
       x_skipheaderbytes :=
         d2i (if headerbytes > 0 then headerbytes else (if headerbytes = 0 then -1 else 0)),
       x_sfchannels := d2i (if channels ≥ 1 then channels else 1),
       x_bytespersample := d2i (if bytespersamp > 2 then bytespersamp else 2),
       x_eof := 0, x_fileerror := 0, x_state := STATE_STARTUP },
      decide (endian.head? ≠ some 'b' ∧ endian.head? ≠ some 'l' ∧ endian ≠ []))

/-- The routine `readsf_dsp` for a signal of `s_n` samples; `none` is a division by
zero. -/
def readsf_dsp (x : Readsf) (s_n : Int) : Option Readsf :=
  let d := toInt32 (toInt32 (x.x_bytespersample * x.x_sfchannels) * s_n)
  if d = 0 then none
  else some { x with x_vecsize := s_n, x_sigperiod := toInt32 (Int.tdiv x.x_fifosize d) }

/-- The routine `writesf_dsp` for a signal of `s_n` samples at the rate `s_sr`. -/
def writesf_dsp (x : Readsf) (s_n : Int) (s_sr : ℚ) : Option Readsf :=
  let d := toInt32 (toInt32 (toInt32 (16 * x.x_bytespersample) * x.x_sfchannels) * s_n)
  if d = 0 then none
  else
    some { x with x_vecsize := s_n, x_sigperiod := toInt32 (Int.tdiv x.x_fifosize d),
                  x_insamplerate := s_sr }

/-- How a call of a perform routine goes: it is held in its wait loop, it divides by
zero, or it returns, leaving the record `x` after having moved `frames` sample frames
between the buffer and the signal vectors. -/
inductive Perform where
  | blocked
  | crash
  | done (x : Readsf) (frames : Int)
deriving DecidableEq

/-- The routine `readsf_perform`. -/
def readsf_perform (x : Readsf) : Perform :=
  if x.x_state = STATE_STREAM then
    let wantbytes := toInt32 (toInt32 (x.x_sfchannels * x.x_vecsize) * x.x_bytespersample)
    let short : Bool := decide (x.x_fifohead ≥ x.x_fifotail ∧
      x.x_fifohead < toInt32 (toInt32 (x.x_fifotail + wantbytes) - 1))
    if x.x_eof = 0 ∧ short = true then .blocked
    else if x.x_eof ≠ 0 ∧ short = true then
      let d := toInt32 (x.x_sfchannels * x.x_bytespersample)
      if d = 0 then .crash
      else
        let xfersize := toInt32 (Int.tdiv (toInt32 (toInt32 (x.x_fifohead - x.x_fifotail) + 1)) d)
        .done { x with x_state := STATE_IDLE } xfersize
    else
      let tail := toInt32 (x.x_fifotail + wantbytes)
      let tail := if tail ≥ x.x_fifosize then 0 else tail
      let countdown := toInt32 (x.x_sigcountdown - 1)
      .done { x with
              x_fifotail := tail,
              x_sigcountdown := if countdown ≤ 0 then x.x_sigperiod else countdown }
        x.x_vecsize
  else .done x 0

/-- The routine `writesf_perform`. -/
def writesf_perform (x : Readsf) : Perform :=
  if x.x_state = STATE_STREAM then
    let wantbytes := toInt32 (toInt32 (x.x_sfchannels * x.x_vecsize) * x.x_bytespersample)
    let roominfifo := toInt32 (x.x_fifotail - x.x_fifohead)
    let roominfifo := if roominfifo ≤ 0 then toInt32 (roominfifo + x.x_fifosize) else roominfifo
    if roominfifo < toInt32 (wantbytes + 1) then .blocked
    else
      let head := toInt32 (x.x_fifohead + wantbytes)
      let head := if head ≥ x.x_fifosize then 0 else head
      let countdown := toInt32 (x.x_sigcountdown - 1)
      .done { x with
              x_fifohead := head,
              x_sigcountdown := if countdown ≤ 0 then x.x_sigperiod else countdown }
        x.x_vecsize
  else .done x 0

/-- The first part of `writesf_open`, up to the wait for the child: the record, and the
parsed arguments when the parser accepted them (`none` is the return after a parse
error). -/
def writesf_open_parse (nosym : List Char) (locals : WriteArgs) (x : Readsf)
    (argv : List Atom) : Readsf × Option WriteArgs :=
  let x := if x.x_state ≠ STATE_IDLE then writesf_stop x else x
  let r := soundfiler_writeargparse nosym { locals with argv := argv }
  if r.1 ≠ 0 then (x, none) else (x, some r.2.1)

/-- The second part of `writesf_open`, behind the loop that waits until the request
code is `REQUEST_NOTHING`; `none` is a division by zero. -/
def writesf_open_set (sys_getsr : ℚ) (x : Readsf) (w : WriteArgs) : Option Readsf :=
  let bytespersample := if w.bytespersamp > 2 then w.bytespersamp else 2
  let samplerate :=
    if w.rate > 0 then w.rate
    else if x.x_insamplerate > 0 then x.x_insamplerate
    else sys_getsr
  let m := toInt32 (toInt32 (bytespersample * x.x_sfchannels) * MAXVECSIZE)
  let d := toInt32 (toInt32 (toInt32 (16 * bytespersample) * x.x_sfchannels) * x.x_vecsize)
  if m = 0 then none
  else
    let fifosize := toInt32 (x.x_bufsize - Int.tmod x.x_bufsize m)
    if d = 0 then none
    else
      let sigperiod := toInt32 (Int.tdiv fifosize d)
      some { x with
             x_swap := w.swap, x_bigendian := w.bigendian, x_filename := w.filesym,
             x_filetype := w.filetype, x_itemswritten := 0, x_requestcode := REQUEST_OPEN,
             x_fifotail := 0, x_fifohead := 0, x_eof := 0, x_fileerror := 0,
             x_state := STATE_STARTUP, x_bytespersample := bytespersample,
             x_samplerate := samplerate, x_fifosize := fifosize, x_sigcountdown := sigperiod,
             x_sigperiod := sigperiod }

/-! ### The child thread of `readsf~` -/

/-- Where the child thread of `readsf~` stands when it does not hold the mutex, or is
about to test the request code. -/
inductive ReadPC where
  /-- At the head of `while (1)`. -/
  | top
  /-- In `sys_close` of the file that was still open when a request to open came. -/
  | closing (info : SoundfileInfo) (onsetframes : Int)
  /-- In `open_soundfile`. -/
  | opening (info : SoundfileInfo) (onsetframes : Int)
  /-- At the head of `while (x->x_requestcode == REQUEST_BUSY)`. -/
  | loop
  /-- In `read`, asked for `wantbytes` bytes; `fifosize` is the local variable. -/
  | reading (fifosize wantbytes : Int)
  /-- In `sys_close` behind the label `lost`. -/
  | lost_closing
  /-- In `sys_close` of the branch for `REQUEST_CLOSE`. -/
  | close_closing
  /-- In `sys_close` of the branch for `REQUEST_QUIT`. -/
  | quit_closing
  /-- Behind the loop `while (1)`: the thread has ended. -/
  | exited
  /-- Stopped by a division by zero. -/
  | crashed
deriving DecidableEq

/-- The record together with the place of the child thread. -/
structure ReadMachine where
  x : Readsf
  pc : ReadPC
deriving DecidableEq

/-- What the system calls give the child thread: the result of `open_soundfile`, the
value `read` returns, and `errno`. -/
structure ReadInput where
  opened : OpenResult
  sysrtn : Int
  errno : Int

/-- The record `info` that the child thread fills in from the instance before it calls
`open_soundfile`. -/
def readsf_info (x : Readsf) : SoundfileInfo :=
  { samplerate := d2i x.x_samplerate, channels := x.x_sfchannels,
    headersize := x.x_skipheaderbytes, bytespersample := x.x_bytespersample,
    bigendian := x.x_bigendian, bytelimit := 0x7fffffff }

/-- The statements behind the label `lost`, up to `sys_close`. -/
def readsf_lost (x : Readsf) : ReadMachine :=
  let x := if x.x_requestcode = REQUEST_BUSY then { x with x_requestcode := REQUEST_NOTHING }
    else x
  if x.x_fd ≥ 0 then { x := x, pc := .lost_closing } else { x := x, pc := .top }

/-- One step of `readsf_child_main`: from the place `m.pc` to the next place where the
thread gives up the mutex. -/
def readsf_child_main (m : ReadMachine) (inp : ReadInput) : ReadMachine :=
  let x := m.x
  match m.pc with
  | .top =>
    if x.x_requestcode = REQUEST_NOTHING then m
    else if x.x_requestcode = REQUEST_OPEN then
      let info := readsf_info x
      let onsetframes := x.x_onsetframes
      let x := { x with x_requestcode := REQUEST_BUSY, x_fileerror := 0 }
      if x.x_fd ≥ 0 then { x := x, pc := .closing info onsetframes }
      else { x := x, pc := .opening info onsetframes }
    else if x.x_requestcode = REQUEST_CLOSE then
      if x.x_fd ≥ 0 then { x := x, pc := .close_closing }
      else { x := { x with x_requestcode := REQUEST_NOTHING }, pc := .top }
    else if x.x_requestcode = REQUEST_QUIT then
      if x.x_fd ≥ 0 then { x := x, pc := .quit_closing }
      else { x := { x with x_requestcode := REQUEST_NOTHING }, pc := .exited }
    else m
  | .closing info onsetframes =>
    let x := { x with x_fd := -1 }
    if x.x_requestcode ≠ REQUEST_BUSY then readsf_lost x
    else { x := x, pc := .opening info onsetframes }
  | .opening _ _ =>
    let r := inp.opened
    let x := { x with
               x_bytespersample := r.info.bytespersample, x_sfchannels := r.info.channels,
               x_bigendian := r.info.bigendian, x_fd := r.ret,
               x_bytelimit := r.info.bytelimit }
    if r.ret < 0 then readsf_lost { x with x_fileerror := r.sys.errno, x_eof := 1 }
    else if x.x_requestcode ≠ REQUEST_BUSY then readsf_lost x
    else
      let m1 := toInt32 (toInt32 (x.x_bytespersample * x.x_sfchannels) * MAXVECSIZE)
      let d := toInt32 (toInt32 (toInt32 (16 * x.x_bytespersample) * x.x_sfchannels)
        * x.x_vecsize)
      if m1 = 0 then { x := { x with x_fifohead := 0 }, pc := .crashed }
      else
        let fifosize := toInt32 (x.x_bufsize - Int.tmod x.x_bufsize m1)
        if d = 0 then
          { x := { x with x_fifohead := 0, x_fifosize := fifosize }, pc := .crashed }
        else
          let sigperiod := toInt32 (Int.tdiv fifosize d)
          { x := { x with x_fifohead := 0, x_fifosize := fifosize,
                          x_sigcountdown := sigperiod, x_sigperiod := sigperiod },
            pc := .loop }
  | .loop =>
    if x.x_requestcode ≠ REQUEST_BUSY then readsf_lost x
    else if x.x_eof ≠ 0 then readsf_lost x
    else if x.x_fifohead ≥ x.x_fifotail then
      if x.x_fifotail ≠ 0 ∨ toInt32 (x.x_fifosize - x.x_fifohead) > READSIZE then
        let wantbytes := toInt32 (x.x_fifosize - x.x_fifohead)
        let wantbytes := if wantbytes > READSIZE then READSIZE else wantbytes
        let wantbytes := if wantbytes > x.x_bytelimit then toInt32 x.x_bytelimit else wantbytes
        { x := x, pc := .reading x.x_fifosize wantbytes }
      else m
    else
      let wantbytes := toInt32 (toInt32 (x.x_fifotail - x.x_fifohead) - 1)
      if wantbytes < READSIZE then m
      else
        let wantbytes := READSIZE
        let wantbytes := if wantbytes > x.x_bytelimit then toInt32 x.x_bytelimit else wantbytes
        { x := x, pc := .reading x.x_fifosize wantbytes }
  | .reading fifosize _ =>
    let sysrtn := inp.sysrtn
    if x.x_requestcode ≠ REQUEST_BUSY then readsf_lost x
    else if sysrtn < 0 then readsf_lost { x with x_fileerror := inp.errno }
    else if sysrtn = 0 then readsf_lost { x with x_eof := 1 }
    else
      let head := toInt32 (x.x_fifohead + sysrtn)
      let bytelimit := toInt64 (x.x_bytelimit - sysrtn)
      let head := if head = fifosize then 0 else head
      let x := { x with x_fifohead := head, x_bytelimit := bytelimit }
      if bytelimit ≤ 0 then readsf_lost { x with x_eof := 1 }
      else { x := x, pc := .loop }
  | .lost_closing => { x := { x with x_fd := -1 }, pc := .top }
  | .close_closing =>
    let x := { x with x_fd := -1 }
    { x := if x.x_requestcode = REQUEST_CLOSE then { x with x_requestcode := REQUEST_NOTHING }
           else x,
      pc := .top }
  | .quit_closing => { x := { x with x_fd := -1, x_requestcode := REQUEST_NOTHING }, pc := .exited }
  | .exited => m
  | .crashed => m

/-! ### The child thread of `writesf~` -/

/-- Where the child thread of `writesf~` stands when it does not hold the mutex, or is
about to test the request code. -/
inductive WritePC where
  /-- At the head of `while (1)`. -/
  | top
  /-- In `soundfile_finishwrite` and `sys_close` of a file that was still open when a
  request to open came; `bigendian` is the local variable. -/
  | finishing (bigendian : Int)
  /-- In `create_soundfile`. -/
  | creating (bigendian : Int)
  /-- At the head of the loop that writes the buffer to the file. -/
  | loop
  /-- In `write`, with `writebytes` bytes; `fifosize` is the local variable. -/
  | writing (fifosize writebytes : Int)
  /-- In `soundfile_finishwrite` and `sys_close` of the branch for `REQUEST_CLOSE` and
  `REQUEST_QUIT`. -/
  | closing (quit : Bool)
  /-- Behind the loop `while (1)`: the thread has ended. -/
  | exited
  /-- Stopped by a division by zero. -/
  | crashed
deriving DecidableEq

/-- The record, the place of the child thread, and the arguments of a `writesf_open`
that waits for the child, if there is one. -/
structure WriteMachine where
  x : Readsf
  pc : WritePC
  waiting : Option WriteArgs
deriving DecidableEq

/-- What the system calls give the child thread: the descriptor `create_soundfile`
returns, the value `write` returns, and `errno`. -/
structure WriteInput where
  fd : Int
  sysrtn : Int
  errno : Int

/-- One step of `writesf_child_main`: from the place `pc` to the next place where the
thread gives up the mutex.  The result is the record and the new place. -/
def writesf_child_main (x : Readsf) (pc : WritePC) (inp : WriteInput) : Readsf × WritePC :=
  match pc with
  | .top =>
    if x.x_requestcode = REQUEST_NOTHING then (x, .top)
    else if x.x_requestcode = REQUEST_OPEN then
      let bigendian := x.x_bigendian
      let x := { x with x_requestcode := REQUEST_BUSY, x_fileerror := 0 }
      if x.x_fd ≥ 0 then (x, .finishing bigendian) else (x, .creating bigendian)
    else if x.x_requestcode = REQUEST_CLOSE ∨ x.x_requestcode = REQUEST_QUIT then
      let quit : Bool := decide (x.x_requestcode = REQUEST_QUIT)
      if x.x_fd ≥ 0 then (x, .closing quit)
      else ({ x with x_requestcode := REQUEST_NOTHING }, if quit then .exited else .top)
    else (x, .top)
  | .finishing bigendian =>
    let x := { x with x_fd := -1 }
    if x.x_requestcode ≠ REQUEST_BUSY then (x, .top) else (x, .creating bigendian)
  | .creating bigendian =>
    let fd := inp.fd
    if fd < 0 then
      ({ x with x_fd := -1, x_eof := 1, x_fileerror := inp.errno,
                x_requestcode := REQUEST_NOTHING }, .top)
    else if x.x_requestcode ≠ REQUEST_BUSY then (x, .top)
    else
      ({ x with x_fd := fd, x_fifotail := 0, x_itemswritten := 0,
                x_swap := if garray_ambigendian ≠ bigendian then 1 else 0 }, .loop)
  | .loop =>
    if x.x_requestcode = REQUEST_BUSY ∨
        (x.x_requestcode = REQUEST_CLOSE ∧ x.x_fifohead ≠ x.x_fifotail) then
      if x.x_fifohead < x.x_fifotail ∨
          x.x_fifohead ≥ toInt32 (x.x_fifotail + WRITESIZE) ∨
          (x.x_requestcode = REQUEST_CLOSE ∧ x.x_fifohead ≠ x.x_fifotail) then
        let writebytes := toInt32
          ((if x.x_fifohead < x.x_fifotail then x.x_fifosize else x.x_fifohead) - x.x_fifotail)
        let writebytes := if writebytes > READSIZE then READSIZE else writebytes
        (x, .writing x.x_fifosize writebytes)
      else (x, .loop)
    else (x, .top)
  | .writing fifosize writebytes =>
    let sysrtn := inp.sysrtn
    if x.x_requestcode ≠ REQUEST_BUSY ∧ x.x_requestcode ≠ REQUEST_CLOSE then (x, .top)
    else if sysrtn < writebytes then ({ x with x_fileerror := inp.errno }, .top)
    else
      let tail := toInt32 (x.x_fifotail + sysrtn)
      let tail := if tail = fifosize then 0 else tail
      let d := toInt32 (x.x_bytespersample * x.x_sfchannels)
      if d = 0 then ({ x with x_fifotail := tail }, .crashed)
      else
        ({ x with x_fifotail := tail,
                  x_itemswritten := toInt32 (x.x_itemswritten + toInt32 (Int.tdiv sysrtn d)) },
          .loop)
  | .closing quit =>
    ({ x with x_fd := -1, x_requestcode := REQUEST_NOTHING }, if quit then .exited else .top)
  | .exited => (x, .exited)
  | .crashed => (x, .crashed)

/-! ### Runs of the two objects -/

/-- What a step of an object is for its life cycle: an `open` that was taken up, a
`start`, a `stop`, or something else. -/
inductive Ev where
  | opened
  | start
  | stop
  | other
deriving DecidableEq

/-- What the system calls may give the child thread of `readsf~` at the place `pc`:
`open_soundfile` gives its result for some file, and `read` gives at most the number of
bytes asked for (a negative `int` is a huge `size_t`). -/
def ReadInputOK (pc : ReadPC) (inp : ReadInput) : Prop :=
  match pc with
  | .opening info onsetframes =>
    ∃ (fuel : Nat) (file : Option Sys) (fd : Int), 0 ≤ fd ∧
      open_soundfile fuel file fd info onsetframes = some inp.opened
  | .reading _ wantbytes => wantbytes < 0 ∨ inp.sysrtn ≤ wantbytes
  | _ => True

/-- The steps of a `readsf~` object: a method called in the parent thread, or a step of
the child thread. -/
inductive ReadStep : ReadMachine → Ev → ReadMachine → Prop
  | open (m : ReadMachine) (filesym : List Char) (onsetframes headerbytes channels
      bytespersamp : ℚ) (endian : List Char) :
      ReadStep m (if filesym = [] then Ev.other else Ev.opened)
        { m with x := (readsf_open m.x filesym onsetframes headerbytes channels bytespersamp
                        endian).1 }
  | start (m : ReadMachine) : ReadStep m Ev.start { m with x := (readsf_start m.x).1 }
  | stop (m : ReadMachine) : ReadStep m Ev.stop { m with x := readsf_stop m.x }
  | float (m : ReadMachine) (f : ℚ) :
      ReadStep m (if f ≠ 0 then Ev.start else Ev.stop) { m with x := readsf_float m.x f }
  | dsp (m : ReadMachine) (s_n : Int) (x : Readsf) (h : readsf_dsp m.x s_n = some x) :
      ReadStep m Ev.other { m with x := x }
  | perform (m : ReadMachine) (x : Readsf) (frames : Int)
      (h : readsf_perform m.x = Perform.done x frames) : ReadStep m Ev.other { m with x := x }
  | child (m : ReadMachine) (inp : ReadInput) (h : ReadInputOK m.pc inp) :
      ReadStep m Ev.other (readsf_child_main m inp)

/-- The runs of a `readsf~` object from its creation, with the events in order; `P` is
a condition that the record meets before each step. -/
inductive ReadRun (P : Readsf → Prop) : List Ev → ReadMachine → Prop
  | new (x : Readsf) (fnchannels fbufsize : ℚ) :
      ReadRun P [] { x := readsf_new x fnchannels fbufsize, pc := ReadPC.top }
  | step (tr : List Ev) (m : ReadMachine) (e : Ev) (m2 : ReadMachine)
      (hrun : ReadRun P tr m) (hP : P m.x) (hstep : ReadStep m e m2) :
      ReadRun P (tr ++ [e]) m2

/-- What `write` may give the child thread of `writesf~` at the place `pc`: at most the
number of bytes it was given. -/
def WriteInputOK (pc : WritePC) (inp : WriteInput) : Prop :=
  match pc with
  | .writing _ writebytes => writebytes < 0 ∨ inp.sysrtn ≤ writebytes
  | _ => True

/-- The steps of a `writesf~` object.  While `writesf_open` waits for the child thread
no other method runs in the parent thread. -/
inductive WriteStep : WriteMachine → Ev → WriteMachine → Prop
  | open_parse (m : WriteMachine) (hw : m.waiting = none) (nosym : List Char)
      (locals : WriteArgs) (argv : List Atom) :
      WriteStep m Ev.other
        { m with x := (writesf_open_parse nosym locals m.x argv).1,
                 waiting := (writesf_open_parse nosym locals m.x argv).2 }
  | open_set (m : WriteMachine) (w : WriteArgs) (hw : m.waiting = some w)
      (hr : m.x.x_requestcode = REQUEST_NOTHING) (sys_getsr : ℚ) (x : Readsf)
      (h : writesf_open_set sys_getsr m.x w = some x) :
      WriteStep m Ev.opened { m with x := x, waiting := none }
  | start (m : WriteMachine) (hw : m.waiting = none) :
      WriteStep m Ev.start { m with x := (writesf_start m.x).1 }
  | stop (m : WriteMachine) (hw : m.waiting = none) :
      WriteStep m Ev.stop { m with x := writesf_stop m.x }
  | dsp (m : WriteMachine) (hw : m.waiting = none) (s_n : Int) (s_sr : ℚ) (x : Readsf)
      (h : writesf_dsp m.x s_n s_sr = some x) : WriteStep m Ev.other { m with x := x }
  | perform (m : WriteMachine) (hw : m.waiting = none) (x : Readsf) (frames : Int)
      (h : writesf_perform m.x = Perform.done x frames) :
      WriteStep m Ev.other { m with x := x }
  | child (m : WriteMachine) (inp : WriteInput) (h : WriteInputOK m.pc inp) :
      WriteStep m Ev.other
        { m with x := (writesf_child_main m.x m.pc inp).1,
                 pc := (writesf_child_main m.x m.pc inp).2 }

/-- The runs of a `writesf~` object from its creation. -/
inductive WriteRun (P : Readsf → Prop) : List Ev → WriteMachine → Prop
  | new (x : Readsf) (fnchannels fbufsize : ℚ) :
      WriteRun P [] { x := writesf_new x fnchannels fbufsize, pc := WritePC.top,
                      waiting := none }
  | step (tr : List Ev) (m : WriteMachine) (e : Ev) (m2 : WriteMachine)
      (hrun : WriteRun P tr m) (hP : P m.x) (hstep : WriteStep m e m2) :
      WriteRun P (tr ++ [e]) m2

/-! ## Arguments of `soundfiler_read` -/

def DEFMAXSIZE : Int := 0x7fffffff
def LONG_MAX : Int := 0x7fffffffffffffff

/-- The locals of `soundfiler_read` that the flags set. -/
structure ReadFlags where
  info : SoundfileInfo
  resize : Int
  skipframes : Int
  maxsize : Int
  ascii : Int
deriving DecidableEq

/-- The initial values of the locals of `soundfiler_read`. -/
def read_flag_init : ReadFlags :=
  { info := { samplerate := 0, channels := 0, bytespersample := 0, headersize := -1,
              bigendian := 0, bytelimit := 0x7fffffff },
    resize := 0, skipframes := 0, maxsize := DEFMAXSIZE, ascii := 0 }

/-- How one pass of the `while` loop of `soundfiler_read` ends: at the label `done`
(after a call of `argerror`), with the loop condition false, or ready for the next pass
with the atoms left and the locals. -/
inductive ReadFlagStep where
  | goto_done
  | stop
  | next (av : List Atom) (st : ReadFlags)
deriving DecidableEq

/-- The tests of the branch for `-raw` on the four atoms behind the flag, and the record
they fill in; `none` stands for `goto done`. -/
def read_raw (sys_getsr : ℚ) (st : ReadFlags) (a1 a2 a3 a4 : Atom) : Option ReadFlags :=
  match a1 with
  | Atom.float h =>
    let headersize := d2i h
    if headersize < 0 then none
    else
      match a2 with
      | Atom.float c =>
        let channels := d2i c
        if channels < 1 then none
        else if channels > MAXSFCHANS then none
        else
          match a3 with
          | Atom.float b =>
            let bytespersample := d2i b
            if bytespersample < 2 then none
            else if bytespersample > 4 then none
            else
              match a4 with
              | Atom.symbol e =>
                if e.head? ≠ some 'b' ∧ e.head? ≠ some 'l' ∧ e.head? ≠ some 'n' then none
                else
                  let bigendian : Int :=
                    if e.head? = some 'b' then 1
                    else if e.head? = some 'l' then 0
                    else garray_ambigendian
                  some { st with
                         info := { st.info with
                                   headersize := headersize, channels := channels,
                                   bytespersample := bytespersample, bigendian := bigendian,
                                   samplerate := d2i sys_getsr } }
              | _ => none
          | _ => none
      | _ => none
  | _ => none

/-- One pass of the `while` loop of `soundfiler_read` over the flags. -/
def read_flag_step (nosym : List Char) (sys_getsr : ℚ) (av : List Atom) (st : ReadFlags) :
    ReadFlagStep :=
  match av with
  | [] => ReadFlagStep.stop
  | a :: rest =>
    if (atom_getsymbol nosym a).head? = some '-' then
      let flag := atom_getsymbol nosym a
      if flag = ['-', 's', 'k', 'i', 'p'] then
        if flag_missing_floatarg (a :: rest) then ReadFlagStep.goto_done
        else match rest with
          | Atom.float f :: rest2 =>
            if d2l f < 0 then ReadFlagStep.goto_done
            else ReadFlagStep.next rest2 { st with skipframes := d2l f }
          | _ => ReadFlagStep.goto_done
      else if flag = ['-', 'a', 's', 'c', 'i', 'i'] then
        ReadFlagStep.next rest { st with ascii := 1 }
      else if flag = ['-', 'r', 'a', 'w'] then
        match rest with
        | a1 :: a2 :: a3 :: a4 :: rest2 =>
          match read_raw sys_getsr st a1 a2 a3 a4 with
          | none => ReadFlagStep.goto_done
          | some st2 => ReadFlagStep.next rest2 st2
        | _ => ReadFlagStep.goto_done
      else if flag = ['-', 'r', 'e', 's', 'i', 'z', 'e'] then
        if flag_has_unexpected_floatarg (a :: rest) then ReadFlagStep.goto_done
        else ReadFlagStep.next rest { st with resize := 1 }
      else if flag = ['-', 'm', 'a', 'x', 's', 'i', 'z', 'e'] then
        if flag_missing_floatarg (a :: rest) then ReadFlagStep.goto_done
        else match rest with
          | Atom.float fmax :: rest2 =>
            if fmax > 2 ^ 63 then
              ReadFlagStep.next rest2 { st with maxsize := LONG_MAX, resize := 1 }
            else if fmax < 0 then ReadFlagStep.goto_done
            else ReadFlagStep.next rest2 { st with maxsize := d2l fmax, resize := 1 }
          | _ => ReadFlagStep.goto_done
      else ReadFlagStep.goto_done
    else ReadFlagStep.stop

/-- The `while` loop, run for at most `fuel + 1` passes: the atoms left and the locals
when the loop condition fails, `none` for `goto done` (and when the passes run out). -/
def read_flag_loop (nosym : List Char) (sys_getsr : ℚ) : Nat → List Atom → ReadFlags →
    Option (List Atom × ReadFlags)
  | 0, av, st =>
    match read_flag_step nosym sys_getsr av st with
    | ReadFlagStep.stop => some (av, st)
    | _ => none
  | fuel + 1, av, st =>
    match read_flag_step nosym sys_getsr av st with
    | ReadFlagStep.goto_done => none
    | ReadFlagStep.stop => some (av, st)
    | ReadFlagStep.next av2 st2 => read_flag_loop nosym sys_getsr fuel av2 st2

/-- The `while` loop of `soundfiler_read`: every pass that goes on consumes an atom, so
as many passes as there are atoms are enough. -/
def read_flags (nosym : List Char) (sys_getsr : ℚ) (av : List Atom) :
    Option (List Atom × ReadFlags) :=
  read_flag_loop nosym sys_getsr av.length av read_flag_init

/-- How `soundfiler_read` goes on behind its flags: it jumps to `done` before it comes to
the loop over the table names, it hands the tables to `soundfiler_readascii`, or it goes
through the statements from the loop over the table names on. -/
inductive ReadOutcome where
  | done
  | ascii (filename : List Char) (av : List Atom)
  | binary (r : Option ReadResult)
deriving DecidableEq

/-- The routine `soundfiler_read` down to the loop over the table names; `files` gives the
file that `open_soundfile_via_canvas` finds under a name. -/
def soundfiler_read (env : ReadEnv) (fuel : Nat) (files : List Char → Option Sys) (fd : Int)
    (nosym : List Char) (sys_getsr : ℚ) (argv : List Atom) : ReadOutcome :=
  match read_flags nosym sys_getsr argv with
  | none => .done
  | some (av, st) =>
    if (av.length : Int) < 1 then .done
    else if (av.length : Int) > MAXSFCHANS + 1 then .done
    else
      match av with
      | Atom.symbol filename :: av =>
        if st.ascii ≠ 0 then
          match read_tables env av 0 st.resize with
          | .done => .done
          | .ok _ _ _ _ => .ascii filename av
        else
          .binary (soundfiler_read_rest env fuel (files filename) fd st.info st.resize
            st.skipframes st.maxsize av)
      | _ => .done

/-! ## Vocabulary of the statements -/

/-- The unsigned number that the four bytes at `off` hold in big-endian order. -/
def be32 (data : List Byte) (off : Nat) : Nat :=
  2 ^ 24 * byteAt data off + 2 ^ 16 * byteAt data (off + 1) + 2 ^ 8 * byteAt data (off + 2)
    + byteAt data (off + 3)

/-- The unsigned number that the two bytes at `off` hold in big-endian order. -/
def be16 (data : List Byte) (off : Nat) : Nat := 2 ^ 8 * byteAt data off + byteAt data (off + 1)

/-- The first `n` bytes of `buf` are the bytes of `data` from offset `h` on. -/
def Agree (buf data : List Byte) (h n : Nat) : Prop :=
  ∀ k, k < n → byteAt buf k = byteAt data (h + k)

/-- The offset of the chunk that follows a chunk at offset `h` with size field `sz` in
the walk of the parser: `h + sz + 8`, made even. -/
def nextChunk (h sz : Nat) : Nat :=
  if (h + sz + 8) % 2 = 1 then h + sz + 8 + 1 else h + sz + 8

/-- The four bytes of a 32-bit number in big-endian order. -/
def store32be (n : Nat) : List Byte :=
  [n / 2 ^ 24 % 256, n / 2 ^ 16 % 256, n / 2 ^ 8 % 256, n % 256]

/-- The two bytes of a 16-bit number in big-endian order. -/
def store16be (n : Nat) : List Byte := [n / 2 ^ 8 % 256, n % 256]

/-- A chunk of a RIFF or IFF file: its four-character id, its body, and the value of
the pad byte that follows a body of odd length. -/
structure Chunk where
  id : List Byte
  body : List Byte
  pad : Byte

/-- The pad byte of a chunk, present when the body has odd length. -/
def Chunk.padding (c : Chunk) : List Byte := if c.body.length % 2 = 1 then [c.pad] else []

/-- The bytes of a chunk in a RIFF file: id, size of the body (little-endian), body,
pad byte. -/
def Chunk.riff (c : Chunk) : List Byte :=
  c.id ++ (store32 c.body.length ++ (c.body ++ c.padding))

/-- The bytes of a chunk in an IFF (AIFF) file: id, size of the body (big-endian), body,
pad byte. -/
def Chunk.iff (c : Chunk) : List Byte :=
  c.id ++ (store32be c.body.length ++ (c.body ++ c.padding))

/-- The bytes of a sequence of chunks laid out one after the other. -/
def chunksBytes (layout : Chunk → List Byte) : List Chunk → List Byte
  | [] => []
  | c :: cs => layout c ++ chunksBytes layout cs

/-- A chunk that the walk steps over: a four-byte id that is neither of the two ids the
parser looks for, and a body whose length fits the 32-bit size field. -/
def Chunk.Other (c : Chunk) (id1 id2 : List Byte) : Prop :=
  c.id.length = 4 ∧ c.body.length < 2 ^ 32 ∧
    strncmp4 c.id 0 id1 = false ∧ strncmp4 c.id 0 id2 = false

/-- The bytes of a WAVE file: the preamble `RIFF`, size, `WAVE`; chunks `cs1`; the
chunk `fmt`; chunks `cs2`; the header of the data chunk with its size field; the bytes
that follow it. -/
def waveFile (riffsize : Nat) (cs1 : List Chunk) (fmt : Chunk) (cs2 : List Chunk)
    (datasize : Nat) (payload : List Byte) : List Byte :=
  str_RIFF ++ (store32 riffsize ++ (str_WAVE ++ (chunksBytes Chunk.riff cs1 ++ (fmt.riff ++
    (chunksBytes Chunk.riff cs2 ++ (str_data ++ (store32 datasize ++ payload)))))))

/-- The file offset of the first byte after the 8-byte header of the data chunk of
`waveFile`. -/
def waveDataOffset (cs1 : List Chunk) (fmt : Chunk) (cs2 : List Chunk) : Nat :=
  12 + (chunksBytes Chunk.riff cs1).length + fmt.riff.length
    + (chunksBytes Chunk.riff cs2).length + 8

/-- The bytes of an AIFF file: the preamble `FORM`, size, `AIFF`; chunks `cs1`; the
chunk `comm`; chunks `cs2`; the header of the `SSND` chunk with its size field; the
bytes that follow it (the offset and block-size words, then the audio). -/
def aiffFile (formsize : Nat) (cs1 : List Chunk) (comm : Chunk) (cs2 : List Chunk)
    (ssndsize : Nat) (rest : List Byte) : List Byte :=
  str_FORM ++ (store32be formsize ++ (str_AIFF ++ (chunksBytes Chunk.iff cs1 ++ (comm.iff ++
    (chunksBytes Chunk.iff cs2 ++ (str_SSND ++ (store32be ssndsize ++ rest)))))))

/-- The file offset of the `SSND` chunk of `aiffFile`. -/
def aiffSsndOffset (cs1 : List Chunk) (comm : Chunk) (cs2 : List Chunk) : Nat :=
  12 + (chunksBytes Chunk.iff cs1).length + comm.iff.length
    + (chunksBytes Chunk.iff cs2).length

/-- The unsigned number that the four bytes at `off` hold, read big-endian when `big`
holds and little-endian otherwise. -/
def field32 (big : Bool) (data : List Byte) (off : Nat) : Nat :=
  if big then be32 data off else load32 data off

/-- Every element of the sequence is a byte value. -/
def IsBytes (l : List Byte) : Prop := ∀ b ∈ l, b < 256

/-- The classification of a file by its first bytes as the specification words it:
`.snd` is NeXT big-endian, `dns.` is NeXT little-endian, `RIFF` with `WAVE` at offset 8
is WAVE little-endian, `FORM` with `AIFF` at offset 8 is AIFF big-endian; nothing else is
recognised.  The result is `(format, bigendian)`. -/
def spec_classify (buf : List Byte) : Option (Int × Int) :=
  if buf.take 4 = str_snd then some (FORMAT_NEXT, 1)
  else if buf.take 4 = str_dns then some (FORMAT_NEXT, 0)
  else if buf.take 4 = str_RIFF ∧ (buf.drop 8).take 4 = str_WAVE then some (FORMAT_WAVE, 0)
  else if buf.take 4 = str_FORM ∧ (buf.drop 8).take 4 = str_AIFF then some (FORMAT_AIFF, 1)
  else none

/-- The 16 bytes of the body of a `fmt ` chunk with the given fields, little-endian. -/
def fmtBody (tag channels samplerate avgbytes blockalign bits : Nat) : List Byte :=
  store16 tag ++ (store16 channels ++ (store32 samplerate ++ (store32 avgbytes ++
    (store16 blockalign ++ store16 bits))))

/-- The 18 bytes of the body of a `COMM` chunk with the given fields, big-endian, and
the ten bytes `rate` of the sample rate. -/
def commBody (channels nframes bits : Nat) (rate : List Byte) : List Byte :=
  store16be channels ++ (store32be nframes ++ (store16be bits ++ rate))

/-- A NeXT/Sun header: the magic number in the file's byte order and five 32-bit fields
in that order, followed by the four bytes of the info string. -/
def nextHeader (big : Bool) (onset length format rate channels : Nat) (info : List Byte) :
    List Byte :=
  (if big then str_snd else str_dns) ++ (if big then store32be onset else store32 onset)
    ++ (if big then store32be length else store32 length)
    ++ (if big then store32be format else store32 format)
    ++ (if big then store32be rate else store32 rate)
    ++ (if big then store32be channels else store32 channels) ++ info

/-- The value the decoders store for a sample of 2, 3 or 4 bytes. -/
def xferin_get (buf : Nat → Byte) (p : Nat) (bytespersamp : Int) (bigendian : Int)
    (unbits : Nat → ℚ) : ℚ :=
  (xferin_value buf p bytespersamp bigendian unbits).getD 0

/-- The signed value of the `w`-bit two's-complement pattern `u`. -/
def twosComplement (w : Nat) (u : Nat) : Int :=
  if u % 2 ^ w < 2 ^ (w - 1) then ((u % 2 ^ w : Nat) : Int) else ((u % 2 ^ w : Nat) : Int) - 2 ^ w

/-- The unsigned number that a sequence of bytes holds, most significant byte first. -/
def unsignedOfBytes (bs : List Byte) : Nat := bs.foldl (fun a b => a * 256 + b % 256) 0

/-- The `n` bytes of the sample that starts at `buf[p]`, most significant byte first:
in memory order for a big-endian file, reversed for a little-endian one. -/
def sampleBytes (buf : Nat → Byte) (p n : Nat) (big : Bool) : List Byte :=
  if big then (List.range n).map (fun t => buf (p + t))
  else ((List.range n).map (fun t => buf (p + t))).reverse

/-- The two's-complement signed integer formed by the `n` bytes of the sample at
`buf[p]`, read in the selected byte order. -/
def sampleInt (buf : Nat → Byte) (p n : Nat) (big : Bool) : Int :=
  twosComplement (8 * n) (unsignedOfBytes (sampleBytes buf p n big))

/-- The integer the specification gives for encoding the sample `x` in `n` bytes:
`floor (x * normfactor * 2^(8n-1))` saturated to `[-(2^(8n-1) - 1), 2^(8n-1) - 1]`. -/
def spec_encode_int (n : Nat) (x normfactor : ℚ) : Int :=
  max (-(2 ^ (8 * n - 1) - 1)) (min (2 ^ (8 * n - 1) - 1) ⌊x * normfactor * 2 ^ (8 * n - 1)⌋)

/-- The `n` two's-complement bytes of the integer `v` in memory order for the selected
byte order. -/
def bytesOfInt (n : Nat) (big : Bool) (v : Int) : List Byte :=
  if big then (List.range n).reverse.map (fun t => (v / 256 ^ t % 256).toNat)
  else (List.range n).map (fun t => (v / 256 ^ t % 256).toNat)

/-- The value the specification gives for reading a ten-byte 80-bit rate:
`floor (m / 2^s) + b` with `m` the big-endian number in bytes 2..5, `s = 30 - exp_lo`
(byte 1) and `b` the last bit shifted out of `m`, 0 when `s = 0`. -/
def spec_readrate (bytes : List Byte) : Nat :=
  let m := be32 bytes 2
  let s := (30 - (byteAt bytes 1 : Int)).toNat
  m / 2 ^ s + (if s = 0 then 0 else m / 2 ^ (s - 1) % 2)

/-- The 44 bytes the specification gives for a WAVE header: `RIFF`, size, `WAVE`,
`fmt `, 16, format tag, channels, rate, bytes per second, bytes per frame, bits per
sample, `data`, size, every integer little-endian. -/
def spec_wave_header (n channels bps sr : Nat) : List Byte :=
  str_RIFF ++ store32 (n * channels * bps + 36) ++ str_WAVE ++ str_fmt ++ store32 16
    ++ store16 (if bps = 4 then 3 else 1) ++ store16 channels ++ store32 sr
    ++ store32 (sr * channels * bps) ++ store16 (channels * bps) ++ store16 (8 * bps)
    ++ str_data ++ store32 (n * channels * bps)

/-- The byte rate as single-precision arithmetic gives it: the product `sr * channels`
rounded to `float`, times `bps`, rounded again, converted to `int` and stored in 32
bits. -/
def float_byte_rate (channels bps sr : Nat) : Nat :=
  toUInt32 (d2i (to_float (to_float ((sr : ℚ) * (channels : ℚ)) * (bps : ℚ))))

/-- The 44 bytes of `spec_wave_header` with the field of the bytes per second set to
`rate`. -/
def wave_header_with_rate (n channels bps sr rate : Nat) : List Byte :=
  str_RIFF ++ store32 (n * channels * bps + 36) ++ str_WAVE ++ str_fmt ++ store32 16
    ++ store16 (if bps = 4 then 3 else 1) ++ store16 channels ++ store32 sr
    ++ store32 rate ++ store16 (channels * bps) ++ store16 (8 * bps)
    ++ str_data ++ store32 (n * channels * bps)

/-- The format a flag selects: the type named by `-wave`, `-aiff` or `-nextstep`, and
the type selected so far for every other atom. -/
def atom_format : Atom → Int → Int
  | Atom.symbol name, acc =>
    if name = ['-', 'w', 'a', 'v', 'e'] then FORMAT_WAVE
    else if name = ['-', 'a', 'i', 'f', 'f'] then FORMAT_AIFF
    else if name = ['-', 'n', 'e', 'x', 't', 's', 't', 'e', 'p'] then FORMAT_NEXT
    else acc
  | _, acc => acc

/-- The file type of the last `-wave`, `-aiff` or `-nextstep` among the atoms `flags`,
and -1 when there is none. -/
def last_format (flags : List Atom) : Int :=
  flags.foldl (fun acc a => atom_format a acc) (-1)

/-- The file type the specification derives from a file name: AIFF when it ends in
`.aif` or `.aiff`, NeXT when it ends in `.snd` or `.au`, WAVE otherwise. -/
def spec_name_filetype (name : List Char) : Int :=
  if ['.', 'a', 'i', 'f'].isSuffixOf name ∨ ['.', 'a', 'i', 'f', 'f'].isSuffixOf name
  then FORMAT_AIFF
  else if ['.', 's', 'n', 'd'].isSuffixOf name ∨ ['.', 'a', 'u'].isSuffixOf name
  then FORMAT_NEXT
  else FORMAT_WAVE

/-- The test that the name has at least one character before the suffix `suffix`. -/
def proper_suffix (suffix name : List Char) : Bool :=
  decide (suffix.length + 1 ≤ name.length) &&
    decide (name.drop (name.length - suffix.length) = suffix)

/-- The file type derived from a file name, as amended: NeXT when the name has a
character before a final `.snd`, `.SND`, `.au` or `.AU`; otherwise AIFF when it has a
character before a final `.aif`, `.AIF`, `.aiff` or `.AIFF`; otherwise WAVE. -/
def name_filetype (name : List Char) : Int :=
  if proper_suffix ['.', 's', 'n', 'd'] name ∨ proper_suffix ['.', 'S', 'N', 'D'] name ∨
      proper_suffix ['.', 'a', 'u'] name ∨ proper_suffix ['.', 'A', 'U'] name
  then FORMAT_NEXT
  else if proper_suffix ['.', 'a', 'i', 'f'] name ∨ proper_suffix ['.', 'A', 'I', 'F'] name ∨
      proper_suffix ['.', 'a', 'i', 'f', 'f'] name ∨
      proper_suffix ['.', 'A', 'I', 'F', 'F'] name
  then FORMAT_AIFF
  else FORMAT_WAVE

/-- The flag loop, started on the atoms `av` with the locals `st`, comes to the atoms
`l` with the locals `st2`. -/
inductive Reaches (nosym : List Char) : List Atom → FlagState → List Atom → FlagState → Prop
  | here (av : List Atom) (st : FlagState) : Reaches nosym av st av st
  | step (av : List Atom) (st : FlagState) (av2 : List Atom) (st2 : FlagState)
      (l : List Atom) (st3 : FlagState) :
      flag_step nosym av st = FlagStep.next av2 st2 → Reaches nosym av2 st2 l st3 →
      Reaches nosym av st l st3

/-- The names that the flag loop knows. -/
def known_flags : List (List Char) :=
  [['-', 's', 'k', 'i', 'p'], ['-', 'n', 'f', 'r', 'a', 'm', 'e', 's'],
   ['-', 'b', 'y', 't', 'e', 's'], ['-', 'n', 'o', 'r', 'm', 'a', 'l', 'i', 'z', 'e'],
   ['-', 'w', 'a', 'v', 'e'], ['-', 'n', 'e', 'x', 't', 's', 't', 'e', 'p'],
   ['-', 'a', 'i', 'f', 'f'], ['-', 'b', 'i', 'g'], ['-', 'l', 'i', 't', 't', 'l', 'e'],
   ['-', 'r'], ['-', 'r', 'a', 't', 'e']]

/-- The atoms `l` start with an invalid flag, as amended: `-skip` or `-nframes` with a
number that is at most -1, `-bytes` with a number below 2 or at least 5, `-r` or `-rate`
with a number that is at most 0, one of these flags without a float after it, or a
symbol that starts with `-` and is not a flag. -/
def BadFlag (l : List Atom) : Prop :=
  ∃ name rest, l = Atom.symbol name :: rest ∧ name.head? = some '-' ∧
    (((name = ['-', 's', 'k', 'i', 'p'] ∨ name = ['-', 'n', 'f', 'r', 'a', 'm', 'e', 's']) ∧
        ∀ f r2, rest = Atom.float f :: r2 → f ≤ -1) ∨
     (name = ['-', 'b', 'y', 't', 'e', 's'] ∧
        ∀ f r2, rest = Atom.float f :: r2 → f < 2 ∨ 5 ≤ f) ∨
     ((name = ['-', 'r'] ∨ name = ['-', 'r', 'a', 't', 'e']) ∧
        ∀ f r2, rest = Atom.float f :: r2 → f ≤ 0) ∨
     name ∉ known_flags)

/-- Surroundings of a write with the single table `a`, holding `words`, on a machine
where a word takes `spread` floats; the file can be created. -/
def one_table (spread : Nat) (words : List ℚ) : WriteEnv :=
  { tables := fun name => if name = ['a'] then some words else none,
    sys_getsr := 44100, spread := spread, pad := fun _ => 0, create_ok := true,
    bits := fun _ => 0, sampbuf := fun _ => 0 }

/-- The record `info` as `soundfiler_write` initialises it. -/
def write_info : SoundfileInfo :=
  { samplerate := 0, channels := 0, bytespersample := 0, headersize := -1, bigendian := 0,
    bytelimit := 0x7fffffff }

/-- Local variables of `soundfiler_dowrite` before the parser has run; the values do not
matter. -/
def write_locals : WriteArgs :=
  { argv := [], filesym := [], filetype := 0, bytespersamp := 0, swap := 0, bigendian := 0,
    normalize := 0, onset := 0, nframes := 0, rate := 0 }

/-! ### The streaming objects -/

/-- The record as `pd_new` hands it out, taken to be all zero. -/
def pd_new_record : Readsf :=
  { x_bufsize := 0, x_noutlets := 0, x_vecsize := 0, x_state := 0, x_insamplerate := 0,
    x_requestcode := 0, x_filename := [], x_fileerror := 0, x_skipheaderbytes := 0,
    x_bytespersample := 0, x_bigendian := 0, x_sfchannels := 0, x_samplerate := 0,
    x_onsetframes := 0, x_bytelimit := 0, x_fd := 0, x_fifosize := 0, x_fifohead := 0,
    x_fifotail := 0, x_eof := 0, x_sigcountdown := 0, x_sigperiod := 0, x_filetype := 0,
    x_itemswritten := 0, x_swap := 0, x_f := 0 }

/-- Among the events there is an `open` that was taken up, with no `stop` after it. -/
def OpenPending (tr : List Ev) : Prop :=
  ∃ pre post : List Ev, tr = pre ++ [Ev.opened] ++ post ∧ Ev.stop ∉ post

/-- How the state of the life cycle changes in a step with the event `e`. -/
def LifeStep (s : Int) (e : Ev) (s2 : Int) : Prop :=
  match e with
  | .opened => s2 = STATE_STARTUP
  | .start => (s = STATE_STARTUP → s2 = STATE_STREAM) ∧ (s ≠ STATE_STARTUP → s2 = s)
  | .stop => s2 = STATE_IDLE
  | .other => s2 = s ∨ s2 = STATE_IDLE

/-- The block of one tick is of a sane size: at least one channel, one sample per tick
and two bytes per sample, and at most `2 ^ 30` bytes in all. -/
def BlockSane (x : Readsf) : Prop :=
  1 ≤ x.x_sfchannels ∧ 1 ≤ x.x_vecsize ∧ 2 ≤ x.x_bytespersample ∧
    x.x_sfchannels * x.x_vecsize * x.x_bytespersample ≤ 1073741824

/-- The range of the two cursors of the FIFO: not negative, below `x_fifosize` when that
is positive, and both 0 as long as `x_fifosize` is 0. -/
def CursorsOK (x : Readsf) : Prop :=
  0 ≤ x.x_fifohead ∧ 0 ≤ x.x_fifotail ∧ 0 ≤ x.x_fifosize ∧
    (0 < x.x_fifosize → x.x_fifohead < x.x_fifosize ∧ x.x_fifotail < x.x_fifosize) ∧
    (x.x_fifosize = 0 → x.x_fifohead = 0 ∧ x.x_fifotail = 0)

/-- The child thread of `readsf~` has taken up a request to open and has not yet set the
size of the FIFO. -/
def PreSizing (pc : ReadPC) : Prop :=
  match pc with
  | .closing _ _ => True
  | .opening _ _ => True
  | _ => False

/-- What holds of the local variables of the child thread of `readsf~` at the place
`pc`. -/
def ReadPcOK (fifosize head bytelimit : Int) (pc : ReadPC) : Prop :=
  match pc with
  | .closing info _ => 0 ≤ info.bytelimit ∧ info.bytelimit < 9223372036854775808
  | .opening info _ => 0 ≤ info.bytelimit ∧ info.bytelimit < 9223372036854775808
  | .loop => 0 ≤ bytelimit ∧ bytelimit < 9223372036854775808
  | .reading fs wantbytes =>
    fs = fifosize ∧ head + wantbytes ≤ fifosize ∧ 0 ≤ wantbytes ∧ wantbytes ≤ bytelimit ∧
      bytelimit < 9223372036854775808
  | _ => True

/-- The invariant of the runs of `readsf~`, on the fields it speaks of. -/
def ReadInvS (bufsize fifosize head tail request bytelimit : Int) (pc : ReadPC) : Prop :=
  (0 < bufsize ∧ bufsize ≤ 16777216) ∧ (0 ≤ fifosize ∧ fifosize ≤ bufsize) ∧
  (0 ≤ head ∧ (head < fifosize ∨ head = 0)) ∧ (0 ≤ tail ∧ (tail < fifosize ∨ tail = 0)) ∧
  ((request = REQUEST_OPEN ∨ (request = REQUEST_BUSY ∧ PreSizing pc)) → head = 0 ∧ tail = 0) ∧
  ReadPcOK fifosize head bytelimit pc

/-- The invariant of the runs of `readsf~`. -/
def ReadInv (m : ReadMachine) : Prop :=
  ReadInvS m.x.x_bufsize m.x.x_fifosize m.x.x_fifohead m.x.x_fifotail m.x.x_requestcode
    m.x.x_bytelimit m.pc

/-- What holds of the local variables of the child thread of `writesf~` at the place
`pc`. -/
def WritePcOK (fifosize tail request : Int) (pc : WritePC) : Prop :=
  match pc with
  | .top => True
  | .exited => True
  | .crashed => True
  | .writing fs writebytes =>
    request ≠ REQUEST_NOTHING ∧ fs = fifosize ∧ 0 ≤ writebytes ∧ tail + writebytes ≤ fifosize
  | _ => request ≠ REQUEST_NOTHING

/-- The invariant of the runs of `writesf~`, on the fields it speaks of. -/
def WriteInvS (bufsize fifosize head tail request : Int) (pc : WritePC) : Prop :=
  (0 < bufsize ∧ bufsize ≤ 16777216) ∧ (0 ≤ fifosize ∧ fifosize ≤ bufsize) ∧
  (0 ≤ head ∧ (head < fifosize ∨ head = 0)) ∧ (0 ≤ tail ∧ (tail < fifosize ∨ tail = 0)) ∧
  WritePcOK fifosize tail request pc

/-- The invariant of the runs of `writesf~`. -/
def WriteInv (m : WriteMachine) : Prop :=
  WriteInvS m.x.x_bufsize m.x.x_fifosize m.x.x_fifohead m.x.x_fifotail m.x.x_requestcode m.pc

/-- A small NeXT file: the header of a mono 16-bit file and eight bytes of samples. -/
def small_next_file : List Byte :=
  (create_soundfile FORMAT_NEXT 0 2 0 1 false 44100).1 ++ List.replicate 8 0

/-- What the system calls give when `open_soundfile` has opened `small_next_file` as
descriptor 3 and `read` has delivered all eight bytes of samples. -/
def small_next_input : ReadInput :=
  { opened :=
      { ret := 3,
        info := { samplerate := 44100, channels := 1, bytespersample := 2, headersize := 28,
                  bigendian := 0, bytelimit := 0x7fffffff },
        sys := { data := small_next_file, pos := 28, errno := 0 } },
    sysrtn := 8, errno := 0 }

/-- A new `readsf~` object that has opened the small NeXT file: the state after the
creation, `open` and two steps of the child thread. -/
def small_next_machine : ReadMachine :=
  readsf_child_main
    (readsf_child_main
      { x := (readsf_open (readsf_new pd_new_record 1 0) ['f'] 0 0 0 0 []).1,
        pc := ReadPC.top } small_next_input) small_next_input

/-- The offsets of the four-byte fields that `soundfile_finishwrite` rewrites in a file
of the given type: `w_chunksize` and `w_datachunksize` of a WAVE file, `a_nframeshi`,
`a_chunksize` and the size of the SSND chunk of an AIFF file, the length of a NeXT
file. -/
def finish_offsets (filetype : Int) : List Nat :=
  if filetype = FORMAT_WAVE then [4, 40]
  else if filetype = FORMAT_AIFF then [22, 4, 42]
  else if filetype = FORMAT_NEXT then [8]
  else []

/-- The record `soundfiler_read` hands to the parser when no `-raw` flag was given. -/
def auto_info : SoundfileInfo :=
  { samplerate := 0, channels := 0, bytespersample := 0, headersize := -1, bigendian := 0,
    bytelimit := 0x7fffffff }

/-- The header of a 16-bit WAVE file whose format chunk gives `channels` channels, followed
by `payload`. -/
def wave_with_channels (channels : Int) (payload : List Byte) : Sys :=
  { data := (create_soundfile FORMAT_WAVE 0 2 0 channels false 44100).1 ++ payload,
    pos := 0, errno := 0 }

/-- One table of four words that can be resized to any length. -/
def four_word_tables : ReadEnv :=
  { tables := fun _ => some 4, resized := fun _ n => some n }

/-- A mono 16-bit WAVE file whose data chunk is 255 bytes long: the header that
`create_soundfile` writes with the size of the data chunk set to 255, and 255 bytes of
samples. -/
def odd_wave_file : List Byte :=
  memcpy (create_soundfile FORMAT_WAVE 0 2 0 1 false 44100).1 40 (store32 255)
    ++ List.replicate 255 0

/-- What the system calls give when `open_soundfile` has opened `odd_wave_file` as
descriptor 3 and `read` has delivered its 255 bytes of samples. -/
def odd_wave_input : ReadInput :=
  { opened :=
      { ret := 3,
        info := { samplerate := 44100, channels := 1, bytespersample := 2, headersize := 44,
                  bigendian := 0, bytelimit := 255 },
        sys := { data := odd_wave_file, pos := 44, errno := 0 } },
    sysrtn := 255, errno := 0 }

/-- A new `readsf~` object after `open` and the two steps in which the child thread opens
`odd_wave_file`. -/
def odd_wave_opened : ReadMachine :=
  readsf_child_main
    (readsf_child_main
      { x := (readsf_open (readsf_new pd_new_record 1 0) ['f'] 0 0 0 0 []).1,
        pc := ReadPC.top } odd_wave_input) odd_wave_input

/-- The object after `start` and the two steps in which the child thread reads the 255
bytes. -/
def odd_wave_machine : ReadMachine :=
  readsf_child_main
    (readsf_child_main { odd_wave_opened with x := (readsf_start odd_wave_opened.x).1 }
      odd_wave_input) odd_wave_input

/-- The record and the number of frames of a call of a perform routine that returned. -/
def Perform.result : Perform → Option (Readsf × Int)
  | .done x frames => some (x, frames)
  | _ => none

/-- The flag loop of `soundfiler_read`, started on the atoms `av` with the locals `st`,
comes to the atoms `l` with the locals `st2`. -/
inductive ReadReaches (nosym : List Char) (sys_getsr : ℚ) :
    List Atom → ReadFlags → List Atom → ReadFlags → Prop
  | here (av : List Atom) (st : ReadFlags) : ReadReaches nosym sys_getsr av st av st
  | step (av : List Atom) (st : ReadFlags) (av2 : List Atom) (st2 : ReadFlags)
      (l : List Atom) (st3 : ReadFlags) :
      read_flag_step nosym sys_getsr av st = ReadFlagStep.next av2 st2 →
      ReadReaches nosym sys_getsr av2 st2 l st3 →
      ReadReaches nosym sys_getsr av st l st3

/-- A write message with 65 tables behind the file name. -/
def write_65_tables : List Atom :=
  Atom.symbol ['f', '.', 'w', 'a', 'v'] :: List.replicate 65 (Atom.symbol ['a'])

/-! ## Lemmas on bytes and byte order -/

theorem byteAt_lt (buf : List Byte) (i : Nat) : byteAt buf i < 256 :=
  Nat.mod_lt _ (by norm_num)

theorem and_mask (n k : Nat) : n &&& (255 <<< k) = ((n >>> k) % 2 ^ 8) <<< k := by
  apply Nat.eq_of_testBit_eq
  intro i
  have h255 : (255 : Nat) = 2 ^ 8 - 1 := by norm_num
  rw [Nat.testBit_and, Nat.testBit_shiftLeft, Nat.testBit_shiftLeft, Nat.testBit_mod_two_pow,
    Nat.testBit_shiftRight, h255, Nat.testBit_two_pow_sub_one]
  by_cases h : i ≥ k
  · have : k + (i - k) = i := by omega
    simp [h, this, Bool.and_comm]
  · simp [h]

theorem or4 (a b c d : Nat) (hb : b < 256) (hc : c < 256) (hd : d < 256) :
    (a <<< 24) ||| (b <<< 16) ||| (c <<< 8) ||| d = a * 2 ^ 24 + b * 2 ^ 16 + c * 2 ^ 8 + d := by
  rw [Nat.lor_assoc, Nat.lor_assoc]
  simp only [Nat.shiftLeft_eq]
  have h1 : c * 2 ^ 8 ||| d = c * 2 ^ 8 + d := by
    have := Nat.mul_add_lt_is_or (i := 8) (b := d) (by omega) c
    rw [Nat.mul_comm] at this; exact this.symm
  have h2 : b * 2 ^ 16 ||| (c * 2 ^ 8 + d) = b * 2 ^ 16 + (c * 2 ^ 8 + d) := by
    have := Nat.mul_add_lt_is_or (i := 16) (b := c * 2 ^ 8 + d) (by omega) b
    rw [Nat.mul_comm] at this; exact this.symm
  have h3 : a * 2 ^ 24 ||| (b * 2 ^ 16 + (c * 2 ^ 8 + d))
      = a * 2 ^ 24 + (b * 2 ^ 16 + (c * 2 ^ 8 + d)) := by
    have := Nat.mul_add_lt_is_or (i := 24) (b := b * 2 ^ 16 + (c * 2 ^ 8 + d)) (by omega) a
    rw [Nat.mul_comm] at this; exact this.symm
  rw [h1, h2, h3]; omega

theorem swap4_true (n : Nat) :
    swap4 n true = (n % 256) * 2 ^ 24 + (n / 2 ^ 8 % 256) * 2 ^ 16 + (n / 2 ^ 16 % 256) * 2 ^ 8
      + n / 2 ^ 24 % 256 := by
  have e1 : (0xff : Nat) = 255 <<< 0 := by decide
  have e2 : (0xff00 : Nat) = 255 <<< 8 := by decide
  have e3 : (0xff0000 : Nat) = 255 <<< 16 := by decide
  have e4 : (0xff000000 : Nat) = 255 <<< 24 := by decide
  unfold swap4
  rw [if_pos rfl, e1, e2, e3, e4, and_mask, and_mask, and_mask, and_mask]
  have s2 : ((n >>> 8) % 2 ^ 8) <<< 8 <<< 8 = ((n >>> 8) % 2 ^ 8) <<< 16 := by
    rw [← Nat.shiftLeft_add]
  have s3 : ((n >>> 16) % 2 ^ 8) <<< 16 >>> 8 = ((n >>> 16) % 2 ^ 8) <<< 8 := by
    rw [show (16 : Nat) = 8 + 8 from rfl, Nat.shiftLeft_add, Nat.shiftLeft_shiftRight]
  rw [s2, s3, Nat.shiftLeft_shiftRight, Nat.shiftLeft_zero, Nat.shiftRight_zero]
  have hb : n >>> 8 % 2 ^ 8 < 256 := Nat.mod_lt _ (by norm_num)
  have hc : n >>> 16 % 2 ^ 8 < 256 := Nat.mod_lt _ (by norm_num)
  have hd : n >>> 24 % 2 ^ 8 < 256 := Nat.mod_lt _ (by norm_num)
  rw [or4 _ _ _ _ hb hc hd]
  simp only [Nat.shiftRight_eq_div_pow]
  norm_num

theorem swap2_true (n : Nat) :
    swap2 n true = (n % 256) * 2 ^ 8 + n / 2 ^ 8 % 256 := by
  have e1 : (0xff : Nat) = 255 <<< 0 := by decide
  have e2 : (0xff00 : Nat) = 255 <<< 8 := by decide
  unfold swap2
  rw [if_pos rfl, e1, e2, and_mask, and_mask, Nat.shiftLeft_shiftRight, Nat.shiftLeft_zero,
    Nat.shiftRight_zero]
  have hc : n % 2 ^ 8 < 256 := Nat.mod_lt _ (by norm_num)
  have hd : n >>> 8 % 2 ^ 8 < 256 := Nat.mod_lt _ (by norm_num)
  have := or4 0 0 (n % 2 ^ 8) ((n >>> 8) % 2 ^ 8) (by norm_num) hc hd
  simp only [Nat.zero_shiftLeft, Nat.zero_or, Nat.zero_mul, Nat.zero_add] at this
  rw [this]
  simp only [Nat.shiftRight_eq_div_pow]
  omega



theorem swap4_false (n : Nat) : swap4 n false = n := by simp [swap4]

theorem swap2_false (n : Nat) : swap2 n false = n % 2 ^ 16 := by simp [swap2]

theorem byteAt_append_left (a b : List Byte) (i : Nat) (h : i < a.length) :
    byteAt (a ++ b) i = byteAt a i := by
  simp [byteAt, List.getD_eq_getElem?_getD, List.getElem?_append_left h]

theorem byteAt_append_right (a b : List Byte) (i : Nat) :
    byteAt (a ++ b) (a.length + i) = byteAt b i := by
  simp [byteAt, List.getD_eq_getElem?_getD, List.getElem?_append_right]

theorem byteAt_take (l : List Byte) (n i : Nat) (h : i < n) :
    byteAt (l.take n) i = byteAt l i := by
  simp [byteAt, List.getD_eq_getElem?_getD, List.getElem?_take, h]

theorem byteAt_drop (l : List Byte) (n i : Nat) :
    byteAt (l.drop n) i = byteAt l (n + i) := by
  simp [byteAt, List.getD_eq_getElem?_getD, List.getElem?_drop]

theorem byteAt_memcpy0 (buf src : List Byte) (i : Nat) (h : i < src.length) :
    byteAt (memcpy buf 0 src) i = byteAt src i := by
  simp [memcpy, byteAt_append_left _ _ _ h]

theorem load32_lt (buf : List Byte) (off : Nat) : load32 buf off < 2 ^ 32 := by
  have h0 := byteAt_lt buf off
  have h1 := byteAt_lt buf (off + 1)
  have h2 := byteAt_lt buf (off + 2)
  have h3 := byteAt_lt buf (off + 3)
  unfold load32; omega

theorem load16_lt (buf : List Byte) (off : Nat) : load16 buf off < 2 ^ 16 := by
  have h0 := byteAt_lt buf off
  have h1 := byteAt_lt buf (off + 1)
  unfold load16; omega

theorem swap4_load32 (buf : List Byte) (off : Nat) : swap4 (load32 buf off) true = be32 buf off := by
  have h0 := byteAt_lt buf off
  have h1 := byteAt_lt buf (off + 1)
  have h2 := byteAt_lt buf (off + 2)
  have h3 := byteAt_lt buf (off + 3)
  rw [swap4_true]; unfold load32 be32; omega

theorem swap2_load16 (buf : List Byte) (off : Nat) : swap2 (load16 buf off) true = be16 buf off := by
  have h0 := byteAt_lt buf off
  have h1 := byteAt_lt buf (off + 1)
  rw [swap2_true]; unfold load16 be16; omega

theorem swap2_load16_false (buf : List Byte) (off : Nat) :
    swap2 (load16 buf off) false = load16 buf off := by
  rw [swap2_false]; exact Nat.mod_eq_of_lt (load16_lt buf off)

theorem Agree.load32 {buf data : List Byte} {h n : Nat} (a : Agree buf data h n) (k : Nat)
    (hk : k + 4 ≤ n) : load32 buf k = load32 data (h + k) := by
  unfold Soundfile.load32
  rw [a k (by omega), a (k + 1) (by omega), a (k + 2) (by omega), a (k + 3) (by omega)]
  simp only [Nat.add_assoc]

theorem Agree.load16 {buf data : List Byte} {h n : Nat} (a : Agree buf data h n) (k : Nat)
    (hk : k + 2 ≤ n) : load16 buf k = load16 data (h + k) := by
  unfold Soundfile.load16
  rw [a k (by omega), a (k + 1) (by omega)]
  simp only [Nat.add_assoc]

theorem Agree.strncmp4 {buf data : List Byte} {h n : Nat} (a : Agree buf data h n)
    (hn : 4 ≤ n) (lit : List Byte) : strncmp4 buf 0 lit = strncmp4 data h lit := by
  unfold Soundfile.strncmp4
  have h0 := a 0 (by omega)
  have h1 := a 1 (by omega)
  have h2 := a 2 (by omega)
  have h3 := a 3 (by omega)
  simp only [Nat.zero_add, Nat.add_zero] at h0 h1 h2 h3 ⊢
  rw [h0, h1, h2, h3]

theorem Sys.read_ok (s : Sys) (n : Nat) (h : s.pos + n ≤ s.data.length) :
    (s.read n).1.length = n ∧ Agree (s.read n).1 s.data s.pos n ∧
      (s.read n).2 = { s with pos := s.pos + n } := by
  have hl : (List.take n (List.drop s.pos s.data)).length = n := by
    simp [List.length_take, List.length_drop]; omega
  refine ⟨hl, ?_, ?_⟩
  · intro k hk
    simp only [Sys.read]
    rw [byteAt_take _ _ _ hk, byteAt_drop]
  · simp only [Sys.read, hl]

theorem Sys.read_short (s : Sys) (n : Nat) (hn : 0 < n) (h : s.data.length < s.pos + n) :
    (s.read n).1.length < n := by
  simp [Sys.read, List.length_take, List.length_drop]; omega

theorem Sys.lseek_ok (s : Sys) (off : Nat) :
    s.lseek (off : Int) = ((off : Int), { s with pos := off }) := by
  simp [Sys.lseek]

theorem agree_memcpy {buf src data : List Byte} {h n : Nat} (a : Agree src data h n)
    (hl : src.length = n) : Agree (memcpy buf 0 src) data h n := by
  intro k hk
  rw [byteAt_memcpy0 _ _ _ (by omega)]
  exact a k hk

/-! ## The walk over the chunks of a WAVE file -/

theorem seekto_eq (h sz : Nat) :
    (if ((h : Int) + (sz : Int) + 8) % 2 = 1 then (h : Int) + (sz : Int) + 8 + 1
      else (h : Int) + (sz : Int) + 8) = (nextChunk h sz : Int) := by
  unfold nextChunk
  split_ifs <;> omega

theorem toInt32_of_lt (n : Nat) (h : n < 2 ^ 31) : toInt32 (n : Int) = n := by
  unfold toInt32; omega

theorem toInt64_of_lt (n : Nat) (h : n < 2 ^ 32) : toInt64 (n : Int) = n := by
  unfold toInt64
  have h1 : (2 : Int) ^ 63 = 9223372036854775808 := by norm_num
  have h2 : (2 : Int) ^ 64 = 18446744073709551616 := by norm_num
  rw [h1, h2]; omega

theorem wave_step_data (fuel h : Nat) (buf : List Byte) (nch bps sr : Int) (s : Sys)
    (ag : Agree buf s.data h 8) (hd : strncmp4 s.data h str_data = true) :
    wave_chunks false (fuel + 1) h buf nch bps sr s = .found h buf nch bps sr s := by
  rw [wave_chunks, ag.strncmp4 (by norm_num), hd]
  simp

theorem wave_step_fmt (fuel h : Nat) (buf : List Byte) (nch bps sr : Int) (s : Sys)
    (ag : Agree buf s.data h 8)
    (hd : strncmp4 s.data h str_data = false) (hf : strncmp4 s.data h str_fmt = true)
    (hfmt : h + 24 ≤ s.data.length) :
    (load16 s.data (h + 22) ≠ 16 → load16 s.data (h + 22) ≠ 24 → load16 s.data (h + 22) ≠ 32 →
      wave_chunks false (fuel + 1) h buf nch bps sr s = .bad { s with pos := h + 24 }) ∧
    (nextChunk h (load32 s.data (h + 4)) + 8 ≤ s.data.length →
      ∀ b : Int, (b = 2 ∧ load16 s.data (h + 22) = 16) ∨ (b = 3 ∧ load16 s.data (h + 22) = 24) ∨
        (b = 4 ∧ load16 s.data (h + 22) = 32) →
      ∃ buf2, Agree buf2 s.data (nextChunk h (load32 s.data (h + 4))) 8 ∧
        wave_chunks false (fuel + 1) h buf nch bps sr s =
          wave_chunks false fuel (toInt32 (nextChunk h (load32 s.data (h + 4)))) buf2
            (load16 s.data (h + 10)) b (toInt32 (load32 s.data (h + 12)))
            { s with pos := nextChunk h (load32 s.data (h + 4)) + 8 }) := by
  set t := nextChunk h (load32 s.data (h + 4)) with ht
  have hr0 := Sys.read_ok { s with pos := h + 8 } 16 (by simpa using (by omega : h + 8 + 16 ≤ s.data.length))
  have ag0 : Agree (memcpy buf 0 (Sys.read { s with pos := h + 8 } 16).1) s.data (h + 8) 16 :=
    agree_memcpy hr0.2.1 hr0.1
  have e14 : load16 (memcpy buf 0 (Sys.read { s with pos := h + 8 } 16).1) 14
      = load16 s.data (h + 22) := by rw [ag0.load16 14 (by norm_num)]
  have e2 : load16 (memcpy buf 0 (Sys.read { s with pos := h + 8 } 16).1) 2
      = load16 s.data (h + 10) := by rw [ag0.load16 2 (by norm_num)]
  have e4 : load32 (memcpy buf 0 (Sys.read { s with pos := h + 8 } 16).1) 4
      = load32 s.data (h + 12) := by rw [ag0.load32 4 (by norm_num)]
  have hw : wave_fmt false (h : Int) buf s =
      (if load16 s.data (h + 22) = 16 then
          some (memcpy buf 0 (Sys.read { s with pos := h + 8 } 16).1,
            ((load16 s.data (h + 10) : Nat) : Int), (2 : Int), toInt32 (load32 s.data (h + 12)))
        else if load16 s.data (h + 22) = 24 then
          some (memcpy buf 0 (Sys.read { s with pos := h + 8 } 16).1,
            ((load16 s.data (h + 10) : Nat) : Int), (3 : Int), toInt32 (load32 s.data (h + 12)))
        else if load16 s.data (h + 22) = 32 then
          some (memcpy buf 0 (Sys.read { s with pos := h + 8 } 16).1,
            ((load16 s.data (h + 10) : Nat) : Int), (4 : Int), toInt32 (load32 s.data (h + 12)))
        else none, { s with pos := h + 24 }) := by
    unfold wave_fmt
    have hl : ((h : Int) + 8) = ((h + 8 : Nat) : Int) := by push_cast; rfl
    have hlt : ¬ ((Sys.read { s with pos := h + 8 } 16).1.length < 16) := by
      have := hr0.1; omega
    simp only [hl, Sys.lseek_ok, ne_eq, not_true_eq_false, if_false, sizeof_fmt, hlt,
      swap2_load16_false, swap4_false, e14, e2, e4]
    rw [hr0.2.2]
    have : ((load16 s.data (h + 22) : Nat) : Int) = 16 ↔ load16 s.data (h + 22) = 16 := by omega
    have : ((load16 s.data (h + 22) : Nat) : Int) = 24 ↔ load16 s.data (h + 22) = 24 := by omega
    have : ((load16 s.data (h + 22) : Nat) : Int) = 32 ↔ load16 s.data (h + 22) = 32 := by omega
    by_cases c1 : load16 s.data (h + 22) = 16
    · simp [c1]
    · by_cases c2 : load16 s.data (h + 22) = 24
      · simp [c2]
      · by_cases c3 : load16 s.data (h + 22) = 32
        · simp [c3]
        · simp [c1, c2, c3, *]
  constructor
  · intro n1 n2 n3
    rw [wave_chunks, ag.strncmp4 (by norm_num), ag.strncmp4 (by norm_num), hd, hf, hw]
    simp [n1, n2, n3]
  · intro hlen b hb
    have hr := Sys.read_ok { s with pos := t } 8 hlen
    refine ⟨memcpy (memcpy buf 0 (Sys.read { s with pos := h + 8 } 16).1) 0
      (Sys.read { s with pos := t } 8).1, agree_memcpy hr.2.1 hr.1, ?_⟩
    rw [wave_chunks, ag.strncmp4 (by norm_num), ag.strncmp4 (by norm_num), hd, hf, hw,
      swap4_false, ag.load32 4 (by norm_num)]
    simp only [Bool.false_eq_true, if_false, if_true]
    rw [seekto_eq, ← ht]
    rcases hb with ⟨rfl, hb⟩ | ⟨rfl, hb⟩ | ⟨rfl, hb⟩ <;>
    · simp only [hb, if_true, Nat.reduceEqDiff, if_false]
      rw [Sys.lseek_ok]
      simp only [ne_eq, not_true_eq_false, if_false, sizeof_wavechunk]
      rw [if_neg (by have := hr.1; simp only [] at this ⊢; omega)]
      rw [hr.2.2]

theorem wave_step_skip (fuel h : Nat) (buf : List Byte) (nch bps sr : Int) (s : Sys)
    (ag : Agree buf s.data h 8)
    (hd : strncmp4 s.data h str_data = false) (hf : strncmp4 s.data h str_fmt = false)
    (hlen : nextChunk h (load32 s.data (h + 4)) + 8 ≤ s.data.length) :
    ∃ buf2, Agree buf2 s.data (nextChunk h (load32 s.data (h + 4))) 8 ∧
      wave_chunks false (fuel + 1) h buf nch bps sr s =
        wave_chunks false fuel (toInt32 (nextChunk h (load32 s.data (h + 4)))) buf2 nch bps sr
          { s with pos := nextChunk h (load32 s.data (h + 4)) + 8 } := by
  set t := nextChunk h (load32 s.data (h + 4)) with ht
  have hr := Sys.read_ok { s with pos := t } 8 hlen
  refine ⟨memcpy buf 0 (Sys.read { s with pos := t } 8).1, agree_memcpy hr.2.1 hr.1, ?_⟩
  rw [wave_chunks]
  rw [ag.strncmp4 (by norm_num), ag.strncmp4 (by norm_num), hd, hf, swap4_false,
    ag.load32 4 (by norm_num)]
  simp only [Bool.false_eq_true, if_false]
  rw [seekto_eq, ← ht, Sys.lseek_ok]
  simp only [ne_eq, not_true_eq_false, if_false, sizeof_wavechunk]
  rw [if_neg (by omega), hr.2.2]


theorem store32_length (n : Nat) : (store32 n).length = 4 := rfl

theorem load32_store32 (n : Nat) (rest : List Byte) (hn : n < 2 ^ 32) :
    load32 (store32 n ++ rest) 0 = n := by
  simp [load32, store32, byteAt]
  omega

theorem Chunk.riff_length (c : Chunk) (hid : c.id.length = 4) :
    c.riff.length = 8 + c.body.length + c.body.length % 2 := by
  unfold Chunk.riff Chunk.padding
  split_ifs with h <;> simp [hid, store32_length] <;> omega

theorem strncmp4_append (P X : List Byte) (k : Nat) (lit : List Byte) :
    strncmp4 (P ++ X) (P.length + k) lit = strncmp4 X k lit := by
  unfold strncmp4
  simp only [Nat.add_assoc, byteAt_append_right]

theorem strncmp4_left (a X : List Byte) (lit : List Byte) (h : a.length = 4) :
    strncmp4 (a ++ X) 0 lit = strncmp4 a 0 lit := by
  unfold strncmp4
  rw [byteAt_append_left _ _ _ (by omega), byteAt_append_left _ _ _ (by omega),
    byteAt_append_left _ _ _ (by omega), byteAt_append_left _ _ _ (by omega)]

theorem load32_append (P X : List Byte) (k : Nat) :
    load32 (P ++ X) (P.length + k) = load32 X k := by
  unfold load32
  simp only [Nat.add_assoc, byteAt_append_right]

theorem load16_append (P X : List Byte) (k : Nat) :
    load16 (P ++ X) (P.length + k) = load16 X k := by
  unfold load16
  simp only [Nat.add_assoc, byteAt_append_right]

theorem load32_append4 (a X : List Byte) (h : a.length = 4) :
    load32 (a ++ X) 4 = load32 X 0 := by
  have := load32_append a X 0
  rw [h] at this; exact this

/-- The chunk header that the parser finds at the start of a chunk laid out by RIFF. -/
theorem riff_header (c : Chunk) (P X : List Byte) (hid : c.id.length = 4)
    (hb : c.body.length < 2 ^ 32) (lit : List Byte) :
    strncmp4 (P ++ (c.riff ++ X)) P.length lit = strncmp4 c.id 0 lit ∧
      load32 (P ++ (c.riff ++ X)) (P.length + 4) = c.body.length := by
  constructor
  · have := strncmp4_append P (c.riff ++ X) 0 lit
    rw [Nat.add_zero] at this
    rw [this]
    unfold Chunk.riff
    rw [List.append_assoc, strncmp4_left _ _ _ hid]
  · rw [load32_append]
    unfold Chunk.riff
    rw [List.append_assoc, load32_append4 _ _ hid, List.append_assoc, load32_store32 _ _ hb]

theorem nextChunk_even (h sz : Nat) (he : h % 2 = 0) :
    nextChunk h sz = h + (8 + sz + sz % 2) ∧ nextChunk h sz % 2 = 0 := by
  unfold nextChunk
  split_ifs <;> omega

theorem wave_walk (cs : List Chunk) : ∀ (fuel : Nat) (P R buf : List Byte) (nch bps sr : Int)
    (s : Sys), (∀ c ∈ cs, c.Other str_data str_fmt) → P.length % 2 = 0 →
    s.data = P ++ (chunksBytes Chunk.riff cs ++ R) → 8 ≤ R.length →
    P.length + (chunksBytes Chunk.riff cs).length < 2 ^ 31 →
    Agree buf s.data P.length 8 →
    ∃ buf2 pos2, Agree buf2 s.data (P.length + (chunksBytes Chunk.riff cs).length) 8 ∧
      (P.length + (chunksBytes Chunk.riff cs).length) % 2 = 0 ∧
      wave_chunks false (fuel + cs.length) P.length buf nch bps sr s =
        wave_chunks false fuel ((P.length + (chunksBytes Chunk.riff cs).length : Nat) : Int)
          buf2 nch bps sr { s with pos := pos2 } := by
  induction cs with
  | nil =>
    intro fuel P R buf nch bps sr s _ he _ _ _ ag
    exact ⟨buf, s.pos, by simpa [chunksBytes] using ag, by simpa [chunksBytes] using he,
      by simp [chunksBytes]⟩
  | cons c cs ih =>
    intro fuel P R buf nch bps sr s hall he hdata hR hlt ag
    have hc := hall c (List.mem_cons_self _ _)
    obtain ⟨hid, hb, hd, hf⟩ := hc
    have hdata2 : s.data = P ++ (c.riff ++ (chunksBytes Chunk.riff cs ++ R)) := by
      rw [hdata]; simp [chunksBytes]
    have hh := riff_header c P (chunksBytes Chunk.riff cs ++ R) hid hb
    have hsz : load32 s.data (P.length + 4) = c.body.length := by rw [hdata2]; exact (hh []).2
    have hlen := c.riff_length hid
    have hnx := nextChunk_even P.length c.body.length he
    have hcb : (chunksBytes Chunk.riff (c :: cs)).length
        = c.riff.length + (chunksBytes Chunk.riff cs).length := by simp [chunksBytes]
    have hnext : nextChunk P.length (load32 s.data (P.length + 4)) = (P ++ c.riff).length := by
      rw [hsz, hnx.1, List.length_append, hlen]
    have hdl : s.data.length = P.length + c.riff.length + (chunksBytes Chunk.riff cs).length
        + R.length := by
      rw [hdata2]; simp only [List.length_append]; omega
    obtain ⟨buf1, ag1, e1⟩ := wave_step_skip (fuel + cs.length) P.length buf nch bps sr s ag
      (by rw [hdata2, (hh str_data).1]; exact hd) (by rw [hdata2, (hh str_fmt).1]; exact hf)
      (by rw [hnext, List.length_append, hdl]; omega)
    rw [hnext] at ag1 e1
    have hP2 : (P ++ c.riff).length % 2 = 0 := by rw [← hnext]; rw [hsz]; exact hnx.2
    obtain ⟨buf2, pos2, ag2, he2, e2⟩ := ih fuel (P ++ c.riff) R buf1 nch bps sr
      { s with pos := (P ++ c.riff).length + 8 }
      (fun c' hc' => hall c' (List.mem_cons_of_mem _ hc')) hP2
      (by simp only [hdata2, List.append_assoc]) hR
      (by rw [List.length_append]; rw [hcb] at hlt; omega) ag1
    have hl2 : (P ++ c.riff).length + (chunksBytes Chunk.riff cs).length
        = P.length + (chunksBytes Chunk.riff (c :: cs)).length := by
      rw [List.length_append, hcb]; omega
    rw [hl2] at ag2 he2 e2
    refine ⟨buf2, pos2, ag2, he2, ?_⟩
    have hf2 : fuel + (c :: cs).length = fuel + cs.length + 1 := by simp; omega
    rw [hf2, e1, toInt32_of_lt _ (by rw [List.length_append]; rw [hcb] at hlt; omega)]
    exact e2



theorem strncmp4_ne (buf : List Byte) (off : Nat) (l1 l2 : List Byte)
    (h : strncmp4 buf off l1 = true) (hne : l1 ≠ l2) : strncmp4 buf off l2 = false := by
  unfold strncmp4 at h ⊢
  rw [decide_eq_true_eq] at h
  rw [decide_eq_false_iff_not, h]
  exact hne

theorem detect_wave (buf : List Byte) (n : Int) (hn : 12 ≤ n)
    (h0 : strncmp4 buf 0 str_RIFF = true) (h8 : strncmp4 buf 8 str_WAVE = true) :
    detect_format buf n = some (FORMAT_WAVE, 0) := by
  unfold detect_format
  rw [if_neg (by omega), strncmp4_ne _ _ _ _ h0 (by decide), strncmp4_ne _ _ _ _ h0 (by decide),
    h0, h8]
  simp
  omega

theorem detect_aiff (buf : List Byte) (n : Int) (hn : 12 ≤ n)
    (h0 : strncmp4 buf 0 str_FORM = true) (h8 : strncmp4 buf 8 str_AIFF = true) :
    detect_format buf n = some (FORMAT_AIFF, 1) := by
  unfold detect_format
  rw [if_neg (by omega), strncmp4_ne _ _ _ _ h0 (by decide), strncmp4_ne _ _ _ _ h0 (by decide),
    strncmp4_ne _ _ _ _ h0 (by decide), h0, h8]
  simp
  omega

theorem strncmp4_take (l : List Byte) (n off : Nat) (lit : List Byte) (h : off + 4 ≤ n) :
    strncmp4 (l.take n) off lit = strncmp4 l off lit := by
  unfold strncmp4
  rw [byteAt_take _ _ _ (by omega), byteAt_take _ _ _ (by omega), byteAt_take _ _ _ (by omega),
    byteAt_take _ _ _ (by omega)]

/-- The first read of the parser on a fresh descriptor. -/
theorem first_read (data : List Byte) (e : Int) :
    (Sys.read { data := data, pos := 0, errno := e } READHDRSIZE) =
      (data.take 46, { data := data, pos := (data.take 46).length, errno := e }) := by
  simp [Sys.read, READHDRSIZE, WHDR2, WHDR1, sizeof_wave, sizeof_nextstep]

theorem agree_first (data : List Byte) (n : Nat) (hn : 12 + n ≤ 46)
    (hl : 20 ≤ data.length) (hn8 : 8 ≤ n):
    Agree (memcpy (data.take 46) 0 (((data.take 46).drop 12).take n)) data 12 8 := by
  intro k hk
  have hlen : 8 ≤ (((data.take 46).drop 12).take n).length := by
    simp only [List.length_take, List.length_drop]; omega
  rw [byteAt_memcpy0 _ _ _ (by omega), byteAt_take _ _ _ (by omega), byteAt_drop,
    byteAt_take _ _ _ (by omega)]

theorem open_wave (fuel : Nat) (fd : Int) (data : List Byte) (e : Int) (p : SoundfileInfo)
    (skip : Int) (hp : p.headersize < 0) (hl : 20 ≤ data.length)
    (h0 : strncmp4 data 0 str_RIFF = true) (h8 : strncmp4 data 8 str_WAVE = true) :
    ∃ buf pos, Agree buf data 12 8 ∧
      (∀ s2, wave_chunks false fuel 12 buf 1 2 44100 { data := data, pos := pos, errno := 0 }
          = .bad s2 →
        open_soundfile_via_fd fuel fd { data := data, pos := 0, errno := e } p skip
          = some (badheader p s2)) ∧
      (∀ hs buf2 nch bps sr s2,
        wave_chunks false fuel 12 buf 1 2 44100 { data := data, pos := pos, errno := 0 }
          = .found hs buf2 nch bps sr s2 →
        open_soundfile_via_fd fuel fd { data := data, pos := 0, errno := e } p skip
          = some (seek_past_header fd p skip (toInt32 (hs + 8)) 0 nch bps (load32 buf2 4) sr
              s2)) := by
  refine ⟨_, (data.take 46).length, agree_first data 8 (by norm_num) hl (by norm_num), ?_⟩
  have hlen : (20 : Int) ≤ ((data.take 46).length : Int) := by
    simp only [List.length_take]; omega
  unfold open_soundfile_via_fd
  simp only [first_read, if_neg (not_le.mpr hp)]
  rw [detect_wave _ _ (by omega) (by rw [strncmp4_take _ _ _ _ (by norm_num)]; exact h0)
    (by rw [strncmp4_take _ _ _ _ (by norm_num)]; exact h8)]
  simp only [FORMAT_WAVE, FORMAT_NEXT, garray_ambigendian, sizeof_wavechunk]
  rw [if_neg (by decide), if_pos trivial, if_neg (by omega)]
  simp only [ne_eq, not_true_eq_false, decide_False, swap4_false]
  constructor
  · intro s2 hw; rw [hw]
  · intro hs buf2 nch bps sr s2 hw; rw [hw]

theorem seek_past_header_zero (fd : Int) (p : SoundfileInfo) (hs : Nat) (be nch bps : Int)
    (bl : Nat) (sr : Int) (s : Sys) (h1 : hs < 2 ^ 32) (h2 : bl < 2 ^ 32) :
    seek_past_header fd p 0 hs be nch bps bl sr s =
      { ret := fd,
        info := { samplerate := sr, channels := nch, bytespersample := bps, headersize := hs,
                  bigendian := be, bytelimit := bl },
        sys := { s with pos := hs } } := by
  unfold seek_past_header
  simp only [mul_zero, zero_add, toInt64_of_lt _ h1, Sys.lseek_ok, ne_eq, not_true_eq_false,
    if_false]
  have : toInt64 0 = 0 := by decide
  rw [this, sub_zero, toInt64_of_lt _ h2, if_neg (by omega)]



theorem riff_body (c : Chunk) (P X : List Byte) (hid : c.id.length = 4) (k : Nat)
    (hk : k < c.body.length) :
    byteAt (P ++ (c.riff ++ X)) (P.length + (8 + k)) = byteAt c.body k := by
  rw [byteAt_append_right]
  unfold Chunk.riff
  have h8 : (c.id ++ store32 c.body.length).length = 8 := by simp [hid, store32_length]
  have e : c.id ++ (store32 c.body.length ++ (c.body ++ c.padding)) ++ X
      = (c.id ++ store32 c.body.length) ++ (c.body ++ (c.padding ++ X)) := by
    simp only [List.append_assoc]
  rw [e, ← h8, byteAt_append_right, byteAt_append_left _ _ _ hk]

theorem riff_load16 (c : Chunk) (P X : List Byte) (hid : c.id.length = 4) (k : Nat)
    (hk : k + 2 ≤ c.body.length) :
    load16 (P ++ (c.riff ++ X)) (P.length + (8 + k)) = load16 c.body k := by
  unfold load16
  rw [riff_body c P X hid k (by omega)]
  have := riff_body c P X hid (k + 1) (by omega)
  rw [show P.length + (8 + (k + 1)) = P.length + (8 + k) + 1 by omega] at this
  rw [this]

theorem riff_load32 (c : Chunk) (P X : List Byte) (hid : c.id.length = 4) (k : Nat)
    (hk : k + 4 ≤ c.body.length) :
    load32 (P ++ (c.riff ++ X)) (P.length + (8 + k)) = load32 c.body k := by
  unfold load32
  rw [riff_body c P X hid k (by omega)]
  have h1 := riff_body c P X hid (k + 1) (by omega)
  have h2 := riff_body c P X hid (k + 2) (by omega)
  have h3 := riff_body c P X hid (k + 3) (by omega)
  rw [show P.length + (8 + (k + 1)) = P.length + (8 + k) + 1 by omega] at h1
  rw [show P.length + (8 + (k + 2)) = P.length + (8 + k) + 2 by omega] at h2
  rw [show P.length + (8 + (k + 3)) = P.length + (8 + k) + 3 by omega] at h3
  rw [h1, h2, h3]



/-- The state of the walk when it arrives at the `fmt ` chunk of a `waveFile`. -/
theorem wave_reach_fmt (fuel : Nat) (fd : Int) (e : Int) (p : SoundfileInfo) (skip : Int)
    (riffsize : Nat) (cs1 : List Chunk) (fmt : Chunk) (cs2 : List Chunk) (datasize : Nat)
    (payload : List Byte) (hp : p.headersize < 0)
    (h1 : ∀ c ∈ cs1, c.Other str_data str_fmt) (hfid : fmt.id.length = 4)
    (hoff : waveDataOffset cs1 fmt cs2 < 2 ^ 31) :
    ∃ buf pos, Agree buf (waveFile riffsize cs1 fmt cs2 datasize payload)
        (12 + (chunksBytes Chunk.riff cs1).length) 8 ∧
      (12 + (chunksBytes Chunk.riff cs1).length) % 2 = 0 ∧
      (∀ s2, wave_chunks false fuel ((12 + (chunksBytes Chunk.riff cs1).length : Nat) : Int) buf
          1 2 44100
          { data := waveFile riffsize cs1 fmt cs2 datasize payload, pos := pos, errno := 0 }
          = .bad s2 →
        open_soundfile_via_fd (fuel + cs1.length) fd
          { data := waveFile riffsize cs1 fmt cs2 datasize payload, pos := 0, errno := e } p skip
          = some (badheader p s2)) ∧
      (∀ hs buf2 nch bps sr s2,
        wave_chunks false fuel ((12 + (chunksBytes Chunk.riff cs1).length : Nat) : Int) buf
          1 2 44100
          { data := waveFile riffsize cs1 fmt cs2 datasize payload, pos := pos, errno := 0 }
          = .found hs buf2 nch bps sr s2 →
        open_soundfile_via_fd (fuel + cs1.length) fd
          { data := waveFile riffsize cs1 fmt cs2 datasize payload, pos := 0, errno := e } p skip
          = some (seek_past_header fd p skip (toInt32 (hs + 8)) 0 nch bps (load32 buf2 4) sr
              s2)) := by
  set data := waveFile riffsize cs1 fmt cs2 datasize payload with hdata
  have hlen : data.length = 12 + (chunksBytes Chunk.riff cs1).length + fmt.riff.length
      + (chunksBytes Chunk.riff cs2).length + 8 + payload.length := by
    simp only [hdata, waveFile, List.length_append, store32_length, str_RIFF, str_WAVE,
      str_data, List.length_cons, List.length_nil]
    omega
  have hfl : 8 ≤ fmt.riff.length := by
    unfold Chunk.riff; simp only [List.length_append, store32_length]; omega
  obtain ⟨buf0, pos0, ag0, hbad, hfound⟩ := open_wave (fuel + cs1.length) fd data e p skip hp
    (by omega)
    (by rw [hdata, waveFile, strncmp4_left str_RIFF _ _ (by rfl)]; decide)
    (by
      have := strncmp4_append (str_RIFF ++ store32 riffsize) (str_WAVE ++
        (chunksBytes Chunk.riff cs1 ++ (fmt.riff ++ (chunksBytes Chunk.riff cs2 ++
        (str_data ++ (store32 datasize ++ payload)))))) 0 str_WAVE
      rw [show (str_RIFF ++ store32 riffsize).length + 0 = 8 from rfl, List.append_assoc] at this
      rw [hdata, waveFile, this, strncmp4_left str_WAVE _ _ (by rfl)]; decide)
  obtain ⟨buf1, pos1, ag1, he1, e1⟩ := wave_walk cs1 fuel
    (str_RIFF ++ (store32 riffsize ++ str_WAVE))
    (fmt.riff ++ (chunksBytes Chunk.riff cs2 ++ (str_data ++ (store32 datasize ++ payload))))
    buf0 1 2 44100 { data := data, pos := pos0, errno := 0 } h1
    (by rw [show (str_RIFF ++ (store32 riffsize ++ str_WAVE)).length = 12 from rfl])
    (by simp only [hdata, waveFile, List.append_assoc])
    (by simp only [List.length_append]; omega)
    (by
      rw [show (str_RIFF ++ (store32 riffsize ++ str_WAVE)).length = 12 from rfl]
      unfold waveDataOffset at hoff; omega)
    ag0
  rw [show (str_RIFF ++ (store32 riffsize ++ str_WAVE)).length = 12 from rfl] at ag1 he1 e1
  simp only [Nat.cast_ofNat] at e1
  refine ⟨buf1, pos1, ag1, he1, ?_, ?_⟩
  · intro s2 hw
    exact hbad s2 (by rw [e1]; exact hw)
  · intro hs buf2 nch bps sr s2 hw
    exact hfound hs buf2 nch bps sr s2 (by rw [e1]; exact hw)



theorem waveFile_split (riffsize : Nat) (cs1 : List Chunk) (fmt : Chunk) (cs2 : List Chunk)
    (datasize : Nat) (payload : List Byte) :
    waveFile riffsize cs1 fmt cs2 datasize payload =
      (str_RIFF ++ (store32 riffsize ++ str_WAVE) ++ chunksBytes Chunk.riff cs1) ++
        (fmt.riff ++ (chunksBytes Chunk.riff cs2 ++ (str_data ++ (store32 datasize ++ payload))))
      ∧ (str_RIFF ++ (store32 riffsize ++ str_WAVE) ++ chunksBytes Chunk.riff cs1).length
        = 12 + (chunksBytes Chunk.riff cs1).length
      ∧ (waveFile riffsize cs1 fmt cs2 datasize payload).length
        = waveDataOffset cs1 fmt cs2 + payload.length := by
  refine ⟨by simp only [waveFile, List.append_assoc], ?_, ?_⟩
  · rw [List.length_append, show (str_RIFF ++ (store32 riffsize ++ str_WAVE)).length = 12 from rfl]
  · simp only [waveFile, waveDataOffset, List.length_append, store32_length, str_RIFF, str_WAVE,
      str_data, List.length_cons, List.length_nil]
    omega

/-- A `fmt ` chunk with a bit depth other than 16, 24 and 32 ends the parse at
`badheader`. -/
theorem wave_parse_bad (k : Nat) (fd : Int) (e : Int) (p : SoundfileInfo) (skip : Int)
    (riffsize : Nat) (cs1 : List Chunk) (fmt : Chunk) (cs2 : List Chunk) (datasize : Nat)
    (payload : List Byte) (hp : p.headersize < 0)
    (h1 : ∀ c ∈ cs1, c.Other str_data str_fmt) (hfid : fmt.id = str_fmt)
    (hfb : 16 ≤ fmt.body.length) (hfb2 : fmt.body.length < 2 ^ 32)
    (hoff : waveDataOffset cs1 fmt cs2 < 2 ^ 31)
    (n1 : load16 fmt.body 14 ≠ 16) (n2 : load16 fmt.body 14 ≠ 24) (n3 : load16 fmt.body 14 ≠ 32) :
    ∃ pos, open_soundfile_via_fd (k + 1 + cs1.length) fd
      { data := waveFile riffsize cs1 fmt cs2 datasize payload, pos := 0, errno := e } p skip
      = some { ret := -1, info := p,
               sys := { data := waveFile riffsize cs1 fmt cs2 datasize payload, pos := pos,
                        errno := EIO } } := by
  have hid4 : fmt.id.length = 4 := by rw [hfid]; rfl
  obtain ⟨buf, pos, ag, he, hbad, -⟩ := wave_reach_fmt (k + 1) fd e p skip riffsize cs1 fmt cs2
    datasize payload hp h1 hid4 hoff
  obtain ⟨hsplit, hPl, hlen⟩ := waveFile_split riffsize cs1 fmt cs2 datasize payload
  set data := waveFile riffsize cs1 fmt cs2 datasize payload with hdata
  set P := str_RIFF ++ (store32 riffsize ++ str_WAVE) ++ chunksBytes Chunk.riff cs1 with hP
  set X := chunksBytes Chunk.riff cs2 ++ (str_data ++ (store32 datasize ++ payload)) with hX
  have hh := riff_header fmt P X hid4 hfb2
  have hrl := fmt.riff_length hid4
  have hbits : load16 data (12 + (chunksBytes Chunk.riff cs1).length + 22) = load16 fmt.body 14 := by
    have := riff_load16 fmt P X hid4 14 (by omega)
    rw [hPl, ← hsplit] at this
    rw [← this]
  have hst := (wave_step_fmt k (12 + (chunksBytes Chunk.riff cs1).length) buf 1 2 44100
    { data := data, pos := pos, errno := 0 } ag
    (by
      have := (hh str_data).1
      rw [hPl, ← hsplit] at this
      rw [this, hfid]; decide)
    (by
      have := (hh str_fmt).1
      rw [hPl, ← hsplit] at this
      rw [this, hfid]; decide)
    (by
      show 12 + (chunksBytes Chunk.riff cs1).length + 24 ≤ data.length
      rw [hlen]; unfold waveDataOffset; omega)).1
    (by rw [hbits]; exact n1) (by rw [hbits]; exact n2) (by rw [hbits]; exact n3)
  exact ⟨_, hbad _ hst⟩



/-- The parse of a `waveFile` whose `fmt ` chunk has bit depth 16, 24 or 32. -/
theorem wave_parse_ok (k : Nat) (fd : Int) (e : Int) (p : SoundfileInfo)
    (riffsize : Nat) (cs1 : List Chunk) (fmt : Chunk) (cs2 : List Chunk) (datasize : Nat)
    (payload : List Byte) (hp : p.headersize < 0)
    (h1 : ∀ c ∈ cs1, c.Other str_data str_fmt) (h2 : ∀ c ∈ cs2, c.Other str_data str_fmt)
    (hfid : fmt.id = str_fmt)
    (hfb : 16 ≤ fmt.body.length) (hfb2 : fmt.body.length < 2 ^ 32) (hds : datasize < 2 ^ 32)
    (hoff : waveDataOffset cs1 fmt cs2 < 2 ^ 31)
    (b : Int) (hb : (b = 2 ∧ load16 fmt.body 14 = 16) ∨ (b = 3 ∧ load16 fmt.body 14 = 24) ∨
        (b = 4 ∧ load16 fmt.body 14 = 32)) :
    open_soundfile_via_fd (k + 1 + cs2.length + 1 + cs1.length) fd
      { data := waveFile riffsize cs1 fmt cs2 datasize payload, pos := 0, errno := e } p 0
      = some { ret := fd,
               info := { samplerate := toInt32 (load32 fmt.body 4),
                         channels := load16 fmt.body 2,
                         bytespersample := b,
                         headersize := waveDataOffset cs1 fmt cs2,
                         bigendian := 0,
                         bytelimit := datasize },
               sys := { data := waveFile riffsize cs1 fmt cs2 datasize payload,
                        pos := waveDataOffset cs1 fmt cs2, errno := 0 } } := by
  have hid4 : fmt.id.length = 4 := by rw [hfid]; rfl
  obtain ⟨buf, pos, ag, he, -, hfound⟩ := wave_reach_fmt (k + 1 + cs2.length + 1) fd e p 0
    riffsize cs1 fmt cs2 datasize payload hp h1 hid4 hoff
  obtain ⟨hsplit, hPl, hlen⟩ := waveFile_split riffsize cs1 fmt cs2 datasize payload
  set data := waveFile riffsize cs1 fmt cs2 datasize payload with hdata
  set P := str_RIFF ++ (store32 riffsize ++ str_WAVE) ++ chunksBytes Chunk.riff cs1 with hP
  set X := chunksBytes Chunk.riff cs2 ++ (str_data ++ (store32 datasize ++ payload)) with hX
  set h := 12 + (chunksBytes Chunk.riff cs1).length with hh0
  have hh := riff_header fmt P X hid4 hfb2
  have hrl := fmt.riff_length hid4
  have hbits : load16 data (h + 22) = load16 fmt.body 14 := by
    have := riff_load16 fmt P X hid4 14 (by omega)
    rw [hPl, ← hsplit] at this
    rw [← this]
  have hch : load16 data (h + 10) = load16 fmt.body 2 := by
    have := riff_load16 fmt P X hid4 2 (by omega)
    rw [hPl, ← hsplit] at this
    rw [← this]
  have hsr : load32 data (h + 12) = load32 fmt.body 4 := by
    have := riff_load32 fmt P X hid4 4 (by omega)
    rw [hPl, ← hsplit] at this
    rw [← this]
  have hsz : load32 data (h + 4) = fmt.body.length := by
    have := (hh str_data).2
    rw [hPl, ← hsplit] at this
    exact this
  have hnx := nextChunk_even h fmt.body.length he
  have hnext : nextChunk h (load32 data (h + 4)) = h + fmt.riff.length := by
    rw [hsz, hnx.1, hrl]
  have hwo : waveDataOffset cs1 fmt cs2
      = h + fmt.riff.length + (chunksBytes Chunk.riff cs2).length + 8 := by
    unfold waveDataOffset; omega
  obtain ⟨buf2, ag2, e2⟩ := (wave_step_fmt (k + 1 + cs2.length) h buf 1 2 44100
    { data := data, pos := pos, errno := 0 } ag
    (by
      have := (hh str_data).1
      rw [hPl, ← hsplit] at this
      rw [this, hfid]; decide)
    (by
      have := (hh str_fmt).1
      rw [hPl, ← hsplit] at this
      rw [this, hfid]; decide)
    (by
      show h + 24 ≤ data.length
      rw [hlen, hwo]; omega)).2
    (by
      show nextChunk h (load32 data (h + 4)) + 8 ≤ data.length
      rw [hnext, hlen, hwo]; omega)
    b (by rw [hbits]; exact hb)
  simp only [] at ag2 e2
  rw [hnext] at ag2 e2
  rw [hch, hsr, toInt32_of_lt _ (by omega : h + fmt.riff.length < 2 ^ 31)] at e2
  -- the chunks between `fmt ` and `data`
  have hPl2 : (P ++ fmt.riff).length = h + fmt.riff.length := by
    rw [List.length_append, hPl]
  obtain ⟨buf3, pos3, ag3, -, e3⟩ := wave_walk cs2 (k + 1) (P ++ fmt.riff)
    (str_data ++ (store32 datasize ++ payload)) buf2 (load16 fmt.body 2) b
    (toInt32 (load32 fmt.body 4))
    { data := data, pos := h + fmt.riff.length + 8, errno := 0 } h2
    (by rw [hPl2, ← hnext, hsz]; exact hnx.2)
    (by show data = _; rw [hsplit]; simp only [hX, List.append_assoc])
    (by simp only [List.length_append, store32_length, str_data, List.length_cons,
          List.length_nil]; omega)
    (by rw [hPl2]; omega)
    (by rw [hPl2]; exact ag2)
  rw [hPl2] at ag3 e3
  simp only [] at ag3 e3
  set h3 := h + fmt.riff.length + (chunksBytes Chunk.riff cs2).length with hh3
  -- the data chunk
  have hsplit3 : data = (P ++ fmt.riff ++ chunksBytes Chunk.riff cs2) ++
      (str_data ++ (store32 datasize ++ payload)) := by
    rw [hsplit]; simp only [hX, List.append_assoc]
  have hPl3 : (P ++ fmt.riff ++ chunksBytes Chunk.riff cs2).length = h3 := by
    rw [List.length_append, hPl2]
  have hdid : strncmp4 data h3 str_data = true := by
    have := strncmp4_append (P ++ fmt.riff ++ chunksBytes Chunk.riff cs2)
      (str_data ++ (store32 datasize ++ payload)) 0 str_data
    rw [hPl3, Nat.add_zero, ← hsplit3] at this
    rw [this, strncmp4_left str_data _ _ (by rfl)]; decide
  have hdsz : load32 data (h3 + 4) = datasize := by
    have := load32_append (P ++ fmt.riff ++ chunksBytes Chunk.riff cs2)
      (str_data ++ (store32 datasize ++ payload)) 4
    rw [hPl3, ← hsplit3] at this
    rw [this, load32_append4 str_data _ (by rfl), load32_store32 _ _ hds]
  have e4 := wave_step_data k h3 buf3 (load16 fmt.body 2) b (toInt32 (load32 fmt.body 4))
    { data := data, pos := pos3, errno := 0 } ag3 hdid
  have hall := hfound _ _ _ _ _ _ (by rw [e2, e3, e4])
  rw [hall, ag3.load32 4 (by norm_num), hdsz]
  have q1 : h3 + 8 < 2 ^ 31 := by omega
  have q3 : h3 + 8 < 2 ^ 32 := by omega
  have hfin := seek_past_header_zero fd p (h3 + 8) 0 (load16 fmt.body 2) b datasize
    (toInt32 (load32 fmt.body 4)) { data := data, pos := pos3, errno := 0 } q3 hds
  have h8 : toInt32 ((h3 : Int) + 8) = ((h3 + 8 : Nat) : Int) := by
    rw [← toInt32_of_lt (h3 + 8) q1]; push_cast; rfl
  rw [h8, hfin, hwo]


/-! ## The walk over the chunks of an AIFF file -/


theorem byteAt_memcpy_mid (buf src : List Byte) (off k : Nat) (ho : off ≤ buf.length)
    (hk : k < src.length) : byteAt (memcpy buf off src) (off + k) = byteAt src k := by
  unfold memcpy
  have hl : (buf.take off).length = off := by simp [List.length_take]; omega
  have := byteAt_append_right (buf.take off) (src ++ buf.drop (off + src.length)) k
  rw [hl] at this
  rw [List.append_assoc, this, byteAt_append_left _ _ _ hk]

theorem byteAt_memcpy_after (buf src : List Byte) (off k : Nat) (ho : off ≤ buf.length)
    (hk : src.length ≤ k) : byteAt (memcpy buf off src) (off + k) = byteAt buf (off + k) := by
  unfold memcpy
  have hl : (buf.take off ++ src).length = off + src.length := by
    simp [List.length_take]; omega
  have : off + k = (buf.take off ++ src).length + (k - src.length) := by rw [hl]; omega
  rw [this, byteAt_append_right, byteAt_drop]
  congr 1; omega

theorem byteAt_memcpy_before (buf src : List Byte) (off k : Nat) (hk : k < off)
    (ho : off ≤ buf.length) : byteAt (memcpy buf off src) k = byteAt buf k := by
  unfold memcpy
  rw [List.append_assoc, byteAt_append_left _ _ _ (by simp [List.length_take]; omega),
    byteAt_take _ _ _ hk]

/-- The mantissa that `readaiffsamprate` loads after the in-place swap. -/
theorem load64_swapstring (shit : List Byte) (off : Nat) (hl : off + 4 ≤ shit.length) :
    load64 (swapstring shit off true) off = be32 shit off + 2 ^ 32 * load32 shit (off + 4) := by
  unfold load64 load32 swapstring be32
  simp only [if_true]
  have h0 := byteAt_memcpy_mid shit [byteAt shit (off + 3), byteAt shit (off + 2),
    byteAt shit (off + 1), byteAt shit off] off 0 (by omega) (by simp)
  have h1 := byteAt_memcpy_mid shit [byteAt shit (off + 3), byteAt shit (off + 2),
    byteAt shit (off + 1), byteAt shit off] off 1 (by omega) (by simp)
  have h2 := byteAt_memcpy_mid shit [byteAt shit (off + 3), byteAt shit (off + 2),
    byteAt shit (off + 1), byteAt shit off] off 2 (by omega) (by simp)
  have h3 := byteAt_memcpy_mid shit [byteAt shit (off + 3), byteAt shit (off + 2),
    byteAt shit (off + 1), byteAt shit off] off 3 (by omega) (by simp)
  have h4 := byteAt_memcpy_after shit [byteAt shit (off + 3), byteAt shit (off + 2),
    byteAt shit (off + 1), byteAt shit off] off 4 (by omega) (by simp)
  have h5 := byteAt_memcpy_after shit [byteAt shit (off + 3), byteAt shit (off + 2),
    byteAt shit (off + 1), byteAt shit off] off 5 (by omega) (by simp)
  have h6 := byteAt_memcpy_after shit [byteAt shit (off + 3), byteAt shit (off + 2),
    byteAt shit (off + 1), byteAt shit off] off 6 (by omega) (by simp)
  have h7 := byteAt_memcpy_after shit [byteAt shit (off + 3), byteAt shit (off + 2),
    byteAt shit (off + 1), byteAt shit off] off 7 (by omega) (by simp)
  have m : ∀ x, byteAt [byteAt shit (off + 3), byteAt shit (off + 2),
      byteAt shit (off + 1), byteAt shit off] x = ([byteAt shit (off + 3), byteAt shit (off + 2),
      byteAt shit (off + 1), byteAt shit off] : List Nat).getD x 0 % 256 := fun x => rfl
  simp only [Nat.add_zero, m, List.getD_cons_zero, List.getD_cons_succ] at h0 h1 h2 h3
  have b0 := byteAt_lt shit off
  have b1 := byteAt_lt shit (off + 1)
  have b2 := byteAt_lt shit (off + 2)
  have b3 := byteAt_lt shit (off + 3)
  rw [Nat.mod_eq_of_lt b3] at h0
  rw [Nat.mod_eq_of_lt b2] at h1
  rw [Nat.mod_eq_of_lt b1] at h2
  rw [Nat.mod_eq_of_lt b0] at h3
  simp only [Nat.add_assoc, Nat.reduceAdd] at h4 h5 h6 h7 ⊢
  rw [h0, h1, h2, h3, h4, h5, h6, h7]
  omega

/-- The value of `readaiffsamprate` with `swap` set, in terms of the bytes of the field:
the 32-bit big-endian mantissa, the four bytes after it, and the exponent byte. -/
theorem readaiffsamprate_eq (shit : List Byte) (off : Nat) (hl : off + 6 ≤ shit.length) :
    readaiffsamprate shit off true =
      ((shift_and_round (be32 shit (off + 2) + 2 ^ 32 * load32 shit (off + 6))
        (toUInt8 (30 - toInt8 (byteAt shit (off + 1)))) : Nat) : ℚ) := by
  unfold readaiffsamprate
  simp only []
  rw [load64_swapstring shit (off + 2) (by omega)]
  have : byteAt (swapstring shit (off + 2) true) (off + 1) = byteAt shit (off + 1) := by
    unfold swapstring
    simp only [if_true]
    exact byteAt_memcpy_before _ _ _ _ (by omega) (by omega)
  rw [this]



theorem Agree.be32 {buf data : List Byte} {h n : Nat} (a : Agree buf data h n) (k : Nat)
    (hk : k + 4 ≤ n) : be32 buf k = be32 data (h + k) := by
  unfold Soundfile.be32
  rw [a k (by omega), a (k + 1) (by omega), a (k + 2) (by omega), a (k + 3) (by omega)]
  simp only [Nat.add_assoc]

theorem Agree.be16 {buf data : List Byte} {h n : Nat} (a : Agree buf data h n) (k : Nat)
    (hk : k + 2 ≤ n) : be16 buf k = be16 data (h + k) := by
  unfold Soundfile.be16
  rw [a k (by omega), a (k + 1) (by omega)]
  simp only [Nat.add_assoc]

theorem be16_lt (buf : List Byte) (off : Nat) : be16 buf off < 2 ^ 16 := by
  have h0 := byteAt_lt buf off
  have h1 := byteAt_lt buf (off + 1)
  unfold be16; omega

theorem be32_lt (buf : List Byte) (off : Nat) : be32 buf off < 2 ^ 32 := by
  have h0 := byteAt_lt buf off
  have h1 := byteAt_lt buf (off + 1)
  have h2 := byteAt_lt buf (off + 2)
  have h3 := byteAt_lt buf (off + 3)
  unfold be32; omega

/-- Two byte sequences that hold the same ten bytes give the same sample rate. -/
theorem readaiffsamprate_congr (a b : List Byte) (oa ob : Nat) (ha : oa + 6 ≤ a.length)
    (hb : ob + 6 ≤ b.length) (h : ∀ k, k < 10 → byteAt a (oa + k) = byteAt b (ob + k)) :
    readaiffsamprate a oa true = readaiffsamprate b ob true := by
  rw [readaiffsamprate_eq a oa ha, readaiffsamprate_eq b ob hb]
  have e1 : byteAt a (oa + 1) = byteAt b (ob + 1) := h 1 (by norm_num)
  have e2 : be32 a (oa + 2) = be32 b (ob + 2) := by
    unfold be32
    have h2 := h 2 (by norm_num)
    have h3 := h 3 (by norm_num)
    have h4 := h 4 (by norm_num)
    have h5 := h 5 (by norm_num)
    simp only [Nat.add_assoc, Nat.reduceAdd] at h2 h3 h4 h5 ⊢
    rw [h2, h3, h4, h5]
  have e3 : load32 a (oa + 6) = load32 b (ob + 6) := by
    unfold load32
    have h6 := h 6 (by norm_num)
    have h7 := h 7 (by norm_num)
    have h8 := h 8 (by norm_num)
    have h9 := h 9 (by norm_num)
    simp only [Nat.add_assoc, Nat.reduceAdd] at h6 h7 h8 h9 ⊢
    rw [h6, h7, h8, h9]
  rw [e1, e2, e3]

theorem aiff_step_ssnd (fuel h : Nat) (buf : List Byte) (nch bps sr : Int) (s : Sys)
    (ag : Agree buf s.data h 8) (hd : strncmp4 s.data h str_SSND = true) :
    aiff_chunks true (fuel + 1) h buf nch bps sr s = .found h buf nch bps sr s := by
  rw [aiff_chunks, ag.strncmp4 (by norm_num), hd]
  simp

theorem aiff_step_skip (fuel h : Nat) (buf : List Byte) (nch bps sr : Int) (s : Sys)
    (ag : Agree buf s.data h 8)
    (hd : strncmp4 s.data h str_SSND = false) (hf : strncmp4 s.data h str_COMM = false)
    (hlen : nextChunk h (be32 s.data (h + 4)) + 16 ≤ s.data.length) :
    ∃ buf2, Agree buf2 s.data (nextChunk h (be32 s.data (h + 4))) 8 ∧
      aiff_chunks true (fuel + 1) h buf nch bps sr s =
        aiff_chunks true fuel (toInt32 (nextChunk h (be32 s.data (h + 4)))) buf2 nch bps sr
          { s with pos := nextChunk h (be32 s.data (h + 4)) + 16 } := by
  set t := nextChunk h (be32 s.data (h + 4)) with ht
  have hr := Sys.read_ok { s with pos := t } 16 hlen
  have ag2 : Agree (memcpy buf 0 (Sys.read { s with pos := t } 16).1) s.data t 8 := by
    intro k hk
    exact agree_memcpy hr.2.1 hr.1 k (by omega)
  refine ⟨_, ag2, ?_⟩
  rw [aiff_chunks]
  rw [ag.strncmp4 (by norm_num), ag.strncmp4 (by norm_num), hd, hf, swap4_load32,
    ag.be32 4 (by norm_num)]
  simp only [Bool.false_eq_true, if_false]
  rw [seekto_eq, ← ht, Sys.lseek_ok]
  simp only [ne_eq, not_true_eq_false, if_false, sizeof_datachunk]
  rw [if_neg (by omega), hr.2.2]

theorem aiff_step_comm (fuel h : Nat) (buf : List Byte) (nch bps sr : Int) (s : Sys)
    (ag : Agree buf s.data h 8)
    (hd : strncmp4 s.data h str_SSND = false) (hf : strncmp4 s.data h str_COMM = true)
    (hfmt : h + 26 ≤ s.data.length) :
    (be16 s.data (h + 14) ≠ 16 → be16 s.data (h + 14) ≠ 24 →
      aiff_chunks true (fuel + 1) h buf nch bps sr s = .bad { s with pos := h + 26 }) ∧
    (nextChunk h (be32 s.data (h + 4)) + 16 ≤ s.data.length →
      ∀ b : Int, (b = 2 ∧ be16 s.data (h + 14) = 16) ∨ (b = 3 ∧ be16 s.data (h + 14) = 24) →
      ∃ buf2, Agree buf2 s.data (nextChunk h (be32 s.data (h + 4))) 8 ∧
        aiff_chunks true (fuel + 1) h buf nch bps sr s =
          aiff_chunks true fuel (toInt32 (nextChunk h (be32 s.data (h + 4)))) buf2
            (be16 s.data (h + 8)) b (d2i (readaiffsamprate s.data (h + 16) true))
            { s with pos := nextChunk h (be32 s.data (h + 4)) + 16 }) := by
  set t := nextChunk h (be32 s.data (h + 4)) with ht
  have hr0 := Sys.read_ok { s with pos := h + 8 } 18
    (by simpa using (by omega : h + 8 + 18 ≤ s.data.length))
  have ag0 : Agree (memcpy buf 0 (Sys.read { s with pos := h + 8 } 18).1) s.data (h + 8) 18 :=
    agree_memcpy hr0.2.1 hr0.1
  have e6 : be16 (memcpy buf 0 (Sys.read { s with pos := h + 8 } 18).1) 6
      = be16 s.data (h + 14) := by rw [ag0.be16 6 (by norm_num)]
  have e0 : be16 (memcpy buf 0 (Sys.read { s with pos := h + 8 } 18).1) 0
      = be16 s.data (h + 8) := by rw [ag0.be16 0 (by norm_num)]
  have hml : 18 ≤ (memcpy buf 0 (Sys.read { s with pos := h + 8 } 18).1).length := by
    unfold memcpy
    simp only [List.take_zero, List.nil_append, List.length_append, hr0.1]
    omega
  have e8 : readaiffsamprate (memcpy buf 0 (Sys.read { s with pos := h + 8 } 18).1) 8 true
      = readaiffsamprate s.data (h + 16) true := by
    apply readaiffsamprate_congr _ _ _ _ (by omega) (by omega)
    intro k hk
    rw [ag0 (8 + k) (by omega)]
    congr 1; omega
  have hw : aiff_comm true (h : Int) buf s =
      (if be16 s.data (h + 14) = 16 then
          some (memcpy buf 0 (Sys.read { s with pos := h + 8 } 18).1,
            ((be16 s.data (h + 8) : Nat) : Int), (2 : Int),
            d2i (readaiffsamprate s.data (h + 16) true))
        else if be16 s.data (h + 14) = 24 then
          some (memcpy buf 0 (Sys.read { s with pos := h + 8 } 18).1,
            ((be16 s.data (h + 8) : Nat) : Int), (3 : Int),
            d2i (readaiffsamprate s.data (h + 16) true))
        else none, { s with pos := h + 26 }) := by
    unfold aiff_comm
    have hl : ((h : Int) + 8) = ((h + 8 : Nat) : Int) := by push_cast; rfl
    have hlt : ¬ ((Sys.read { s with pos := h + 8 } 18).1.length < 18) := by
      have := hr0.1; omega
    simp only [hl, Sys.lseek_ok, ne_eq, not_true_eq_false, if_false, sizeof_comm, hlt,
      swap2_load16, e6, e0, e8]
    rw [hr0.2.2]
    have : ((be16 s.data (h + 14) : Nat) : Int) = 16 ↔ be16 s.data (h + 14) = 16 := by omega
    have : ((be16 s.data (h + 14) : Nat) : Int) = 24 ↔ be16 s.data (h + 14) = 24 := by omega
    by_cases c1 : be16 s.data (h + 14) = 16
    · simp [c1]
    · by_cases c2 : be16 s.data (h + 14) = 24
      · simp [c2]
      · simp [c1, c2, *]
  constructor
  · intro n1 n2
    rw [aiff_chunks, ag.strncmp4 (by norm_num), ag.strncmp4 (by norm_num), hd, hf, hw]
    simp [n1, n2]
  · intro hlen b hb
    have hr := Sys.read_ok { s with pos := t } 16 hlen
    have ag2 : Agree (memcpy (memcpy buf 0 (Sys.read { s with pos := h + 8 } 18).1) 0
        (Sys.read { s with pos := t } 16).1) s.data t 8 := by
      intro k hk
      exact agree_memcpy hr.2.1 hr.1 k (by omega)
    refine ⟨_, ag2, ?_⟩
    rw [aiff_chunks, ag.strncmp4 (by norm_num), ag.strncmp4 (by norm_num), hd, hf, hw,
      swap4_load32, ag.be32 4 (by norm_num)]
    simp only [Bool.false_eq_true, if_false, if_true]
    rw [seekto_eq, ← ht]
    rcases hb with ⟨rfl, hb⟩ | ⟨rfl, hb⟩ <;>
    · simp only [hb, if_true, Nat.reduceEqDiff, if_false]
      rw [Sys.lseek_ok]
      simp only [ne_eq, not_true_eq_false, if_false, sizeof_datachunk]
      rw [if_neg (by have := hr.1; simp only [] at this ⊢; omega)]
      rw [hr.2.2]



theorem store32be_length (n : Nat) : (store32be n).length = 4 := rfl

theorem be32_store32be (n : Nat) (rest : List Byte) (hn : n < 2 ^ 32) :
    be32 (store32be n ++ rest) 0 = n := by
  simp [be32, store32be, byteAt]
  omega

theorem be32_append (P X : List Byte) (k : Nat) :
    be32 (P ++ X) (P.length + k) = be32 X k := by
  unfold be32
  simp only [Nat.add_assoc, byteAt_append_right]

theorem be16_append (P X : List Byte) (k : Nat) :
    be16 (P ++ X) (P.length + k) = be16 X k := by
  unfold be16
  simp only [Nat.add_assoc, byteAt_append_right]

theorem be32_append4 (a X : List Byte) (h : a.length = 4) :
    be32 (a ++ X) 4 = be32 X 0 := by
  have := be32_append a X 0
  rw [h] at this; exact this

theorem Chunk.iff_length (c : Chunk) (hid : c.id.length = 4) :
    c.iff.length = 8 + c.body.length + c.body.length % 2 := by
  unfold Chunk.iff Chunk.padding
  split_ifs with h <;> simp [hid, store32be_length] <;> omega

/-- The chunk header that the parser finds at the start of a chunk laid out by IFF. -/
theorem iff_header (c : Chunk) (P X : List Byte) (hid : c.id.length = 4)
    (hb : c.body.length < 2 ^ 32) (lit : List Byte) :
    strncmp4 (P ++ (c.iff ++ X)) P.length lit = strncmp4 c.id 0 lit ∧
      be32 (P ++ (c.iff ++ X)) (P.length + 4) = c.body.length := by
  constructor
  · have := strncmp4_append P (c.iff ++ X) 0 lit
    rw [Nat.add_zero] at this
    rw [this]
    unfold Chunk.iff
    rw [List.append_assoc, strncmp4_left _ _ _ hid]
  · rw [be32_append]
    unfold Chunk.iff
    rw [List.append_assoc, be32_append4 _ _ hid, List.append_assoc, be32_store32be _ _ hb]

theorem iff_body (c : Chunk) (P X : List Byte) (hid : c.id.length = 4) (k : Nat)
    (hk : k < c.body.length) :
    byteAt (P ++ (c.iff ++ X)) (P.length + (8 + k)) = byteAt c.body k := by
  rw [byteAt_append_right]
  unfold Chunk.iff
  have h8 : (c.id ++ store32be c.body.length).length = 8 := by simp [hid, store32be_length]
  have e : c.id ++ (store32be c.body.length ++ (c.body ++ c.padding)) ++ X
      = (c.id ++ store32be c.body.length) ++ (c.body ++ (c.padding ++ X)) := by
    simp only [List.append_assoc]
  rw [e, ← h8, byteAt_append_right, byteAt_append_left _ _ _ hk]

theorem iff_be16 (c : Chunk) (P X : List Byte) (hid : c.id.length = 4) (k : Nat)
    (hk : k + 2 ≤ c.body.length) :
    be16 (P ++ (c.iff ++ X)) (P.length + (8 + k)) = be16 c.body k := by
  unfold be16
  rw [iff_body c P X hid k (by omega)]
  have := iff_body c P X hid (k + 1) (by omega)
  rw [show P.length + (8 + (k + 1)) = P.length + (8 + k) + 1 by omega] at this
  rw [this]

theorem aiff_walk (cs : List Chunk) : ∀ (fuel : Nat) (P R buf : List Byte) (nch bps sr : Int)
    (s : Sys), (∀ c ∈ cs, c.Other str_SSND str_COMM) → P.length % 2 = 0 →
    s.data = P ++ (chunksBytes Chunk.iff cs ++ R) → 16 ≤ R.length →
    P.length + (chunksBytes Chunk.iff cs).length < 2 ^ 31 →
    Agree buf s.data P.length 8 →
    ∃ buf2 pos2, Agree buf2 s.data (P.length + (chunksBytes Chunk.iff cs).length) 8 ∧
      (P.length + (chunksBytes Chunk.iff cs).length) % 2 = 0 ∧
      aiff_chunks true (fuel + cs.length) P.length buf nch bps sr s =
        aiff_chunks true fuel ((P.length + (chunksBytes Chunk.iff cs).length : Nat) : Int)
          buf2 nch bps sr { s with pos := pos2 } := by
  induction cs with
  | nil =>
    intro fuel P R buf nch bps sr s _ he _ _ _ ag
    exact ⟨buf, s.pos, by simpa [chunksBytes] using ag, by simpa [chunksBytes] using he,
      by simp [chunksBytes]⟩
  | cons c cs ih =>
    intro fuel P R buf nch bps sr s hall he hdata hR hlt ag
    have hc := hall c (List.mem_cons_self _ _)
    obtain ⟨hid, hb, hd, hf⟩ := hc
    have hdata2 : s.data = P ++ (c.iff ++ (chunksBytes Chunk.iff cs ++ R)) := by
      rw [hdata]; simp [chunksBytes]
    have hh := iff_header c P (chunksBytes Chunk.iff cs ++ R) hid hb
    have hsz : be32 s.data (P.length + 4) = c.body.length := by rw [hdata2]; exact (hh []).2
    have hlen := c.iff_length hid
    have hnx := nextChunk_even P.length c.body.length he
    have hcb : (chunksBytes Chunk.iff (c :: cs)).length
        = c.iff.length + (chunksBytes Chunk.iff cs).length := by simp [chunksBytes]
    have hnext : nextChunk P.length (be32 s.data (P.length + 4)) = (P ++ c.iff).length := by
      rw [hsz, hnx.1, List.length_append, hlen]
    have hdl : s.data.length = P.length + c.iff.length + (chunksBytes Chunk.iff cs).length
        + R.length := by
      rw [hdata2]; simp only [List.length_append]; omega
    obtain ⟨buf1, ag1, e1⟩ := aiff_step_skip (fuel + cs.length) P.length buf nch bps sr s ag
      (by rw [hdata2, (hh str_SSND).1]; exact hd) (by rw [hdata2, (hh str_COMM).1]; exact hf)
      (by rw [hnext, List.length_append, hdl]; omega)
    rw [hnext] at ag1 e1
    have hP2 : (P ++ c.iff).length % 2 = 0 := by rw [← hnext]; rw [hsz]; exact hnx.2
    obtain ⟨buf2, pos2, ag2, he2, e2⟩ := ih fuel (P ++ c.iff) R buf1 nch bps sr
      { s with pos := (P ++ c.iff).length + 16 }
      (fun c' hc' => hall c' (List.mem_cons_of_mem _ hc')) hP2
      (by simp only [hdata2, List.append_assoc]) hR
      (by rw [List.length_append]; rw [hcb] at hlt; omega) ag1
    have hl2 : (P ++ c.iff).length + (chunksBytes Chunk.iff cs).length
        = P.length + (chunksBytes Chunk.iff (c :: cs)).length := by
      rw [List.length_append, hcb]; omega
    rw [hl2] at ag2 he2 e2
    refine ⟨buf2, pos2, ag2, he2, ?_⟩
    have hf2 : fuel + (c :: cs).length = fuel + cs.length + 1 := by simp; omega
    rw [hf2, e1, toInt32_of_lt _ (by rw [List.length_append]; rw [hcb] at hlt; omega)]
    exact e2

theorem open_aiff (fuel : Nat) (fd : Int) (data : List Byte) (e : Int) (p : SoundfileInfo)
    (skip : Int) (hp : p.headersize < 0) (hl : 20 ≤ data.length)
    (h0 : strncmp4 data 0 str_FORM = true) (h8 : strncmp4 data 8 str_AIFF = true) :
    ∃ buf pos, Agree buf data 12 8 ∧
      (∀ s2, aiff_chunks true fuel 12 buf 1 2 44100 { data := data, pos := pos, errno := 0 }
          = .bad s2 →
        open_soundfile_via_fd fuel fd { data := data, pos := 0, errno := e } p skip
          = some (badheader p s2)) ∧
      (∀ hs buf2 nch bps sr s2,
        aiff_chunks true fuel 12 buf 1 2 44100 { data := data, pos := pos, errno := 0 }
          = .found hs buf2 nch bps sr s2 →
        open_soundfile_via_fd fuel fd { data := data, pos := 0, errno := e } p skip
          = some (seek_past_header fd p skip (toInt32 (hs + 16)) 1 nch bps
              (toUInt32 ((be32 buf2 4 : Int) - 8)) sr s2)) := by
  refine ⟨_, (data.take 46).length, agree_first data 16 (by norm_num) hl (by norm_num), ?_⟩
  have hlen : (20 : Int) ≤ ((data.take 46).length : Int) := by
    simp only [List.length_take]; omega
  unfold open_soundfile_via_fd
  simp only [first_read, if_neg (not_le.mpr hp)]
  rw [detect_aiff _ _ (by omega) (by rw [strncmp4_take _ _ _ _ (by norm_num)]; exact h0)
    (by rw [strncmp4_take _ _ _ _ (by norm_num)]; exact h8)]
  simp only [FORMAT_AIFF, FORMAT_WAVE, FORMAT_NEXT, garray_ambigendian, sizeof_datachunk]
  rw [if_neg (by decide), if_neg (by decide), if_neg (by omega)]
  simp only [ne_eq, one_ne_zero, not_false_eq_true, decide_True, swap4_load32, Nat.cast_ofNat]
  constructor
  · intro s2 hw; rw [hw]
  · intro hs buf2 nch bps sr s2 hw; rw [hw]



theorem toUInt32_lt (n : Int) : toUInt32 n < 2 ^ 32 := by
  unfold toUInt32; omega

theorem aiffFile_split (formsize : Nat) (cs1 : List Chunk) (comm : Chunk) (cs2 : List Chunk)
    (ssndsize : Nat) (rest : List Byte) :
    aiffFile formsize cs1 comm cs2 ssndsize rest =
      (str_FORM ++ (store32be formsize ++ str_AIFF) ++ chunksBytes Chunk.iff cs1) ++
        (comm.iff ++ (chunksBytes Chunk.iff cs2 ++ (str_SSND ++ (store32be ssndsize ++ rest))))
      ∧ (str_FORM ++ (store32be formsize ++ str_AIFF) ++ chunksBytes Chunk.iff cs1).length
        = 12 + (chunksBytes Chunk.iff cs1).length
      ∧ (aiffFile formsize cs1 comm cs2 ssndsize rest).length
        = aiffSsndOffset cs1 comm cs2 + 8 + rest.length := by
  refine ⟨by simp only [aiffFile, List.append_assoc], ?_, ?_⟩
  · rw [List.length_append,
      show (str_FORM ++ (store32be formsize ++ str_AIFF)).length = 12 from rfl]
  · simp only [aiffFile, aiffSsndOffset, List.length_append, store32be_length, str_FORM,
      str_AIFF, str_SSND, List.length_cons, List.length_nil]
    omega

/-- The state of the walk when it arrives at the `COMM` chunk of an `aiffFile`. -/
theorem aiff_reach_comm (fuel : Nat) (fd : Int) (e : Int) (p : SoundfileInfo) (skip : Int)
    (formsize : Nat) (cs1 : List Chunk) (comm : Chunk) (cs2 : List Chunk) (ssndsize : Nat)
    (rest : List Byte) (hp : p.headersize < 0)
    (h1 : ∀ c ∈ cs1, c.Other str_SSND str_COMM) (hcid : comm.id.length = 4)
    (hcb : 18 ≤ comm.body.length)
    (hoff : aiffSsndOffset cs1 comm cs2 + 16 < 2 ^ 31) :
    ∃ buf pos, Agree buf (aiffFile formsize cs1 comm cs2 ssndsize rest)
        (12 + (chunksBytes Chunk.iff cs1).length) 8 ∧
      (12 + (chunksBytes Chunk.iff cs1).length) % 2 = 0 ∧
      (∀ s2, aiff_chunks true fuel ((12 + (chunksBytes Chunk.iff cs1).length : Nat) : Int) buf
          1 2 44100
          { data := aiffFile formsize cs1 comm cs2 ssndsize rest, pos := pos, errno := 0 }
          = .bad s2 →
        open_soundfile_via_fd (fuel + cs1.length) fd
          { data := aiffFile formsize cs1 comm cs2 ssndsize rest, pos := 0, errno := e } p skip
          = some (badheader p s2)) ∧
      (∀ hs buf2 nch bps sr s2,
        aiff_chunks true fuel ((12 + (chunksBytes Chunk.iff cs1).length : Nat) : Int) buf
          1 2 44100
          { data := aiffFile formsize cs1 comm cs2 ssndsize rest, pos := pos, errno := 0 }
          = .found hs buf2 nch bps sr s2 →
        open_soundfile_via_fd (fuel + cs1.length) fd
          { data := aiffFile formsize cs1 comm cs2 ssndsize rest, pos := 0, errno := e } p skip
          = some (seek_past_header fd p skip (toInt32 (hs + 16)) 1 nch bps
              (toUInt32 ((be32 buf2 4 : Int) - 8)) sr s2)) := by
  set data := aiffFile formsize cs1 comm cs2 ssndsize rest with hdata
  obtain ⟨-, -, hlen⟩ := aiffFile_split formsize cs1 comm cs2 ssndsize rest
  have hfl := comm.iff_length hcid
  obtain ⟨buf0, pos0, ag0, hbad, hfound⟩ := open_aiff (fuel + cs1.length) fd data e p skip hp
    (by rw [hlen]; unfold aiffSsndOffset; omega)
    (by rw [hdata, aiffFile, strncmp4_left str_FORM _ _ (by rfl)]; decide)
    (by
      have := strncmp4_append (str_FORM ++ store32be formsize) (str_AIFF ++
        (chunksBytes Chunk.iff cs1 ++ (comm.iff ++ (chunksBytes Chunk.iff cs2 ++
        (str_SSND ++ (store32be ssndsize ++ rest)))))) 0 str_AIFF
      rw [show (str_FORM ++ store32be formsize).length + 0 = 8 from rfl, List.append_assoc]
        at this
      rw [hdata, aiffFile, this, strncmp4_left str_AIFF _ _ (by rfl)]; decide)
  obtain ⟨buf1, pos1, ag1, he1, e1⟩ := aiff_walk cs1 fuel
    (str_FORM ++ (store32be formsize ++ str_AIFF))
    (comm.iff ++ (chunksBytes Chunk.iff cs2 ++ (str_SSND ++ (store32be ssndsize ++ rest))))
    buf0 1 2 44100 { data := data, pos := pos0, errno := 0 } h1
    (by rw [show (str_FORM ++ (store32be formsize ++ str_AIFF)).length = 12 from rfl])
    (by simp only [hdata, aiffFile, List.append_assoc])
    (by simp only [List.length_append]; omega)
    (by
      rw [show (str_FORM ++ (store32be formsize ++ str_AIFF)).length = 12 from rfl]
      unfold aiffSsndOffset at hoff; omega)
    ag0
  rw [show (str_FORM ++ (store32be formsize ++ str_AIFF)).length = 12 from rfl] at ag1 he1 e1
  simp only [Nat.cast_ofNat] at e1
  refine ⟨buf1, pos1, ag1, he1, ?_, ?_⟩
  · intro s2 hw
    exact hbad s2 (by rw [e1]; exact hw)
  · intro hs buf2 nch bps sr s2 hw
    exact hfound hs buf2 nch bps sr s2 (by rw [e1]; exact hw)

/-- A `COMM` chunk with a bit depth other than 16 and 24 ends the parse at `badheader`. -/
theorem aiff_parse_bad (k : Nat) (fd : Int) (e : Int) (p : SoundfileInfo) (skip : Int)
    (formsize : Nat) (cs1 : List Chunk) (comm : Chunk) (cs2 : List Chunk) (ssndsize : Nat)
    (rest : List Byte) (hp : p.headersize < 0)
    (h1 : ∀ c ∈ cs1, c.Other str_SSND str_COMM) (hcid : comm.id = str_COMM)
    (hcb : 18 ≤ comm.body.length) (hcb2 : comm.body.length < 2 ^ 32)
    (hoff : aiffSsndOffset cs1 comm cs2 + 16 < 2 ^ 31)
    (n1 : be16 comm.body 6 ≠ 16) (n2 : be16 comm.body 6 ≠ 24) :
    ∃ pos, open_soundfile_via_fd (k + 1 + cs1.length) fd
      { data := aiffFile formsize cs1 comm cs2 ssndsize rest, pos := 0, errno := e } p skip
      = some { ret := -1, info := p,
               sys := { data := aiffFile formsize cs1 comm cs2 ssndsize rest, pos := pos,
                        errno := EIO } } := by
  have hid4 : comm.id.length = 4 := by rw [hcid]; rfl
  obtain ⟨buf, pos, ag, he, hbad, -⟩ := aiff_reach_comm (k + 1) fd e p skip formsize cs1 comm
    cs2 ssndsize rest hp h1 hid4 hcb hoff
  obtain ⟨hsplit, hPl, hlen⟩ := aiffFile_split formsize cs1 comm cs2 ssndsize rest
  set data := aiffFile formsize cs1 comm cs2 ssndsize rest with hdata
  set P := str_FORM ++ (store32be formsize ++ str_AIFF) ++ chunksBytes Chunk.iff cs1 with hP
  set X := chunksBytes Chunk.iff cs2 ++ (str_SSND ++ (store32be ssndsize ++ rest)) with hX
  have hh := iff_header comm P X hid4 hcb2
  have hrl := comm.iff_length hid4
  have hbits : be16 data (12 + (chunksBytes Chunk.iff cs1).length + 14) = be16 comm.body 6 := by
    have := iff_be16 comm P X hid4 6 (by omega)
    rw [hPl, ← hsplit] at this
    rw [← this]
  have hst := (aiff_step_comm k (12 + (chunksBytes Chunk.iff cs1).length) buf 1 2 44100
    { data := data, pos := pos, errno := 0 } ag
    (by
      have := (hh str_SSND).1
      rw [hPl, ← hsplit] at this
      rw [this, hcid]; decide)
    (by
      have := (hh str_COMM).1
      rw [hPl, ← hsplit] at this
      rw [this, hcid]; decide)
    (by
      show 12 + (chunksBytes Chunk.iff cs1).length + 26 ≤ data.length
      rw [hlen]; unfold aiffSsndOffset; omega)).1
    (by rw [hbits]; exact n1) (by rw [hbits]; exact n2)
  exact ⟨_, hbad _ hst⟩



/-- The parse of an `aiffFile` whose `COMM` chunk has bit depth 16 or 24. -/
theorem aiff_parse_ok (k : Nat) (fd : Int) (e : Int) (p : SoundfileInfo)
    (formsize : Nat) (cs1 : List Chunk) (comm : Chunk) (cs2 : List Chunk) (ssndsize : Nat)
    (rest : List Byte) (hp : p.headersize < 0)
    (h1 : ∀ c ∈ cs1, c.Other str_SSND str_COMM) (h2 : ∀ c ∈ cs2, c.Other str_SSND str_COMM)
    (hcid : comm.id = str_COMM)
    (hcb : 18 ≤ comm.body.length) (hcb2 : comm.body.length < 2 ^ 32) (hds : ssndsize < 2 ^ 32)
    (hrest : 8 ≤ rest.length)
    (hoff : aiffSsndOffset cs1 comm cs2 + 16 < 2 ^ 31)
    (b : Int) (hb : (b = 2 ∧ be16 comm.body 6 = 16) ∨ (b = 3 ∧ be16 comm.body 6 = 24)) :
    open_soundfile_via_fd (k + 1 + cs2.length + 1 + cs1.length) fd
      { data := aiffFile formsize cs1 comm cs2 ssndsize rest, pos := 0, errno := e } p 0
      = some { ret := fd,
               info := { samplerate := d2i (readaiffsamprate comm.body 8 true),
                         channels := be16 comm.body 0,
                         bytespersample := b,
                         headersize := (aiffSsndOffset cs1 comm cs2 + 16 : Nat),
                         bigendian := 1,
                         bytelimit := toUInt32 ((ssndsize : Int) - 8) },
               sys := { data := aiffFile formsize cs1 comm cs2 ssndsize rest,
                        pos := aiffSsndOffset cs1 comm cs2 + 16, errno := 0 } } := by
  have hid4 : comm.id.length = 4 := by rw [hcid]; rfl
  obtain ⟨buf, pos, ag, he, -, hfound⟩ := aiff_reach_comm (k + 1 + cs2.length + 1) fd e p 0
    formsize cs1 comm cs2 ssndsize rest hp h1 hid4 hcb hoff
  obtain ⟨hsplit, hPl, hlen⟩ := aiffFile_split formsize cs1 comm cs2 ssndsize rest
  set data := aiffFile formsize cs1 comm cs2 ssndsize rest with hdata
  set P := str_FORM ++ (store32be formsize ++ str_AIFF) ++ chunksBytes Chunk.iff cs1 with hP
  set X := chunksBytes Chunk.iff cs2 ++ (str_SSND ++ (store32be ssndsize ++ rest)) with hX
  set h := 12 + (chunksBytes Chunk.iff cs1).length with hh0
  have hh := iff_header comm P X hid4 hcb2
  have hrl := comm.iff_length hid4
  have hbits : be16 data (h + 14) = be16 comm.body 6 := by
    have := iff_be16 comm P X hid4 6 (by omega)
    rw [hPl, ← hsplit] at this
    rw [← this]
  have hch : be16 data (h + 8) = be16 comm.body 0 := by
    have := iff_be16 comm P X hid4 0 (by omega)
    rw [hPl, ← hsplit] at this
    rw [← this]
  have hsr : readaiffsamprate data (h + 16) true = readaiffsamprate comm.body 8 true := by
    apply readaiffsamprate_congr _ _ _ _ (by rw [hlen]; unfold aiffSsndOffset; omega) (by omega)
    intro j hj
    have := iff_body comm P X hid4 (8 + j) (by omega)
    rw [hPl, ← hsplit] at this
    rw [← this]
    congr 1; omega
  have hsz : be32 data (h + 4) = comm.body.length := by
    have := (hh str_SSND).2
    rw [hPl, ← hsplit] at this
    exact this
  have hnx := nextChunk_even h comm.body.length he
  have hnext : nextChunk h (be32 data (h + 4)) = h + comm.iff.length := by
    rw [hsz, hnx.1, hrl]
  have hwo : aiffSsndOffset cs1 comm cs2
      = h + comm.iff.length + (chunksBytes Chunk.iff cs2).length := by
    unfold aiffSsndOffset; omega
  obtain ⟨buf2, ag2, e2⟩ := (aiff_step_comm (k + 1 + cs2.length) h buf 1 2 44100
    { data := data, pos := pos, errno := 0 } ag
    (by
      have := (hh str_SSND).1
      rw [hPl, ← hsplit] at this
      rw [this, hcid]; decide)
    (by
      have := (hh str_COMM).1
      rw [hPl, ← hsplit] at this
      rw [this, hcid]; decide)
    (by
      show h + 26 ≤ data.length
      rw [hlen, hwo]; omega)).2
    (by
      show nextChunk h (be32 data (h + 4)) + 16 ≤ data.length
      rw [hnext, hlen, hwo]; omega)
    b (by rw [hbits]; exact hb)
  simp only [] at ag2 e2
  rw [hnext] at ag2 e2
  rw [hch, hsr, toInt32_of_lt _ (by omega : h + comm.iff.length < 2 ^ 31)] at e2
  -- the chunks between `COMM` and `SSND`
  have hPl2 : (P ++ comm.iff).length = h + comm.iff.length := by
    rw [List.length_append, hPl]
  obtain ⟨buf3, pos3, ag3, -, e3⟩ := aiff_walk cs2 (k + 1) (P ++ comm.iff)
    (str_SSND ++ (store32be ssndsize ++ rest)) buf2 (be16 comm.body 0) b
    (d2i (readaiffsamprate comm.body 8 true))
    { data := data, pos := h + comm.iff.length + 16, errno := 0 } h2
    (by rw [hPl2, ← hnext, hsz]; exact hnx.2)
    (by show data = _; rw [hsplit]; simp only [hX, List.append_assoc])
    (by simp only [List.length_append, store32be_length, str_SSND, List.length_cons,
          List.length_nil]; omega)
    (by rw [hPl2]; omega)
    (by rw [hPl2]; exact ag2)
  rw [hPl2] at ag3 e3
  simp only [] at ag3 e3
  set h3 := h + comm.iff.length + (chunksBytes Chunk.iff cs2).length with hh3
  -- the SSND chunk
  have hsplit3 : data = (P ++ comm.iff ++ chunksBytes Chunk.iff cs2) ++
      (str_SSND ++ (store32be ssndsize ++ rest)) := by
    rw [hsplit]; simp only [hX, List.append_assoc]
  have hPl3 : (P ++ comm.iff ++ chunksBytes Chunk.iff cs2).length = h3 := by
    rw [List.length_append, hPl2]
  have hdid : strncmp4 data h3 str_SSND = true := by
    have := strncmp4_append (P ++ comm.iff ++ chunksBytes Chunk.iff cs2)
      (str_SSND ++ (store32be ssndsize ++ rest)) 0 str_SSND
    rw [hPl3, Nat.add_zero, ← hsplit3] at this
    rw [this, strncmp4_left str_SSND _ _ (by rfl)]; decide
  have hdsz : be32 data (h3 + 4) = ssndsize := by
    have := be32_append (P ++ comm.iff ++ chunksBytes Chunk.iff cs2)
      (str_SSND ++ (store32be ssndsize ++ rest)) 4
    rw [hPl3, ← hsplit3] at this
    rw [this, be32_append4 str_SSND _ (by rfl), be32_store32be _ _ hds]
  have e4 := aiff_step_ssnd k h3 buf3 (be16 comm.body 0) b
    (d2i (readaiffsamprate comm.body 8 true))
    { data := data, pos := pos3, errno := 0 } ag3 hdid
  have hall := hfound _ _ _ _ _ _ (by rw [e2, e3, e4])
  rw [hall, ag3.be32 4 (by norm_num), hdsz]
  have q1 : h3 + 16 < 2 ^ 31 := by omega
  have q3 : h3 + 16 < 2 ^ 32 := by omega
  have hfin := seek_past_header_zero fd p (h3 + 16) 1 (be16 comm.body 0) b
    (toUInt32 ((ssndsize : Int) - 8))
    (d2i (readaiffsamprate comm.body 8 true)) { data := data, pos := pos3, errno := 0 } q3
    (toUInt32_lt _)
  have h8 : toInt32 ((h3 : Int) + 16) = ((h3 + 16 : Nat) : Int) := by
    rw [← toInt32_of_lt (h3 + 16) q1]; push_cast; rfl
  rw [h8, hfin, hwo]


/-! ## The NeXT branch and the end of the parser -/


theorem field32_lt (big : Bool) (data : List Byte) (off : Nat) : field32 big data off < 2 ^ 32 := by
  unfold field32; split_ifs
  · exact be32_lt _ _
  · exact load32_lt _ _

theorem load32_take (l : List Byte) (n off : Nat) (h : off + 4 ≤ n) :
    load32 (l.take n) off = load32 l off := by
  unfold load32
  rw [byteAt_take _ _ _ (by omega), byteAt_take _ _ _ (by omega), byteAt_take _ _ _ (by omega),
    byteAt_take _ _ _ (by omega)]

theorem detect_next (buf : List Byte) (n : Int) (hn : 4 ≤ n) (big : Bool)
    (h0 : strncmp4 buf 0 (if big then str_snd else str_dns) = true) :
    detect_format buf n = some (FORMAT_NEXT, if big then 1 else 0) := by
  unfold detect_format
  rw [if_neg (by omega)]
  cases big
  · simp only [Bool.false_eq_true, if_false] at h0 ⊢
    rw [strncmp4_ne _ _ _ _ h0 (by decide), h0]
    simp
  · simp only [if_true] at h0 ⊢
    rw [h0]
    simp

/-- The NeXT branch of the parser on a header of at least 28 bytes. -/
theorem next_parse (fuel : Nat) (fd : Int) (data : List Byte) (e : Int) (p : SoundfileInfo)
    (skip : Int) (big : Bool) (hp : p.headersize < 0) (hl : 28 ≤ data.length)
    (h0 : strncmp4 data 0 (if big then str_snd else str_dns) = true) :
    open_soundfile_via_fd fuel fd { data := data, pos := 0, errno := e } p skip =
      some (
        if field32 big data 12 = 3 ∨ field32 big data 12 = 4 ∨ field32 big data 12 = 6 then
          seek_past_header fd p skip (toInt32 (field32 big data 4)) (if big then 1 else 0)
            (toInt32 (field32 big data 20))
            (if field32 big data 12 = 3 then 2 else if field32 big data 12 = 4 then 3 else 4)
            0x7fffffff (toInt32 (field32 big data 16))
            { data := data, pos := (data.take 46).length, errno := 0 }
        else badheader p { data := data, pos := (data.take 46).length, errno := 0 }) := by
  have hlen : (28 : Int) ≤ ((data.take 46).length : Int) := by
    simp only [List.length_take]; omega
  have hsw : ∀ o, o + 4 ≤ 46 →
      swap4 (load32 (data.take 46) o) big = field32 big data o := by
    intro o ho
    rw [load32_take _ _ _ ho]
    cases big
    · simp [swap4_false, field32]
    · simp [swap4_load32, field32]
  have hc := field32_lt big data 12
  have c3 : toInt32 (field32 big data 12) = 3 ↔ field32 big data 12 = 3 := by
    unfold toInt32; omega
  have c4 : toInt32 (field32 big data 12) = 4 ↔ field32 big data 12 = 4 := by
    unfold toInt32; omega
  have c6 : toInt32 (field32 big data 12) = 6 ↔ field32 big data 12 = 6 := by
    unfold toInt32; omega
  unfold open_soundfile_via_fd
  simp only [first_read, if_neg (not_le.mpr hp)]
  rw [detect_next _ _ (by omega) big (by rw [strncmp4_take _ _ _ _ (by norm_num)]; exact h0)]
  have hswap : (decide ((if big = true then (1 : Int) else 0) ≠ garray_ambigendian)) = big := by
    cases big <;> simp [garray_ambigendian]
  simp only [FORMAT_NEXT, if_true, sizeof_nextstep, hswap, hsw 20 (by norm_num),
    hsw 12 (by norm_num), hsw 4 (by norm_num), hsw 16 (by norm_num)]
  rw [if_neg (by push_cast; omega)]
  simp only [NS_FORMAT_LINEAR_16, NS_FORMAT_LINEAR_24, NS_FORMAT_FLOAT, c3, c4, c6]
  by_cases q3 : field32 big data 12 = 3
  · simp [q3]
  · by_cases q4 : field32 big data 12 = 4
    · simp [q4]
    · by_cases q6 : field32 big data 12 = 6
      · simp [q6]
      · simp [q3, q4, q6]

/-- The end of the parser when no frames are skipped, for a header size in `int` range. -/
theorem seek_past_header_int (fd : Int) (p : SoundfileInfo) (hs : Int) (be nch bps : Int)
    (bl : Nat) (sr : Int) (s : Sys) (h1 : -(2 ^ 31) ≤ hs) (h2 : hs < 2 ^ 31) (h3 : bl < 2 ^ 32) :
    seek_past_header fd p 0 hs be nch bps bl sr s =
      if hs < 0 ∧ hs ≠ -1 then { ret := -1, info := p, sys := { s with errno := EINVAL } }
      else { ret := fd,
             info := { samplerate := sr, channels := nch, bytespersample := bps,
                       headersize := hs, bigendian := be, bytelimit := bl },
             sys := if hs < 0 then { s with errno := EINVAL } else { s with pos := hs.toNat } } := by
  have t1 : toInt64 hs = hs := by
    unfold toInt64
    have h1 : (2 : Int) ^ 63 = 9223372036854775808 := by norm_num
    have h2 : (2 : Int) ^ 64 = 18446744073709551616 := by norm_num
    rw [h1, h2]; omega
  have t0 : toInt64 0 = 0 := by decide
  unfold seek_past_header
  simp only [mul_zero, zero_add, t1, t0, sub_zero, toInt64_of_lt _ h3, Sys.lseek]
  by_cases hneg : hs < 0
  · by_cases hm : hs = -1
    · subst hm
      simp
    · simp only [hneg, if_true, ne_eq]
      rw [if_pos (by omega), if_pos ⟨trivial, hm⟩]
  · simp only [hneg, if_false, ne_eq, not_true_eq_false, false_and]
    rw [if_neg (by omega)]


/-! ## Format detection -/


theorem byteAt_of_isBytes (l : List Byte) (hb : IsBytes l) (i : Nat) (hi : i < l.length) :
    byteAt l i = l[i] := by
  unfold byteAt
  rw [List.getD_eq_getElem _ _ hi]
  exact Nat.mod_eq_of_lt (hb _ (List.getElem_mem _))

theorem take4_drop (l : List Byte) (off : Nat) (h : off + 4 ≤ l.length) :
    (l.drop off).take 4 = [l[off], l[off + 1], l[off + 2], l[off + 3]] := by
  apply List.ext_getElem
  · simp [List.length_take, List.length_drop]; omega
  · intro i h1 h2
    simp only [List.length_cons, List.length_nil] at h2
    rw [List.getElem_take, List.getElem_drop]
    have : i = 0 ∨ i = 1 ∨ i = 2 ∨ i = 3 := by omega
    rcases this with rfl | rfl | rfl | rfl <;> simp

/-- With enough bytes in the buffer the test of the parser is the comparison of the four
bytes at `off` with the literal. -/
theorem strncmp4_iff (l : List Byte) (hb : IsBytes l) (off : Nat) (lit : List Byte)
    (h : off + 4 ≤ l.length) : strncmp4 l off lit = true ↔ (l.drop off).take 4 = lit := by
  unfold strncmp4
  rw [decide_eq_true_eq, take4_drop l off h, byteAt_of_isBytes l hb off (by omega),
    byteAt_of_isBytes l hb (off + 1) (by omega), byteAt_of_isBytes l hb (off + 2) (by omega),
    byteAt_of_isBytes l hb (off + 3) (by omega)]

theorem take4_short (l : List Byte) (off : Nat) (lit : List Byte) (hl : lit.length = 4)
    (h : l.length < off + 4) : (l.drop off).take 4 ≠ lit := by
  intro he
  have := congrArg List.length he
  simp only [List.length_take, List.length_drop, hl] at this
  omega

theorem strncmp4_decide (l : List Byte) (hb : IsBytes l) (off : Nat) (lit : List Byte)
    (h : off + 4 ≤ l.length) : strncmp4 l off lit = decide ((l.drop off).take 4 = lit) := by
  by_cases c : (l.drop off).take 4 = lit
  · rw [(strncmp4_iff l hb off lit h).2 c]; simp [c]
  · have : strncmp4 l off lit = false := by
      rw [Bool.eq_false_iff]; exact fun h2 => c ((strncmp4_iff l hb off lit h).1 h2)
    rw [this]; simp [c]

/-- The classification made by the parser is the one of the specification. -/
theorem detect_format_eq_spec (buf : List Byte) (hb : IsBytes buf) :
    detect_format buf buf.length = spec_classify buf := by
  unfold detect_format spec_classify
  by_cases h4 : buf.length < 4
  · have n : ∀ lit : List Byte, lit.length = 4 → buf.take 4 ≠ lit := by
      intro lit hl
      have := take4_short buf 0 lit hl (by omega)
      simpa using this
    have n1 := n str_snd rfl
    have n2 := n str_dns rfl
    have n3 := n str_RIFF rfl
    have n4 := n str_FORM rfl
    have h4i : (buf.length : Int) < 4 := by omega
    simp [h4i, n1, n2, n3, n4]
  · have h4i : ¬ (buf.length : Int) < 4 := by omega
    have e : ∀ lit : List Byte, strncmp4 buf 0 lit = decide (buf.take 4 = lit) := by
      intro lit
      have := strncmp4_decide buf hb 0 lit (by omega)
      simpa using this
    rw [if_neg h4i]
    simp only [e]
    by_cases h12 : buf.length < 12
    · have h12i : (buf.length : Int) < 12 := by omega
      have w1 := take4_short buf 8 str_WAVE rfl (by omega)
      have w2 := take4_short buf 8 str_AIFF rfl (by omega)
      simp [h12i, w1, w2]
    · have h12i : ¬ (buf.length : Int) < 12 := by omega
      rw [strncmp4_decide buf hb 8 str_WAVE (by omega),
        strncmp4_decide buf hb 8 str_AIFF (by omega)]
      have d1 : str_RIFF ≠ str_FORM := by decide
      by_cases c3 : buf.take 4 = str_RIFF
      · have c4 : buf.take 4 ≠ str_FORM := by rw [c3]; exact d1
        have d2 : str_RIFF ≠ str_snd := by decide
        have d3 : str_RIFF ≠ str_dns := by decide
        by_cases c5 : (buf.drop 8).take 4 = str_WAVE <;> simp [h12i, c3, c5, d1, d2, d3]
      · by_cases c5 : (buf.drop 8).take 4 = str_AIFF <;> simp [h12i, c3, c5]



theorem seek_past_header_cases (fd : Int) (p : SoundfileInfo) (skip hs be nch bps bl sr : Int)
    (s : Sys) :
    ((seek_past_header fd p skip hs be nch bps bl sr s).ret = -1 ∧
      (seek_past_header fd p skip hs be nch bps bl sr s).info = p) ∨
    ((seek_past_header fd p skip hs be nch bps bl sr s).ret = fd ∧
      (seek_past_header fd p skip hs be nch bps bl sr s).info.bigendian = be) := by
  unfold seek_past_header
  simp only []
  split_ifs <;> first | (left; exact ⟨rfl, rfl⟩) | (right; exact ⟨rfl, rfl⟩)

/-- In auto-detect mode the parser either fails and leaves the record as it was, or
returns the descriptor and reports the byte order of the detected format. -/
theorem open_cases (fuel : Nat) (fd : Int) (s : Sys) (p : SoundfileInfo) (skip : Int)
    (hp : p.headersize < 0) (r : OpenResult)
    (hr : open_soundfile_via_fd fuel fd s p skip = some r) :
    (r.ret = -1 ∧ r.info = p) ∨
    (r.ret = fd ∧ ∃ f, detect_format ((s.data.drop s.pos).take 46)
        (((s.data.drop s.pos).take 46).length : Nat) = some (f, r.info.bigendian)) := by
  unfold open_soundfile_via_fd at hr
  simp only [if_neg (not_le.mpr hp), Sys.read, READHDRSIZE, WHDR2, WHDR1, sizeof_wave,
    sizeof_nextstep] at hr
  simp only [show (if 44 > 28 then 44 else 28) = 44 from rfl,
    show (if 16 > 44 + 2 then 16 else 44 + 2) = 46 from rfl] at hr
  generalize hd : detect_format ((s.data.drop s.pos).take 46)
    (((s.data.drop s.pos).take 46).length : Nat) = d at hr ⊢
  cases d with
  | none =>
    simp only [Option.some.injEq] at hr
    subst hr
    left; exact ⟨rfl, rfl⟩
  | some fb =>
    obtain ⟨f, b⟩ := fb
    simp only [] at hr
    have key : ∀ hs nch bps bl sr s2,
        some (seek_past_header fd p skip hs b nch bps bl sr s2) = some r →
        (r.ret = -1 ∧ r.info = p) ∨ (r.ret = fd ∧ ∃ f', some (f, b) = some (f', r.info.bigendian)) := by
      intro hs nch bps bl sr s2 h
      simp only [Option.some.injEq] at h
      subst h
      rcases seek_past_header_cases fd p skip hs b nch bps bl sr s2 with h1 | h1
      · left; exact h1
      · right; exact ⟨h1.1, f, by rw [h1.2]⟩
    have kbad : ∀ s2, some (badheader p s2) = some r →
        (r.ret = -1 ∧ r.info = p) ∨ (r.ret = fd ∧ ∃ f', some (f, b) = some (f', r.info.bigendian)) := by
      intro s2 h
      simp only [Option.some.injEq] at h
      subst h
      left; exact ⟨rfl, rfl⟩
    split_ifs at hr
    · exact kbad _ hr
    · exact key _ _ _ _ _ _ hr
    · exact key _ _ _ _ _ _ hr
    · exact key _ _ _ _ _ _ hr
    · exact kbad _ hr
    · exact kbad _ hr
    · split at hr
      · cases hr
      · exact kbad _ hr
      · exact key _ _ _ _ _ _ hr
    · exact kbad _ hr
    · split at hr
      · cases hr
      · exact kbad _ hr
      · exact key _ _ _ _ _ _ hr



theorem isBytes_take_drop (l : List Byte) (hb : IsBytes l) (a n : Nat) :
    IsBytes ((l.drop a).take n) := by
  intro b hbm
  exact hb b (List.mem_of_mem_drop (List.mem_of_mem_take hbm))

theorem open_of_detect_none (fuel : Nat) (fd : Int) (s : Sys) (p : SoundfileInfo) (skip : Int)
    (hp : p.headersize < 0)
    (hd : detect_format ((s.data.drop s.pos).take 46)
      (((s.data.drop s.pos).take 46).length : Nat) = none) :
    open_soundfile_via_fd fuel fd s p skip =
      some { ret := -1, info := p,
             sys := { data := s.data, pos := s.pos + ((s.data.drop s.pos).take 46).length,
                      errno := EIO } } := by
  unfold open_soundfile_via_fd
  simp only [if_neg (not_le.mpr hp), Sys.read, READHDRSIZE, WHDR2, WHDR1, sizeof_wave,
    sizeof_nextstep]
  simp only [show (if 44 > 28 then 44 else 28) = 44 from rfl,
    show (if 16 > 44 + 2 then 16 else 44 + 2) = 46 from rfl]
  rw [hd]
  rfl

theorem open_of_short (fuel : Nat) (fd : Int) (s : Sys) (p : SoundfileInfo) (skip : Int)
    (hp : p.headersize < 0) (f b : Int)
    (hd : detect_format ((s.data.drop s.pos).take 46)
      (((s.data.drop s.pos).take 46).length : Nat) = some (f, b))
    (hshort : (f = FORMAT_NEXT ∧ ((s.data.drop s.pos).take 46).length < 28) ∨
      (f ≠ FORMAT_NEXT ∧ ((s.data.drop s.pos).take 46).length < 20)) :
    open_soundfile_via_fd fuel fd s p skip =
      some { ret := -1, info := p,
             sys := { data := s.data, pos := s.pos + ((s.data.drop s.pos).take 46).length,
                      errno := EIO } } := by
  unfold open_soundfile_via_fd
  simp only [if_neg (not_le.mpr hp), Sys.read, READHDRSIZE, WHDR2, WHDR1, sizeof_wave,
    sizeof_nextstep]
  simp only [show (if 44 > 28 then 44 else 28) = 44 from rfl,
    show (if 16 > 44 + 2 then 16 else 44 + 2) = 46 from rfl]
  rw [hd]
  simp only []
  rcases hshort with ⟨hf, hl⟩ | ⟨hf, hl⟩
  · rw [if_pos hf, if_pos (by omega)]
    rfl
  · rw [if_neg hf]
    split_ifs <;> first | rfl | omega



theorem waveFile_drop (riffsize : Nat) (cs1 : List Chunk) (fmt : Chunk) (cs2 : List Chunk)
    (datasize : Nat) (payload : List Byte) :
    (waveFile riffsize cs1 fmt cs2 datasize payload).drop (waveDataOffset cs1 fmt cs2)
      = payload := by
  have e : waveFile riffsize cs1 fmt cs2 datasize payload =
      (str_RIFF ++ store32 riffsize ++ str_WAVE ++ chunksBytes Chunk.riff cs1 ++ fmt.riff ++
        chunksBytes Chunk.riff cs2 ++ str_data ++ store32 datasize) ++ payload := by
    simp only [waveFile, List.append_assoc]
  have hl : (str_RIFF ++ store32 riffsize ++ str_WAVE ++ chunksBytes Chunk.riff cs1 ++ fmt.riff ++
      chunksBytes Chunk.riff cs2 ++ str_data ++ store32 datasize).length
      = waveDataOffset cs1 fmt cs2 := by
    simp only [waveDataOffset, List.length_append, store32_length, str_RIFF, str_WAVE,
      str_data, List.length_cons, List.length_nil]
  rw [e, ← hl, List.drop_left]



theorem aiffFile_drop (formsize : Nat) (cs1 : List Chunk) (comm : Chunk) (cs2 : List Chunk)
    (ssndsize : Nat) (rest : List Byte) :
    (aiffFile formsize cs1 comm cs2 ssndsize rest).drop (aiffSsndOffset cs1 comm cs2)
      = str_SSND ++ (store32be ssndsize ++ rest) := by
  have e : aiffFile formsize cs1 comm cs2 ssndsize rest =
      (str_FORM ++ store32be formsize ++ str_AIFF ++ chunksBytes Chunk.iff cs1 ++ comm.iff ++
        chunksBytes Chunk.iff cs2) ++ (str_SSND ++ (store32be ssndsize ++ rest)) := by
    simp only [aiffFile, List.append_assoc]
  have hl : (str_FORM ++ store32be formsize ++ str_AIFF ++ chunksBytes Chunk.iff cs1 ++ comm.iff ++
      chunksBytes Chunk.iff cs2).length = aiffSsndOffset cs1 comm cs2 := by
    simp only [aiffSsndOffset, List.length_append, store32be_length, str_FORM, str_AIFF,
      List.length_cons, List.length_nil]
  rw [e, ← hl, List.drop_left]


/-! ## Reading back the headers that `create_soundfile` writes -/


theorem store32_swap4 (n : Nat) : store32 (swap4 n true) = store32be n := by
  rw [swap4_true]
  unfold store32 store32be
  have h0 : n % 256 < 256 := Nat.mod_lt _ (by norm_num)
  have h1 : n / 2 ^ 8 % 256 < 256 := Nat.mod_lt _ (by norm_num)
  have h2 : n / 2 ^ 16 % 256 < 256 := Nat.mod_lt _ (by norm_num)
  have h3 : n / 2 ^ 24 % 256 < 256 := Nat.mod_lt _ (by norm_num)
  generalize n % 256 = b0 at h0 ⊢
  generalize n / 2 ^ 8 % 256 = b1 at h1 ⊢
  generalize n / 2 ^ 16 % 256 = b2 at h2 ⊢
  generalize n / 2 ^ 24 % 256 = b3 at h3 ⊢
  simp only [List.cons.injEq, and_true]
  refine ⟨?_, ?_, ?_, ?_⟩ <;> (show @Eq Nat _ _; omega)

theorem store16_swap2 (n : Nat) : store16 (swap2 n true) = store16be n := by
  rw [swap2_true]
  unfold store16 store16be
  have h0 : n % 256 < 256 := Nat.mod_lt _ (by norm_num)
  have h1 : n / 2 ^ 8 % 256 < 256 := Nat.mod_lt _ (by norm_num)
  generalize n % 256 = b0 at h0 ⊢
  generalize n / 2 ^ 8 % 256 = b1 at h1 ⊢
  simp only [List.cons.injEq, and_true]
  refine ⟨?_, ?_⟩ <;> (show @Eq Nat _ _; omega)

theorem toUInt32_natCast (n : Nat) (h : n < 2 ^ 32) : toUInt32 (n : Int) = n := by
  unfold toUInt32; omega

theorem truncQ_natCast (n : Nat) : truncQ (n : ℚ) = n := by
  unfold truncQ
  rw [if_pos (by positivity)]
  exact Int.floor_natCast n

theorem f2u32_natCast (n : Nat) (h : n < 2 ^ 32) : f2u32 (n : ℚ) = n := by
  unfold f2u32
  rw [truncQ_natCast]
  omega

theorem load16_store16 (n : Nat) (rest : List Byte) (h : n < 2 ^ 16) :
    load16 (store16 n ++ rest) 0 = n := by
  simp [load16, store16, byteAt]
  omega

theorem fmtBody_fields (tag ch sr avg align bits : Nat) :
    (fmtBody tag ch sr avg align bits).length = 16 ∧
    load16 (fmtBody tag ch sr avg align bits) 2 = ch % 2 ^ 16 ∧
    load32 (fmtBody tag ch sr avg align bits) 4 = sr % 2 ^ 32 ∧
    load16 (fmtBody tag ch sr avg align bits) 14 = bits % 2 ^ 16 := by
  refine ⟨rfl, ?_, ?_, ?_⟩
  · simp [fmtBody, load16, store16, store32, byteAt]; omega
  · simp [fmtBody, load32, store16, store32, byteAt]; omega
  · simp [fmtBody, load16, store16, store32, byteAt]; omega

/-- The header that `create_soundfile` writes for a WAVE file. -/
theorem create_wave (n bps c : Int) (sr : ℚ) :
    create_soundfile FORMAT_WAVE n bps 0 c false sr =
      (waveFile (toUInt32 (toInt64 (n * c * bps) + 44 - 8)) []
        { id := str_fmt,
          body := fmtBody ((if bps = 4 then WAV_FLOAT else WAV_INT) % 2 ^ 16)
            (toUInt32 c % 2 ^ 16) (f2u32 sr)
            (toUInt32 (d2i (to_float (to_float (sr * to_float c) * to_float bps))))
            (toUInt32 (toInt32 (c * bps)) % 2 ^ 16) (toUInt32 (toInt32 (8 * bps)) % 2 ^ 16),
          pad := 0 } []
        (toUInt32 (toInt64 (n * c * bps))) [], 44) := by
  simp [create_soundfile, FORMAT_WAVE, FORMAT_NEXT, FORMAT_AIFF, memcpy, store32, store16,
    WRITEHDRSIZE, AIFFPLUS, AIFFHDRSIZE, WHDR2, WHDR1, sizeof_wave, sizeof_nextstep,
    str_RIFF, str_WAVE, str_fmt, str_data, List.replicate, waveFile, Chunk.riff, chunksBytes,
    Chunk.padding, swap4_false, swap2_false, fmtBody]

/-- Reading back the header that `create_soundfile` writes for a WAVE file. -/
theorem roundtrip_wave (k : Nat) (fd e : Int) (p : SoundfileInfo) (n : Int)
    (channels bps sr : Nat) (hp : p.headersize < 0) (hc : channels < 2 ^ 16)
    (hb : bps = 2 ∨ bps = 3 ∨ bps = 4) (hsr : sr < 2 ^ 31) :
    ∃ r, open_soundfile_via_fd (k + 2) fd
        { data := (create_soundfile FORMAT_WAVE n bps 0 channels false sr).1, pos := 0,
          errno := e } p 0 = some r ∧
      r.ret = fd ∧ r.info.channels = channels ∧ r.info.bytespersample = bps ∧
      r.info.samplerate = sr ∧ r.info.bigendian = 0 ∧
      r.info.headersize = (create_soundfile FORMAT_WAVE n bps 0 channels false sr).2 ∧
      (create_soundfile FORMAT_WAVE n bps 0 channels false sr).2
        = ((create_soundfile FORMAT_WAVE n bps 0 channels false sr).1.length : Nat) := by
  rw [create_wave]
  simp only []
  generalize hfmt : (Chunk.mk str_fmt
    (fmtBody ((if (bps : Int) = 4 then WAV_FLOAT else WAV_INT) % 2 ^ 16)
      (toUInt32 (channels : Int) % 2 ^ 16) (f2u32 (sr : ℚ))
      (toUInt32 (d2i (to_float (to_float ((sr : ℚ) * to_float ((channels : Int) : ℚ))
        * to_float ((bps : Int) : ℚ)))))
      (toUInt32 (toInt32 ((channels : Int) * (bps : Int))) % 2 ^ 16)
      (toUInt32 (toInt32 (8 * (bps : Int))) % 2 ^ 16)) 0) = fmt
  have hf := fmtBody_fields ((if (bps : Int) = 4 then WAV_FLOAT else WAV_INT) % 2 ^ 16)
      (toUInt32 (channels : Int) % 2 ^ 16) (f2u32 (sr : ℚ))
      (toUInt32 (d2i (to_float (to_float ((sr : ℚ) * to_float ((channels : Int) : ℚ))
        * to_float ((bps : Int) : ℚ)))))
      (toUInt32 (toInt32 ((channels : Int) * (bps : Int))) % 2 ^ 16)
      (toUInt32 (toInt32 (8 * (bps : Int))) % 2 ^ 16)
  have hid : fmt.id = str_fmt := by rw [← hfmt]
  have hbody : fmt.body = fmtBody ((if (bps : Int) = 4 then WAV_FLOAT else WAV_INT) % 2 ^ 16)
      (toUInt32 (channels : Int) % 2 ^ 16) (f2u32 (sr : ℚ))
      (toUInt32 (d2i (to_float (to_float ((sr : ℚ) * to_float ((channels : Int) : ℚ))
        * to_float ((bps : Int) : ℚ)))))
      (toUInt32 (toInt32 ((channels : Int) * (bps : Int))) % 2 ^ 16)
      (toUInt32 (toInt32 (8 * (bps : Int))) % 2 ^ 16) := by rw [← hfmt]
  rw [← hbody] at hf
  obtain ⟨hbl, hch, hsr2, hbits⟩ := hf
  have hoff : waveDataOffset [] fmt [] = 44 := by
    simp [waveDataOffset, chunksBytes, Chunk.riff, Chunk.padding, hbl, store32_length, hid,
      str_fmt]
  rw [toUInt32_natCast _ (by omega), Nat.mod_eq_of_lt (Nat.mod_lt _ (by norm_num)),
    Nat.mod_eq_of_lt hc] at hch
  rw [f2u32_natCast _ (by omega), Nat.mod_eq_of_lt (by omega)] at hsr2
  have hbits2 : load16 fmt.body 14 = 8 * bps := by
    rw [hbits]
    rcases hb with rfl | rfl | rfl <;> decide
  have hbb : ((bps : Int) = 2 ∧ load16 fmt.body 14 = 16) ∨ ((bps : Int) = 3 ∧ load16 fmt.body 14 = 24)
      ∨ ((bps : Int) = 4 ∧ load16 fmt.body 14 = 32) := by
    rw [hbits2]
    rcases hb with rfl | rfl | rfl
    · left; exact ⟨rfl, rfl⟩
    · right; left; exact ⟨rfl, rfl⟩
    · right; right; exact ⟨rfl, rfl⟩
  have hparse := wave_parse_ok k fd e p (toUInt32 (toInt64 (n * channels * bps) + 44 - 8)) [] fmt []
    (toUInt32 (toInt64 (n * channels * bps))) [] hp (by simp) (by simp) hid (by rw [hbl])
    (by rw [hbl]; norm_num) (toUInt32_lt _) (by rw [hoff]; norm_num) (bps : Int) hbb
  have hlen : (waveFile (toUInt32 (toInt64 (n * channels * bps) + 44 - 8)) [] fmt []
      (toUInt32 (toInt64 (n * channels * bps))) []).length = 44 := by
    rw [(waveFile_split _ _ _ _ _ _).2.2, hoff]; rfl
  refine ⟨_, hparse, rfl, ?_, rfl, ?_, rfl, ?_, ?_⟩
  · show ((load16 fmt.body 2 : Nat) : Int) = channels
    rw [hch]
  · show toInt32 ((load32 fmt.body 4 : Nat) : Int) = sr
    rw [hsr2, toInt32_of_lt _ hsr]
  · show ((waveDataOffset [] fmt [] : Nat) : Int) = 44
    rw [hoff]; rfl
  · rw [hlen]; rfl



theorem list10 (l : List Byte) (h : l.length = 10) :
    ∃ a0 a1 a2 a3 a4 a5 a6 a7 a8 a9, l = [a0, a1, a2, a3, a4, a5, a6, a7, a8, a9] := by
  match l, h with
  | [a0, a1, a2, a3, a4, a5, a6, a7, a8, a9], _ => exact ⟨a0, a1, a2, a3, a4, a5, a6, a7, a8, a9, rfl⟩

/-- The header that `create_soundfile` writes for an AIFF file. -/
theorem create_aiff (n bps c : Int) (sr : ℚ) :
    create_soundfile FORMAT_AIFF n bps 1 c true sr =
      (aiffFile (toUInt32 (toInt64 (n * c * bps) + 40 + 4)) []
        { id := str_COMM,
          body := commBody (toUInt32 c) (toUInt32 n) (toUInt32 (toInt32 (8 * bps)))
            (makeaiffsamprate sr),
          pad := 0 } []
        (toUInt32 (toInt64 (n * c * bps) + 8)) (List.replicate 8 0), 54) := by
  unfold create_soundfile
  obtain ⟨L, hL, hLl⟩ : ∃ L, makeaiffsamprate sr = L ∧ L.length = 10 := ⟨_, rfl, rfl⟩
  rw [hL]
  obtain ⟨a0, a1, a2, a3, a4, a5, a6, a7, a8, a9, rfl⟩ := list10 L hLl
  simp only [store32_swap4, store16_swap2]
  simp [FORMAT_NEXT, FORMAT_AIFF, memcpy, store32be, store16be,
    WRITEHDRSIZE, AIFFPLUS, AIFFHDRSIZE, WHDR2, WHDR1, sizeof_wave, sizeof_nextstep, sizeof_aiff,
    str_FORM, str_AIFF, str_COMM, str_SSND, List.replicate, aiffFile, Chunk.iff, chunksBytes,
    Chunk.padding, commBody]



theorem commBody_fields (ch nframes bits : Nat) (rate : List Byte) (hr : rate.length = 10) :
    (commBody ch nframes bits rate).length = 18 ∧
    be16 (commBody ch nframes bits rate) 0 = ch % 2 ^ 16 ∧
    be16 (commBody ch nframes bits rate) 6 = bits % 2 ^ 16 ∧
    readaiffsamprate (commBody ch nframes bits rate) 8 true = readaiffsamprate rate 0 true := by
  have hl : (commBody ch nframes bits rate).length = 18 := by
    simp [commBody, store16be, store32be, hr]
  refine ⟨hl, ?_, ?_, ?_⟩
  · simp [commBody, be16, store16be, store32be, byteAt]; omega
  · simp [commBody, be16, store16be, store32be, byteAt]; omega
  · apply readaiffsamprate_congr _ _ _ _ (by omega) (by omega)
    intro k _
    have := byteAt_append_right (store16be ch ++ (store32be nframes ++ store16be bits)) rate k
    rw [show (store16be ch ++ (store32be nframes ++ store16be bits)).length = 8 from rfl] at this
    rw [Nat.zero_add, ← this]
    simp only [commBody, List.append_assoc]

/-- The five sample rates of the round-trip property are read back exactly. -/
theorem samprate_roundtrip (sr : Nat)
    (h : sr = 8000 ∨ sr = 22050 ∨ sr = 44100 ∨ sr = 48000 ∨ sr = 96000) :
    d2i (readaiffsamprate (makeaiffsamprate (sr : ℚ)) 0 true) = sr := by
  rcases h with rfl | rfl | rfl | rfl | rfl <;> decide!



/-- Reading back the header that `create_soundfile` writes for an AIFF file. -/
theorem roundtrip_aiff (k : Nat) (fd e : Int) (p : SoundfileInfo) (n : Int)
    (channels bps sr : Nat) (hp : p.headersize < 0) (hc : channels < 2 ^ 16)
    (hb : bps = 2 ∨ bps = 3)
    (hsr : sr = 8000 ∨ sr = 22050 ∨ sr = 44100 ∨ sr = 48000 ∨ sr = 96000) :
    ∃ r, open_soundfile_via_fd (k + 2) fd
        { data := (create_soundfile FORMAT_AIFF n bps 1 channels true sr).1, pos := 0,
          errno := e } p 0 = some r ∧
      r.ret = fd ∧ r.info.channels = channels ∧ r.info.bytespersample = bps ∧
      r.info.samplerate = sr ∧ r.info.bigendian = 1 ∧
      r.info.headersize = (create_soundfile FORMAT_AIFF n bps 1 channels true sr).2 ∧
      (create_soundfile FORMAT_AIFF n bps 1 channels true sr).2
        = ((create_soundfile FORMAT_AIFF n bps 1 channels true sr).1.length : Nat) := by
  rw [create_aiff]
  simp only []
  generalize hcomm : (Chunk.mk str_COMM
    (commBody (toUInt32 (channels : Int)) (toUInt32 n) (toUInt32 (toInt32 (8 * (bps : Int))))
      (makeaiffsamprate (sr : ℚ))) 0) = comm
  have hf := commBody_fields (toUInt32 (channels : Int)) (toUInt32 n)
    (toUInt32 (toInt32 (8 * (bps : Int)))) (makeaiffsamprate (sr : ℚ)) rfl
  have hid : comm.id = str_COMM := by rw [← hcomm]
  have hbody : comm.body = commBody (toUInt32 (channels : Int)) (toUInt32 n)
      (toUInt32 (toInt32 (8 * (bps : Int)))) (makeaiffsamprate (sr : ℚ)) := by rw [← hcomm]
  rw [← hbody] at hf
  obtain ⟨hbl, hch, hbits, hrate⟩ := hf
  have hoff : aiffSsndOffset [] comm [] = 38 := by
    simp [aiffSsndOffset, chunksBytes, Chunk.iff, Chunk.padding, hbl, store32be_length, hid,
      str_COMM]
  rw [toUInt32_natCast _ (by omega), Nat.mod_eq_of_lt hc] at hch
  have hbits2 : be16 comm.body 6 = 8 * bps := by
    rw [hbits]
    rcases hb with rfl | rfl <;> decide
  have hbb : ((bps : Int) = 2 ∧ be16 comm.body 6 = 16) ∨ ((bps : Int) = 3 ∧ be16 comm.body 6 = 24) := by
    rw [hbits2]
    rcases hb with rfl | rfl
    · left; exact ⟨rfl, rfl⟩
    · right; exact ⟨rfl, rfl⟩
  have hparse := aiff_parse_ok k fd e p (toUInt32 (toInt64 (n * channels * bps) + 40 + 4)) [] comm []
    (toUInt32 (toInt64 (n * channels * bps) + 8)) (List.replicate 8 0) hp (by simp) (by simp)
    hid (by rw [hbl]) (by rw [hbl]; norm_num) (toUInt32_lt _) (by simp)
    (by rw [hoff]; norm_num) (bps : Int) hbb
  have hlen : (aiffFile (toUInt32 (toInt64 (n * channels * bps) + 40 + 4)) [] comm []
      (toUInt32 (toInt64 (n * channels * bps) + 8)) (List.replicate 8 0)).length = 54 := by
    rw [(aiffFile_split _ _ _ _ _ _).2.2, hoff]; rfl
  refine ⟨_, hparse, rfl, ?_, rfl, ?_, rfl, ?_, ?_⟩
  · show ((be16 comm.body 0 : Nat) : Int) = channels
    rw [hch]
  · show d2i (readaiffsamprate comm.body 8 true) = sr
    rw [hrate]
    exact samprate_roundtrip sr hsr
  · show ((aiffSsndOffset [] comm [] + 16 : Nat) : Int) = 54
    rw [hoff]; rfl
  · rw [hlen]; rfl



theorem nextHeader_fields (big : Bool) (onset length format rate channels : Nat)
    (info : List Byte) (hi : info.length = 4) :
    (nextHeader big onset length format rate channels info).length = 28 ∧
    strncmp4 (nextHeader big onset length format rate channels info) 0
      (if big then str_snd else str_dns) = true ∧
    field32 big (nextHeader big onset length format rate channels info) 4 = onset % 2 ^ 32 ∧
    field32 big (nextHeader big onset length format rate channels info) 12 = format % 2 ^ 32 ∧
    field32 big (nextHeader big onset length format rate channels info) 16 = rate % 2 ^ 32 ∧
    field32 big (nextHeader big onset length format rate channels info) 20
      = channels % 2 ^ 32 := by
  cases big
  · refine ⟨?_, ?_, ?_, ?_, ?_, ?_⟩
    · simp [nextHeader, store32, str_dns, hi]
    · simp [nextHeader, strncmp4, str_dns, byteAt]
    · simp [nextHeader, field32, load32, store32, str_dns, byteAt]; omega
    · simp [nextHeader, field32, load32, store32, str_dns, byteAt]; omega
    · simp [nextHeader, field32, load32, store32, str_dns, byteAt]; omega
    · simp [nextHeader, field32, load32, store32, str_dns, byteAt]; omega
  · refine ⟨?_, ?_, ?_, ?_, ?_, ?_⟩
    · simp [nextHeader, store32be, str_snd, hi]
    · simp [nextHeader, strncmp4, str_snd, byteAt]
    · simp [nextHeader, field32, be32, store32be, str_snd, byteAt]; omega
    · simp [nextHeader, field32, be32, store32be, str_snd, byteAt]; omega
    · simp [nextHeader, field32, be32, store32be, str_snd, byteAt]; omega
    · simp [nextHeader, field32, be32, store32be, str_snd, byteAt]; omega

/-- The header that `create_soundfile` writes for a NeXT file. -/
theorem create_next (big : Bool) (n bps c : Int) (sr : ℚ) :
    ∃ info : List Byte, info.length = 4 ∧
    create_soundfile FORMAT_NEXT n bps (if big then 1 else 0) c big sr =
      (nextHeader big 28 0
        (toUInt32 (if bps = 3 then NS_FORMAT_LINEAR_24
          else (if bps = 4 then NS_FORMAT_FLOAT else NS_FORMAT_LINEAR_16)))
        (f2u32 sr) (toUInt32 c) info, 28) := by
  cases big
  · refine ⟨str_Pd, rfl, ?_⟩
    simp [create_soundfile, FORMAT_NEXT, memcpy, store32,
      WRITEHDRSIZE, AIFFPLUS, AIFFHDRSIZE, WHDR2, WHDR1, sizeof_wave, sizeof_nextstep,
      str_dns, str_Pd, List.replicate, swap4_false, swapstring, nextHeader]
  · refine ⟨str_Pd.reverse, rfl, ?_⟩
    unfold create_soundfile
    simp only [store32_swap4]
    have z : store32 0 = store32be 0 := rfl
    rw [z]
    simp [FORMAT_NEXT, memcpy, store32be,
      WRITEHDRSIZE, AIFFPLUS, AIFFHDRSIZE, WHDR2, WHDR1, sizeof_wave, sizeof_nextstep,
      str_snd, str_Pd, List.replicate, swapstring, nextHeader, byteAt]


/-- Reading back the header that `create_soundfile` writes for a NeXT file. -/
theorem roundtrip_next (k : Nat) (fd e : Int) (p : SoundfileInfo) (n : Int) (big : Bool)
    (channels bps sr : Nat) (hp : p.headersize < 0) (hc : channels < 2 ^ 31)
    (hb : bps = 2 ∨ bps = 3 ∨ bps = 4) (hsr : sr < 2 ^ 31) :
    ∃ r, open_soundfile_via_fd k fd
        { data := (create_soundfile FORMAT_NEXT n bps (if big then 1 else 0) channels big sr).1,
          pos := 0, errno := e } p 0 = some r ∧
      r.ret = fd ∧ r.info.channels = channels ∧ r.info.bytespersample = bps ∧
      r.info.samplerate = sr ∧ r.info.bigendian = (if big then 1 else 0) ∧
      r.info.headersize
        = (create_soundfile FORMAT_NEXT n bps (if big then 1 else 0) channels big sr).2 ∧
      (create_soundfile FORMAT_NEXT n bps (if big then 1 else 0) channels big sr).2
        = ((create_soundfile FORMAT_NEXT n bps (if big then 1 else 0) channels big sr).1.length
            : Nat) := by
  obtain ⟨info, hi, hcreate⟩ := create_next big n bps channels sr
  rw [hcreate]
  simp only []
  have hcode : toUInt32 (if (bps : Int) = 3 then NS_FORMAT_LINEAR_24
      else (if (bps : Int) = 4 then NS_FORMAT_FLOAT else NS_FORMAT_LINEAR_16))
      = if bps = 2 then 3 else if bps = 3 then 4 else 6 := by
    rcases hb with rfl | rfl | rfl <;> decide
  rw [hcode, f2u32_natCast _ (by omega), toUInt32_natCast _ (by omega)]
  generalize hcd : (if bps = 2 then 3 else if bps = 3 then 4 else 6 : Nat) = code
  have hcode3 : code < 2 ^ 32 := by
    rw [← hcd]; split_ifs <;> norm_num
  obtain ⟨hlen, hmagic, h4, h12, h16, h20⟩ := nextHeader_fields big 28 0 code sr channels info hi
  generalize nextHeader big 28 0 code sr channels info = data at hlen hmagic h4 h12 h16 h20
  rw [Nat.mod_eq_of_lt (by norm_num)] at h4
  rw [Nat.mod_eq_of_lt hcode3] at h12
  rw [Nat.mod_eq_of_lt (by omega)] at h16 h20
  have hparse := next_parse k fd data e p 0 big hp (by omega) hmagic
  rw [h4, h12, h16, h20, toInt32_of_lt _ hsr, toInt32_of_lt _ hc] at hparse
  have hcase : (code = 3 ∨ code = 4 ∨ code = 6) := by
    rw [← hcd]; rcases hb with rfl | rfl | rfl <;> decide
  have hbps : (if code = 3 then (2 : Int) else if code = 4 then 3 else 4) = bps := by
    rw [← hcd]; rcases hb with rfl | rfl | rfl <;> decide
  rw [if_pos hcase, hbps] at hparse
  have h28 : toInt32 ((28 : Nat) : Int) = 28 := by decide
  rw [h28] at hparse
  have hseek := seek_past_header_int fd p 28 (if big then 1 else 0) channels bps 0x7fffffff sr
    { data := data, pos := (data.take 46).length, errno := 0 } (by norm_num) (by norm_num)
    (by norm_num)
  have hn : ¬ ((28 : Int) < 0 ∧ (28 : Int) ≠ -1) := by decide
  have hcast : ((0x7fffffff : Nat) : Int) = 0x7fffffff := by norm_num
  rw [if_neg hn, hcast] at hseek
  rw [hseek] at hparse
  refine ⟨_, hparse, rfl, rfl, rfl, rfl, rfl, rfl, ?_⟩
  rw [hlen]; rfl


/-! ## The sample codec -/

theorem forloop_succ {σ : Type} (n : Nat) (body : Nat → σ → σ) (init : σ) :
    forloop (n + 1) body init = body n (forloop n body init) := by
  simp [forloop, List.range_succ, List.foldl_append]

theorem forloop_zero {σ : Type} (body : Nat → σ → σ) (init : σ) :
    forloop 0 body init = init := rfl

/-- A loop whose `j`-th pass assigns the cells `S j` of a memory, observed through
`obs`, the values `v j` and leaves every other cell alone: a cell that only pass `j`
assigns ends up with `v j`, and a cell that no pass assigns keeps its value. -/
theorem forloop_obs {σ κ α : Type} (obs : σ → κ → α) (W : Nat → σ → σ)
    (S : Nat → κ → Prop) (v : Nat → κ → α) (n : Nat)
    (hout : ∀ j st k, j < n → ¬ S j k → obs (W j st) k = obs st k)
    (hin : ∀ j st k, j < n → S j k → obs (W j st) k = v j k) (st : σ) (k : κ) :
    (∀ j, j < n → S j k → (∀ j2, j2 < n → j2 ≠ j → ¬ S j2 k) →
        obs (forloop n W st) k = v j k) ∧
    ((∀ j, j < n → ¬ S j k) → obs (forloop n W st) k = obs st k) := by
  induction n with
  | zero =>
    refine ⟨fun j hj => absurd hj (Nat.not_lt_zero _), fun _ => rfl⟩
  | succ n ih =>
    have ih2 := ih (fun j st k hj => hout j st k (Nat.lt_succ_of_lt hj))
      (fun j st k hj => hin j st k (Nat.lt_succ_of_lt hj))
    refine ⟨fun j hj hS hothers => ?_, fun hnone => ?_⟩
    · rw [forloop_succ]
      by_cases hjn : j = n
      · subst hjn
        exact hin j _ k hj hS
      · have hjlt : j < n := by omega
        rw [hout n _ k (Nat.lt_succ_self n) (hothers n (Nat.lt_succ_self n) (Ne.symm hjn))]
        exact ih2.1 j hjlt hS (fun j2 h2 hne => hothers j2 (Nat.lt_succ_of_lt h2) hne)
    · rw [forloop_succ, hout n _ k (Nat.lt_succ_self n) (hnone n (Nat.lt_succ_self n))]
      exact ih2.2 (fun j hj => hnone j (Nat.lt_succ_of_lt hj))


theorem forloop_inv {σ : Type} (P : σ → Prop) (W : Nat → σ → σ)
    (h : ∀ j st, P st → P (W j st)) (n : Nat) (st : σ) (h0 : P st) : P (forloop n W st) := by
  induction n with
  | zero => exact h0
  | succ n ih => rw [forloop_succ]; exact h _ _ ih

/-- Two samples of an interleaved buffer that share a byte are the same sample. -/
theorem frame_disjoint (nch L i j i2 j2 k : Nat) (hi : i < nch) (hi2 : i2 < nch)
    (h1 : (i + j * nch) * L ≤ k) (h2 : k < (i + j * nch) * L + L)
    (h3 : (i2 + j2 * nch) * L ≤ k) (h4 : k < (i2 + j2 * nch) * L + L) : i = i2 ∧ j = j2 := by
  have hL : 0 < L := by
    rcases Nat.eq_zero_or_pos L with h | h
    · subst h; omega
    · exact h
  have e1 : k / L = i + j * nch := by
    apply Nat.div_eq_of_lt_le
    · rw [Nat.mul_comm] at h1; rw [Nat.mul_comm]; exact h1
    · have : (i + j * nch + 1) * L = (i + j * nch) * L + L := by ring
      rw [this]; exact h2
  have e2 : k / L = i2 + j2 * nch := by
    apply Nat.div_eq_of_lt_le
    · rw [Nat.mul_comm] at h3; rw [Nat.mul_comm]; exact h3
    · have : (i2 + j2 * nch + 1) * L = (i2 + j2 * nch) * L + L := by ring
      rw [this]; exact h4
  have e : i + j * nch = i2 + j2 * nch := by rw [← e1, ← e2]
  have m1 : (i + j * nch) % nch = i := by
    rw [Nat.add_mul_mod_self_right, Nat.mod_eq_of_lt hi]
  have m2 : (i2 + j2 * nch) % nch = i2 := by
    rw [Nat.add_mul_mod_self_right, Nat.mod_eq_of_lt hi2]
  have ei : i = i2 := by rw [← m1, ← m2, e]
  subst ei
  have : j * nch = j2 * nch := by omega
  exact ⟨rfl, Nat.eq_of_mul_eq_mul_right (by omega) this⟩

/-- The two nested loops of the encoders: the sample of channel `i`, frame `j` ends up
in the `L` bytes at offset `(i + j * nch) * L`. -/
theorem xferout_loops (nch nitems L : Nat) (bs : Nat → Nat → List Byte)
    (hlen : ∀ i j, (bs i j).length = L) (buf : Nat → Byte) (i j t : Nat) (hi : i < nch)
    (hj : j < nitems) (ht : t < L) :
    forloop nch (fun i buf =>
      forloop nitems (fun j buf => pokes buf (i * L + j * (L * nch)) (bs i j)) buf) buf
        (i * L + j * (L * nch) + t) = (bs i j).getD t 0 := by
  have hpos : ∀ i j, i * L + j * (L * nch) = (i + j * nch) * L := by intro i j; ring
  simp only [hpos]
  -- the inner loop of channel `i`
  have inner := fun (i : Nat) (st : Nat → Byte) (k : Nat) =>
    forloop_obs (fun (st : Nat → Byte) k => st k)
      (fun j buf => pokes buf ((i + j * nch) * L) (bs i j))
      (fun j k => (i + j * nch) * L ≤ k ∧ k < (i + j * nch) * L + L)
      (fun j k => (bs i j).getD (k - (i + j * nch) * L) 0) nitems
      (fun j st k _ hS => by
        show pokes st _ _ k = st k
        unfold pokes
        rw [hlen, if_neg hS])
      (fun j st k _ hS => by
        show pokes st _ _ k = _
        unfold pokes
        rw [hlen, if_pos hS]) st k
  have outer := forloop_obs (fun (st : Nat → Byte) k => st k)
      (fun i buf => forloop nitems (fun j buf => pokes buf ((i + j * nch) * L) (bs i j)) buf)
      (fun i k => ∃ j, j < nitems ∧ (i + j * nch) * L ≤ k ∧ k < (i + j * nch) * L + L)
      (fun i k => forloop nitems (fun j buf => pokes buf ((i + j * nch) * L) (bs i j))
        (fun _ => 0) k) nch
      (fun i st k _ hS => (inner i st k).2 (fun j hj hS2 => hS ⟨j, hj, hS2⟩))
      (fun i st k hi hS => by
        obtain ⟨j, hj, h1, h2⟩ := hS
        have hu : ∀ j2, j2 < nitems → j2 ≠ j →
            ¬ ((i + j2 * nch) * L ≤ k ∧ k < (i + j2 * nch) * L + L) := by
          intro j2 _ hne h
          exact hne (frame_disjoint nch L i j i j2 k hi hi h1 h2 h.1 h.2).2.symm
        show forloop nitems _ st k = forloop nitems _ (fun _ => 0) k
        rw [(inner i st k).1 j hj ⟨h1, h2⟩ hu, (inner i (fun _ => 0) k).1 j hj ⟨h1, h2⟩ hu])
      buf ((i + j * nch) * L + t)
  have hin : (i + j * nch) * L ≤ (i + j * nch) * L + t ∧
      (i + j * nch) * L + t < (i + j * nch) * L + L := ⟨by omega, by omega⟩
  have hu : ∀ j2, j2 < nitems → j2 ≠ j →
      ¬ ((i + j2 * nch) * L ≤ (i + j * nch) * L + t ∧
          (i + j * nch) * L + t < (i + j2 * nch) * L + L) := by
    intro j2 _ hne h
    exact hne (frame_disjoint nch L i j i j2 _ hi hi hin.1 hin.2 h.1 h.2).2.symm
  have r := outer.1 i hi ⟨j, hj, hin⟩ (by
    intro i2 hi2 hne h
    obtain ⟨j2, _, h1, h2⟩ := h
    exact hne (frame_disjoint nch L i j i2 j2 _ hi hi2 hin.1 hin.2 h1 h2).1.symm)
  have r2 := (inner i (fun _ => 0) ((i + j * nch) * L + t)).1 j hj hin hu
  simp only [Nat.add_sub_cancel_left] at r2
  exact r.trans r2



/-- The two nested loops of the decoders: the value of channel `i`, frame `j` ends up
in `vecs[i][key j]` when the frames are stored at distinct indices. -/
theorem xferin_loops (nch nitems : Nat) (key : Nat → Nat) (val : Nat → Nat → ℚ)
    (hinj : ∀ a b, a < nitems → b < nitems → key a = key b → a = b)
    (vecs : Nat → Nat → ℚ) (i j : Nat) (hi : i < nch) (hj : j < nitems) :
    forloop nch (fun i vecs =>
      forloop nitems (fun j vecs => poke2 vecs i (key j) (val i j)) vecs) vecs i (key j)
      = val i j := by
  have inner := fun (i : Nat) (st : Nat → Nat → ℚ) (k : Nat × Nat) =>
    forloop_obs (fun (st : Nat → Nat → ℚ) (k : Nat × Nat) => st k.1 k.2)
      (fun j vecs => poke2 vecs i (key j) (val i j))
      (fun j k => k.1 = i ∧ k.2 = key j)
      (fun j _ => val i j) nitems
      (fun j st k _ hS => by
        show poke2 st i (key j) (val i j) k.1 k.2 = st k.1 k.2
        unfold poke2 poke
        by_cases h1 : k.1 = i
        · rw [if_pos h1, if_neg (fun h => hS ⟨h1, h⟩), h1]
        · rw [if_neg h1])
      (fun j st k _ hS => by
        show poke2 st i (key j) (val i j) k.1 k.2 = val i j
        unfold poke2 poke
        rw [if_pos hS.1, if_pos hS.2]) st k
  have outer := forloop_obs (fun (st : Nat → Nat → ℚ) (k : Nat × Nat) => st k.1 k.2)
      (fun i vecs => forloop nitems (fun j vecs => poke2 vecs i (key j) (val i j)) vecs)
      (fun i k => k.1 = i ∧ ∃ j, j < nitems ∧ k.2 = key j)
      (fun i k => forloop nitems (fun j vecs => poke2 vecs i (key j) (val i j))
        (fun _ _ => 0) k.1 k.2) nch
      (fun i st k _ hS => (inner i st k).2 (fun j hj hS2 => hS ⟨hS2.1, j, hj, hS2.2⟩))
      (fun i st k _ hS => by
        obtain ⟨h1, j, hj, h2⟩ := hS
        have hu : ∀ j2, j2 < nitems → j2 ≠ j → ¬ (k.1 = i ∧ k.2 = key j2) := by
          intro j2 hj2 hne h
          exact hne (hinj j2 j hj2 hj (h.2.symm.trans h2))
        show forloop nitems _ st k.1 k.2 = forloop nitems _ (fun _ _ => 0) k.1 k.2
        rw [(inner i st k).1 j hj ⟨h1, h2⟩ hu, (inner i (fun _ _ => 0) k).1 j hj ⟨h1, h2⟩ hu])
      vecs (i, key j)
  have hu : ∀ j2, j2 < nitems → j2 ≠ j → ¬ ((i, key j).1 = i ∧ (i, key j).2 = key j2) := by
    intro j2 hj2 hne h
    exact hne (hinj j2 j hj2 hj h.2.symm)
  have r := outer.1 i hi ⟨rfl, j, hj, rfl⟩ (by
    intro i2 _ hne h
    exact hne h.1.symm)
  have r2 := (inner i (fun _ _ => 0) (i, key j)).1 j hj ⟨rfl, rfl⟩ hu
  exact r.trans r2

/-- The loop that zeroes the surplus outputs leaves the rows of the file's channels
alone. -/
theorem xferin_zero_row (sfchannels nvecs : Nat) (vecs : Nat → Nat → ℚ) (nitems i : Nat)
    (hi : i < sfchannels) : xferin_zero sfchannels nvecs vecs nitems i = vecs i := by
  unfold xferin_zero
  refine forloop_inv (fun (st : Nat → Nat → ℚ) => st i = vecs i) _ ?_ _ _ rfl
  intro k st h
  refine forloop_inv (fun (st : Nat → Nat → ℚ) => st i = vecs i) _ ?_ _ _ h
  intro j st h
  show poke2 st (sfchannels + k) j 0 i = vecs i
  unfold poke2
  rw [if_neg (by omega)]
  exact h

theorem xferin_value_some (buf : Nat → Byte) (p : Nat) (bps : Int) (big : Int)
    (unbits : Nat → ℚ) (hb : bps = 2 ∨ bps = 3 ∨ bps = 4) :
    xferin_value buf p bps big unbits = some (xferin_get buf p bps big unbits) := by
  unfold xferin_get xferin_value
  rcases hb with rfl | rfl | rfl <;> by_cases h : big = 0 <;> simp [h]

theorem key_inj (spread base : Nat) (hs : 1 ≤ spread) (a b : Nat)
    (h : base + a * spread = base + b * spread) : a = b :=
  Nat.eq_of_mul_eq_mul_right (Nat.lt_of_lt_of_le Nat.zero_lt_one hs) (Nat.add_left_cancel h)

/-- Where `soundfile_xferin_float` leaves the sample of channel `i`, frame `j`. -/
theorem xferin_float_at (sfchannels nvecs : Nat) (vecs : Nat → Nat → ℚ) (itemsread : Nat)
    (buf : Nat → Byte) (nitems : Nat) (bps : Int) (big : Int) (spread : Nat)
    (unbits : Nat → ℚ) (hb : bps = 2 ∨ bps = 3 ∨ bps = 4) (hs : 1 ≤ spread) (i j : Nat)
    (hi : i < sfchannels) (hi2 : i < nvecs) (hj : j < nitems) :
    soundfile_xferin_float sfchannels nvecs vecs itemsread buf nitems bps big spread unbits
        i (spread * itemsread + j * spread)
      = xferin_get buf (i * bps.toNat + j * (bps.toNat * sfchannels)) bps big unbits := by
  unfold soundfile_xferin_float
  simp only [xferin_value_some _ _ _ _ _ hb]
  rw [xferin_zero_row _ _ _ _ _ hi]
  exact xferin_loops _ nitems (fun j => spread * itemsread + j * spread)
    (fun i j => xferin_get buf (i * bps.toNat + j * (bps.toNat * sfchannels)) bps big unbits)
    (fun a b _ _ h => key_inj spread _ hs a b h) vecs i j
    (by split_ifs <;> omega) hj

/-- Where `soundfile_xferin_sample` leaves the sample of channel `i`, frame `j`. -/
theorem xferin_sample_at (sfchannels nvecs : Nat) (vecs : Nat → Nat → ℚ) (itemsread : Nat)
    (buf : Nat → Byte) (nitems : Nat) (bps : Int) (big : Int)
    (unbits : Nat → ℚ) (hb : bps = 2 ∨ bps = 3 ∨ bps = 4) (i j : Nat)
    (hi : i < sfchannels) (hi2 : i < nvecs) (hj : j < nitems) :
    soundfile_xferin_sample sfchannels nvecs vecs itemsread buf nitems bps big unbits
        i (itemsread + j)
      = xferin_get buf (i * bps.toNat + j * (bps.toNat * sfchannels)) bps big unbits := by
  unfold soundfile_xferin_sample
  simp only [xferin_value_some _ _ _ _ _ hb]
  rw [xferin_zero_row _ _ _ _ _ hi]
  exact xferin_loops _ nitems (fun j => itemsread + j)
    (fun i j => xferin_get buf (i * bps.toNat + j * (bps.toNat * sfchannels)) bps big unbits)
    (fun a b _ _ h => Nat.add_left_cancel h) vecs i j
    (by split_ifs <;> omega) hj



theorem int_of_bytes_eq (b0 b1 b2 b3 : Nat) :
    int_of_bytes b0 b1 b2 b3 = twosComplement 32
      (b0 % 256 * 2 ^ 24 + b1 % 256 * 2 ^ 16 + b2 % 256 * 2 ^ 8 + b3 % 256) := by
  unfold int_of_bytes
  have h0 : b0 % 256 < 256 := Nat.mod_lt _ (by norm_num)
  have h1 : b1 % 256 < 256 := Nat.mod_lt _ (by norm_num)
  have h2 : b2 % 256 < 256 := Nat.mod_lt _ (by norm_num)
  have h3 : b3 % 256 < 256 := Nat.mod_lt _ (by norm_num)
  rw [or4 _ _ _ _ h1 h2 h3]
  generalize b0 % 256 = a0 at h0 ⊢
  generalize b1 % 256 = a1 at h1 ⊢
  generalize b2 % 256 = a2 at h2 ⊢
  generalize b3 % 256 = a3 at h3 ⊢
  unfold toInt32 twosComplement
  norm_num
  split_ifs <;> omega


theorem scale16 (a0 a1 : Nat) :
    SCALE * ((twosComplement 32 (a0 * 16777216 + a1 * 65536) : Int) : ℚ)
      = ((twosComplement 16 (a0 * 256 + a1) : Int) : ℚ) / 2 ^ 15 := by
  have e : twosComplement 32 (a0 * 16777216 + a1 * 65536)
      = twosComplement 16 (a0 * 256 + a1) * 2 ^ 16 := by
    unfold twosComplement
    norm_num
    split_ifs <;> omega
  rw [e]
  unfold SCALE
  push_cast
  ring

theorem scale24 (a0 a1 a2 : Nat) :
    SCALE * ((twosComplement 32 (a0 * 16777216 + a1 * 65536 + a2 * 256) : Int) : ℚ)
      = ((twosComplement 24 ((a0 * 256 + a1) * 256 + a2) : Int) : ℚ) / 2 ^ 23 := by
  have e : twosComplement 32 (a0 * 16777216 + a1 * 65536 + a2 * 256)
      = twosComplement 24 ((a0 * 256 + a1) * 256 + a2) * 2 ^ 8 := by
    unfold twosComplement
    norm_num
    split_ifs <;> omega
  rw [e]
  unfold SCALE
  push_cast
  ring

/-- The value the decoders store for a 16- or 24-bit sample. -/
theorem xferin_get_eq (buf : Nat → Byte) (p : Nat) (bps : Nat) (big : Int)
    (unbits : Nat → ℚ) (hb : bps = 2 ∨ bps = 3) :
    xferin_get buf p bps big unbits
      = (sampleInt buf p bps (decide (big ≠ 0)) : ℚ) / 2 ^ (8 * bps - 1) := by
  have z : (0 : Nat) % 256 = 0 := rfl
  rcases hb with rfl | rfl
  · by_cases h : big = 0
    · subst h
      simp only [xferin_get, xferin_value, sampleInt, sampleBytes, unsignedOfBytes,
        int_of_bytes_eq, z]
      simp [List.range_succ]
      exact scale16 _ _
    · simp only [xferin_get, xferin_value, sampleInt, sampleBytes, unsignedOfBytes,
        int_of_bytes_eq, z]
      simp [List.range_succ, h]
      exact scale16 _ _
  · by_cases h : big = 0
    · subst h
      simp only [xferin_get, xferin_value, sampleInt, sampleBytes, unsignedOfBytes,
        int_of_bytes_eq, z]
      simp [List.range_succ]
      exact scale24 _ _ _
    · simp only [xferin_get, xferin_value, sampleInt, sampleBytes, unsignedOfBytes,
        int_of_bytes_eq, z]
      simp [List.range_succ, h]
      exact scale24 _ _ _



/-! ## Rounding to binary floating point -/

/-- What `ilog2` computes: the position of the leading binary digit. -/
theorem ilog2_spec (fuel n : Nat) (h1 : 1 ≤ n) (h2 : n < 2 ^ fuel) :
    2 ^ ilog2 fuel n ≤ n ∧ n < 2 ^ (ilog2 fuel n + 1) := by
  induction fuel generalizing n with
  | zero => simp at h2; omega
  | succ k ih =>
    unfold ilog2
    by_cases hn : n < 2
    · rw [if_pos hn]
      simp
      omega
    · rw [if_neg hn]
      have hk : n / 2 < 2 ^ k := by
        rw [Nat.pow_succ] at h2
        omega
      obtain ⟨a, b⟩ := ih (n / 2) (by omega) hk
      constructor
      · rw [Nat.pow_succ]; omega
      · rw [Nat.pow_succ]; omega

/-- The exponent of `frexp`: `2 ^ (e - 1) ≤ q < 2 ^ e` for every positive `q`. -/
theorem frexp_exponent_spec (q : ℚ) (hq : 0 < q) :
    (2 : ℚ) ^ (frexp_exponent q - 1) ≤ q ∧ q < (2 : ℚ) ^ frexp_exponent q := by
  unfold frexp_exponent
  by_cases h1 : 1 ≤ q
  · rw [if_pos h1]
    have hf0 : (1 : Int) ≤ ⌊q⌋ := by rw [Int.le_floor]; exact_mod_cast h1
    obtain ⟨n, hn⟩ : ∃ n : Nat, ⌊q⌋ = (n : Int) := ⟨⌊q⌋.toNat, by omega⟩
    have hn1 : 1 ≤ n := by omega
    rw [hn, Int.toNat_ofNat]
    obtain ⟨a, b⟩ := ilog2_spec n n hn1 (Nat.lt_two_pow n)
    generalize ilog2 n n = L at a b
    have hfl : ((n : Int) : ℚ) ≤ q := by rw [← hn]; exact Int.floor_le q
    have hfu : q < ((n : Int) : ℚ) + 1 := by rw [← hn]; exact Int.lt_floor_add_one q
    have e1 : (((L + 1 : Nat) : Int)) - 1 = ((L : Nat) : Int) := by push_cast; ring
    rw [e1, zpow_natCast, zpow_natCast]
    constructor
    · have : ((2 ^ L : Nat) : ℚ) ≤ (n : ℚ) := by exact_mod_cast a
      push_cast at this hfl
      linarith
    · have : ((n + 1 : Nat) : ℚ) ≤ ((2 ^ (L + 1) : Nat) : ℚ) := by exact_mod_cast b
      push_cast at this hfu
      linarith
  · rw [if_neg h1]
    have hq1 : q < 1 := not_le.mp h1
    have hinv : 1 < 1 / q := by rw [lt_div_iff₀ hq]; linarith
    have hc0 : (2 : Int) ≤ ⌈1 / q⌉ := by
      have : (1 : Int) < ⌈1 / q⌉ := by rw [Int.lt_ceil]; exact_mod_cast hinv
      omega
    obtain ⟨m, hm⟩ : ∃ m : Nat, ⌈1 / q⌉ = ((m + 1 : Nat) : Int) :=
      ⟨⌈1 / q⌉.toNat - 1, by omega⟩
    have hm1 : 1 ≤ m := by omega
    rw [hm, Int.toNat_ofNat, Nat.add_sub_cancel]
    obtain ⟨a, b⟩ := ilog2_spec m m hm1 (Nat.lt_two_pow m)
    generalize ilog2 m m = L at a b
    have hcu : 1 / q ≤ (((m + 1 : Nat) : Int) : ℚ) := by rw [← hm]; exact Int.le_ceil _
    have hcl : (((m + 1 : Nat) : Int) : ℚ) - 1 < 1 / q := by
      have := Int.ceil_lt_add_one (1 / q)
      rw [hm] at this
      linarith
    push_cast at hcu hcl
    have a2 : ((2 ^ L : Nat) : ℚ) ≤ (m : ℚ) := by exact_mod_cast a
    have b2 : ((m + 1 : Nat) : ℚ) ≤ ((2 ^ (L + 1) : Nat) : ℚ) := by exact_mod_cast b
    push_cast at a2 b2
    have hP : (0 : ℚ) < 2 ^ L := by positivity
    have hP1 : (0 : ℚ) < 2 ^ (L + 1) := by positivity
    have e1 : (-((L : Nat) : Int)) - 1 = -(((L + 1 : Nat)) : Int) := by push_cast; ring
    rw [e1, zpow_neg, zpow_neg, zpow_natCast, zpow_natCast]
    constructor
    · rw [inv_eq_one_div, div_le_iff₀ hP1]
      have h3 : 1 / q ≤ 2 ^ (L + 1) := by linarith
      rw [div_le_iff₀ hq] at h3
      linarith
    · rw [inv_eq_one_div, lt_div_iff₀ hP]
      have h3 : (2 : ℚ) ^ L < 1 / q := by linarith
      rw [lt_div_iff₀ hq] at h3
      linarith

/-- Rounding to the nearest integer moves a number by at most one half. -/
theorem round_even_err (x : ℚ) : |((round_even x : Int) : ℚ) - x| ≤ 1 / 2 := by
  have h1 : ((⌊x⌋ : Int) : ℚ) ≤ x := Int.floor_le x
  have h2 : x < ((⌊x⌋ : Int) : ℚ) + 1 := Int.lt_floor_add_one x
  unfold round_even
  rw [abs_le]
  split_ifs with a b c
  · constructor <;> linarith
  · push_cast; constructor <;> linarith
  · constructor <;> linarith
  · push_cast; constructor <;> linarith

/-- An integer rounds to itself. -/
theorem round_even_int (n : Int) : round_even (n : ℚ) = n := by
  unfold round_even
  rw [Int.floor_intCast]
  simp

theorem round_even_le (n : Int) (x : ℚ) (h : x ≤ (n : ℚ)) : round_even x ≤ n := by
  have h1 : ((⌊x⌋ : Int) : ℚ) ≤ x := Int.floor_le x
  have hf : ⌊x⌋ ≤ n := by
    have : ((⌊x⌋ : Int) : ℚ) ≤ (n : ℚ) := le_trans h1 h
    exact_mod_cast this
  by_cases he : ⌊x⌋ = n
  · have hx : x = (n : ℚ) := by
      rw [← he] at h ⊢
      exact le_antisymm h h1
    rw [hx, round_even_int]
  · have : ⌊x⌋ + 1 ≤ n := by omega
    unfold round_even
    split_ifs <;> omega

/-- Rounding to the nearest integer, ties to even, is odd. -/
theorem round_even_neg (x : ℚ) : round_even (-x) = -round_even x := by
  by_cases hi : ((⌊x⌋ : Int) : ℚ) = x
  · rw [← hi, ← Int.cast_neg, round_even_int, round_even_int]
  · have h1 : ((⌊x⌋ : Int) : ℚ) < x := lt_of_le_of_ne (Int.floor_le x) hi
    have h2 : x < ((⌊x⌋ : Int) : ℚ) + 1 := Int.lt_floor_add_one x
    have hf : ⌊-x⌋ = -⌊x⌋ - 1 := by
      rw [Int.floor_eq_iff]
      push_cast
      constructor <;> linarith
    unfold round_even
    rw [hf]
    push_cast
    generalize ⌊x⌋ = f at *
    by_cases a : x - (f : ℚ) < 1 / 2
    · rw [if_pos a, if_neg (by linarith), if_pos (by linarith)]
      ring
    · by_cases b : 1 / 2 < x - (f : ℚ)
      · rw [if_neg a, if_pos b, if_pos (by linarith)]
        ring
      · rw [if_neg a, if_neg b, if_neg (by linarith), if_neg (by linarith)]
        split_ifs <;> omega

/-- The relative error of a rounding to `p` bits is at most `2 ^ (-p)`. -/
theorem fround_err (p : Nat) (q : ℚ) : |fround p q - q| ≤ |q| / 2 ^ p := by
  unfold fround
  by_cases h0 : q = 0
  · rw [if_pos h0, h0]; simp
  · rw [if_neg h0]
    obtain ⟨a, _⟩ := frexp_exponent_spec |q| (abs_pos.mpr h0)
    generalize frexp_exponent |q| = e at a ⊢
    have hu : (0 : ℚ) < (2 : ℚ) ^ (e - (p : Int)) := by positivity
    have hr := round_even_err (q / (2 : ℚ) ^ (e - (p : Int)))
    generalize round_even (q / (2 : ℚ) ^ (e - (p : Int))) = r at hr ⊢
    have e1 : (r : ℚ) * (2 : ℚ) ^ (e - (p : Int)) - q
        = ((r : ℚ) - q / (2 : ℚ) ^ (e - (p : Int))) * (2 : ℚ) ^ (e - (p : Int)) := by
      field_simp
    rw [e1, abs_mul, abs_of_pos hu]
    have e2 : (2 : ℚ) ^ (e - 1) = (2 : ℚ) ^ (e - (p : Int)) * 2 ^ p / 2 := by
      rw [zpow_sub₀ (by norm_num), zpow_sub₀ (by norm_num), zpow_natCast]
      field_simp
    have hp : (0 : ℚ) < 2 ^ p := by positivity
    rw [le_div_iff₀ hp]
    rw [e2] at a
    have : |(r : ℚ) - q / (2 : ℚ) ^ (e - (p : Int))| * (2 : ℚ) ^ (e - (p : Int)) * 2 ^ p
        ≤ 1 / 2 * (2 : ℚ) ^ (e - (p : Int)) * 2 ^ p := by
      apply mul_le_mul_of_nonneg_right _ hp.le
      exact mul_le_mul_of_nonneg_right hr hu.le
    linarith

/-- Rounding commutes with the change of sign. -/
theorem fround_neg (p : Nat) (q : ℚ) : fround p (-q) = -fround p q := by
  unfold fround
  by_cases h0 : q = 0
  · simp [h0]
  · rw [if_neg h0, if_neg (neg_ne_zero.mpr h0), abs_neg, neg_div, round_even_neg]
    push_cast
    ring

/-- A number `m * 2 ^ k` with `|m| < 2 ^ p` has `p` significant bits: rounding leaves
it alone. -/
theorem fround_repr (p : Nat) (m k : Int) (hm : |m| < 2 ^ p) :
    fround p ((m : ℚ) * (2 : ℚ) ^ k) = (m : ℚ) * (2 : ℚ) ^ k := by
  unfold fround
  by_cases h0 : (m : ℚ) * (2 : ℚ) ^ k = 0
  · rw [if_pos h0, h0]
  · rw [if_neg h0]
    obtain ⟨a, _⟩ := frexp_exponent_spec |(m : ℚ) * (2 : ℚ) ^ k| (abs_pos.mpr h0)
    generalize frexp_exponent |(m : ℚ) * (2 : ℚ) ^ k| = e at a ⊢
    have hk : (0 : ℚ) < (2 : ℚ) ^ k := by positivity
    have hmq : |(m : ℚ)| < 2 ^ p := by
      have : ((|m| : Int) : ℚ) < (((2 : Int) ^ p : Int) : ℚ) := by exact_mod_cast hm
      push_cast at this
      exact this
    have hlt : (2 : ℚ) ^ (e - 1) < (2 : ℚ) ^ ((p : Int) + k) := by
      rw [abs_mul, abs_of_pos hk] at a
      rw [zpow_add₀ (by norm_num), zpow_natCast]
      exact lt_of_le_of_lt a (mul_lt_mul_of_pos_right hmq hk)
    have hle : e - 1 < (p : Int) + k := (zpow_lt_zpow_iff_right₀ (by norm_num)).mp hlt
    obtain ⟨j, hj⟩ : ∃ j : Nat, k - (e - (p : Int)) = (j : Int) :=
      ⟨(k - (e - (p : Int))).toNat, by omega⟩
    have hu : (0 : ℚ) < (2 : ℚ) ^ (e - (p : Int)) := by positivity
    have e1 : (m : ℚ) * (2 : ℚ) ^ k / (2 : ℚ) ^ (e - (p : Int)) = ((m * 2 ^ j : Int) : ℚ) := by
      rw [mul_div_assoc, ← zpow_sub₀ (by norm_num), hj, zpow_natCast]
      push_cast
      ring
    rw [e1, round_even_int, ← e1]
    field_simp

/-- An integer of at most `p` bits, and `2 ^ p` itself, round to themselves. -/
theorem fround_int (p : Nat) (n : Int) (hn : |n| ≤ 2 ^ p) (hp : 1 ≤ p) :
    fround p (n : ℚ) = (n : ℚ) := by
  by_cases h : |n| < 2 ^ p
  · have := fround_repr p n 0 h
    simpa using this
  · have he : |n| = 2 ^ p := le_antisymm hn (not_lt.mp h)
    obtain ⟨r, hr⟩ : ∃ r : Nat, p = r + 1 := ⟨p - 1, by omega⟩
    subst hr
    have h2 : (2 : Int) ^ (r + 1) = 2 * 2 ^ r := by rw [pow_succ]; ring
    have hpos : (0 : Int) < 2 ^ r := by positivity
    have hlt : (2 : Int) ^ r < 2 ^ (r + 1) := by rw [h2]; omega
    rcases abs_eq (by positivity : (0 : Int) ≤ 2 ^ (r + 1)) |>.mp he with e | e
    · have := fround_repr (r + 1) (2 ^ r) 1 (by rw [abs_of_pos hpos]; exact hlt)
      rw [e]
      push_cast at this ⊢
      rw [pow_succ]
      simpa using this
    · have := fround_repr (r + 1) (-(2 ^ r)) 1 (by rw [abs_neg, abs_of_pos hpos]; exact hlt)
      rw [e]
      push_cast at this ⊢
      rw [pow_succ]
      simpa using this

/-- A natural number of at most 24 bits is a `float`. -/
theorem to_float_natCast (n : Nat) (h : n ≤ 2 ^ 24) : to_float (n : ℚ) = (n : ℚ) := by
  have := fround_int 24 (n : Int) (by rw [abs_le]; constructor <;> omega) (by norm_num)
  simpa [to_float] using this

/-! ## The sample encoders -/

/-- The integer the 16- and 24-bit branches store, when the rounded product is not
below `-2^31`: its floor, saturated. -/
theorem xferout_int_eq (half : Int) (x ff : ℚ) (hh : half = 32768 ∨ half = 8388608)
    (hlo : -(2 ^ 31 : ℚ) ≤ to_float (x * ff)) :
    xferout_int half x ff = max (-(half - 1)) (min (half - 1) ⌊to_float (x * ff)⌋) := by
  unfold xferout_int d2i
  simp only []
  generalize to_float (x * ff) = q at hlo ⊢
  have hf1 : ((⌊q⌋ : Int) : ℚ) ≤ q := Int.floor_le q
  have hc1 : q ≤ ((⌈q⌉ : Int) : ℚ) := Int.le_ceil q
  have hfc : ⌊q⌋ ≤ ⌈q⌉ := Int.floor_le_ceil q
  have hflo : -(2 ^ 31 : Int) ≤ ⌊q⌋ := by
    rw [Int.le_floor]; push_cast; exact hlo
  have hadd : ⌊(half : ℚ) + q⌋ = half + ⌊q⌋ := Int.floor_int_add half q
  have hadc : ⌈(half : ℚ) + q⌉ = half + ⌈q⌉ := by
    rw [add_comm, Int.ceil_add_int, add_comm]
  have hpos : (0 : ℚ) ≤ (half : ℚ) + q ↔ -half ≤ ⌊q⌋ := by
    rw [Int.le_floor]; push_cast; constructor <;> intro h <;> linarith
  have hcl : ¬ ((0 : ℚ) ≤ (half : ℚ) + q) → ⌈q⌉ ≤ -half := by
    intro h
    rw [Int.ceil_le]; push_cast; linarith
  have hT : truncQ ((half : ℚ) + q)
      = if -half ≤ ⌊q⌋ then half + ⌊q⌋ else half + ⌈q⌉ := by
    unfold truncQ
    by_cases h : (0 : ℚ) ≤ (half : ℚ) + q
    · rw [if_pos h, if_pos (hpos.mp h), hadd]
    · rw [if_neg h, if_neg (fun h2 => h (hpos.mpr h2)), hadc]
  have hcl2 : ¬ (-half ≤ ⌊q⌋) → ⌈q⌉ ≤ -half := fun h => hcl (fun h2 => h (hpos.mp h2))
  rw [hT]
  clear hT hpos hcl hadd hadc hf1 hc1 hlo
  generalize ⌊q⌋ = f at *
  generalize ⌈q⌉ = c at *
  have p31 : (2 : Int) ^ 31 = 2147483648 := by norm_num
  have p32 : (2 : Int) ^ 32 = 4294967296 := by norm_num
  rw [p31] at hflo
  simp only [toInt32, p31, p32]
  rcases hh with rfl | rfl
  · simp only [max_def, min_def]
    split_ifs <;> omega
  · simp only [max_def, min_def]
    split_ifs <;> omega



/-- The right shift of a signed integer is the floor division by a power of two. -/
theorem shr_int (v : Int) (n : Nat) : v >>> (n : Int) = v / 2 ^ n := by
  have h : v >>> (n : Int) = v >>> n := by
    cases v with
    | ofNat m => exact Int.shiftRight_coe_nat m n
    | negSucc m => exact Int.shiftRight_negSucc m n
  rw [h, Int.shiftRight_eq_div_pow]
  norm_num

theorem shr8 (v : Int) : v >>> 8 = v / 256 := by
  have h := shr_int v 8
  norm_num at h
  exact h

theorem shr16 (v : Int) : v >>> 16 = v / 65536 := by
  have h := shr_int v 16
  norm_num at h
  exact h

theorem shr24 (v : Int) : v >>> 24 = v / 16777216 := by
  have h := shr_int v 24
  norm_num at h
  exact h


/-- The bytes of the 16- and 24-bit branches are the two's-complement bytes of the
stored integer. -/
theorem xferout_bytes_eq (x : ℚ) (bps : Nat) (big : Int) (nf : ℚ) (bits : ℚ → Nat)
    (hb : bps = 2 ∨ bps = 3) :
    xferout_bytes x bps big nf bits
      = bytesOfInt bps (decide (big ≠ 0))
          (xferout_int (2 ^ (8 * bps - 1)) x (nf * 2 ^ (8 * bps - 1))) := by
  have p15 : (2 : ℚ) ^ 15 = 32768 := by norm_num
  have p23 : (2 : ℚ) ^ 23 = 8388608 := by norm_num
  rcases hb with rfl | rfl
  · by_cases h : big = 0
    · subst h
      simp [xferout_bytes, bytesOfInt, toUInt8, shr8, shr16, List.range_succ, p15, p23]
    · simp [xferout_bytes, bytesOfInt, toUInt8, shr8, shr16, List.range_succ, h, p15, p23]
  · by_cases h : big = 0
    · subst h
      simp [xferout_bytes, bytesOfInt, toUInt8, shr8, shr16, List.range_succ, p15, p23]
    · simp [xferout_bytes, bytesOfInt, toUInt8, shr8, shr16, List.range_succ, h, p15, p23]

theorem xferout_bytes_length (x : ℚ) (bps : Int) (big : Int) (nf : ℚ) (bits : ℚ → Nat)
    (hb : bps = 2 ∨ bps = 3 ∨ bps = 4) :
    (xferout_bytes x bps big nf bits).length = bps.toNat := by
  rcases hb with rfl | rfl | rfl <;> by_cases h : big = 0 <;> simp [xferout_bytes, h]

/-- The bytes the encoder leaves for channel `i`, frame `j`. -/
theorem xferout_float_at (nch : Nat) (vecs : Nat → Nat → ℚ) (buf : Nat → Byte)
    (nitems onset : Nat) (bps : Int) (big : Int) (nf : ℚ) (spread : Nat) (bits : ℚ → Nat)
    (hb : bps = 2 ∨ bps = 3 ∨ bps = 4) (i j t : Nat) (hi : i < nch) (hj : j < nitems)
    (ht : t < bps.toNat) :
    soundfile_xferout_float nch vecs buf nitems onset bps big nf spread bits
        (i * bps.toNat + j * (bps.toNat * nch) + t)
      = (xferout_bytes (vecs i (onset + j * spread)) bps big nf bits).getD t 0 := by
  unfold soundfile_xferout_float
  exact xferout_loops nch nitems bps.toNat
    (fun i j => xferout_bytes (vecs i (onset + j * spread)) bps big nf bits)
    (fun i j => xferout_bytes_length _ _ _ _ _ hb) buf i j t hi hj ht

theorem xferout_sample_at (nch : Nat) (vecs : Nat → Nat → ℚ) (buf : Nat → Byte)
    (nitems onset : Nat) (bps : Int) (big : Int) (nf : ℚ) (spread : Nat) (bits : ℚ → Nat)
    (hb : bps = 2 ∨ bps = 3 ∨ bps = 4) (i j t : Nat) (hi : i < nch) (hj : j < nitems)
    (ht : t < bps.toNat) :
    soundfile_xferout_sample nch vecs buf nitems onset bps big nf spread bits
        (i * bps.toNat + j * (bps.toNat * nch) + t)
      = (xferout_bytes (vecs i (onset + j * spread)) bps big nf bits).getD t 0 := by
  unfold soundfile_xferout_sample
  exact xferout_loops nch nitems bps.toNat
    (fun i j => xferout_bytes (vecs i (onset + j * spread)) bps big nf bits)
    (fun i j => xferout_bytes_length _ _ _ _ _ hb) buf i j t hi hj ht



/-- The bytes of the 16- and 24-bit branches are those of the floor of the rounded
product, saturated, whenever that product is not below `-2^31`. -/
theorem xferout_bytes_floor (x : ℚ) (bps : Nat) (big : Int) (nf : ℚ) (bits : ℚ → Nat)
    (hb : bps = 2 ∨ bps = 3)
    (hlo : -(2 ^ 31 : ℚ) ≤ to_float (x * nf * 2 ^ (8 * bps - 1))) :
    xferout_bytes x bps big nf bits
      = bytesOfInt bps (decide (big ≠ 0))
          (max (-(2 ^ (8 * bps - 1) - 1))
            (min (2 ^ (8 * bps - 1) - 1) ⌊to_float (x * nf * 2 ^ (8 * bps - 1))⌋)) := by
  rw [xferout_bytes_eq x bps big nf bits hb]
  congr 1
  have hh : ((2 : Int) ^ (8 * bps - 1) = 32768 ∨ (2 : Int) ^ (8 * bps - 1) = 8388608) := by
    rcases hb with rfl | rfl
    · left; norm_num
    · right; norm_num
  have hm : x * (nf * 2 ^ (8 * bps - 1)) = x * nf * 2 ^ (8 * bps - 1) := by ring
  rw [xferout_int_eq _ _ _ hh (by rw [hm]; exact hlo), hm]

/-- The encoder's bytes agree with the specification's integer whenever the scaled
sample is a `float` already (as the product of a `float` and a power of two is) and
not below `-2^31`. -/
theorem xferout_bytes_spec (x : ℚ) (bps : Nat) (big : Int) (nf : ℚ) (bits : ℚ → Nat)
    (hb : bps = 2 ∨ bps = 3) (hlo : -(2 ^ 31 : ℚ) ≤ x * nf * 2 ^ (8 * bps - 1))
    (hrep : to_float (x * nf * 2 ^ (8 * bps - 1)) = x * nf * 2 ^ (8 * bps - 1)) :
    xferout_bytes x bps big nf bits
      = bytesOfInt bps (decide (big ≠ 0)) (spec_encode_int bps x nf) := by
  rw [xferout_bytes_floor x bps big nf bits hb (by rw [hrep]; exact hlo), hrep]
  rfl

theorem clamp_bound (H : Int) (hH : 1 ≤ H) (q : ℚ) (h1 : -(H : ℚ) ≤ q) (h2 : q ≤ (H : ℚ)) :
    |((max (-(H - 1)) (min (H - 1) ⌊q⌋) : Int) : ℚ) - q| ≤ 1 ∧
    -H ≤ max (-(H - 1)) (min (H - 1) ⌊q⌋) ∧ max (-(H - 1)) (min (H - 1) ⌊q⌋) < H := by
  have hf1 : ((⌊q⌋ : Int) : ℚ) ≤ q := Int.floor_le q
  have hf2 : q < ((⌊q⌋ : Int) : ℚ) + 1 := Int.lt_floor_add_one q
  have hfl : -H ≤ ⌊q⌋ := by
    rw [Int.le_floor]; push_cast; exact h1
  have hfu : ⌊q⌋ ≤ H := by
    have : ((⌊q⌋ : Int) : ℚ) ≤ (H : ℚ) := le_trans hf1 h2
    exact_mod_cast this
  generalize ⌊q⌋ = f at *
  have hHq : (1 : ℚ) ≤ (H : ℚ) := by exact_mod_cast hH
  have hflq : -(H : ℚ) ≤ (f : ℚ) := by exact_mod_cast hfl
  have hfuq : (f : ℚ) ≤ (H : ℚ) := by exact_mod_cast hfu
  refine ⟨?_, ?_, ?_⟩
  · rw [abs_le]
    simp only [max_def, min_def]
    split_ifs with a b b
    · have a2 : ((H : ℚ) - 1) ≤ (f : ℚ) := by exact_mod_cast a
      have b2 : -((H : ℚ) - 1) ≤ (H : ℚ) - 1 := by linarith
      push_cast
      constructor <;> linarith
    · have a2 : ((H : ℚ) - 1) ≤ (f : ℚ) := by exact_mod_cast a
      have b3 : H - 1 < -(H - 1) := not_le.mp b
      omega
    · constructor <;> linarith
    · have b2 : (f : ℚ) < -((H : ℚ) - 1) := by
        have : f < -(H - 1) := not_le.mp b
        exact_mod_cast this
      have b3 : f ≤ -H := by omega
      have b4 : (f : ℚ) ≤ -(H : ℚ) := by exact_mod_cast b3
      push_cast
      constructor <;> linarith
  · simp only [max_def, min_def]
    split_ifs <;> omega
  · simp only [max_def, min_def]
    split_ifs <;> omega

/-- The quantisation error of the specification's integer for a sample in `[-1, 1]`. -/
theorem quantise_bound (n : Nat) (x : ℚ) (hx1 : -1 ≤ x) (hx2 : x ≤ 1) :
    |((spec_encode_int n x 1 : Int) : ℚ) / 2 ^ (8 * n - 1) - x| ≤ 1 / 2 ^ (8 * n - 1) ∧
    -(2 ^ (8 * n - 1)) ≤ spec_encode_int n x 1 ∧ spec_encode_int n x 1 < 2 ^ (8 * n - 1) := by
  unfold spec_encode_int
  have hpos : (0 : ℚ) < 2 ^ (8 * n - 1) := by positivity
  have hc : (((2 : Int) ^ (8 * n - 1) : Int) : ℚ) = (2 : ℚ) ^ (8 * n - 1) := by push_cast; rfl
  have hH : (1 : Int) ≤ 2 ^ (8 * n - 1) := by
    have : (0 : Int) < 2 ^ (8 * n - 1) := by positivity
    omega
  obtain ⟨c1, c2, c3⟩ := clamp_bound (2 ^ (8 * n - 1)) hH (x * 1 * 2 ^ (8 * n - 1))
    (by rw [hc]; nlinarith) (by rw [hc]; nlinarith)
  refine ⟨?_, c2, c3⟩
  rw [abs_le] at c1 ⊢
  obtain ⟨d1, d2⟩ := c1
  generalize (((max (-(2 ^ (8 * n - 1) - 1)) (min (2 ^ (8 * n - 1) - 1)
    ⌊x * 1 * 2 ^ (8 * n - 1)⌋) : Int)) : ℚ) = V at d1 d2 ⊢
  generalize (2 : ℚ) ^ (8 * n - 1) = P at hpos d1 d2 ⊢
  have e1 : -(1 / P) = (-1) / P := by ring
  have e2 : V / P - x = (V - x * 1 * P) / P := by
    field_simp
    ring
  rw [e1, e2]
  exact ⟨(div_le_div_iff_of_pos_right hpos).mpr d1, (div_le_div_iff_of_pos_right hpos).mpr d2⟩



/-- The bytes of the 32-bit branch are those of the sample's bit pattern. -/
theorem xferout_bytes4 (x : ℚ) (big : Int) (nf : ℚ) (bits : ℚ → Nat) :
    xferout_bytes x 4 big nf bits
      = bytesOfInt 4 (decide (big ≠ 0)) ((bits (x * nf) % 2 ^ 32 : Nat) : Int) := by
  by_cases h : big = 0
  · subst h
    simp [xferout_bytes, bytesOfInt, toUInt8, shr8, shr16, shr24, List.range_succ]
  · simp [xferout_bytes, bytesOfInt, toUInt8, shr8, shr16, shr24, List.range_succ, h]

theorem toUInt32_twos (u : Nat) (hu : u < 2 ^ 32) : toUInt32 (twosComplement 32 u) = u := by
  unfold toUInt32 twosComplement
  norm_num at hu ⊢
  split_ifs <;> omega

/-- The 32-bit branch of the decoders reassembles a bit pattern from its bytes. -/
theorem xferin_get4 (buf : Nat → Byte) (p : Nat) (big : Int) (unbits : Nat → ℚ) (u : Nat)
    (hu : u < 2 ^ 32)
    (hbuf : ∀ t, t < 4 → buf (p + t) = (bytesOfInt 4 (decide (big ≠ 0)) (u : Int)).getD t 0) :
    xferin_get buf p 4 big unbits = unbits u := by
  have b0 := hbuf 0 (by norm_num)
  have b1 := hbuf 1 (by norm_num)
  have b2 := hbuf 2 (by norm_num)
  have b3 := hbuf 3 (by norm_num)
  have key : ∀ a0 a1 a2 a3 : Nat, a0 = (u / 16777216 % 256) → a1 = (u / 65536 % 256) →
      a2 = (u / 256 % 256) → a3 = (u % 256) →
      toUInt32 (int_of_bytes a0 a1 a2 a3) = u := by
    intro a0 a1 a2 a3 e0 e1 e2 e3
    rw [int_of_bytes_eq]
    have : a0 % 256 * 2 ^ 24 + a1 % 256 * 2 ^ 16 + a2 % 256 * 2 ^ 8 + a3 % 256 = u := by
      subst e0 e1 e2 e3
      norm_num at hu ⊢
      omega
    rw [this]
    exact toUInt32_twos u hu
  have cast : ∀ d : Nat, (((u : Int) / (d : Int) % 256).toNat) = u / d % 256 := by
    intro d
    have : ((u : Int) / (d : Int) % 256) = ((u / d % 256 : Nat) : Int) := by push_cast; rfl
    rw [this, Int.toNat_ofNat]
  have cast0 : (((u : Int) % 256).toNat) = u % 256 := by
    have : ((u : Int) % 256) = ((u % 256 : Nat) : Int) := by push_cast; rfl
    rw [this, Int.toNat_ofNat]
  have c1 := cast 256
  have c2 := cast 65536
  have c3 := cast 16777216
  push_cast at c1 c2 c3
  by_cases h : big = 0
  · subst h
    simp [bytesOfInt, List.range_succ, cast0, c1, c2, c3] at b0 b1 b2 b3
    simp only [xferin_get, xferin_value]
    simp
    rw [key _ _ _ _ b3 b2 b1 b0]
  · simp [bytesOfInt, List.range_succ, h, cast0, c1, c2, c3] at b0 b1 b2 b3
    simp only [xferin_get, xferin_value]
    simp [h]
    rw [key _ _ _ _ b0 b1 b2 b3]



/-- Both encoders store the specification's integer for every sample whose scaled value
`x * normalfactor * 2^(8n-1)` is a `float` already (as the product of a `float` and a
power of two is) and not below `-2^31`. -/
theorem xferout_spec_in_range (nchannels : Nat) (vecs : Nat → Nat → ℚ) (buf : Nat → Byte)
    (nitems onset bps : Nat) (big : Int) (nf : ℚ) (spread : Nat) (bits : ℚ → Nat)
    (hb : bps = 2 ∨ bps = 3) (i j t : Nat) (hi : i < nchannels) (hj : j < nitems)
    (ht : t < bps)
    (hlo : -(2 ^ 31 : ℚ) ≤ vecs i (onset + j * spread) * nf * 2 ^ (8 * bps - 1))
    (hrep : to_float (vecs i (onset + j * spread) * nf * 2 ^ (8 * bps - 1))
      = vecs i (onset + j * spread) * nf * 2 ^ (8 * bps - 1)) :
    soundfile_xferout_float nchannels vecs buf nitems onset bps big nf spread bits
        ((j * nchannels + i) * bps + t)
      = (bytesOfInt bps (decide (big ≠ 0))
          (spec_encode_int bps (vecs i (onset + j * spread)) nf)).getD t 0 ∧
    soundfile_xferout_sample nchannels vecs buf nitems onset bps big nf spread bits
        ((j * nchannels + i) * bps + t)
      = (bytesOfInt bps (decide (big ≠ 0))
          (spec_encode_int bps (vecs i (onset + j * spread)) nf)).getD t 0 := by
  have hb3 : (bps : Int) = 2 ∨ (bps : Int) = 3 ∨ (bps : Int) = 4 := by
    rcases hb with rfl | rfl
    · left; rfl
    · right; left; rfl
  have hbn : ((bps : Int)).toNat = bps := Int.toNat_ofNat bps
  have hoff : i * bps + j * (bps * nchannels) = (j * nchannels + i) * bps := by ring
  have h1 := xferout_float_at nchannels vecs buf nitems onset bps big nf spread bits hb3 i j t
    hi hj (by rw [hbn]; exact ht)
  have h2 := xferout_sample_at nchannels vecs buf nitems onset bps big nf spread bits hb3 i j t
    hi hj (by rw [hbn]; exact ht)
  rw [hbn, hoff, xferout_bytes_spec _ _ _ _ _ hb hlo hrep] at h1 h2
  exact ⟨h1, h2⟩

/-- The examples of the specification: 0, 1/2, -1/2, 1 and -1 at 16 bits, and 1 at
24 bits big-endian. -/
theorem xferout_examples :
    [0, 1 / 2, -1 / 2, 1, -1].map (fun x => xferout_int 32768 x (1 * 32768))
      = [0, 16384, -16384, 32767, -32767] ∧
    xferout_bytes 1 3 1 1 (fun _ => 0) = [0x7f, 0xff, 0xff] := by
  constructor <;> decide!


/-! ## The override path of the parser -/

/-- The override path of the parser with no frames to skip: the record's own values
come back, except that the byte limit is the caller's sample rate (or 0 when that is
negative). -/
theorem open_override (fuel : Nat) (fd : Int) (s : Sys) (p : SoundfileInfo)
    (hp : 0 ≤ p.headersize) (hp2 : p.headersize < 2 ^ 31)
    (hsr1 : -(2 ^ 31) ≤ p.samplerate) (hsr2 : p.samplerate < 2 ^ 31) :
    open_soundfile_via_fd fuel fd s p 0 =
      some { ret := fd,
             info := { samplerate := p.samplerate, channels := p.channels,
                       bytespersample := p.bytespersample, headersize := p.headersize,
                       bigendian := p.bigendian,
                       bytelimit := if p.samplerate < 0 then 0 else p.samplerate },
             sys := { data := s.data, pos := p.headersize.toNat, errno := 0 } } := by
  have t1 : toInt64 p.headersize = p.headersize := by
    unfold toInt64
    have h1 : (2 : Int) ^ 63 = 9223372036854775808 := by norm_num
    have h2 : (2 : Int) ^ 64 = 18446744073709551616 := by norm_num
    have h3 : (2 : Int) ^ 31 = 2147483648 := by norm_num
    rw [h3] at hp2
    rw [h1, h2]; omega
  have t2 : toInt64 p.samplerate = p.samplerate := by
    unfold toInt64
    have h1 : (2 : Int) ^ 63 = 9223372036854775808 := by norm_num
    have h2 : (2 : Int) ^ 64 = 18446744073709551616 := by norm_num
    have h3 : (2 : Int) ^ 31 = 2147483648 := by norm_num
    rw [h3] at hsr1 hsr2
    rw [h1, h2]; omega
  have t0 : toInt64 0 = 0 := by decide
  unfold open_soundfile_via_fd
  rw [if_pos hp]
  unfold seek_past_header
  simp only [mul_zero, zero_add, t1, t0, sub_zero, t2, Sys.lseek, if_neg (not_lt.mpr hp),
    ne_eq, not_true_eq_false, if_false]


/-! ## The 80-bit sample rate -/

/-- The closed form of the shifting loop. -/
theorem shiftloop_eq (k m l : Nat) :
    shiftloop k (m, l) = (m / 2 ^ k, if k = 0 then l else m / 2 ^ (k - 1)) := by
  induction k generalizing m l with
  | zero => simp [shiftloop]
  | succ k ih =>
    unfold shiftloop
    rw [ih]
    simp only [Nat.succ_ne_zero, if_false, Nat.add_sub_cancel, Nat.shiftRight_eq_div_pow,
      Nat.pow_one]
    have e1 : m / 2 / 2 ^ k = m / 2 ^ (k + 1) := by
      rw [Nat.div_div_eq_div_mul, Nat.pow_succ, Nat.mul_comm]
    rw [e1]
    congr 1
    by_cases hk : k = 0
    · subst hk; simp
    · rw [if_neg hk]
      have e2 : m / 2 / 2 ^ (k - 1) = m / 2 ^ k := by
        rw [Nat.div_div_eq_div_mul]
        congr 1
        have : k = (k - 1) + 1 := by omega
        conv_rhs => rw [this, Nat.pow_succ]
        rw [Nat.mul_comm]
      exact e2

/-- The rounding shift on a mantissa that is a multiple of `2 ^ k`. -/
theorem shift_and_round_exact (r k : Nat) (hk : 1 ≤ k) :
    shift_and_round (r * 2 ^ k) k = r := by
  unfold shift_and_round
  rw [shiftloop_eq]
  simp only [if_neg (by omega : ¬ k = 0)]
  have e1 : r * 2 ^ k / 2 ^ k = r := Nat.mul_div_cancel _ (by positivity)
  have e2 : r * 2 ^ k / 2 ^ (k - 1) = r * 2 := by
    have : k = (k - 1) + 1 := by omega
    conv_lhs => rw [this, Nat.pow_succ, ← Nat.mul_assoc, Nat.mul_right_comm]
    exact Nat.mul_div_cancel _ (by positivity)
  rw [e1, e2]
  have e3 : r * 2 &&& 1 = 0 := by
    rw [Nat.and_one_is_mod]; omega
  rw [if_neg (by rw [e3]; simp)]



theorem toUInt8_natCast (n : Nat) : toUInt8 (n : Int) = n % 256 := by
  unfold toUInt8; omega

theorem toUInt8_natCast_div (n : Nat) : toUInt8 ((n : Int) / 256) = n / 256 % 256 := by
  unfold toUInt8; omega

/-- The ten bytes of `makeaiffsamprate` in terms of what `frexp` gives. -/
theorem makeaiffsamprate_of (sr m : ℚ) (e : Int) (h : frexp sr = (m, e)) :
    makeaiffsamprate sr =
      [toUInt8 ((toInt32 (e + 16382)) >>> 8), toUInt8 (toInt32 (e + 16382)),
       (d2ul (ldexp m 32) >>> 24) % 256, (d2ul (ldexp m 32) >>> 16) % 256,
       (d2ul (ldexp m 32) >>> 8) % 256, d2ul (ldexp m 32) % 256, 0, 0, 0, 0] := by
  have h1 : (frexp sr).1 = m := by rw [h]
  have h2 : (frexp sr).2 = e := by rw [h]
  subst h1 h2
  rfl

/-- The exponent and the 32-bit mantissa that `makeaiffsamprate` stores for a whole
rate `r` below `2 ^ 32`. -/
theorem makeaiffsamprate_nat (r : Nat) (h1 : 1 ≤ r) (h2 : r < 2 ^ 32) :
    ∃ e : Nat, 1 ≤ e ∧ e ≤ 32 ∧ 2 ^ 31 ≤ r * 2 ^ (32 - e) ∧ r * 2 ^ (32 - e) < 2 ^ 32 ∧
      makeaiffsamprate (r : ℚ) =
        [(e + 16382) / 256 % 256, (e + 16382) % 256,
         (r * 2 ^ (32 - e)) / 2 ^ 24 % 256, (r * 2 ^ (32 - e)) / 2 ^ 16 % 256,
         (r * 2 ^ (32 - e)) / 2 ^ 8 % 256, (r * 2 ^ (32 - e)) % 256, 0, 0, 0, 0] := by
  obtain ⟨a, b⟩ := ilog2_spec r r h1 (Nat.lt_two_pow r)
  have he32 : ilog2 r r + 1 ≤ 32 := by
    by_contra hc
    have : 2 ^ 32 ≤ 2 ^ ilog2 r r := Nat.pow_le_pow_right (by norm_num) (by omega)
    omega
  generalize hg : ilog2 r r = g at a b he32
  have hrq : (1 : ℚ) ≤ (r : ℚ) := by exact_mod_cast h1
  have hfl : ⌊(r : ℚ)⌋.toNat = r := by
    rw [Int.floor_natCast]; rfl
  have habs : |(r : ℚ)| = r := abs_of_nonneg (by positivity)
  have hexp : frexp_exponent |(r : ℚ)| = ((g + 1 : Nat) : Int) := by
    rw [habs]
    unfold frexp_exponent
    rw [if_pos hrq, hfl, hg]
  have hr0 : (r : ℚ) ≠ 0 := by positivity
  have hfx : frexp (r : ℚ) = ((r : ℚ) / 2 ^ ((g + 1 : Nat) : Int), ((g + 1 : Nat) : Int)) := by
    unfold frexp
    rw [if_neg hr0, hexp]
  have hpow : 2 ^ (g + 1) * 2 ^ (32 - (g + 1)) = 2 ^ 32 := by
    rw [← Nat.pow_add]; congr 1; omega
  have hld : ldexp ((r : ℚ) / 2 ^ ((g + 1 : Nat) : Int)) 32
      = ((r * 2 ^ (32 - (g + 1)) : Nat) : ℚ) := by
    unfold ldexp
    have hq : ((2 : ℚ) ^ (g + 1)) * 2 ^ (32 - (g + 1)) = 2 ^ 32 := by exact_mod_cast hpow
    rw [zpow_natCast]
    have h32 : (2 : ℚ) ^ (32 : Int) = 2 ^ 32 := by norm_num
    rw [h32, ← hq]
    push_cast
    field_simp
    ring
  have hlo : 2 ^ 31 ≤ r * 2 ^ (32 - (g + 1)) := by
    have : 2 ^ g * 2 ^ (32 - (g + 1)) = 2 ^ 31 := by
      rw [← Nat.pow_add]; congr 1; omega
    calc 2 ^ 31 = 2 ^ g * 2 ^ (32 - (g + 1)) := this.symm
      _ ≤ r * 2 ^ (32 - (g + 1)) := Nat.mul_le_mul_right _ a
  have hhi : r * 2 ^ (32 - (g + 1)) < 2 ^ 32 := by
    calc r * 2 ^ (32 - (g + 1)) < 2 ^ (g + 1) * 2 ^ (32 - (g + 1)) :=
          Nat.mul_lt_mul_of_pos_right b (by positivity)
      _ = 2 ^ 32 := hpow
  refine ⟨g + 1, by omega, he32, hlo, hhi, ?_⟩
  generalize r * 2 ^ (32 - (g + 1)) = fix at hld hlo hhi ⊢
  have hd : d2ul ((fix : Nat) : ℚ) = fix := by
    unfold d2ul
    rw [truncQ_natCast]
    have h64 : (fix : Int) < 2 ^ 64 := by
      have h32 : (fix : Int) < 2 ^ 32 := by exact_mod_cast hhi
      exact lt_of_lt_of_le h32 (by norm_num)
    rw [Int.emod_eq_of_lt (Int.natCast_nonneg fix) h64, Int.toNat_ofNat]
  have hsum : ((g + 1 : Nat) : Int) + 16382 = ((g + 1 + 16382 : Nat) : Int) := by push_cast; ring
  have ht : toInt32 (((g + 1 : Nat) : Int) + 16382) = ((g + 1 + 16382 : Nat) : Int) := by
    rw [hsum]
    exact toInt32_of_lt _ (by omega)
  rw [makeaiffsamprate_of _ _ _ hfx, hld, hd, ht, shr8, toUInt8_natCast_div, toUInt8_natCast]
  simp only [Nat.shiftRight_eq_div_pow]



theorem shift_and_round_zero (m : Nat) : shift_and_round m 0 = m := by
  unfold shift_and_round
  simp [shiftloop]

/-- The shift count that `readaiffsamprate` derives from the exponent byte written for
the exponent `e`. -/
theorem exp_byte (e : Nat) (h1 : 1 ≤ e) (h2 : e ≤ 32) :
    toUInt8 (30 - toInt8 (((e + 16382) % 256 : Nat) : Int)) = 32 - e := by
  have h : (e + 16382) % 256 = (e + 254) % 256 := by omega
  rw [h]
  unfold toUInt8 toInt8
  omega

theorem toInt8_mod (n : Nat) : toInt8 ((n % 256 : Nat) : Int) = toInt8 (n : Int) := by
  unfold toInt8; omega

/-- Reading ten bytes whose last four are zero: the 32-bit mantissa is shifted by the
count that the exponent byte gives. -/
theorem readaiffsamprate_bytes (x0 x1 fix : Nat) (hfix : fix < 2 ^ 32) :
    readaiffsamprate [x0, x1, fix / 2 ^ 24 % 256, fix / 2 ^ 16 % 256, fix / 2 ^ 8 % 256,
        fix % 256, 0, 0, 0, 0] 0 true
      = ((shift_and_round fix (toUInt8 (30 - toInt8 (x1 : Int))) : Nat) : ℚ) := by
  rw [readaiffsamprate_eq _ 0 (by simp)]
  have hb1 : byteAt [x0, x1, fix / 2 ^ 24 % 256,
      fix / 2 ^ 16 % 256, fix / 2 ^ 8 % 256, fix % 256, 0, 0, 0, 0] (0 + 1) = x1 % 256 := by
    simp [byteAt]
  have hm : be32 [x0, x1, fix / 2 ^ 24 % 256,
      fix / 2 ^ 16 % 256, fix / 2 ^ 8 % 256, fix % 256, 0, 0, 0, 0] (0 + 2) = fix := by
    simp [be32, byteAt]
    omega
  have hh : load32 [x0, x1, fix / 2 ^ 24 % 256,
      fix / 2 ^ 16 % 256, fix / 2 ^ 8 % 256, fix % 256, 0, 0, 0, 0] (0 + 6) = 0 := by
    simp [load32, byteAt]
  rw [hb1, hm, hh, toInt8_mod, Nat.mul_zero, Nat.add_zero]

/-- Reading back the ten bytes written for a whole rate below `2 ^ 32`. -/
theorem samprate_roundtrip_all (r : Nat) (h1 : 1 ≤ r) (h2 : r < 2 ^ 32) :
    readaiffsamprate (makeaiffsamprate (r : ℚ)) 0 true = r := by
  obtain ⟨e, he1, he2, hlo, hhi, hbytes⟩ := makeaiffsamprate_nat r h1 h2
  rw [hbytes, readaiffsamprate_bytes _ _ _ hhi, exp_byte e he1 he2]
  congr 1
  by_cases h : e = 32
  · subst h
    simp [shift_and_round_zero]
  · exact shift_and_round_exact r (32 - e) (by omega)



/-- The rounding shift in closed form, for a mantissa below `2 ^ 63`. -/
theorem shift_and_round_eq (m s : Nat) (hm : m < 2 ^ 63) :
    shift_and_round m s = m / 2 ^ s + (if s = 0 then 0 else m / 2 ^ (s - 1) % 2) := by
  unfold shift_and_round
  rw [shiftloop_eq]
  simp only []
  have hle : m / 2 ^ s ≤ m := Nat.div_le_self _ _
  by_cases hs : s = 0
  · subst hs
    simp
  · simp only [if_neg hs, Nat.and_one_is_mod]
    have h2 : m / 2 ^ (s - 1) % 2 = 0 ∨ m / 2 ^ (s - 1) % 2 = 1 := by omega
    rcases h2 with h | h
    · rw [h]; simp
    · rw [h]
      simp only [ne_eq, one_ne_zero, not_false_eq_true, if_true]
      apply Nat.mod_eq_of_lt
      have : (2 : Nat) ^ 63 < 2 ^ 64 := by norm_num
      omega

/-- On a field whose last four bytes are zero and whose exponent byte is at most 30,
`readaiffsamprate` returns the value of the specification. -/
theorem readaiffsamprate_spec (bytes : List Byte) (hl : 6 ≤ bytes.length)
    (hz : load32 bytes 6 = 0) (he : byteAt bytes 1 ≤ 30) :
    readaiffsamprate bytes 0 true = (spec_readrate bytes : ℚ) := by
  rw [readaiffsamprate_eq bytes 0 (by omega)]
  simp only [Nat.zero_add, hz, Nat.mul_zero, Nat.add_zero]
  have hs : toUInt8 (30 - toInt8 ((byteAt bytes 1 : Nat) : Int))
      = (30 - ((byteAt bytes 1 : Nat) : Int)).toNat := by
    generalize byteAt bytes 1 = b at he
    unfold toUInt8 toInt8
    omega
  have hm : be32 bytes 2 < 2 ^ 63 := lt_trans (be32_lt _ _) (by norm_num)
  rw [hs, shift_and_round_eq _ _ hm]
  rfl



theorem d2i_natCast (n : Nat) (h : n < 2 ^ 31) : d2i (n : ℚ) = n := by
  unfold d2i
  rw [truncQ_natCast]
  have h2 : (n : Int) < 2 ^ 31 := by exact_mod_cast h
  rw [if_pos ⟨by have := Int.natCast_nonneg n; have : -(2 ^ 31 : Int) ≤ 0 := by norm_num
                 omega, h2⟩]


/-! ## Arguments of a write -/

theorem dash_symbol (nosym : List Char) (hn : nosym.head? ≠ some '-') (a : Atom)
    (h : (atom_getsymbol nosym a).head? = some '-') :
    ∃ name, a = Atom.symbol name ∧ name.head? = some '-' := by
  cases a with
  | symbol name => exact ⟨name, rfl, h⟩
  | float f => exact absurd h hn
  | other => exact absurd h hn

/-- One pass of the flag loop that goes on: it has consumed a flag, with its value if
it takes one, and left the format alone unless the flag names one. -/
theorem flag_step_next (nosym : List Char) (hn : nosym.head? ≠ some '-') (av : List Atom)
    (st : FlagState) (av2 : List Atom) (st2 : FlagState)
    (h : flag_step nosym av st = FlagStep.next av2 st2) :
    ∃ name, name.head? = some '-' ∧
      (av = Atom.symbol name :: av2 ∨ ∃ f, av = Atom.symbol name :: Atom.float f :: av2) ∧
      st2.filetype = atom_format (Atom.symbol name) st.filetype := by
  cases av with
  | nil => exact absurd h (by simp [flag_step])
  | cons a rest =>
    by_cases hd : (atom_getsymbol nosym a).head? = some '-'
    · obtain ⟨name, rfl, hname⟩ := dash_symbol nosym hn a hd
      refine ⟨name, hname, ?_⟩
      unfold flag_step at h
      simp only [atom_getsymbol] at h
      rw [if_pos hname] at h
      unfold atom_format
      by_cases k0 : name = ['-', 's', 'k', 'i', 'p']
      · rw [if_pos k0] at h
        subst k0
        cases rest with
        | nil => exact absurd h (by simp [flag_missing_floatarg])
        | cons b r2 =>
          cases b with
          | float f =>
            simp only [flag_missing_floatarg, Bool.false_eq_true, if_false] at h
            split_ifs at h
            simp only [FlagStep.next.injEq] at h
            obtain ⟨h1, h2⟩ := h
            subst h1 h2
            exact ⟨Or.inr ⟨f, rfl⟩, by simp⟩
          | symbol n => exact absurd h (by simp [flag_missing_floatarg])
          | other => exact absurd h (by simp [flag_missing_floatarg])
      rw [if_neg k0] at h
      by_cases k1 : name = ['-', 'n', 'f', 'r', 'a', 'm', 'e', 's']
      · rw [if_pos k1] at h
        subst k1
        cases rest with
        | nil => exact absurd h (by simp [flag_missing_floatarg])
        | cons b r2 =>
          cases b with
          | float f =>
            simp only [flag_missing_floatarg, Bool.false_eq_true, if_false] at h
            split_ifs at h
            simp only [FlagStep.next.injEq] at h
            obtain ⟨h1, h2⟩ := h
            subst h1 h2
            exact ⟨Or.inr ⟨f, rfl⟩, by simp⟩
          | symbol n => exact absurd h (by simp [flag_missing_floatarg])
          | other => exact absurd h (by simp [flag_missing_floatarg])
      rw [if_neg k1] at h
      by_cases k2 : name = ['-', 'b', 'y', 't', 'e', 's']
      · rw [if_pos k2] at h
        subst k2
        cases rest with
        | nil => exact absurd h (by simp [flag_missing_floatarg])
        | cons b r2 =>
          cases b with
          | float f =>
            simp only [flag_missing_floatarg, Bool.false_eq_true, if_false] at h
            split_ifs at h
            simp only [FlagStep.next.injEq] at h
            obtain ⟨h1, h2⟩ := h
            subst h1 h2
            exact ⟨Or.inr ⟨f, rfl⟩, by simp⟩
          | symbol n => exact absurd h (by simp [flag_missing_floatarg])
          | other => exact absurd h (by simp [flag_missing_floatarg])
      rw [if_neg k2] at h
      by_cases k3 : name = ['-', 'n', 'o', 'r', 'm', 'a', 'l', 'i', 'z', 'e']
      · rw [if_pos k3] at h
        subst k3
        split_ifs at h
        simp only [FlagStep.next.injEq] at h
        obtain ⟨h1, h2⟩ := h
        subst h1 h2
        exact ⟨Or.inl rfl, by simp [FORMAT_WAVE, FORMAT_AIFF, FORMAT_NEXT]⟩
      rw [if_neg k3] at h
      by_cases k4 : name = ['-', 'w', 'a', 'v', 'e']
      · rw [if_pos k4] at h
        subst k4
        split_ifs at h
        simp only [FlagStep.next.injEq] at h
        obtain ⟨h1, h2⟩ := h
        subst h1 h2
        exact ⟨Or.inl rfl, by simp [FORMAT_WAVE, FORMAT_AIFF, FORMAT_NEXT]⟩
      rw [if_neg k4] at h
      by_cases k5 : name = ['-', 'n', 'e', 'x', 't', 's', 't', 'e', 'p']
      · rw [if_pos k5] at h
        subst k5
        split_ifs at h
        simp only [FlagStep.next.injEq] at h
        obtain ⟨h1, h2⟩ := h
        subst h1 h2
        exact ⟨Or.inl rfl, by simp [FORMAT_WAVE, FORMAT_AIFF, FORMAT_NEXT]⟩
      rw [if_neg k5] at h
      by_cases k6 : name = ['-', 'a', 'i', 'f', 'f']
      · rw [if_pos k6] at h
        subst k6
        split_ifs at h
        simp only [FlagStep.next.injEq] at h
        obtain ⟨h1, h2⟩ := h
        subst h1 h2
        exact ⟨Or.inl rfl, by simp [FORMAT_WAVE, FORMAT_AIFF, FORMAT_NEXT]⟩
      rw [if_neg k6] at h
      by_cases k7 : name = ['-', 'b', 'i', 'g']
      · rw [if_pos k7] at h
        subst k7
        split_ifs at h
        simp only [FlagStep.next.injEq] at h
        obtain ⟨h1, h2⟩ := h
        subst h1 h2
        exact ⟨Or.inl rfl, by simp [FORMAT_WAVE, FORMAT_AIFF, FORMAT_NEXT]⟩
      rw [if_neg k7] at h
      by_cases k8 : name = ['-', 'l', 'i', 't', 't', 'l', 'e']
      · rw [if_pos k8] at h
        subst k8
        split_ifs at h
        simp only [FlagStep.next.injEq] at h
        obtain ⟨h1, h2⟩ := h
        subst h1 h2
        exact ⟨Or.inl rfl, by simp [FORMAT_WAVE, FORMAT_AIFF, FORMAT_NEXT]⟩
      rw [if_neg k8] at h
      by_cases k9 : name = ['-', 'r'] ∨ name = ['-', 'r', 'a', 't', 'e']
      · rw [if_pos k9] at h
        cases rest with
        | nil => exact absurd h (by simp [flag_missing_floatarg])
        | cons b r2 =>
          cases b with
          | float f =>
            simp only [flag_missing_floatarg, Bool.false_eq_true, if_false] at h
            split_ifs at h
            simp only [FlagStep.next.injEq] at h
            obtain ⟨h1, h2⟩ := h
            subst h1 h2
            refine ⟨Or.inr ⟨f, rfl⟩, ?_⟩
            rcases k9 with rfl | rfl <;> simp
          | symbol n => exact absurd h (by simp [flag_missing_floatarg])
          | other => exact absurd h (by simp [flag_missing_floatarg])
      · rw [if_neg k9] at h
        exact absurd h (by simp)
    · exact absurd h (by unfold flag_step; simp only []; rw [if_neg hd]; simp)



theorem flag_step_done (nosym : List Char) (av : List Atom) (st : FlagState)
    (h : flag_step nosym av st = FlagStep.done) :
    av = [] ∨ ∃ a r, av = a :: r ∧ (atom_getsymbol nosym a).head? ≠ some '-' := by
  cases av with
  | nil => left; rfl
  | cons a rest =>
    right
    refine ⟨a, rest, rfl, ?_⟩
    unfold flag_step at h
    dsimp only at h
    intro hd
    rw [if_pos hd] at h
    generalize atom_getsymbol nosym a = flag at h
    by_cases k0 : flag = ['-', 's', 'k', 'i', 'p']
    · rw [if_pos k0] at h
      split_ifs at h
      split at h
      · split_ifs at h
      · exact absurd h (by simp)
    rw [if_neg k0] at h
    by_cases k1 : flag = ['-', 'n', 'f', 'r', 'a', 'm', 'e', 's']
    · rw [if_pos k1] at h
      split_ifs at h
      split at h
      · split_ifs at h
      · exact absurd h (by simp)
    rw [if_neg k1] at h
    by_cases k2 : flag = ['-', 'b', 'y', 't', 'e', 's']
    · rw [if_pos k2] at h
      split_ifs at h
      split at h
      · split_ifs at h
      · exact absurd h (by simp)
    rw [if_neg k2] at h
    by_cases k3 : flag = ['-', 'n', 'o', 'r', 'm', 'a', 'l', 'i', 'z', 'e']
    · rw [if_pos k3] at h
      split_ifs at h
    rw [if_neg k3] at h
    by_cases k4 : flag = ['-', 'w', 'a', 'v', 'e']
    · rw [if_pos k4] at h
      split_ifs at h
    rw [if_neg k4] at h
    by_cases k5 : flag = ['-', 'n', 'e', 'x', 't', 's', 't', 'e', 'p']
    · rw [if_pos k5] at h
      split_ifs at h
    rw [if_neg k5] at h
    by_cases k6 : flag = ['-', 'a', 'i', 'f', 'f']
    · rw [if_pos k6] at h
      split_ifs at h
    rw [if_neg k6] at h
    by_cases k7 : flag = ['-', 'b', 'i', 'g']
    · rw [if_pos k7] at h
      split_ifs at h
    rw [if_neg k7] at h
    by_cases k8 : flag = ['-', 'l', 'i', 't', 't', 'l', 'e']
    · rw [if_pos k8] at h
      split_ifs at h
    rw [if_neg k8] at h
    by_cases k9 : flag = ['-', 'r'] ∨ flag = ['-', 'r', 'a', 't', 'e']
    · rw [if_pos k9] at h
      split_ifs at h
      split at h
      · split_ifs at h
      · exact absurd h (by simp)
    · rw [if_neg k9] at h
      exact absurd h (by simp)

theorem flag_step_nodash (nosym : List Char) (a : Atom) (r : List Atom) (st : FlagState)
    (h : (atom_getsymbol nosym a).head? ≠ some '-') :
    flag_step nosym (a :: r) st = FlagStep.done := by
  unfold flag_step
  dsimp only
  rw [if_neg h]

/-- What the flag loop returns: the atoms it has consumed are a prefix of the
arguments, the format it has selected is that of the last format flag among them, and
the atoms left do not start with a flag. -/
theorem flag_loop_some (nosym : List Char) (hn : nosym.head? ≠ some '-') (fuel : Nat)
    (av : List Atom) (st : FlagState) (rest : List Atom) (st2 : FlagState)
    (h : flag_loop nosym fuel av st = some (rest, st2)) :
    ∃ flags, av = flags ++ rest ∧
      st2.filetype = flags.foldl (fun acc a => atom_format a acc) st.filetype ∧
      flag_step nosym rest st2 = FlagStep.done := by
  induction fuel generalizing av st with
  | zero =>
    unfold flag_loop at h
    split at h
    · rename_i hs
      simp only [Option.some.injEq, Prod.mk.injEq] at h
      obtain ⟨h1, h2⟩ := h
      subst h1 h2
      exact ⟨[], rfl, rfl, hs⟩
    · exact absurd h (by simp)
  | succ k ih =>
    unfold flag_loop at h
    split at h
    · exact absurd h (by simp)
    · rename_i hs
      simp only [Option.some.injEq, Prod.mk.injEq] at h
      obtain ⟨h1, h2⟩ := h
      subst h1 h2
      exact ⟨[], rfl, rfl, hs⟩
    · rename_i av2 st3 hs
      obtain ⟨flags, e1, e2, e3⟩ := ih av2 st3 h
      obtain ⟨name, -, hav, hft⟩ := flag_step_next nosym hn av st av2 st3 hs
      rcases hav with hav | ⟨f, hav⟩
      · refine ⟨Atom.symbol name :: flags, ?_, ?_, e3⟩
        · rw [hav, e1]; rfl
        · rw [e2, hft]; rfl
      · refine ⟨Atom.symbol name :: Atom.float f :: flags, ?_, ?_, e3⟩
        · rw [hav, e1]; rfl
        · rw [e2, hft]; rfl

theorem truncQ_le_neg_one (f : ℚ) (h : f ≤ -1) : truncQ f ≤ -1 := by
  unfold truncQ
  rw [if_neg (by linarith)]
  rw [Int.ceil_le]
  push_cast
  exact h

theorem d2l_neg (f : ℚ) (h : f ≤ -1) : d2l f < 0 := by
  unfold d2l
  have := truncQ_le_neg_one f h
  split_ifs
  · omega
  · norm_num

theorem d2i_outside (f : ℚ) (h : f < 2 ∨ 5 ≤ f) : d2i f < 2 ∨ d2i f > 4 := by
  unfold d2i
  split_ifs with hr
  · rcases h with h | h
    · left
      unfold truncQ
      split_ifs with h0
      · rw [Int.floor_lt]; push_cast; exact h
      · have : ⌈f⌉ ≤ 0 := by
          rw [Int.ceil_le]; push_cast; linarith
        omega
    · right
      unfold truncQ
      rw [if_pos (by linarith)]
      have : (5 : Int) ≤ ⌊f⌋ := by
        rw [Int.le_floor]; push_cast; exact h
      omega
  · left; norm_num

/-- A pass of the flag loop that meets an invalid flag ends at `usage`. -/
theorem badflag_usage (nosym : List Char) (l : List Atom) (st : FlagState) (h : BadFlag l) :
    flag_step nosym l st = FlagStep.usage := by
  obtain ⟨name, rest, rfl, hname, hbad⟩ := h
  unfold flag_step
  simp only [atom_getsymbol]
  rw [if_pos hname]
  rcases hbad with ⟨hn, hv⟩ | ⟨hn, hv⟩ | ⟨hn, hv⟩ | hn
  · rcases hn with rfl | rfl
    · rw [if_pos rfl]
      cases rest with
      | nil => simp [flag_missing_floatarg]
      | cons b r2 =>
        cases b with
        | float f =>
          simp only [flag_missing_floatarg, Bool.false_eq_true, if_false]
          rw [if_pos (d2l_neg f (hv f r2 rfl))]
        | symbol n => simp [flag_missing_floatarg]
        | other => simp [flag_missing_floatarg]
    · rw [if_neg (by decide), if_pos rfl]
      cases rest with
      | nil => simp [flag_missing_floatarg]
      | cons b r2 =>
        cases b with
        | float f =>
          simp only [flag_missing_floatarg, Bool.false_eq_true, if_false]
          rw [if_pos (d2l_neg f (hv f r2 rfl))]
        | symbol n => simp [flag_missing_floatarg]
        | other => simp [flag_missing_floatarg]
  · subst hn
    rw [if_neg (by decide), if_neg (by decide), if_pos rfl]
    cases rest with
    | nil => simp [flag_missing_floatarg]
    | cons b r2 =>
      cases b with
      | float f =>
        simp only [flag_missing_floatarg, Bool.false_eq_true, if_false]
        rw [if_pos (d2i_outside f (hv f r2 rfl))]
      | symbol n => simp [flag_missing_floatarg]
      | other => simp [flag_missing_floatarg]
  · rcases hn with rfl | rfl
    · rw [if_neg (by decide), if_neg (by decide), if_neg (by decide), if_neg (by decide), if_neg (by decide), if_neg (by decide), if_neg (by decide), if_neg (by decide), if_neg (by decide), if_pos (Or.inl rfl)]
      cases rest with
      | nil => simp [flag_missing_floatarg]
      | cons b r2 =>
        cases b with
        | float f =>
          simp only [flag_missing_floatarg, Bool.false_eq_true, if_false]
          rw [if_pos (hv f r2 rfl)]
        | symbol n => simp [flag_missing_floatarg]
        | other => simp [flag_missing_floatarg]
    · rw [if_neg (by decide), if_neg (by decide), if_neg (by decide), if_neg (by decide), if_neg (by decide), if_neg (by decide), if_neg (by decide), if_neg (by decide), if_neg (by decide), if_pos (Or.inr rfl)]
      cases rest with
      | nil => simp [flag_missing_floatarg]
      | cons b r2 =>
        cases b with
        | float f =>
          simp only [flag_missing_floatarg, Bool.false_eq_true, if_false]
          rw [if_pos (hv f r2 rfl)]
        | symbol n => simp [flag_missing_floatarg]
        | other => simp [flag_missing_floatarg]
  · have hm : ∀ x, x ∈ known_flags → name ≠ x := fun x hx e => hn (e ▸ hx)
    rw [if_neg (hm ['-', 's', 'k', 'i', 'p'] (by decide)), if_neg (hm ['-', 'n', 'f', 'r', 'a', 'm', 'e', 's'] (by decide)), if_neg (hm ['-', 'b', 'y', 't', 'e', 's'] (by decide)), if_neg (hm ['-', 'n', 'o', 'r', 'm', 'a', 'l', 'i', 'z', 'e'] (by decide)), if_neg (hm ['-', 'w', 'a', 'v', 'e'] (by decide)), if_neg (hm ['-', 'n', 'e', 'x', 't', 's', 't', 'e', 'p'] (by decide)), if_neg (hm ['-', 'a', 'i', 'f', 'f'] (by decide)), if_neg (hm ['-', 'b', 'i', 'g'] (by decide)), if_neg (hm ['-', 'l', 'i', 't', 't', 'l', 'e'] (by decide))]
    rw [if_neg (fun hc => hc.elim (hm ['-', 'r'] (by decide)) (hm ['-', 'r', 'a', 't', 'e'] (by decide)))]


theorem flag_step_shorter (nosym : List Char) (hn : nosym.head? ≠ some '-') (av : List Atom)
    (st : FlagState) (av2 : List Atom) (st2 : FlagState)
    (h : flag_step nosym av st = FlagStep.next av2 st2) : av2.length < av.length := by
  obtain ⟨name, -, hav, -⟩ := flag_step_next nosym hn av st av2 st2 h
  rcases hav with rfl | ⟨f, rfl⟩ <;> simp only [List.length_cons] <;> omega

/-- A flag name has none of the suffixes that select a file type, so the type filled in
for it is AIFF only if `-aiff` was given. -/
theorem fill_in_flag_name (filetype : Int) (name : List Char) (h : name ∈ flag_names) :
    fill_in_filetype filetype name = FORMAT_AIFF ↔ filetype = FORMAT_AIFF := by
  have hs : ∀ x ∈ flag_names,
      (has_suffix x 5 ['.', 'a', 'i', 'f'] || has_suffix x 5 ['.', 'A', 'I', 'F']) = false ∧
      (has_suffix x 6 ['.', 'a', 'i', 'f', 'f']
        || has_suffix x 6 ['.', 'A', 'I', 'F', 'F']) = false ∧
      (has_suffix x 5 ['.', 's', 'n', 'd'] || has_suffix x 5 ['.', 'S', 'N', 'D']) = false ∧
      (has_suffix x 4 ['.', 'a', 'u'] || has_suffix x 4 ['.', 'A', 'U']) = false := by
    decide
  obtain ⟨s1, s2, s3, s4⟩ := hs name h
  unfold fill_in_filetype
  by_cases hft : filetype < 0
  · rw [if_pos hft]
    simp only [s1, s2, s3, s4, Bool.false_eq_true, if_false, if_pos hft]
    unfold FORMAT_WAVE FORMAT_AIFF
    constructor
    · intro h0; exact absurd h0 (by decide)
    · intro h0; omega
  · rw [if_neg hft]

/-- When the flag loop comes to atoms at which a pass ends at `usage`, it fails. -/
theorem reaches_usage (nosym : List Char) (hn : nosym.head? ≠ some '-') (av : List Atom)
    (st : FlagState) (l : List Atom) (st3 : FlagState) (hr : Reaches nosym av st l st3)
    (hu : flag_step nosym l st3 = FlagStep.usage) (fuel : Nat) (hf : av.length ≤ fuel) :
    flag_loop nosym fuel av st = none := by
  induction hr generalizing fuel with
  | here av st =>
    cases fuel with
    | zero => unfold flag_loop; rw [hu]
    | succ k => unfold flag_loop; rw [hu]
  | step av st av2 st2 l st3 hs _ ih =>
    have hlt := flag_step_shorter nosym hn av st av2 st2 hs
    cases fuel with
    | zero => omega
    | succ k =>
      unfold flag_loop
      rw [hs]
      exact ih hu k (by omega)

/-- The parse fails when the flag loop comes to an invalid flag. -/
theorem argparse_badflag (nosym : List Char) (hn : nosym.head? ≠ some '-') (p : WriteArgs) (l : List Atom)
    (st : FlagState) (hr : Reaches nosym p.argv flag_init l st) (hb : BadFlag l) :
    soundfiler_writeargparse nosym p = (-1, p, [Msg.argerror]) := by
  unfold soundfiler_writeargparse parse_flags
  rw [reaches_usage nosym hn _ _ _ _ hr (badflag_usage nosym l st hb) _ (le_refl _)]

/-- When the parse fails, the write routine returns 0 without calling
`create_soundfile`, whatever the statements after the parse would do. -/
theorem dowrite_parse_fails (rest : SoundfileInfo → WriteArgs → DoWriteResult)
    (nosym : List Char) (locals : WriteArgs) (info : SoundfileInfo) (argv : List Atom)
    (h : (soundfiler_writeargparse nosym
      { locals with argv := argv, bytespersamp := info.bytespersample,
                    bigendian := info.bigendian }).1 = -1) :
    soundfiler_dowrite rest nosym locals info argv
      = { ret := 0, info := info, created := false } := by
  unfold soundfiler_dowrite
  simp only []
  rw [if_pos (by rw [h]; decide)]

/-- The parse after the flag loop has stopped at a symbol: it fails for 4-byte AIFF and
otherwise returns the values selected. -/
theorem argparse_some (nosym : List Char) (p : WriteArgs) (f : List Char) (av : List Atom)
    (st : FlagState)
    (h : parse_flags nosym p.argv flag_init = some (Atom.symbol f :: av, st)) :
    (st.bytespersamp = 4 ∧ fill_in_filetype st.filetype f = FORMAT_AIFF →
      (soundfiler_writeargparse nosym p).1 = -1 ∧ (soundfiler_writeargparse nosym p).2.1 = p) ∧
    (¬ (st.bytespersamp = 4 ∧ fill_in_filetype st.filetype f = FORMAT_AIFF) →
      (soundfiler_writeargparse nosym p).1 = 0 ∧
      (soundfiler_writeargparse nosym p).2.1.argv = av ∧
      (soundfiler_writeargparse nosym p).2.1.filesym = f ∧
      (soundfiler_writeargparse nosym p).2.1.filetype = fill_in_filetype st.filetype f ∧
      (soundfiler_writeargparse nosym p).2.1.bytespersamp = st.bytespersamp ∧
      (soundfiler_writeargparse nosym p).2.1.bigendian
        = (if fill_in_filetype st.filetype f = FORMAT_WAVE then 0
           else if fill_in_filetype st.filetype f = FORMAT_AIFF then 1
           else if st.endianness = -1 then garray_ambigendian else st.endianness) ∧
      ((file_is_a_flag_name f).1 ≠ 0 →
        Msg.looks_like_flag (file_is_a_flag_name f).2 ∈ (soundfiler_writeargparse nosym p).2.2)) := by
  unfold soundfiler_writeargparse
  rw [h]
  dsimp only
  constructor
  · intro hc
    rw [if_pos hc]
    exact ⟨rfl, rfl⟩
  · intro hc
    rw [if_neg hc]
    refine ⟨rfl, rfl, rfl, rfl, rfl, ?_, ?_⟩
    · dsimp only
      split_ifs <;> rfl
    · intro hw
      dsimp only
      rw [if_pos hw]
      simp

/-- A parse that returns 0 has stopped the flag loop at a symbol. -/
theorem argparse_zero (nosym : List Char) (p : WriteArgs)
    (h : (soundfiler_writeargparse nosym p).1 = 0) :
    ∃ f av st, parse_flags nosym p.argv flag_init = some (Atom.symbol f :: av, st) ∧
      ¬ (st.bytespersamp = 4 ∧ fill_in_filetype st.filetype f = FORMAT_AIFF) := by
  unfold soundfiler_writeargparse at h
  split at h
  · exact absurd h (by simp)
  · exact absurd h (by simp)
  · rename_i f av st heq
    refine ⟨f, av, st, heq, ?_⟩
    intro hc
    dsimp only at h
    rw [if_pos hc] at h
    exact absurd h (by simp)
  · exact absurd h (by simp)

/-- The parse returns 0 or -1, and -1 leaves the output parameters as they were. -/
theorem argparse_ret (nosym : List Char) (p : WriteArgs) :
    (soundfiler_writeargparse nosym p).1 = 0 ∨
    ((soundfiler_writeargparse nosym p).1 = -1 ∧ (soundfiler_writeargparse nosym p).2.1 = p) := by
  unfold soundfiler_writeargparse
  split
  · right; exact ⟨rfl, rfl⟩
  · right; exact ⟨rfl, rfl⟩
  · dsimp only
    rename_i f av st heq
    by_cases hc : st.bytespersamp = 4 ∧ fill_in_filetype st.filetype f = FORMAT_AIFF
    · rw [if_pos hc]; right; exact ⟨rfl, rfl⟩
    · rw [if_neg hc]; left; rfl
  · right; exact ⟨rfl, rfl⟩


theorem has_suffix_eq (name suffix : List Char) :
    has_suffix name (suffix.length + 1) suffix = proper_suffix suffix name := rfl

/-- The block that fills in the file type, in the words of the amended rule. -/
theorem fill_in_filetype_eq (ft : Int) (name : List Char) :
    fill_in_filetype ft name = if ft < 0 then name_filetype name else ft := by
  unfold fill_in_filetype name_filetype
  by_cases h : ft < 0
  · rw [if_pos h, if_pos h]
    have e1 := has_suffix_eq name ['.', 'a', 'i', 'f']
    have e2 := has_suffix_eq name ['.', 'A', 'I', 'F']
    have e3 := has_suffix_eq name ['.', 'a', 'i', 'f', 'f']
    have e4 := has_suffix_eq name ['.', 'A', 'I', 'F', 'F']
    have e5 := has_suffix_eq name ['.', 's', 'n', 'd']
    have e6 := has_suffix_eq name ['.', 'S', 'N', 'D']
    have e7 := has_suffix_eq name ['.', 'a', 'u']
    have e8 := has_suffix_eq name ['.', 'A', 'U']
    simp only [List.length_cons, List.length_nil, Nat.zero_add, Nat.reduceAdd] at e1 e2 e3 e4 e5 e6 e7 e8
    rw [e1, e2, e3, e4, e5, e6, e7, e8]
    generalize proper_suffix ['.', 'a', 'i', 'f'] name = b1
    generalize proper_suffix ['.', 'A', 'I', 'F'] name = b2
    generalize proper_suffix ['.', 'a', 'i', 'f', 'f'] name = b3
    generalize proper_suffix ['.', 'A', 'I', 'F', 'F'] name = b4
    generalize proper_suffix ['.', 's', 'n', 'd'] name = b5
    generalize proper_suffix ['.', 'S', 'N', 'D'] name = b6
    generalize proper_suffix ['.', 'a', 'u'] name = b7
    generalize proper_suffix ['.', 'A', 'U'] name = b8
    have hw : ¬ (FORMAT_WAVE < 0) := by decide
    have ha : ¬ (FORMAT_AIFF < 0) := by decide
    have hx : ¬ (FORMAT_NEXT < 0) := by decide
    cases b1 <;> cases b2 <;> cases b3 <;> cases b4 <;> cases b5 <;> cases b6 <;> cases b7 <;>
      cases b8 <;> simp [h, ha, hx]
  · rw [if_neg h, if_neg h]


/-! ### Finishing a write -/

theorem patch_eq (A X Y R : List Byte) (off : Nat) (hA : A.length = off) (hX : X.length = 4) :
    (A ++ X ++ R).take off ++ List.replicate (off - (A ++ X ++ R).length) 0 ++ Y
      ++ (A ++ X ++ R).drop (off + 4) = A ++ Y ++ R := by
  subst hA
  have h1 : (A ++ X ++ R).take A.length = A := by
    rw [List.append_assoc, List.take_left']
    rfl
  have h2 : A.length - (A ++ X ++ R).length = 0 := by
    simp only [List.length_append]; omega
  have h3 : (A ++ X ++ R).drop (A.length + 4) = R := by
    have : (A ++ X).length = A.length + 4 := by simp [hX]
    rw [← this, List.drop_left']
    rfl
  rw [h1, h2, h3]
  simp

/-- One field of the header is replaced: the bytes before and behind it stay. -/
theorem finish_field_patch (A X R : List Byte) (pos : Nat) (e : Int) (off : Nat) (v : Nat)
    (h : 0 < off) (hA : A.length = off) (hX : X.length = 4) :
    finish_field { data := A ++ X ++ R, pos := pos, errno := e } (off : Int) v =
      .ok { data := A ++ store32 v ++ R, pos := off + 4, errno := e } := by
  have h1 : ¬ ((off : Int) < 0) := by omega
  have h2 : ¬ ((off : Int) = 0) := by omega
  have := patch_eq A X (store32 v) R off hA hX
  simp only [finish_field, Sys.lseek, Sys.write, h1, h2, if_false, store32_length,
    Int.toNat_ofNat]
  rw [this]
  simp

theorem wave_header_shape (bps be c : Int) (swap : Bool) (sr : ℚ) :
    ∃ B : List Byte, B.length = 32 ∧ ∀ n : Int,
      (create_soundfile FORMAT_WAVE n bps be c swap sr).1 =
        str_RIFF ++ store32 (swap4 (toUInt32 (toInt64 (n * c * bps) + 44 - 8)) swap) ++ B
          ++ store32 (swap4 (toUInt32 (toInt64 (n * c * bps))) swap) := by
  cases swap
  · refine ⟨((create_soundfile FORMAT_WAVE 0 bps be c false sr).1.drop 8).take 32, ?_, ?_⟩
    · simp [create_soundfile, FORMAT_WAVE, FORMAT_NEXT, FORMAT_AIFF, memcpy, store32, store16,
        WRITEHDRSIZE, AIFFPLUS, AIFFHDRSIZE, WHDR2, WHDR1, sizeof_wave, sizeof_nextstep,
        str_RIFF, str_WAVE, str_fmt, str_data, List.replicate, swap4_false, swap2_false]
    · intro n
      simp [create_soundfile, FORMAT_WAVE, FORMAT_NEXT, FORMAT_AIFF, memcpy, store32, store16,
        WRITEHDRSIZE, AIFFPLUS, AIFFHDRSIZE, WHDR2, WHDR1, sizeof_wave, sizeof_nextstep,
        str_RIFF, str_WAVE, str_fmt, str_data, List.replicate, swap4_false, swap2_false]
  · refine ⟨((create_soundfile FORMAT_WAVE 0 bps be c true sr).1.drop 8).take 32, ?_, ?_⟩
    · unfold create_soundfile
      simp only [store32_swap4, store16_swap2]
      simp [FORMAT_WAVE, FORMAT_NEXT, FORMAT_AIFF, memcpy, store32be, store16be,
        WRITEHDRSIZE, AIFFPLUS, AIFFHDRSIZE, WHDR2, WHDR1, sizeof_wave, sizeof_nextstep,
        str_RIFF, str_WAVE, str_fmt, str_data, List.replicate]
    · intro n
      unfold create_soundfile
      simp only [store32_swap4, store16_swap2]
      simp [FORMAT_WAVE, FORMAT_NEXT, FORMAT_AIFF, memcpy, store32be, store16be,
        WRITEHDRSIZE, AIFFPLUS, AIFFHDRSIZE, WHDR2, WHDR1, sizeof_wave, sizeof_nextstep,
        str_RIFF, str_WAVE, str_fmt, str_data, List.replicate]

theorem next_header_shape (big : Bool) (n bps c : Int) (sr : ℚ) :
    ∃ A R : List Byte, A.length = 8 ∧
      (create_soundfile FORMAT_NEXT n bps (if big then 1 else 0) c big sr).1
        = A ++ store32 0 ++ R := by
  obtain ⟨info, _, h⟩ := create_next big n bps c sr
  rw [h]
  cases big
  · exact ⟨str_dns ++ store32 28, _, rfl, rfl⟩
  · exact ⟨str_snd ++ store32be 28, _, rfl, rfl⟩

theorem toUInt32_toInt64 (x k : Int) : toUInt32 (toInt64 x + k) = toUInt32 (x + k) := by
  unfold toUInt32 toInt64
  congr 1
  have h : (2 : Int) ^ 64 = 2 ^ 32 * 2 ^ 32 := by norm_num
  have e : (x + 2 ^ 63) % 2 ^ 64 = (x + 2 ^ 63) - 2 ^ 64 * ((x + 2 ^ 63) / 2 ^ 64) := by
    have := Int.emod_add_ediv (x + 2 ^ 63) (2 ^ 64)
    linarith
  rw [e]
  have e2 : x + 2 ^ 63 - 2 ^ 64 * ((x + 2 ^ 63) / 2 ^ 64) - 2 ^ 63 + k
      = (x + k) + 2 ^ 32 * (- (2 ^ 32 * ((x + 2 ^ 63) / 2 ^ 64))) := by
    rw [h]; ring
  rw [e2, Int.add_mul_emod_self_left]

theorem field32_store32 (swap : Bool) (P X : List Byte) (v : Nat) (hv : v < 2 ^ 32) :
    field32 swap (P ++ store32 (swap4 v swap) ++ X) P.length = v := by
  cases swap
  · simp only [field32, swap4_false]
    have := load32_append P (store32 v ++ X) 0
    simp only [Nat.add_zero, List.append_assoc] at this ⊢
    rw [this]
    exact load32_store32 v X hv
  · simp only [field32, store32_swap4]
    have := be32_append P (store32be v ++ X) 0
    simp only [Nat.add_zero, List.append_assoc] at this ⊢
    rw [this]
    exact be32_store32be v X hv

/-- What `soundfile_finishwrite` does to a WAVE file. -/
theorem finish_wave (nframes itemswritten bpf : Int) (swap : Bool) (A X1 B X2 R : List Byte)
    (pos : Nat) (e : Int) (h : itemswritten < nframes) (hA : A.length = 4)
    (hX1 : X1.length = 4) (hB : B.length = 32) (hX2 : X2.length = 4) :
    (soundfile_finishwrite FORMAT_WAVE nframes itemswritten bpf swap
        { data := A ++ X1 ++ B ++ X2 ++ R, pos := pos, errno := e }).1.data =
      A ++ store32 (swap4 (toUInt32 (toInt64 (itemswritten * bpf) + 44 - 8)) swap) ++ B
        ++ store32 (swap4 (toUInt32 (toInt64 (itemswritten * bpf))) swap) ++ R := by
  unfold soundfile_finishwrite
  rw [if_pos h]
  have e4 := fun v => finish_field_patch A X1 (B ++ X2 ++ R) pos e 4 v (by norm_num) hA hX1
  have e40 := fun v1 v => finish_field_patch (A ++ store32 v1 ++ B) X2 R (4 + 4) e 40 v
    (by norm_num) (by simp [hA, hB, store32_length]) hX2
  simp only [Nat.cast_ofNat, List.append_assoc] at e4 e40
  simp [FORMAT_WAVE, FORMAT_AIFF, FORMAT_NEXT, e4, e40, Except.bind, sizeof_wave]

/-- What `soundfile_finishwrite` does to a NeXT file. -/
theorem finish_next (nframes itemswritten bpf : Int) (swap : Bool) (A X R : List Byte)
    (pos : Nat) (e : Int) (h : itemswritten < nframes) (hA : A.length = 8)
    (hX : X.length = 4) :
    (soundfile_finishwrite FORMAT_NEXT nframes itemswritten bpf swap
        { data := A ++ X ++ R, pos := pos, errno := e }).1.data =
      A ++ [255, 255, 255, 255] ++ R := by
  unfold soundfile_finishwrite
  rw [if_pos h]
  have e8 := fun v => finish_field_patch A X R pos e 8 v (by norm_num) hA hX
  simp only [Nat.cast_ofNat, List.append_assoc] at e8
  simp [FORMAT_WAVE, FORMAT_AIFF, FORMAT_NEXT, e8, Except.bind, store32]


/-! ### Writing tables to a file -/

/-- One pass of the search for the biggest sample takes the maximum with the absolute
value. -/
theorem biggest_step (v b : ℚ) (hb : 0 ≤ b) :
    (if v > b then v else if -v > b then -v else b) = max b |v| := by
  by_cases h1 : v > b
  · rw [if_pos h1, abs_of_pos (lt_of_le_of_lt hb h1), max_eq_right (le_of_lt h1)]
  · rw [if_neg h1]
    by_cases h2 : -v > b
    · have hv : v < 0 := by linarith
      rw [if_pos h2, abs_of_neg hv, max_eq_right (le_of_lt h2)]
    · rw [if_neg h2, max_eq_left]
      rw [abs_le]
      constructor <;> linarith

/-- A loop that takes the maximum with the absolute values of `w 0`, ..., `w (n - 1)`. -/
theorem biggest_loop (w : Nat → ℚ) (n : Nat) (b0 : ℚ) (hb : 0 ≤ b0) :
    b0 ≤ forloop n (fun j b => if w j > b then w j else if -(w j) > b then -(w j) else b) b0 ∧
    (∀ j, j < n →
      |w j| ≤ forloop n (fun j b => if w j > b then w j else if -(w j) > b then -(w j) else b)
        b0) ∧
    (forloop n (fun j b => if w j > b then w j else if -(w j) > b then -(w j) else b) b0 = b0 ∨
      ∃ j, j < n ∧
        |w j| = forloop n (fun j b => if w j > b then w j else if -(w j) > b then -(w j) else b)
          b0) := by
  induction n with
  | zero =>
    refine ⟨le_refl _, fun j hj => absurd hj (Nat.not_lt_zero _), Or.inl rfl⟩
  | succ n ih =>
    obtain ⟨i1, i2, i3⟩ := ih
    rw [forloop_succ]
    generalize forloop n
      (fun j b => if w j > b then w j else if -(w j) > b then -(w j) else b) b0 = r at i1 i2 i3 ⊢
    rw [biggest_step (w n) r (le_trans hb i1)]
    refine ⟨le_trans i1 (le_max_left _ _), ?_, ?_⟩
    · intro j hj
      rcases Nat.lt_succ_iff_lt_or_eq.mp hj with h | h
      · exact le_trans (i2 j h) (le_max_left _ _)
      · subst h; exact le_max_right _ _
    · rcases le_total r |w n| with h | h
      · right
        exact ⟨n, Nat.lt_succ_self n, by rw [max_eq_right h]⟩
      · rw [max_eq_left h]
        rcases i3 with h3 | ⟨j, hj, h3⟩
        · left; exact h3
        · right; exact ⟨j, Nat.lt_succ_of_lt hj, h3⟩

/-- The search for the biggest sample finds the largest absolute value among the frames
`onset`, ..., `onset + nframes - 1` of the tables. -/
theorem dowrite_biggest_spec (vecs : List (List ℚ)) (onset nframes : Int) :
    0 ≤ dowrite_biggest vecs onset nframes ∧
    (∀ i j, i < vecs.length → j < nframes.toNat →
      |(vecs.getD i []).getD (onset.toNat + j) 0| ≤ dowrite_biggest vecs onset nframes) ∧
    (dowrite_biggest vecs onset nframes = 0 ∨
      ∃ i j, i < vecs.length ∧ j < nframes.toNat ∧
        |(vecs.getD i []).getD (onset.toNat + j) 0| = dowrite_biggest vecs onset nframes) := by
  unfold dowrite_biggest
  generalize vecs.length = m
  induction m with
  | zero =>
    refine ⟨le_refl _, fun i j hi => absurd hi (Nat.not_lt_zero _), Or.inl rfl⟩
  | succ m ih =>
    obtain ⟨i1, i2, i3⟩ := ih
    rw [forloop_succ]
    generalize forloop m (fun i biggest =>
      forloop nframes.toNat (fun j biggest =>
        let v := (vecs.getD i []).getD (onset.toNat + j) 0
        if v > biggest then v
        else if -v > biggest then -v
        else biggest) biggest) 0 = r at i1 i2 i3 ⊢
    obtain ⟨k1, k2, k3⟩ := biggest_loop (fun j => (vecs.getD m []).getD (onset.toNat + j) 0)
      nframes.toNat r i1
    refine ⟨le_trans i1 k1, ?_, ?_⟩
    · intro i j hi hj
      rcases Nat.lt_succ_iff_lt_or_eq.mp hi with h | h
      · exact le_trans (i2 i j h hj) k1
      · subst h; exact k2 j hj
    · rcases k3 with h | ⟨j, hj, h⟩
      · rw [h]
        rcases i3 with h3 | ⟨i, j, hi, hj, h3⟩
        · left; exact h3
        · right; exact ⟨i, j, Nat.lt_succ_of_lt hi, hj, h3⟩
      · right
        exact ⟨m, j, Nat.lt_succ_self m, hj, h⟩


/-! ### Reading a file into tables -/

theorem read_resize_sizes (env : ReadEnv) (finalsize framesinfile : Int) :
    ∀ (names : List (List Char)) (l : List Int),
      read_resize env finalsize framesinfile names = some l →
      l.length = names.length ∧ ∀ v ∈ l, v = framesinfile := by
  intro names
  induction names with
  | nil =>
    intro l h
    simp only [read_resize, Option.some.injEq] at h
    subst h
    simp
  | cons name names ih =>
    intro l h
    simp only [read_resize] at h
    cases hr : env.resized name finalsize with
    | none => rw [hr] at h; simp at h
    | some vecsize =>
      rw [hr] at h
      simp only at h
      by_cases hv : vecsize ≠ framesinfile
      · rw [if_pos hv] at h; simp at h
      · rw [if_neg hv] at h
        cases hrest : read_resize env finalsize framesinfile names with
        | none => rw [hrest] at h; simp at h
        | some l2 =>
          rw [hrest] at h
          simp only [Option.map_some', Option.some.injEq] at h
          subst h
          obtain ⟨h1, h2⟩ := ih l2 hrest
          refine ⟨by simp [h1], ?_⟩
          intro v hvm
          simp only [List.mem_cons] at hvm
          rcases hvm with rfl | hvm
          · exact not_not.mp hv
          · exact h2 v hvm

theorem read_tables_names (env : ReadEnv) :
    ∀ (av : List Atom) (f0 r0 : Int) (names : List (List Char)) (sizes : List Int) (f r : Int),
      read_tables env av f0 r0 = .ok names sizes f r →
      names.length = av.length ∧ (r0 ≠ 0 → r ≠ 0) := by
  intro av
  induction av with
  | nil =>
    intro f0 r0 names sizes f r h
    simp only [read_tables, ReadTables.ok.injEq] at h
    obtain ⟨h1, _, _, h4⟩ := h
    subst h1 h4
    exact ⟨rfl, id⟩
  | cons a av ih =>
    intro f0 r0 names sizes f r h
    cases a with
    | float x => simp [read_tables] at h
    | other => simp [read_tables] at h
    | symbol name =>
      simp only [read_tables] at h
      cases ht : env.tables name with
      | none => rw [ht] at h; simp at h
      | some vecsize =>
        rw [ht] at h
        simp only at h
        split at h
        · rename_i n2 s2 f2 r2 heq
          simp only [ReadTables.ok.injEq] at h
          obtain ⟨h1, _, _, h4⟩ := h
          obtain ⟨i1, i2⟩ := ih _ _ _ _ _ _ heq
          subst h1 h4
          refine ⟨by simp [i1], ?_⟩
          intro hr0
          apply i2
          split_ifs with hc
          · exact absurd hc.2.2 hr0
          · exact hr0
        · simp at h

/-! ### The streaming objects: life cycle -/

theorem openPending_append (tr : List Ev) (e : Ev) (h : OpenPending tr) (he : e ≠ Ev.stop) :
    OpenPending (tr ++ [e]) := by
  obtain ⟨pre, post, h1, h2⟩ := h
  refine ⟨pre, post ++ [e], by rw [h1]; simp, ?_⟩
  intro hm
  rcases List.mem_append.mp hm with hm | hm
  · exact h2 hm
  · simp only [List.mem_singleton] at hm
    exact he hm.symm

theorem openPending_opened (tr : List Ev) : OpenPending (tr ++ [Ev.opened]) :=
  ⟨tr, [], by simp, by simp⟩

/-- A step that respects the life cycle keeps "the state is Startup only with an open
pending". -/
theorem lifeStep_pending (tr : List Ev) (s : Int) (e : Ev) (s2 : Int) (h : LifeStep s e s2)
    (ih : s = STATE_STARTUP → OpenPending tr) (h2 : s2 = STATE_STARTUP) :
    OpenPending (tr ++ [e]) := by
  cases e with
  | opened => exact openPending_opened tr
  | start =>
    obtain ⟨a, b⟩ := h
    by_cases hs : s = STATE_STARTUP
    · have := a hs
      rw [h2] at this
      exact absurd this (by decide)
    · have := b hs
      rw [this] at h2
      exact absurd h2 hs
  | stop =>
    have h3 : s2 = STATE_IDLE := h
    rw [h2] at h3
    exact absurd h3 (by decide)
  | other =>
    have h3 : s2 = s ∨ s2 = STATE_IDLE := h
    rcases h3 with h3 | h3
    · exact openPending_append tr _ (ih (by rw [← h3]; exact h2)) (by decide)
    · rw [h2] at h3
      exact absurd h3 (by decide)

/-- A step that respects the life cycle enters Stream only as a `start` from Startup. -/
theorem lifeStep_stream (s : Int) (e : Ev) (s2 : Int) (h : LifeStep s e s2)
    (h1 : s ≠ STATE_STREAM) (h2 : s2 = STATE_STREAM) : e = Ev.start ∧ s = STATE_STARTUP := by
  cases e with
  | opened =>
    have h3 : s2 = STATE_STARTUP := h
    rw [h2] at h3
    exact absurd h3 (by decide)
  | start =>
    obtain ⟨_, b⟩ := h
    refine ⟨rfl, ?_⟩
    by_contra hs
    have := b hs
    rw [h2] at this
    exact h1 this.symm
  | stop =>
    have h3 : s2 = STATE_IDLE := h
    rw [h2] at h3
    exact absurd h3 (by decide)
  | other =>
    have h3 : s2 = s ∨ s2 = STATE_IDLE := h
    rcases h3 with h3 | h3
    · rw [h2] at h3
      exact absurd h3.symm h1
    · rw [h2] at h3
      exact absurd h3 (by decide)

/-- The child thread of `readsf~` does not touch the state of the life cycle. -/
theorem readsf_child_state (m : ReadMachine) (inp : ReadInput) :
    (readsf_child_main m inp).x.x_state = m.x.x_state := by
  obtain ⟨x, pc⟩ := m
  cases pc <;> simp only [readsf_child_main, readsf_lost] <;> split_ifs <;> rfl

/-- The child thread of `writesf~` does not touch the state of the life cycle. -/
theorem writesf_child_state (x : Readsf) (pc : WritePC) (inp : WriteInput) :
    (writesf_child_main x pc inp).1.x_state = x.x_state := by
  cases pc <;> simp only [writesf_child_main] <;> split_ifs <;> rfl

theorem readsf_perform_state (x y : Readsf) (frames : Int)
    (h : readsf_perform x = Perform.done y frames) :
    y.x_state = x.x_state ∨ y.x_state = STATE_IDLE := by
  unfold readsf_perform at h
  simp only [] at h
  split_ifs at h <;> simp only [Perform.done.injEq, reduceCtorEq] at h
  all_goals (obtain ⟨h1, _⟩ := h; subst h1)
  all_goals first
    | (left; rfl)
    | (right; rfl)

theorem writesf_perform_state (x y : Readsf) (frames : Int)
    (h : writesf_perform x = Perform.done y frames) : y.x_state = x.x_state := by
  unfold writesf_perform at h
  simp only [] at h
  split_ifs at h <;> simp only [Perform.done.injEq, reduceCtorEq] at h
  all_goals (obtain ⟨h1, _⟩ := h; subst h1; rfl)

theorem readStep_life (m : ReadMachine) (e : Ev) (m2 : ReadMachine) (h : ReadStep m e m2) :
    LifeStep m.x.x_state e m2.x.x_state := by
  cases h with
  | «open» filesym onsetframes headerbytes channels bytespersamp endian =>
    by_cases hf : filesym = []
    · simp [hf, readsf_open, LifeStep]
    · simp [hf, readsf_open, LifeStep]
  | start =>
    simp only [LifeStep, readsf_start]
    split_ifs with hs
    · exact ⟨fun _ => rfl, fun h => absurd hs h⟩
    · exact ⟨fun h => absurd h hs, fun _ => rfl⟩
  | stop => simp [LifeStep, readsf_stop]
  | float f =>
    by_cases hf : f ≠ 0
    · simp only [hf, if_true, LifeStep, readsf_float, readsf_start, ne_eq, not_false_eq_true]
      split_ifs with hs
      · exact ⟨fun _ => rfl, fun h => absurd hs h⟩
      · exact ⟨fun h => absurd h hs, fun _ => rfl⟩
    · simp [hf, LifeStep, readsf_float, readsf_stop]
  | dsp s_n x hd =>
    unfold readsf_dsp at hd
    simp only [] at hd
    split_ifs at hd
    simp only [Option.some.injEq] at hd
    subst hd
    left; rfl
  | perform x frames hp => exact readsf_perform_state _ _ _ hp
  | child inp hin =>
    left
    exact readsf_child_state m inp

theorem writeStep_life (m : WriteMachine) (e : Ev) (m2 : WriteMachine)
    (h : WriteStep m e m2) : LifeStep m.x.x_state e m2.x.x_state := by
  cases h with
  | open_parse hw nosym locals argv =>
    simp only [LifeStep, writesf_open_parse, writesf_stop]
    split_ifs <;> simp
  | open_set w hw hr sys_getsr x hx =>
    unfold writesf_open_set at hx
    simp only [] at hx
    split_ifs at hx <;> (simp only [Option.some.injEq] at hx; subst hx; rfl)
  | start hw =>
    simp only [LifeStep, writesf_start]
    split_ifs with hs
    · exact ⟨fun _ => rfl, fun h => absurd hs h⟩
    · exact ⟨fun h => absurd h hs, fun _ => rfl⟩
  | stop hw => simp [LifeStep, writesf_stop]
  | dsp hw s_n s_sr x hd =>
    unfold writesf_dsp at hd
    simp only [] at hd
    split_ifs at hd
    simp only [Option.some.injEq] at hd
    subst hd
    left; rfl
  | perform hw x frames hp =>
    left
    exact writesf_perform_state _ _ _ hp
  | child inp hin =>
    left
    exact writesf_child_state m.x m.pc inp

/-- In a run of `readsf~` the state is Startup only with an open pending. -/
theorem readRun_pending (P : Readsf → Prop) (tr : List Ev) (m : ReadMachine)
    (h : ReadRun P tr m) : m.x.x_state = STATE_STARTUP → OpenPending tr := by
  induction h with
  | new x a b =>
    intro h
    exact absurd h (by simp [readsf_new, STATE_IDLE, STATE_STARTUP])
  | step tr m e m2 hrun hP hstep ih =>
    intro h
    exact lifeStep_pending tr _ e _ (readStep_life m e m2 hstep) ih h

/-- In a run of `writesf~` the state is Startup only with an open pending. -/
theorem writeRun_pending (P : Readsf → Prop) (tr : List Ev) (m : WriteMachine)
    (h : WriteRun P tr m) : m.x.x_state = STATE_STARTUP → OpenPending tr := by
  induction h with
  | new x a b =>
    intro h
    exact absurd h (by simp [writesf_new, STATE_IDLE, STATE_STARTUP])
  | step tr m e m2 hrun hP hstep ih =>
    intro h
    exact lifeStep_pending tr _ e _ (writeStep_life m e m2 hstep) ih h

/-! ### The streaming objects: arguments of `open` -/

theorem d2i_floor (q : ℚ) (h0 : 0 ≤ q) (h1 : q < 2 ^ 31) : d2i q = ⌊q⌋ := by
  unfold d2i truncQ
  rw [if_pos h0]
  have a : (0 : Int) ≤ ⌊q⌋ := Int.floor_nonneg.mpr h0
  have b : ⌊q⌋ < 2 ^ 31 := by
    rw [Int.floor_lt]; push_cast; exact h1
  rw [if_pos ⟨le_trans (by norm_num) a, b⟩]

theorem d2l_floor (q : ℚ) (h0 : 0 ≤ q) (h1 : q < 2 ^ 63) : d2l q = ⌊q⌋ := by
  unfold d2l truncQ
  rw [if_pos h0]
  have a : (0 : Int) ≤ ⌊q⌋ := Int.floor_nonneg.mpr h0
  have b : ⌊q⌋ < 2 ^ 63 := by
    rw [Int.floor_lt]; push_cast; exact h1
  rw [if_pos ⟨le_trans (by norm_num) a, b⟩]

/-! ### The streaming objects: the cursors of the FIFO -/

theorem toInt32_eq (v : Int) (h1 : -2147483648 ≤ v) (h2 : v < 2147483648) : toInt32 v = v := by
  unfold toInt32
  have e1 : (2 : Int) ^ 31 = 2147483648 := by norm_num
  have e2 : (2 : Int) ^ 32 = 4294967296 := by norm_num
  rw [e1, e2]
  omega

theorem toInt64_eq (v : Int) (h1 : 0 ≤ v) (h2 : v < 9223372036854775808) : toInt64 v = v := by
  unfold toInt64
  have e1 : (2 : Int) ^ 63 = 9223372036854775808 := by norm_num
  have e2 : (2 : Int) ^ 64 = 18446744073709551616 := by norm_num
  rw [e1, e2]
  omega

theorem toInt64_range (v : Int) :
    -9223372036854775808 ≤ toInt64 v ∧ toInt64 v < 9223372036854775808 := by
  unfold toInt64
  have e1 : (2 : Int) ^ 63 = 9223372036854775808 := by norm_num
  have e2 : (2 : Int) ^ 64 = 18446744073709551616 := by norm_num
  rw [e1, e2]
  omega

theorem tmod_bounds (a b : Int) (ha : 0 ≤ a) : 0 ≤ Int.tmod a b ∧ Int.tmod a b ≤ a := by
  refine ⟨Int.tmod_nonneg b ha, ?_⟩
  have key : ∀ c : Int, 0 ≤ c → Int.tmod a c ≤ a := by
    intro c hc
    rw [Int.tmod_eq_emod ha hc]
    rcases eq_or_lt_of_le hc with h0 | hpos
    · rw [← h0, Int.emod_zero]
    · have h1 := Int.emod_add_ediv a c
      have h2 : 0 ≤ a / c := Int.ediv_nonneg ha hc
      have h3 : 0 ≤ c * (a / c) := mul_nonneg hc h2
      linarith
  rcases le_total 0 b with hb | hb
  · exact key b hb
  · have := key (-b) (by linarith)
    rwa [Int.tmod_neg] at this

/-- The size of a block in bytes as the perform routines compute it. -/
theorem blockbytes_sane (x : Readsf) (h : BlockSane x) :
    2 ≤ toInt32 (toInt32 (x.x_sfchannels * x.x_vecsize) * x.x_bytespersample) ∧
    toInt32 (toInt32 (x.x_sfchannels * x.x_vecsize) * x.x_bytespersample) ≤ 1073741824 := by
  obtain ⟨h1, h2, h3, h4⟩ := h
  have hp : 1 ≤ x.x_sfchannels * x.x_vecsize := one_le_mul_of_one_le_of_one_le h1 h2
  have hq : x.x_sfchannels * x.x_vecsize * 2 ≤ x.x_sfchannels * x.x_vecsize * x.x_bytespersample :=
    mul_le_mul_of_nonneg_left h3 (by linarith)
  generalize x.x_sfchannels * x.x_vecsize = p at *
  rw [toInt32_eq p (by linarith) (by linarith)]
  generalize p * x.x_bytespersample = w at *
  rw [toInt32_eq w (by linarith) (by linarith)]
  constructor <;> linarith

theorem new_sizes_bufsize (a b : ℚ) :
    0 < (new_sizes a b).2 ∧ (new_sizes a b).2 ≤ 16777216 := by
  unfold new_sizes
  simp only [MAXSFCHANS, DEFBUFPERCHAN, MINBUFSIZE, MAXBUFSIZE, READSIZE, Nat.cast_ofNat]
  generalize d2i a = n
  generalize d2i b = k
  have hc : 1 ≤ (if n < 1 then 1 else if n > 64 then 64 else n) ∧
      (if n < 1 then 1 else if n > 64 then 64 else n) ≤ 64 := by
    split_ifs <;> constructor <;> omega
  generalize (if n < 1 then 1 else if n > 64 then 64 else n) = c at hc ⊢
  have key : 0 < toInt32 (262144 * c) ∧ toInt32 (262144 * c) ≤ 16777216 := by
    rw [toInt32_eq _ (by omega) (by omega)]
    omega
  split_ifs
  · exact key
  · constructor <;> norm_num
  · constructor <;> norm_num
  · constructor <;> omega

/-- The statements behind the label `lost` keep the invariant. -/
theorem readInv_lost (x : Readsf)
    (hb : 0 < x.x_bufsize ∧ x.x_bufsize ≤ 16777216)
    (hf : 0 ≤ x.x_fifosize ∧ x.x_fifosize ≤ x.x_bufsize)
    (hh : 0 ≤ x.x_fifohead ∧ (x.x_fifohead < x.x_fifosize ∨ x.x_fifohead = 0))
    (ht : 0 ≤ x.x_fifotail ∧ (x.x_fifotail < x.x_fifosize ∨ x.x_fifotail = 0))
    (hpre : x.x_requestcode = REQUEST_OPEN → x.x_fifohead = 0 ∧ x.x_fifotail = 0) :
    ReadInv (readsf_lost x) := by
  unfold readsf_lost
  simp only [REQUEST_BUSY, REQUEST_NOTHING, REQUEST_OPEN] at *
  by_cases hr : x.x_requestcode = 4
  · rw [if_pos hr]
    by_cases hfd : x.x_fd ≥ 0
    · rw [if_pos hfd]
      refine ⟨hb, hf, hh, ht, ?_, trivial⟩
      rintro (h | h)
      · exact absurd h (by simp [REQUEST_OPEN])
      · exact absurd h.2 (by simp [PreSizing])
    · rw [if_neg hfd]
      refine ⟨hb, hf, hh, ht, ?_, trivial⟩
      rintro (h | h)
      · exact absurd h (by simp [REQUEST_OPEN])
      · exact absurd h.2 (by simp [PreSizing])
  · rw [if_neg hr]
    by_cases hfd : x.x_fd ≥ 0
    · rw [if_pos hfd]
      refine ⟨hb, hf, hh, ht, ?_, trivial⟩
      rintro (h | h)
      · exact hpre h
      · exact absurd h.2 (by simp [PreSizing])
    · rw [if_neg hfd]
      refine ⟨hb, hf, hh, ht, ?_, trivial⟩
      rintro (h | h)
      · exact hpre h
      · exact absurd h.2 (by simp [PreSizing])

theorem seek_past_header_limit (fd : Int) (q : SoundfileInfo) (k h be ch bps bl sr : Int)
    (s : Sys) (hq : 0 ≤ q.bytelimit ∧ q.bytelimit < 9223372036854775808) :
    0 ≤ (seek_past_header fd q k h be ch bps bl sr s).info.bytelimit ∧
    (seek_past_header fd q k h be ch bps bl sr s).info.bytelimit < 9223372036854775808 := by
  unfold seek_past_header
  simp only []
  split_ifs with h1 h2
  · exact hq
  · exact ⟨le_refl _, by norm_num⟩
  · exact ⟨not_lt.mp h2, (toInt64_range _).2⟩

theorem open_via_fd_limit (fuel : Nat) (fd : Int) (s : Sys) (p : SoundfileInfo) (sk : Int)
    (r : OpenResult) (h : open_soundfile_via_fd fuel fd s p sk = some r)
    (hp : 0 ≤ p.bytelimit ∧ p.bytelimit < 9223372036854775808) :
    0 ≤ r.info.bytelimit ∧ r.info.bytelimit < 9223372036854775808 := by
  unfold open_soundfile_via_fd at h
  simp only [] at h
  repeat' split at h
  all_goals first
    | (simp only [Option.some.injEq] at h
       subst h
       first
         | (with_reducible exact seek_past_header_limit _ _ _ _ _ _ _ _ _ _ hp)
         | (simp only [badheader]; exact hp))
    | exact absurd h (by simp)

theorem open_soundfile_limit (fuel : Nat) (file : Option Sys) (fd : Int) (p : SoundfileInfo)
    (sk : Int) (r : OpenResult) (h : open_soundfile fuel file fd p sk = some r)
    (hp : 0 ≤ p.bytelimit ∧ p.bytelimit < 9223372036854775808) :
    0 ≤ r.info.bytelimit ∧ r.info.bytelimit < 9223372036854775808 := by
  unfold open_soundfile at h
  cases file with
  | none =>
    simp only [Option.some.injEq] at h
    subst h
    exact hp
  | some s => exact open_via_fd_limit fuel fd s p sk r h hp

/-- A step of the child thread of `readsf~` keeps the invariant. -/
theorem readInv_child (m : ReadMachine) (inp : ReadInput) (hin : ReadInputOK m.pc inp)
    (hi : ReadInv m) : ReadInv (readsf_child_main m inp) := by
  obtain ⟨x, pc⟩ := m
  obtain ⟨hb, hf, hh, ht, hpre, hpc⟩ := hi
  simp only [] at hb hf hh ht hpre hpc hin
  cases pc with
  | top =>
    simp only [readsf_child_main]
    by_cases h0 : x.x_requestcode = REQUEST_NOTHING
    · rw [if_pos h0]
      exact ⟨hb, hf, hh, ht, hpre, hpc⟩
    · rw [if_neg h0]
      by_cases h1 : x.x_requestcode = REQUEST_OPEN
      · rw [if_pos h1]
        have hz := hpre (Or.inl h1)
        split_ifs
        · exact ⟨hb, hf, hh, ht, fun _ => hz, by simp [ReadPcOK, readsf_info]⟩
        · exact ⟨hb, hf, hh, ht, fun _ => hz, by simp [ReadPcOK, readsf_info]⟩
      · rw [if_neg h1]
        by_cases h2 : x.x_requestcode = REQUEST_CLOSE
        · rw [if_pos h2]
          split_ifs
          · refine ⟨hb, hf, hh, ht, ?_, trivial⟩
            rintro (h | h)
            · exact absurd h h1
            · exact absurd h.2 (by simp [PreSizing])
          · refine ⟨hb, hf, hh, ht, ?_, trivial⟩
            rintro (h | h)
            · exact absurd h (by simp [REQUEST_OPEN, REQUEST_NOTHING])
            · exact absurd h.2 (by simp [PreSizing])
        · rw [if_neg h2]
          by_cases h3 : x.x_requestcode = REQUEST_QUIT
          · rw [if_pos h3]
            split_ifs
            · refine ⟨hb, hf, hh, ht, ?_, trivial⟩
              rintro (h | h)
              · exact absurd h h1
              · exact absurd h.2 (by simp [PreSizing])
            · refine ⟨hb, hf, hh, ht, ?_, trivial⟩
              rintro (h | h)
              · exact absurd h (by simp [REQUEST_OPEN, REQUEST_NOTHING])
              · exact absurd h.2 (by simp [PreSizing])
          · rw [if_neg h3]
            exact ⟨hb, hf, hh, ht, hpre, hpc⟩
  | closing info onsetframes =>
    simp only [readsf_child_main]
    by_cases h0 : x.x_requestcode ≠ REQUEST_BUSY
    · rw [if_pos h0]
      exact readInv_lost _ hb hf hh ht (fun h => hpre (Or.inl h))
    · rw [if_neg h0]
      exact ⟨hb, hf, hh, ht, fun _ => hpre (Or.inr ⟨not_not.mp h0, trivial⟩), hpc⟩
  | opening info onsetframes =>
    obtain ⟨fuel, file, fd, hfd, hopen⟩ := hin
    have hlim := open_soundfile_limit fuel file fd info onsetframes _ hopen hpc
    simp only [readsf_child_main]
    by_cases h0 : inp.opened.ret < 0
    · rw [if_pos h0]
      exact readInv_lost _ hb hf hh ht (fun h => hpre (Or.inl h))
    · rw [if_neg h0]
      by_cases h1 : x.x_requestcode ≠ REQUEST_BUSY
      · rw [if_pos h1]
        exact readInv_lost _ hb hf hh ht (fun h => hpre (Or.inl h))
      · rw [if_neg h1]
        have hbusy : x.x_requestcode = REQUEST_BUSY := not_not.mp h1
        have hz := hpre (Or.inr ⟨hbusy, trivial⟩)
        have hno : ¬ (x.x_requestcode = REQUEST_OPEN) := by
          rw [hbusy]; decide
        obtain ⟨t1, t2⟩ := tmod_bounds x.x_bufsize
          (toInt32 (toInt32 (inp.opened.info.bytespersample * inp.opened.info.channels)
            * MAXVECSIZE)) (le_of_lt hb.1)
        have hF : toInt32 (x.x_bufsize - Int.tmod x.x_bufsize
            (toInt32 (toInt32 (inp.opened.info.bytespersample * inp.opened.info.channels)
              * MAXVECSIZE)))
            = x.x_bufsize - Int.tmod x.x_bufsize
              (toInt32 (toInt32 (inp.opened.info.bytespersample * inp.opened.info.channels)
                * MAXVECSIZE)) := by
          apply toInt32_eq <;> omega
        split_ifs
        · refine ⟨hb, hf, ⟨le_refl _, Or.inr rfl⟩, ht, ?_, trivial⟩
          rintro (h | h)
          · exact absurd h hno
          · exact absurd h.2 (by simp [PreSizing])
        · refine ⟨hb, ?_, ⟨le_refl _, Or.inr rfl⟩, ⟨ht.1, Or.inr hz.2⟩, ?_, trivial⟩
          · show 0 ≤ toInt32 _ ∧ toInt32 _ ≤ x.x_bufsize
            rw [hF]
            constructor <;> omega
          · rintro (h | h)
            · exact absurd h hno
            · exact absurd h.2 (by simp [PreSizing])
        · refine ⟨hb, ?_, ⟨le_refl _, Or.inr rfl⟩, ⟨ht.1, Or.inr hz.2⟩, ?_, hlim⟩
          · show 0 ≤ toInt32 _ ∧ toInt32 _ ≤ x.x_bufsize
            rw [hF]
            constructor <;> omega
          · rintro (h | h)
            · exact absurd h hno
            · exact absurd h.2 (by simp [PreSizing])
  | loop =>
    simp only [readsf_child_main]
    by_cases h0 : x.x_requestcode ≠ REQUEST_BUSY
    · rw [if_pos h0]
      exact readInv_lost _ hb hf hh ht (fun h => hpre (Or.inl h))
    · rw [if_neg h0]
      by_cases h1 : x.x_eof ≠ 0
      · rw [if_pos h1]
        exact readInv_lost _ hb hf hh ht (fun h => hpre (Or.inl h))
      · rw [if_neg h1]
        have hbusy : x.x_requestcode = REQUEST_BUSY := not_not.mp h0
        have hno : ¬ (x.x_requestcode = REQUEST_OPEN) := by
          rw [hbusy]; decide
        have hvac : ∀ a b : Int, (x.x_requestcode = REQUEST_OPEN ∨
            (x.x_requestcode = REQUEST_BUSY ∧ PreSizing (ReadPC.reading a b))) →
            x.x_fifohead = 0 ∧ x.x_fifotail = 0 := by
          intro a b h
          rcases h with h | h
          · exact absurd h hno
          · exact absurd h.2 (by simp [PreSizing])
        obtain ⟨hl1, hl2⟩ := hpc
        by_cases h2 : x.x_fifohead ≥ x.x_fifotail
        · rw [if_pos h2]
          have hd : toInt32 (x.x_fifosize - x.x_fifohead) = x.x_fifosize - x.x_fifohead := by
            apply toInt32_eq <;> omega
          rw [hd]
          by_cases h3 : x.x_fifotail ≠ 0 ∨ x.x_fifosize - x.x_fifohead > READSIZE
          · rw [if_pos h3]
            refine ⟨hb, hf, hh, ht, hvac _ _, ?_⟩
            simp only [ReadPcOK, READSIZE] at h3 ⊢
            by_cases h4 : x.x_fifosize - x.x_fifohead > 65536
            · rw [if_pos h4]
              by_cases h5 : 65536 > x.x_bytelimit
              · rw [if_pos h5, toInt32_eq _ (by omega) (by omega)]
                refine ⟨trivial, ?_, ?_, ?_, hl2⟩ <;> omega
              · rw [if_neg h5]
                refine ⟨trivial, ?_, ?_, ?_, hl2⟩ <;> omega
            · rw [if_neg h4]
              by_cases h5 : x.x_fifosize - x.x_fifohead > x.x_bytelimit
              · rw [if_pos h5, toInt32_eq _ (by omega) (by omega)]
                refine ⟨trivial, ?_, ?_, ?_, hl2⟩ <;> omega
              · rw [if_neg h5]
                refine ⟨trivial, ?_, ?_, ?_, hl2⟩ <;> omega
          · rw [if_neg h3]
            exact ⟨hb, hf, hh, ht, hpre, ⟨hl1, hl2⟩⟩
        · rw [if_neg h2]
          have hd1 : toInt32 (x.x_fifotail - x.x_fifohead) = x.x_fifotail - x.x_fifohead := by
            apply toInt32_eq <;> omega
          have hd2 : toInt32 (x.x_fifotail - x.x_fifohead - 1)
              = x.x_fifotail - x.x_fifohead - 1 := by
            apply toInt32_eq <;> omega
          rw [hd1, hd2]
          by_cases h3 : x.x_fifotail - x.x_fifohead - 1 < READSIZE
          · rw [if_pos h3]
            exact ⟨hb, hf, hh, ht, hpre, ⟨hl1, hl2⟩⟩
          · rw [if_neg h3]
            refine ⟨hb, hf, hh, ht, hvac _ _, ?_⟩
            simp only [ReadPcOK, READSIZE] at h3 ⊢
            by_cases h5 : 65536 > x.x_bytelimit
            · rw [if_pos h5, toInt32_eq _ (by omega) (by omega)]
              refine ⟨trivial, ?_, ?_, ?_, hl2⟩ <;> omega
            · rw [if_neg h5]
              refine ⟨trivial, ?_, ?_, ?_, hl2⟩ <;> omega
  | reading fs w =>
    obtain ⟨p1, p2, p3, p4, p5⟩ := hpc
    have hin2 : inp.sysrtn ≤ w := by
      rcases hin with h | h
      · omega
      · exact h
    simp only [readsf_child_main]
    by_cases h0 : x.x_requestcode ≠ REQUEST_BUSY
    · rw [if_pos h0]
      exact readInv_lost _ hb hf hh ht (fun h => hpre (Or.inl h))
    · rw [if_neg h0]
      have hbusy : x.x_requestcode = REQUEST_BUSY := not_not.mp h0
      have hno : ¬ (x.x_requestcode = REQUEST_OPEN) := by
        rw [hbusy]; decide
      by_cases h1 : inp.sysrtn < 0
      · rw [if_pos h1]
        exact readInv_lost _ hb hf hh ht (fun h => hpre (Or.inl h))
      · rw [if_neg h1]
        by_cases h2 : inp.sysrtn = 0
        · rw [if_pos h2]
          exact readInv_lost _ hb hf hh ht (fun h => hpre (Or.inl h))
        · rw [if_neg h2]
          have e1 : toInt32 (x.x_fifohead + inp.sysrtn) = x.x_fifohead + inp.sysrtn := by
            apply toInt32_eq <;> omega
          have e2 : toInt64 (x.x_bytelimit - inp.sysrtn) = x.x_bytelimit - inp.sysrtn := by
            apply toInt64_eq <;> omega
          rw [e1, e2]
          have hhead : 0 ≤ (if x.x_fifohead + inp.sysrtn = fs then 0
              else x.x_fifohead + inp.sysrtn) ∧
              ((if x.x_fifohead + inp.sysrtn = fs then 0 else x.x_fifohead + inp.sysrtn)
                  < x.x_fifosize ∨
                (if x.x_fifohead + inp.sysrtn = fs then 0 else x.x_fifohead + inp.sysrtn)
                  = 0) := by
            split_ifs <;> constructor <;> omega
          by_cases h3 : x.x_bytelimit - inp.sysrtn ≤ 0
          · rw [if_pos h3]
            exact readInv_lost _ hb hf hhead ht (fun h => absurd h hno)
          · rw [if_neg h3]
            refine ⟨hb, hf, hhead, ht, ?_, ?_⟩
            · rintro (h | h)
              · exact absurd h hno
              · exact absurd h.2 (by simp [PreSizing])
            · show 0 ≤ x.x_bytelimit - inp.sysrtn ∧ x.x_bytelimit - inp.sysrtn < _
              constructor <;> omega
  | lost_closing =>
    simp only [readsf_child_main]
    refine ⟨hb, hf, hh, ht, ?_, trivial⟩
    rintro (h | h)
    · exact hpre (Or.inl h)
    · exact absurd h.2 (by simp [PreSizing])
  | close_closing =>
    simp only [readsf_child_main]
    split_ifs with hc
    · refine ⟨hb, hf, hh, ht, ?_, trivial⟩
      rintro (h | h)
      · exact absurd h (by simp [REQUEST_OPEN, REQUEST_NOTHING])
      · exact absurd h.2 (by simp [PreSizing])
    · refine ⟨hb, hf, hh, ht, ?_, trivial⟩
      rintro (h | h)
      · exact hpre (Or.inl h)
      · exact absurd h.2 (by simp [PreSizing])
  | quit_closing =>
    simp only [readsf_child_main]
    refine ⟨hb, hf, hh, ht, ?_, trivial⟩
    rintro (h | h)
    · exact absurd h (by simp [REQUEST_OPEN, REQUEST_NOTHING])
    · exact absurd h.2 (by simp [PreSizing])
  | exited =>
    simp only [readsf_child_main]
    exact ⟨hb, hf, hh, ht, hpre, hpc⟩
  | crashed =>
    simp only [readsf_child_main]
    exact ⟨hb, hf, hh, ht, hpre, hpc⟩

/-- A call of `readsf_perform` keeps the invariant, for a block of a sane size. -/
theorem readInv_perform (x : Readsf) (pc : ReadPC) (y : Readsf) (frames : Int)
    (h : readsf_perform x = Perform.done y frames) (hs : BlockSane x)
    (hi : ReadInv { x := x, pc := pc }) : ReadInv { x := y, pc := pc } := by
  obtain ⟨hb, hf, hh, ht, hpre, hpc⟩ := hi
  simp only [] at hb hf hh ht hpre hpc
  obtain ⟨w1, w2⟩ := blockbytes_sane x hs
  unfold readsf_perform at h
  simp only [] at h
  generalize toInt32 (toInt32 (x.x_sfchannels * x.x_vecsize) * x.x_bytespersample) = wb at *
  have e1 : toInt32 (x.x_fifotail + wb) = x.x_fifotail + wb := by
    apply toInt32_eq <;> omega
  have e2 : toInt32 (x.x_fifotail + wb - 1) = x.x_fifotail + wb - 1 := by
    apply toInt32_eq <;> omega
  rw [e1, e2] at h
  by_cases hst : x.x_state = STATE_STREAM
  · rw [if_pos hst] at h
    by_cases hshort : x.x_fifohead ≥ x.x_fifotail ∧ x.x_fifohead < x.x_fifotail + wb - 1
    · have hd : decide (x.x_fifohead ≥ x.x_fifotail ∧ x.x_fifohead < x.x_fifotail + wb - 1)
          = true := decide_eq_true hshort
      rw [hd] at h
      by_cases he : x.x_eof = 0
      · rw [if_pos ⟨he, rfl⟩] at h
        exact absurd h (by simp)
      · rw [if_neg (fun hc => he hc.1), if_pos ⟨he, rfl⟩] at h
        split_ifs at h
        all_goals
          simp only [Perform.done.injEq] at h
          obtain ⟨h1, _⟩ := h
          subst h1
          exact ⟨hb, hf, hh, ht, hpre, hpc⟩
    · have hd : decide (x.x_fifohead ≥ x.x_fifotail ∧ x.x_fifohead < x.x_fifotail + wb - 1)
          = false := decide_eq_false hshort
      rw [hd] at h
      rw [if_neg (by simp), if_neg (by simp)] at h
      simp only [Perform.done.injEq] at h
      obtain ⟨h1, _⟩ := h
      subst h1
      have hnp : ¬ (x.x_requestcode = REQUEST_OPEN ∨
          (x.x_requestcode = REQUEST_BUSY ∧ PreSizing pc)) := by
        intro hc
        obtain ⟨z1, z2⟩ := hpre hc
        apply hshort
        rw [z1, z2]
        constructor <;> omega
      refine ⟨hb, hf, hh, ?_, fun hc => absurd hc hnp, hpc⟩
      show 0 ≤ (if x.x_fifotail + wb ≥ x.x_fifosize then 0 else x.x_fifotail + wb) ∧
        ((if x.x_fifotail + wb ≥ x.x_fifosize then 0 else x.x_fifotail + wb) < x.x_fifosize ∨
          (if x.x_fifotail + wb ≥ x.x_fifosize then 0 else x.x_fifotail + wb) = 0)
      split_ifs <;> constructor <;> omega
  · rw [if_neg hst] at h
    simp only [Perform.done.injEq] at h
    obtain ⟨h1, _⟩ := h
    subst h1
    exact ⟨hb, hf, hh, ht, hpre, hpc⟩

/-- A step of `readsf~` keeps the invariant, for a block of a sane size. -/
theorem readInv_step (m : ReadMachine) (e : Ev) (m2 : ReadMachine) (h : ReadStep m e m2)
    (hs : BlockSane m.x) (hi : ReadInv m) : ReadInv m2 := by
  cases h with
  | «open» filesym onsetframes headerbytes channels bytespersamp endian =>
    obtain ⟨x, pc⟩ := m
    obtain ⟨hb, hf, hh, ht, hpre, hpc⟩ := hi
    simp only [] at hb hf hh ht hpre hpc
    unfold readsf_open
    by_cases hf0 : filesym = []
    · rw [if_pos hf0]
      exact ⟨hb, hf, hh, ht, hpre, hpc⟩
    · rw [if_neg hf0]
      refine ⟨hb, hf, ⟨le_refl _, Or.inr rfl⟩, ⟨le_refl _, Or.inr rfl⟩,
        fun _ => ⟨rfl, rfl⟩, ?_⟩
      cases pc with
      | reading fs w =>
        obtain ⟨p1, p2, p3, p4, p5⟩ := hpc
        exact ⟨p1, by show (0 : Int) + w ≤ x.x_fifosize; omega, p3, p4, p5⟩
      | _ => exact hpc
  | start =>
    obtain ⟨x, pc⟩ := m
    unfold readsf_start
    split_ifs
    · exact hi
    · exact hi
  | stop =>
    obtain ⟨x, pc⟩ := m
    obtain ⟨hb, hf, hh, ht, hpre, hpc⟩ := hi
    refine ⟨hb, hf, hh, ht, ?_, hpc⟩
    rintro (hc | hc)
    · exact absurd hc (by simp [readsf_stop, REQUEST_CLOSE, REQUEST_OPEN])
    · exact absurd hc.1 (by simp [readsf_stop, REQUEST_CLOSE, REQUEST_BUSY])
  | float f =>
    obtain ⟨x, pc⟩ := m
    obtain ⟨hb, hf, hh, ht, hpre, hpc⟩ := hi
    unfold readsf_float readsf_start
    split_ifs
    · exact ⟨hb, hf, hh, ht, hpre, hpc⟩
    · exact ⟨hb, hf, hh, ht, hpre, hpc⟩
    · refine ⟨hb, hf, hh, ht, ?_, hpc⟩
      rintro (hc | hc)
      · exact absurd hc (by simp [readsf_stop, REQUEST_CLOSE, REQUEST_OPEN])
      · exact absurd hc.1 (by simp [readsf_stop, REQUEST_CLOSE, REQUEST_BUSY])
  | dsp s_n x hd =>
    obtain ⟨x0, pc⟩ := m
    unfold readsf_dsp at hd
    simp only [] at hd
    split_ifs at hd
    simp only [Option.some.injEq] at hd
    subst hd
    exact hi
  | perform x frames hp =>
    obtain ⟨x0, pc⟩ := m
    exact readInv_perform x0 pc x frames hp hs hi
  | child inp hin => exact readInv_child m inp hin hi

/-- The invariant holds in every run of `readsf~` through blocks of a sane size. -/
theorem readRun_inv (tr : List Ev) (m : ReadMachine) (h : ReadRun BlockSane tr m) :
    ReadInv m := by
  induction h with
  | new x a b =>
    obtain ⟨b1, b2⟩ := new_sizes_bufsize a b
    refine ⟨⟨b1, b2⟩, ⟨le_refl _, le_of_lt b1⟩, ⟨le_refl _, Or.inr rfl⟩,
      ⟨le_refl _, Or.inr rfl⟩, fun _ => ⟨rfl, rfl⟩, trivial⟩
  | step tr m e m2 hrun hP hstep ih => exact readInv_step m e m2 hstep hP ih

theorem cursors_of_inv (x : Readsf)
    (hf : 0 ≤ x.x_fifosize)
    (hh : 0 ≤ x.x_fifohead ∧ (x.x_fifohead < x.x_fifosize ∨ x.x_fifohead = 0))
    (ht : 0 ≤ x.x_fifotail ∧ (x.x_fifotail < x.x_fifosize ∨ x.x_fifotail = 0)) :
    CursorsOK x := by
  refine ⟨hh.1, ht.1, hf, fun h => ⟨?_, ?_⟩, fun h => ⟨?_, ?_⟩⟩ <;> omega

/-- A step of the child thread of `writesf~` keeps the invariant. -/
theorem writeInv_child (m : WriteMachine) (inp : WriteInput) (hin : WriteInputOK m.pc inp)
    (hi : WriteInv m) :
    WriteInv { m with x := (writesf_child_main m.x m.pc inp).1,
                      pc := (writesf_child_main m.x m.pc inp).2 } := by
  obtain ⟨x, pc, wt⟩ := m
  obtain ⟨hb, hf, hh, ht, hpc⟩ := hi
  simp only [] at hb hf hh ht hpc hin
  have n1 : REQUEST_BUSY ≠ REQUEST_NOTHING := by decide
  have n2 : REQUEST_CLOSE ≠ REQUEST_NOTHING := by decide
  have n3 : REQUEST_QUIT ≠ REQUEST_NOTHING := by decide
  cases pc with
  | top =>
    simp only [writesf_child_main]
    by_cases h0 : x.x_requestcode = REQUEST_NOTHING
    · rw [if_pos h0]
      exact ⟨hb, hf, hh, ht, trivial⟩
    · rw [if_neg h0]
      by_cases h1 : x.x_requestcode = REQUEST_OPEN
      · rw [if_pos h1]
        split_ifs
        · exact ⟨hb, hf, hh, ht, n1⟩
        · exact ⟨hb, hf, hh, ht, n1⟩
      · rw [if_neg h1]
        by_cases h2 : x.x_requestcode = REQUEST_CLOSE ∨ x.x_requestcode = REQUEST_QUIT
        · rw [if_pos h2]
          by_cases hfd : x.x_fd ≥ 0
          · rw [if_pos hfd]
            exact ⟨hb, hf, hh, ht, h0⟩
          · rw [if_neg hfd]
            refine ⟨hb, hf, hh, ht, ?_⟩
            show WritePcOK _ _ _ (if _ then WritePC.exited else WritePC.top)
            split_ifs <;> trivial
        · rw [if_neg h2]
          exact ⟨hb, hf, hh, ht, trivial⟩
  | finishing be =>
    simp only [writesf_child_main]
    by_cases h0 : x.x_requestcode ≠ REQUEST_BUSY
    · rw [if_pos h0]
      exact ⟨hb, hf, hh, ht, trivial⟩
    · rw [if_neg h0]
      exact ⟨hb, hf, hh, ht, hpc⟩
  | creating be =>
    simp only [writesf_child_main]
    by_cases h0 : inp.fd < 0
    · rw [if_pos h0]
      exact ⟨hb, hf, hh, ht, trivial⟩
    · rw [if_neg h0]
      by_cases h1 : x.x_requestcode ≠ REQUEST_BUSY
      · rw [if_pos h1]
        exact ⟨hb, hf, hh, ht, trivial⟩
      · rw [if_neg h1]
        exact ⟨hb, hf, hh, ⟨le_refl _, Or.inr rfl⟩, hpc⟩
  | loop =>
    simp only [writesf_child_main]
    by_cases h0 : x.x_requestcode = REQUEST_BUSY ∨
        (x.x_requestcode = REQUEST_CLOSE ∧ x.x_fifohead ≠ x.x_fifotail)
    · rw [if_pos h0]
      by_cases h1 : x.x_fifohead < x.x_fifotail ∨
          x.x_fifohead ≥ toInt32 (x.x_fifotail + WRITESIZE) ∨
          (x.x_requestcode = REQUEST_CLOSE ∧ x.x_fifohead ≠ x.x_fifotail)
      · rw [if_pos h1]
        refine ⟨hb, hf, hh, ht, hpc, rfl, ?_⟩
        simp only [READSIZE]
        by_cases h2 : x.x_fifohead < x.x_fifotail
        · rw [if_pos h2, toInt32_eq (x.x_fifosize - x.x_fifotail) (by omega) (by omega)]
          split_ifs <;> constructor <;> omega
        · rw [if_neg h2, toInt32_eq (x.x_fifohead - x.x_fifotail) (by omega) (by omega)]
          split_ifs <;> constructor <;> omega
      · rw [if_neg h1]
        exact ⟨hb, hf, hh, ht, hpc⟩
    · rw [if_neg h0]
      exact ⟨hb, hf, hh, ht, trivial⟩
  | writing fs wb =>
    obtain ⟨p0, p1, p2, p3⟩ := hpc
    have hin2 : inp.sysrtn ≤ wb := by
      rcases hin with h | h
      · omega
      · exact h
    simp only [writesf_child_main]
    by_cases h0 : x.x_requestcode ≠ REQUEST_BUSY ∧ x.x_requestcode ≠ REQUEST_CLOSE
    · rw [if_pos h0]
      exact ⟨hb, hf, hh, ht, trivial⟩
    · rw [if_neg h0]
      by_cases h1 : inp.sysrtn < wb
      · rw [if_pos h1]
        exact ⟨hb, hf, hh, ht, trivial⟩
      · rw [if_neg h1]
        have e1 : toInt32 (x.x_fifotail + inp.sysrtn) = x.x_fifotail + inp.sysrtn := by
          apply toInt32_eq <;> omega
        rw [e1]
        have htail : 0 ≤ (if x.x_fifotail + inp.sysrtn = fs then 0
            else x.x_fifotail + inp.sysrtn) ∧
            ((if x.x_fifotail + inp.sysrtn = fs then 0 else x.x_fifotail + inp.sysrtn)
                < x.x_fifosize ∨
              (if x.x_fifotail + inp.sysrtn = fs then 0 else x.x_fifotail + inp.sysrtn)
                = 0) := by
          split_ifs <;> constructor <;> omega
        by_cases h2 : toInt32 (x.x_bytespersample * x.x_sfchannels) = 0
        · rw [if_pos h2]
          exact ⟨hb, hf, hh, htail, trivial⟩
        · rw [if_neg h2]
          exact ⟨hb, hf, hh, htail, p0⟩
  | closing quit =>
    simp only [writesf_child_main]
    refine ⟨hb, hf, hh, ht, ?_⟩
    show WritePcOK _ _ _ (if _ then WritePC.exited else WritePC.top)
    split_ifs <;> trivial
  | exited =>
    simp only [writesf_child_main]
    exact ⟨hb, hf, hh, ht, trivial⟩
  | crashed =>
    simp only [writesf_child_main]
    exact ⟨hb, hf, hh, ht, trivial⟩

/-- A call of `writesf_perform` keeps the invariant, for a block of a sane size. -/
theorem writeInv_perform (x : Readsf) (pc : WritePC) (wt : Option WriteArgs) (y : Readsf)
    (frames : Int) (h : writesf_perform x = Perform.done y frames) (hs : BlockSane x)
    (hi : WriteInv { x := x, pc := pc, waiting := wt }) :
    WriteInv { x := y, pc := pc, waiting := wt } := by
  obtain ⟨hb, hf, hh, ht, hpc⟩ := hi
  simp only [] at hb hf hh ht hpc
  obtain ⟨w1, w2⟩ := blockbytes_sane x hs
  unfold writesf_perform at h
  simp only [] at h
  generalize toInt32 (toInt32 (x.x_sfchannels * x.x_vecsize) * x.x_bytespersample) = wb at *
  have e1 : toInt32 (x.x_fifohead + wb) = x.x_fifohead + wb := by
    apply toInt32_eq <;> omega
  rw [e1] at h
  by_cases hst : x.x_state = STATE_STREAM
  · rw [if_pos hst] at h
    by_cases hroom : (if toInt32 (x.x_fifotail - x.x_fifohead) ≤ 0 then
          toInt32 (toInt32 (x.x_fifotail - x.x_fifohead) + x.x_fifosize)
        else toInt32 (x.x_fifotail - x.x_fifohead)) < toInt32 (wb + 1)
    · rw [if_pos hroom] at h
      exact absurd h (by simp)
    · rw [if_neg hroom] at h
      simp only [Perform.done.injEq] at h
      obtain ⟨h1, _⟩ := h
      subst h1
      refine ⟨hb, hf, ?_, ht, hpc⟩
      show 0 ≤ (if x.x_fifohead + wb ≥ x.x_fifosize then 0 else x.x_fifohead + wb) ∧
        ((if x.x_fifohead + wb ≥ x.x_fifosize then 0 else x.x_fifohead + wb) < x.x_fifosize ∨
          (if x.x_fifohead + wb ≥ x.x_fifosize then 0 else x.x_fifohead + wb) = 0)
      split_ifs <;> constructor <;> omega
  · rw [if_neg hst] at h
    simp only [Perform.done.injEq] at h
    obtain ⟨h1, _⟩ := h
    subst h1
    exact ⟨hb, hf, hh, ht, hpc⟩

theorem writePcOK_stop (fifosize tail request : Int) (pc : WritePC)
    (h : WritePcOK fifosize tail request pc) : WritePcOK fifosize tail REQUEST_CLOSE pc := by
  have n2 : REQUEST_CLOSE ≠ REQUEST_NOTHING := by decide
  cases pc with
  | writing fs wb => exact ⟨n2, h.2⟩
  | top => trivial
  | exited => trivial
  | crashed => trivial
  | finishing be => exact n2
  | creating be => exact n2
  | loop => exact n2
  | closing q => exact n2

theorem writesf_open_parse_cases (nosym : List Char) (locals : WriteArgs) (x : Readsf)
    (argv : List Atom) :
    (writesf_open_parse nosym locals x argv).1 = x ∨
    (writesf_open_parse nosym locals x argv).1 = writesf_stop x := by
  unfold writesf_open_parse
  simp only []
  split_ifs
  all_goals first
    | (left; rfl)
    | (right; rfl)

/-- A step of `writesf~` keeps the invariant, for a block of a sane size. -/
theorem writeInv_step (m : WriteMachine) (e : Ev) (m2 : WriteMachine) (h : WriteStep m e m2)
    (hs : BlockSane m.x) (hi : WriteInv m) : WriteInv m2 := by
  cases h with
  | open_parse hw nosym locals argv =>
    obtain ⟨x, pc, wt⟩ := m
    obtain ⟨hb, hf, hh, ht, hpc⟩ := hi
    rcases writesf_open_parse_cases nosym locals x argv with h | h
    · rw [h]
      exact ⟨hb, hf, hh, ht, hpc⟩
    · rw [h]
      exact ⟨hb, hf, hh, ht, writePcOK_stop _ _ _ _ hpc⟩
  | open_set w hw hr sys_getsr x hx =>
    obtain ⟨x0, pc, wt⟩ := m
    obtain ⟨hb, hf, hh, ht, hpc⟩ := hi
    simp only [] at hb hf hh ht hpc hr
    have hpc2 : ∀ (a b c : Int), WritePcOK a b c pc := by
      intro a b c
      cases pc with
      | writing fs wb => exact absurd hr hpc.1
      | top => trivial
      | exited => trivial
      | crashed => trivial
      | finishing be => exact absurd hr hpc
      | creating be => exact absurd hr hpc
      | loop => exact absurd hr hpc
      | closing q => exact absurd hr hpc
    unfold writesf_open_set at hx
    simp only [] at hx
    generalize toInt32 (toInt32 ((if w.bytespersamp > 2 then w.bytespersamp else 2)
      * x0.x_sfchannels) * MAXVECSIZE) = m1 at hx
    obtain ⟨t1, t2⟩ := tmod_bounds x0.x_bufsize m1 (le_of_lt hb.1)
    have hF : toInt32 (x0.x_bufsize - Int.tmod x0.x_bufsize m1)
        = x0.x_bufsize - Int.tmod x0.x_bufsize m1 := by
      apply toInt32_eq <;> omega
    rw [hF] at hx
    by_cases hm : m1 = 0
    · rw [if_pos hm] at hx
      exact absurd hx (by simp)
    · rw [if_neg hm] at hx
      have hfs : 0 ≤ x0.x_bufsize - Int.tmod x0.x_bufsize m1 ∧
          x0.x_bufsize - Int.tmod x0.x_bufsize m1 ≤ x0.x_bufsize := by
        constructor <;> omega
      split_ifs at hx
      all_goals
        simp only [Option.some.injEq] at hx
        subst hx
        exact ⟨hb, hfs, ⟨le_refl _, Or.inr rfl⟩, ⟨le_refl _, Or.inr rfl⟩, hpc2 _ _ _⟩
  | start hw =>
    obtain ⟨x, pc, wt⟩ := m
    unfold writesf_start
    split_ifs
    · exact hi
    · exact hi
  | stop hw =>
    obtain ⟨x, pc, wt⟩ := m
    obtain ⟨hb, hf, hh, ht, hpc⟩ := hi
    exact ⟨hb, hf, hh, ht, writePcOK_stop _ _ _ _ hpc⟩
  | dsp hw s_n s_sr x hd =>
    obtain ⟨x0, pc, wt⟩ := m
    unfold writesf_dsp at hd
    simp only [] at hd
    split_ifs at hd
    simp only [Option.some.injEq] at hd
    subst hd
    exact hi
  | perform hw x frames hp =>
    obtain ⟨x0, pc, wt⟩ := m
    exact writeInv_perform x0 pc wt x frames hp hs hi
  | child inp hin => exact writeInv_child m inp hin hi

/-- The invariant holds in every run of `writesf~` through blocks of a sane size. -/
theorem writeRun_inv (tr : List Ev) (m : WriteMachine) (h : WriteRun BlockSane tr m) :
    WriteInv m := by
  induction h with
  | new x a b =>
    obtain ⟨b1, b2⟩ := new_sizes_bufsize a b
    exact ⟨⟨b1, b2⟩, ⟨le_refl _, le_of_lt b1⟩, ⟨le_refl _, Or.inr rfl⟩,
      ⟨le_refl _, Or.inr rfl⟩, trivial⟩
  | step tr m e m2 hrun hP hstep ih => exact writeInv_step m e m2 hstep hP ih

/-! ### The streaming objects: the FIFO is never filled up -/

theorem readsf_lost_cursors (y : Readsf) :
    (readsf_lost y).x.x_fifohead = y.x_fifohead ∧
    (readsf_lost y).x.x_fifotail = y.x_fifotail ∧
    ((readsf_lost y).pc = ReadPC.top ∨ (readsf_lost y).pc = ReadPC.lost_closing) := by
  unfold readsf_lost
  simp only []
  split_ifs
  all_goals first
    | exact ⟨rfl, rfl, Or.inl rfl⟩
    | exact ⟨rfl, rfl, Or.inr rfl⟩

/-- Away from `open_soundfile` and `read` a step of the child thread leaves the head
alone. -/
theorem readsf_child_head (m : ReadMachine) (inp : ReadInput)
    (h : m.pc = ReadPC.top ∨ m.pc = ReadPC.lost_closing ∨ m.pc = ReadPC.loop) :
    (readsf_child_main m inp).x.x_fifohead = m.x.x_fifohead := by
  obtain ⟨x, pc⟩ := m
  simp only [] at h
  rcases h with h | h | h
  · subst h
    simp only [readsf_child_main]
    split_ifs <;> rfl
  · subst h
    rfl
  · subst h
    simp only [readsf_child_main, readsf_lost]
    split_ifs <;> rfl

theorem readsf_lost_child_head (y : Readsf) (inp : ReadInput) :
    (readsf_child_main (readsf_lost y) inp).x.x_fifohead = y.x_fifohead := by
  obtain ⟨h1, _, h3⟩ := readsf_lost_cursors y
  rw [readsf_child_head (readsf_lost y) inp (by
    rcases h3 with h | h
    · exact Or.inl h
    · exact Or.inr (Or.inl h)), h1]

/-- An undisturbed refill by the child thread of `readsf~` that moves the head does not
move it onto the tail. -/
theorem refill_not_full (x : Readsf) (inp1 inp2 : ReadInput)
    (hi : ReadInv { x := x, pc := ReadPC.loop })
    (hin : ReadInputOK (readsf_child_main { x := x, pc := ReadPC.loop } inp1).pc inp2)
    (hne : (readsf_child_main (readsf_child_main { x := x, pc := ReadPC.loop } inp1)
      inp2).x.x_fifohead ≠ x.x_fifohead) :
    (readsf_child_main (readsf_child_main { x := x, pc := ReadPC.loop } inp1)
        inp2).x.x_fifohead
      ≠ (readsf_child_main (readsf_child_main { x := x, pc := ReadPC.loop } inp1)
        inp2).x.x_fifotail := by
  obtain ⟨hb, hf, hh, ht, hpre, hpc⟩ := hi
  simp only [] at hb hf hh ht hpre hpc
  obtain ⟨hl1, hl2⟩ := hpc
  -- the second step, from a read of `w` bytes
  have second : ∀ w : Int, inp2.sysrtn ≤ w → 0 ≤ w → x.x_fifohead + w ≤ x.x_fifosize →
      (x.x_fifohead ≥ x.x_fifotail → x.x_fifohead + w = x.x_fifosize → x.x_fifotail ≠ 0) →
      (x.x_fifohead < x.x_fifotail → x.x_fifohead + w < x.x_fifotail) →
      (readsf_child_main { x := x, pc := ReadPC.reading x.x_fifosize w } inp2).x.x_fifohead
        ≠ x.x_fifohead →
      (readsf_child_main { x := x, pc := ReadPC.reading x.x_fifosize w } inp2).x.x_fifohead
        ≠ (readsf_child_main { x := x, pc := ReadPC.reading x.x_fifosize w }
            inp2).x.x_fifotail := by
    intro w hs hw0 hw1 hA hB
    simp only [readsf_child_main]
    by_cases h0 : x.x_requestcode ≠ REQUEST_BUSY
    · rw [if_pos h0]
      intro hc
      exact absurd (readsf_lost_cursors x).1 hc
    · rw [if_neg h0]
      by_cases h1 : inp2.sysrtn < 0
      · rw [if_pos h1]
        intro hc
        exact absurd (readsf_lost_cursors _).1 hc
      · rw [if_neg h1]
        by_cases h2 : inp2.sysrtn = 0
        · rw [if_pos h2]
          intro hc
          exact absurd (readsf_lost_cursors _).1 hc
        · rw [if_neg h2]
          have e1 : toInt32 (x.x_fifohead + inp2.sysrtn) = x.x_fifohead + inp2.sysrtn := by
            apply toInt32_eq <;> omega
          rw [e1]
          have key : (if x.x_fifohead + inp2.sysrtn = x.x_fifosize then 0
              else x.x_fifohead + inp2.sysrtn) ≠ x.x_fifotail := by
            by_cases hge : x.x_fifohead ≥ x.x_fifotail
            · split_ifs with hw
              · have : x.x_fifohead + w = x.x_fifosize := by omega
                exact fun hc => hA hge this hc.symm
              · omega
            · have := hB (not_le.mp hge)
              split_ifs with hw
              · omega
              · omega
          intro _
          by_cases hw : x.x_fifohead + inp2.sysrtn = x.x_fifosize
          · simp only [hw, if_true] at key ⊢
            split_ifs
            · rw [(readsf_lost_cursors _).1, (readsf_lost_cursors _).2.1]
              exact key
            · exact key
          · simp only [hw, if_false] at key ⊢
            split_ifs
            · rw [(readsf_lost_cursors _).1, (readsf_lost_cursors _).2.1]
              exact key
            · exact key
  simp only [readsf_child_main] at hin hne ⊢
  by_cases h0 : x.x_requestcode ≠ REQUEST_BUSY
  · rw [if_pos h0] at hne
    exact absurd (readsf_lost_child_head x inp2) hne
  · rw [if_neg h0] at hin hne ⊢
    by_cases h1 : x.x_eof ≠ 0
    · rw [if_pos h1] at hne
      exact absurd (readsf_lost_child_head x inp2) hne
    · rw [if_neg h1] at hin hne ⊢
      by_cases h2 : x.x_fifohead ≥ x.x_fifotail
      · rw [if_pos h2] at hin hne ⊢
        have hd : toInt32 (x.x_fifosize - x.x_fifohead) = x.x_fifosize - x.x_fifohead := by
          apply toInt32_eq <;> omega
        rw [hd] at hin hne ⊢
        by_cases h3 : x.x_fifotail ≠ 0 ∨ x.x_fifosize - x.x_fifohead > READSIZE
        · rw [if_pos h3] at hin hne ⊢
          simp only [READSIZE] at h3 hin hne ⊢
          -- the number of bytes asked for
          have hw : ∀ w : Int,
              w = (if (if x.x_fifosize - x.x_fifohead > 65536 then 65536
                    else x.x_fifosize - x.x_fifohead) > x.x_bytelimit then
                  toInt32 x.x_bytelimit
                else (if x.x_fifosize - x.x_fifohead > 65536 then 65536
                    else x.x_fifosize - x.x_fifohead)) →
              0 ≤ w ∧ x.x_fifohead + w ≤ x.x_fifosize ∧ w ≤ 65536 := by
            intro w hw
            by_cases c1 : x.x_fifosize - x.x_fifohead > 65536
            · rw [if_pos c1] at hw
              by_cases c2 : 65536 > x.x_bytelimit
              · rw [if_pos c2, toInt32_eq _ (by omega) (by omega)] at hw
                refine ⟨?_, ?_, ?_⟩ <;> omega
              · rw [if_neg c2] at hw
                refine ⟨?_, ?_, ?_⟩ <;> omega
            · rw [if_neg c1] at hw
              by_cases c2 : x.x_fifosize - x.x_fifohead > x.x_bytelimit
              · rw [if_pos c2, toInt32_eq _ (by omega) (by omega)] at hw
                refine ⟨?_, ?_, ?_⟩ <;> omega
              · rw [if_neg c2] at hw
                refine ⟨?_, ?_, ?_⟩ <;> omega
          generalize hwd : (if (if x.x_fifosize - x.x_fifohead > 65536 then 65536
                    else x.x_fifosize - x.x_fifohead) > x.x_bytelimit then
                  toInt32 x.x_bytelimit
                else (if x.x_fifosize - x.x_fifohead > 65536 then 65536
                    else x.x_fifosize - x.x_fifohead)) = w at hin hne ⊢
          obtain ⟨w0, w1, w2⟩ := hw w hwd.symm
          have hs : inp2.sysrtn ≤ w := by
            rcases hin with h | h
            · omega
            · exact h
          refine second w hs w0 w1 ?_ ?_ hne
          · intro _ hfull
            rcases h3 with h3 | h3
            · exact h3
            · omega
          · intro hlt
            omega
        · rw [if_neg h3] at hne
          exact absurd (readsf_child_head { x := x, pc := ReadPC.loop } inp2
            (Or.inr (Or.inr rfl))) hne
      · rw [if_neg h2] at hin hne ⊢
        have hd1 : toInt32 (x.x_fifotail - x.x_fifohead) = x.x_fifotail - x.x_fifohead := by
          apply toInt32_eq <;> omega
        have hd2 : toInt32 (x.x_fifotail - x.x_fifohead - 1)
            = x.x_fifotail - x.x_fifohead - 1 := by
          apply toInt32_eq <;> omega
        rw [hd1, hd2] at hin hne ⊢
        by_cases h3 : x.x_fifotail - x.x_fifohead - 1 < READSIZE
        · rw [if_pos h3] at hne
          exact absurd (readsf_child_head { x := x, pc := ReadPC.loop } inp2
            (Or.inr (Or.inr rfl))) hne
        · rw [if_neg h3] at hin hne ⊢
          simp only [READSIZE] at h3 hin hne ⊢
          have hw : ∀ w : Int,
              w = (if 65536 > x.x_bytelimit then toInt32 x.x_bytelimit else 65536) →
              0 ≤ w ∧ w ≤ 65536 := by
            intro w hw
            by_cases c2 : 65536 > x.x_bytelimit
            · rw [if_pos c2, toInt32_eq _ (by omega) (by omega)] at hw
              constructor <;> omega
            · rw [if_neg c2] at hw
              constructor <;> omega
          generalize hwd : (if 65536 > x.x_bytelimit then toInt32 x.x_bytelimit else 65536)
            = w at hin hne ⊢
          obtain ⟨w0, w2⟩ := hw w hwd.symm
          have hs : inp2.sysrtn ≤ w := by
            rcases hin with h | h
            · omega
            · exact h
          refine second w hs w0 (by omega) ?_ ?_ hne
          · intro hge
            omega
          · intro _
            omega

/-- A block that `writesf_perform` stores leaves the head off the tail: the room it asks
for is one byte more than the block. -/
theorem store_not_full (x y : Readsf) (frames : Int)
    (hb : 0 < x.x_bufsize ∧ x.x_bufsize ≤ 16777216)
    (hf : 0 ≤ x.x_fifosize ∧ x.x_fifosize ≤ x.x_bufsize)
    (hh : 0 ≤ x.x_fifohead ∧ (x.x_fifohead < x.x_fifosize ∨ x.x_fifohead = 0))
    (ht : 0 ≤ x.x_fifotail ∧ (x.x_fifotail < x.x_fifosize ∨ x.x_fifotail = 0))
    (hs : BlockSane x) (hst : x.x_state = STATE_STREAM)
    (hp : writesf_perform x = Perform.done y frames) :
    x.x_sfchannels * x.x_vecsize * x.x_bytespersample + 1
        ≤ (if x.x_fifotail - x.x_fifohead ≤ 0 then
            x.x_fifotail - x.x_fifohead + x.x_fifosize
          else x.x_fifotail - x.x_fifohead) ∧
      y.x_fifohead ≠ y.x_fifotail ∧ y.x_fifotail = x.x_fifotail := by
  obtain ⟨h1, h2, h3, h4⟩ := hs
  have hp1 : 1 ≤ x.x_sfchannels * x.x_vecsize := one_le_mul_of_one_le_of_one_le h1 h2
  have hq : x.x_sfchannels * x.x_vecsize * 2
      ≤ x.x_sfchannels * x.x_vecsize * x.x_bytespersample :=
    mul_le_mul_of_nonneg_left h3 (by linarith)
  unfold writesf_perform at hp
  rw [if_pos hst] at hp
  simp only [] at hp
  generalize x.x_sfchannels * x.x_vecsize = p at *
  rw [toInt32_eq p (by linarith) (by linarith)] at hp
  generalize p * x.x_bytespersample = w at *
  rw [toInt32_eq w (by linarith) (by linarith),
    toInt32_eq (x.x_fifotail - x.x_fifohead) (by omega) (by omega),
    toInt32_eq (w + 1) (by linarith) (by linarith),
    toInt32_eq (x.x_fifohead + w) (by omega) (by omega)] at hp
  by_cases hr : x.x_fifotail - x.x_fifohead ≤ 0
  · rw [if_pos hr, toInt32_eq (x.x_fifotail - x.x_fifohead + x.x_fifosize) (by omega)
      (by omega)] at hp
    rw [if_pos hr]
    by_cases hroom : x.x_fifotail - x.x_fifohead + x.x_fifosize < w + 1
    · rw [if_pos hroom] at hp
      exact absurd hp (by intro h; cases h)
    · rw [if_neg hroom] at hp
      injection hp with hy _
      subst hy
      refine ⟨by omega, ?_, rfl⟩
      show (if x.x_fifohead + w ≥ x.x_fifosize then 0 else x.x_fifohead + w) ≠ x.x_fifotail
      split_ifs <;> omega
  · rw [if_neg hr] at hp
    rw [if_neg hr]
    by_cases hroom : x.x_fifotail - x.x_fifohead < w + 1
    · rw [if_pos hroom] at hp
      exact absurd hp (by intro h; cases h)
    · rw [if_neg hroom] at hp
      injection hp with hy _
      subst hy
      refine ⟨by omega, ?_, rfl⟩
      show (if x.x_fifohead + w ≥ x.x_fifosize then 0 else x.x_fifohead + w) ≠ x.x_fifotail
      split_ifs <;> omega

/-- A step of the child thread of `readsf~` at the top of its loop that finds the FIFO
filled up to the last block, or less than `READSIZE` bytes of room below the tail, waits. -/
theorem refill_refused (x : Readsf) (inp : ReadInput)
    (hi : ReadInv { x := x, pc := ReadPC.loop })
    (hreq : x.x_requestcode = REQUEST_BUSY) (heof : x.x_eof = 0)
    (h : (x.x_fifohead ≥ x.x_fifotail ∧ x.x_fifotail = 0 ∧
          x.x_fifosize - x.x_fifohead ≤ READSIZE) ∨
        (x.x_fifohead < x.x_fifotail ∧ x.x_fifotail - x.x_fifohead - 1 < READSIZE)) :
    readsf_child_main { x := x, pc := ReadPC.loop } inp = { x := x, pc := ReadPC.loop } := by
  obtain ⟨hb, hf, hh, ht, _, _⟩ := hi
  simp only [] at hb hf hh ht
  simp only [readsf_child_main]
  rw [if_neg (not_not.mpr hreq), if_neg (not_not.mpr heof)]
  rcases h with ⟨h1, h2, h3⟩ | ⟨h1, h3⟩
  · rw [if_pos h1, toInt32_eq (x.x_fifosize - x.x_fifohead) (by omega) (by omega)]
    rw [if_neg (by
      intro hc
      rcases hc with hc | hc
      · exact hc h2
      · omega)]
  · rw [if_neg (not_le.mpr h1),
      toInt32_eq (x.x_fifotail - x.x_fifohead) (by omega) (by omega),
      toInt32_eq (x.x_fifotail - x.x_fifohead - 1) (by omega) (by omega), if_pos h3]

theorem small_next_run :
    ReadRun BlockSane [Ev.opened, Ev.other, Ev.other] small_next_machine :=
  ReadRun.step _
    (readsf_child_main
      { x := (readsf_open (readsf_new pd_new_record 1 0) ['f'] 0 0 0 0 []).1,
        pc := ReadPC.top } small_next_input) Ev.other _
    (ReadRun.step _
      { x := (readsf_open (readsf_new pd_new_record 1 0) ['f'] 0 0 0 0 []).1,
        pc := ReadPC.top } Ev.other _
      (ReadRun.step [] { x := readsf_new pd_new_record 1 0, pc := ReadPC.top } _ _
        (ReadRun.new pd_new_record 1 0) (by unfold BlockSane; decide!)
        (ReadStep.open { x := readsf_new pd_new_record 1 0, pc := ReadPC.top } ['f'] 0 0 0 0 []))
      (by unfold BlockSane; decide!)
      (ReadStep.child _ small_next_input trivial))
    (by unfold BlockSane; decide!)
    (ReadStep.child _ small_next_input
      ⟨5, some { data := small_next_file, pos := 0, errno := 0 }, 3, by decide, by decide!⟩)

theorem small_next_reading :
    (readsf_child_main small_next_machine small_next_input).pc
      = ReadPC.reading 262144 65536 := by
  decide!

/-! ### Finishing a write: what is left alone -/

theorem getD_patch (A X Y R : List Byte) (i : Nat) (hXY : X.length = Y.length)
    (hi : i < A.length ∨ A.length + X.length ≤ i) :
    (A ++ Y ++ R).getD i 0 = (A ++ X ++ R).getD i 0 := by
  simp only [List.getD_eq_getElem?_getD, List.append_assoc]
  rcases hi with hi | hi
  · rw [List.getElem?_append_left hi, List.getElem?_append_left hi]
  · rw [List.getElem?_append_right (by omega), List.getElem?_append_right (by omega),
      List.getElem?_append_right (by omega), List.getElem?_append_right (by omega), hXY]

/-- One `lseek` and `write` of `soundfile_finishwrite` inside the file: they succeed, the
file keeps its length and every byte outside the field. -/
theorem finish_field_frame (s : Sys) (off : Nat) (v : Nat) (h0 : 0 < off)
    (hlen : off + 4 ≤ s.data.length) :
    ∃ s2, finish_field s (off : Int) v = .ok s2 ∧ s2.data.length = s.data.length ∧
      ∀ i, (i < off ∨ off + 4 ≤ i) → s2.data.getD i 0 = s.data.getD i 0 := by
  obtain ⟨data, pos, e⟩ := s
  simp only [] at hlen
  have hA : (data.take off).length = off := by rw [List.length_take]; omega
  have hX : ((data.drop off).take 4).length = 4 := by
    rw [List.length_take, List.length_drop]; omega
  have hd : data = data.take off ++ (data.drop off).take 4 ++ data.drop (off + 4) := by
    rw [List.append_assoc, ← List.drop_drop, List.take_append_drop, List.take_append_drop]
  have hp := finish_field_patch (data.take off) ((data.drop off).take 4) (data.drop (off + 4))
    pos e off v h0 hA hX
  rw [← hd] at hp
  refine ⟨_, hp, ?_, ?_⟩
  · show (data.take off ++ store32 v ++ data.drop (off + 4)).length = data.length
    nth_rewrite 3 [hd]
    simp only [List.length_append, hX, store32_length]
  · intro i hi
    show (data.take off ++ store32 v ++ data.drop (off + 4)).getD i 0 = data.getD i 0
    nth_rewrite 3 [hd]
    exact getD_patch _ _ _ _ i (by rw [hX, store32_length]) (by rw [hA, hX]; exact hi)

/-- What `soundfile_finishwrite` leaves alone when it patches a header. -/
theorem finish_frame (filetype nframes itemswritten bytesperframe : Int) (swap : Bool)
    (s : Sys) (hlt : itemswritten < nframes)
    (hlen : ∀ o ∈ finish_offsets filetype, o + 4 ≤ s.data.length) :
    (soundfile_finishwrite filetype nframes itemswritten bytesperframe swap s).1.data.length
        = s.data.length ∧
    ∀ i, (∀ o ∈ finish_offsets filetype, i < o ∨ o + 4 ≤ i) →
      (soundfile_finishwrite filetype nframes itemswritten bytesperframe swap s).1.data.getD i 0
        = s.data.getD i 0 := by
  have wa : FORMAT_WAVE ≠ FORMAT_AIFF := by decide
  have wn : FORMAT_WAVE ≠ FORMAT_NEXT := by decide
  have an : FORMAT_AIFF ≠ FORMAT_NEXT := by decide
  unfold soundfile_finishwrite
  rw [if_pos hlt]
  by_cases hw : filetype = FORMAT_WAVE
  · have ha : filetype ≠ FORMAT_AIFF := by rw [hw]; exact wa
    have hn : filetype ≠ FORMAT_NEXT := by rw [hw]; exact wn
    have ho : finish_offsets filetype = [4, 40] := by
      unfold finish_offsets; rw [if_pos hw]
    rw [ho] at hlen
    have h4 := hlen 4 (by decide)
    have h40 := hlen 40 (by decide)
    obtain ⟨s1, e1, l1, g1⟩ := finish_field_frame s 4
      (swap4 (toUInt32 (toInt64 (itemswritten * bytesperframe) + sizeof_wave - 8)) swap)
      (by norm_num) h4
    obtain ⟨s2, e2, l2, g2⟩ := finish_field_frame s1 40
      (swap4 (toUInt32 (toInt64 (itemswritten * bytesperframe))) swap)
      (by norm_num) (by rw [l1]; exact h40)
    simp only [Nat.cast_ofNat] at e1 e2
    simp only [if_pos hw, if_neg ha, if_neg hn, e1, e2, Except.bind]
    refine ⟨by rw [l2, l1], fun i hi => ?_⟩
    rw [ho] at hi
    have a := hi 4 (by decide)
    have b := hi 40 (by decide)
    rw [g2 i b, g1 i a]
  · by_cases ha : filetype = FORMAT_AIFF
    · have hn : filetype ≠ FORMAT_NEXT := by rw [ha]; exact an
      have ho : finish_offsets filetype = [22, 4, 42] := by
        unfold finish_offsets; rw [if_neg hw, if_pos ha]
      rw [ho] at hlen
      have h22 := hlen 22 (by decide)
      have h4 := hlen 4 (by decide)
      have h42 := hlen 42 (by decide)
      obtain ⟨s1, e1, l1, g1⟩ := finish_field_frame s 22
        (swap4 (toUInt32 itemswritten) swap) (by norm_num) h22
      obtain ⟨s2, e2, l2, g2⟩ := finish_field_frame s1 4
        (swap4 (toUInt32 ((toUInt32 itemswritten : Int) * bytesperframe + AIFFHDRSIZE)) swap)
        (by norm_num) (by rw [l1]; exact h4)
      obtain ⟨s3, e3, l3, g3⟩ := finish_field_frame s2 42
        (swap4 (toUInt32 ((toUInt32 itemswritten : Int) * bytesperframe)) swap)
        (by norm_num) (by rw [l2, l1]; exact h42)
      simp only [Nat.cast_ofNat] at e1 e2 e3
      have e42 : ((AIFFHDRSIZE : Int) + 4) = 42 := by decide
      simp only [if_neg hw, if_pos ha, if_neg hn, Except.bind]
      rw [e1]
      simp only []
      rw [e2]
      simp only []
      rw [e42, e3]
      refine ⟨by rw [l3, l2, l1], fun i hi => ?_⟩
      rw [ho] at hi
      have a := hi 22 (by decide)
      have b := hi 4 (by decide)
      have c := hi 42 (by decide)
      rw [g3 i c, g2 i b, g1 i a]
    · by_cases hn : filetype = FORMAT_NEXT
      · have ho : finish_offsets filetype = [8] := by
          unfold finish_offsets; rw [if_neg hw, if_neg ha, if_pos hn]
        rw [ho] at hlen
        have h8 := hlen 8 (by decide)
        obtain ⟨s1, e1, l1, g1⟩ := finish_field_frame s 8 0xffffffff (by norm_num) h8
        simp only [Nat.cast_ofNat] at e1
        simp only [if_neg hw, if_neg ha, if_pos hn, e1, Except.bind]
        refine ⟨l1, fun i hi => ?_⟩
        rw [ho] at hi
        exact g1 i (hi 8 (by decide))
      · simp only [if_neg hw, if_neg ha, if_neg hn, Except.bind]
        exact ⟨trivial, fun _ _ => trivial⟩

/-! ### Decoding and encoding again -/

/-- The integer read from `n` sample bytes fits `n` bytes. -/
theorem sampleInt_range (buf : Nat → Byte) (p n : Nat) (b : Bool) (hn : n = 2 ∨ n = 3) :
    -(2 ^ (8 * n - 1)) ≤ sampleInt buf p n b ∧ sampleInt buf p n b < 2 ^ (8 * n - 1) := by
  unfold sampleInt twosComplement
  generalize unsignedOfBytes (sampleBytes buf p n b) = u
  rcases hn with rfl | rfl
  · norm_num
    split_ifs <;> constructor <;> omega
  · norm_num
    split_ifs <;> constructor <;> omega

/-- The two's-complement bytes of the integer read from `n` bytes are those bytes. -/
theorem bytesOfInt_sampleInt (buf : Nat → Byte) (p n : Nat) (b : Bool) (hn : n = 2 ∨ n = 3)
    (hbytes : ∀ k, buf k < 256) (t : Nat) (ht : t < n) :
    (bytesOfInt n b (sampleInt buf p n b)).getD t 0 = buf (p + t) := by
  obtain ⟨a0, e0⟩ : ∃ a : Nat, buf p = a := ⟨_, rfl⟩
  obtain ⟨a1, e1⟩ : ∃ a : Nat, buf (p + 1) = a := ⟨_, rfl⟩
  obtain ⟨a2, e2⟩ : ∃ a : Nat, buf (p + 2) = a := ⟨_, rfl⟩
  have h0 : a0 < 256 := by rw [← e0]; exact hbytes p
  have h1 : a1 < 256 := by rw [← e1]; exact hbytes (p + 1)
  have h2 : a2 < 256 := by rw [← e2]; exact hbytes (p + 2)
  rcases hn with rfl | rfl
  · cases b
    · simp only [sampleInt, sampleBytes, unsignedOfBytes, twosComplement, bytesOfInt]
      simp [List.range_succ]
      interval_cases t
      · simp [e0, e1]; change @Eq Nat _ _; split_ifs <;> omega
      · simp [e0, e1]; change @Eq Nat _ _; split_ifs <;> omega
    · simp only [sampleInt, sampleBytes, unsignedOfBytes, twosComplement, bytesOfInt]
      simp [List.range_succ]
      interval_cases t
      · simp [e0, e1]; change @Eq Nat _ _; split_ifs <;> omega
      · simp [e0, e1]; change @Eq Nat _ _; split_ifs <;> omega
  · cases b
    · simp only [sampleInt, sampleBytes, unsignedOfBytes, twosComplement, bytesOfInt]
      simp [List.range_succ]
      interval_cases t
      · simp [e0, e1, e2]; change @Eq Nat _ _; split_ifs <;> omega
      · simp [e0, e1, e2]; change @Eq Nat _ _; split_ifs <;> omega
      · simp [e0, e1, e2]; change @Eq Nat _ _; split_ifs <;> omega
    · simp only [sampleInt, sampleBytes, unsignedOfBytes, twosComplement, bytesOfInt]
      simp [List.range_succ]
      interval_cases t
      · simp [e0, e1, e2]; change @Eq Nat _ _; split_ifs <;> omega
      · simp [e0, e1, e2]; change @Eq Nat _ _; split_ifs <;> omega
      · simp [e0, e1, e2]; change @Eq Nat _ _; split_ifs <;> omega

/-- The integer the encoders store for a decoded sample: the integer that was decoded,
the most negative one apart. -/
theorem spec_encode_decoded (n : Nat) (S : Int) (h1 : -(2 ^ (8 * n - 1)) ≤ S)
    (h2 : S < 2 ^ (8 * n - 1)) :
    spec_encode_int n ((S : ℚ) / 2 ^ (8 * n - 1)) 1
      = if S = -(2 ^ (8 * n - 1)) then -(2 ^ (8 * n - 1) - 1) else S := by
  unfold spec_encode_int
  have hpos : (0 : ℚ) < 2 ^ (8 * n - 1) := by positivity
  have e : (S : ℚ) / 2 ^ (8 * n - 1) * 1 * 2 ^ (8 * n - 1) = ((S : Int) : ℚ) := by
    field_simp
  rw [e, Int.floor_intCast]
  generalize (2 : Int) ^ (8 * n - 1) = H at *
  split_ifs with h
  · subst h
    rw [min_eq_right (by omega), max_eq_left (by omega)]
  · rw [min_eq_right (by omega), max_eq_right (by omega)]

/-! ### The surplus vectors of the decoders -/

/-- The loop "zero out other outputs": of a surplus vector the first `nitems` elements
are set to zero and the others are left alone. -/
theorem xferin_zero_surplus (sfchannels nvecs : Nat) (vecs : Nat → Nat → ℚ) (nitems i k : Nat)
    (h1 : sfchannels ≤ i) (h2 : i < nvecs) :
    xferin_zero sfchannels nvecs vecs nitems i k = if k < nitems then 0 else vecs i k := by
  unfold xferin_zero
  have inner := fun (c : Nat) (st : Nat → Nat → ℚ) (q : Nat × Nat) =>
    forloop_obs (fun (st : Nat → Nat → ℚ) (q : Nat × Nat) => st q.1 q.2)
      (fun j vecs => poke2 vecs c j 0)
      (fun j q => q.1 = c ∧ q.2 = j)
      (fun _ _ => (0 : ℚ)) nitems
      (fun j st q _ hS => by
        show poke2 st c j 0 q.1 q.2 = st q.1 q.2
        unfold poke2 poke
        by_cases a : q.1 = c
        · rw [if_pos a, if_neg (fun b => hS ⟨a, b⟩), a]
        · rw [if_neg a])
      (fun j st q _ hS => by
        show poke2 st c j 0 q.1 q.2 = 0
        unfold poke2 poke
        rw [if_pos hS.1, if_pos hS.2]) st q
  have outer := forloop_obs (fun (st : Nat → Nat → ℚ) (q : Nat × Nat) => st q.1 q.2)
      (fun c vecs => forloop nitems (fun j vecs => poke2 vecs (sfchannels + c) j 0) vecs)
      (fun c q => q.1 = sfchannels + c ∧ q.2 < nitems)
      (fun _ _ => (0 : ℚ)) (nvecs - sfchannels)
      (fun c st q _ hS => (inner (sfchannels + c) st q).2 (fun j hj hq => hS ⟨hq.1, by
        rw [hq.2]; exact hj⟩))
      (fun c st q _ hS => (inner (sfchannels + c) st q).1 q.2 hS.2 ⟨hS.1, rfl⟩
        (fun j2 _ hne hq => hne hq.2.symm)) vecs (i, k)
  by_cases hk : k < nitems
  · rw [if_pos hk]
    exact outer.1 (i - sfchannels) (by omega) ⟨by show i = _; omega, hk⟩
      (fun c2 _ hne hq => hne (by have : i = sfchannels + c2 := hq.1; omega))
  · rw [if_neg hk]
    exact outer.2 (fun c _ hq => hk hq.2)

/-- The decoding loops leave the vectors that are not channels of the file alone. -/
theorem xferin_decode_row (nchannels nitems : Nat) (val : Nat → Nat → Option ℚ)
    (key : Nat → Nat) (vecs : Nat → Nat → ℚ) (i : Nat) (hi : nchannels ≤ i) :
    forloop nchannels (fun c vecs =>
      forloop nitems (fun j vecs =>
        match val c j with
        | some v => poke2 vecs c (key j) v
        | none => vecs) vecs) vecs i = vecs i := by
  have aux : ∀ n, n ≤ nchannels → forloop n (fun c vecs =>
      forloop nitems (fun j vecs =>
        match val c j with
        | some v => poke2 vecs c (key j) v
        | none => vecs) vecs) vecs i = vecs i := by
    intro n
    induction n with
    | zero => intro _; rfl
    | succ n ih =>
      intro hn
      rw [forloop_succ]
      have := ih (by omega)
      refine forloop_inv (fun (st : Nat → Nat → ℚ) => st i = vecs i) _ ?_ _ _ this
      intro j st h
      show (match val n j with
        | some v => poke2 st n (key j) v
        | none => st) i = vecs i
      cases val n j with
      | none => exact h
      | some v =>
        show poke2 st n (key j) v i = vecs i
        unfold poke2
        rw [if_neg (by omega)]
        exact h
  exact aux nchannels (le_refl _)

/-- What both decoders do to a surplus vector: its first `nitems` elements are set to
zero, whatever `itemsread` is, and the others are left alone. -/
theorem xferin_surplus (sfchannels nvecs : Nat) (vecs : Nat → Nat → ℚ) (itemsread : Nat)
    (buf : Nat → Byte) (nitems : Nat) (bps : Int) (big : Int) (spread : Nat)
    (unbits : Nat → ℚ) (i k : Nat) (h1 : sfchannels ≤ i) (h2 : i < nvecs) :
    soundfile_xferin_float sfchannels nvecs vecs itemsread buf nitems bps big spread unbits i k
      = (if k < nitems then 0 else vecs i k) ∧
    soundfile_xferin_sample sfchannels nvecs vecs itemsread buf nitems bps big unbits i k
      = (if k < nitems then 0 else vecs i k) := by
  have hc : (if sfchannels < nvecs then sfchannels else nvecs) ≤ i := by
    split_ifs <;> omega
  constructor
  · unfold soundfile_xferin_float
    rw [xferin_zero_surplus _ _ _ _ _ _ h1 h2]
    by_cases hk : k < nitems
    · rw [if_pos hk, if_pos hk]
    · rw [if_neg hk, if_neg hk]
      exact congrFun (xferin_decode_row _ nitems
        (fun c j => xferin_value buf (c * bps.toNat + j * (bps.toNat * sfchannels)) bps big
          unbits) (fun j => spread * itemsread + j * spread) vecs i hc) k
  · unfold soundfile_xferin_sample
    rw [xferin_zero_surplus _ _ _ _ _ _ h1 h2]
    by_cases hk : k < nitems
    · rw [if_pos hk, if_pos hk]
    · rw [if_neg hk, if_neg hk]
      exact congrFun (xferin_decode_row _ nitems
        (fun c j => xferin_value buf (c * bps.toNat + j * (bps.toNat * sfchannels)) bps big
          unbits) (fun j => itemsread + j) vecs i hc) k

/-! ### The size of the FIFO -/

/-- The rounding of the buffer size in C's arithmetic, for sizes in the range of the
streaming objects. -/
theorem fifosize_eq (bufsize ch bps : Int) (hc1 : 1 ≤ ch) (hc2 : ch ≤ 64) (hb1 : 2 ≤ bps)
    (hb2 : bps ≤ 4) (hs1 : 262144 ≤ bufsize) (hs2 : bufsize ≤ 16777216) :
    toInt32 (toInt32 (bps * ch) * MAXVECSIZE) = bps * ch * 128 ∧
    bps * ch * 128 ≠ 0 ∧
    toInt32 (bufsize - Int.tmod bufsize (toInt32 (toInt32 (bps * ch) * MAXVECSIZE)))
      = bufsize - bufsize % (bps * ch * 128) := by
  have hp1 : 2 ≤ bps * ch := by nlinarith
  have hp2 : bps * ch ≤ 256 := by nlinarith
  have e1 : toInt32 (toInt32 (bps * ch) * MAXVECSIZE) = bps * ch * 128 := by
    rw [toInt32_eq (bps * ch) (by omega) (by omega)]
    unfold MAXVECSIZE
    rw [toInt32_eq _ (by omega) (by omega)]
  refine ⟨e1, by omega, ?_⟩
  rw [e1, Int.tmod_eq_emod (by omega) (by omega)]
  have hm1 : 0 ≤ bufsize % (bps * ch * 128) := Int.emod_nonneg _ (by omega)
  have hm2 : bufsize % (bps * ch * 128) < bps * ch * 128 := Int.emod_lt_of_pos _ (by omega)
  rw [toInt32_eq _ (by omega) (by omega)]

/-- The rounded size is positive, at most the buffer size, and a whole number of blocks
for every vector size that divides 128. -/
theorem fifosize_blocks (bufsize ch bps : Int) (hc1 : 1 ≤ ch) (hc2 : ch ≤ 64) (hb1 : 2 ≤ bps)
    (hb2 : bps ≤ 4) (hs1 : 262144 ≤ bufsize) :
    0 < bufsize - bufsize % (bps * ch * 128) ∧
    bufsize - bufsize % (bps * ch * 128) ≤ bufsize ∧
    (bps * ch * 128) ∣ (bufsize - bufsize % (bps * ch * 128)) ∧
    ∀ vecsize : Int, vecsize ∣ 128 →
      (bps * ch * vecsize) ∣ (bufsize - bufsize % (bps * ch * 128)) := by
  have hp1 : 2 ≤ bps * ch := by nlinarith
  have hp2 : bps * ch ≤ 256 := by nlinarith
  have hm1 : 0 ≤ bufsize % (bps * ch * 128) := Int.emod_nonneg _ (by omega)
  have hm2 : bufsize % (bps * ch * 128) < bps * ch * 128 := Int.emod_lt_of_pos _ (by omega)
  have hd : (bps * ch * 128) ∣ (bufsize - bufsize % (bps * ch * 128)) :=
    Int.dvd_sub_of_emod_eq rfl
  refine ⟨by omega, by omega, hd, fun vecsize hv => ?_⟩
  exact dvd_trans (mul_dvd_mul_left _ hv) hd

/-! ### The walk over the chunks comes to an end -/

theorem wave_fmt_data (swap : Bool) (h : Int) (buf : List Byte) (s : Sys) :
    (wave_fmt swap h buf s).2.data = s.data := by
  unfold wave_fmt Sys.lseek Sys.read
  simp only []
  split_ifs <;> rfl

theorem aiff_comm_data (swap : Bool) (h : Int) (buf : List Byte) (s : Sys) :
    (aiff_comm swap h buf s).2.data = s.data := by
  unfold aiff_comm Sys.lseek Sys.read
  simp only []
  split_ifs <;> rfl

/-- A `read` that delivers `n` bytes lies inside the file. -/
theorem read_full_inside (s : Sys) (n : Nat) (hn : 0 < n) (h : ¬ (s.read n).1.length < n) :
    s.pos + n ≤ s.data.length := by
  by_contra hc
  exact h (Sys.read_short s n hn (by omega))

/-- One pass of the loop over the chunks of a WAVE file: it ends at `badheader`, it ends
at the data chunk, or it goes on with an offset that is at least 8 bytes further on and
whose chunk header lies inside the file. -/
theorem wave_chunks_step (swap : Bool) (fuel : Nat) (h : Int) (buf : List Byte)
    (n b sr : Int) (s : Sys) (h0 : 0 ≤ h) (hlen : s.data.length < 2 ^ 31) :
    (∃ s2, wave_chunks swap (fuel + 1) h buf n b sr s = Walk.bad s2) ∨
    wave_chunks swap (fuel + 1) h buf n b sr s = Walk.found h buf n b sr s ∨
    ∃ (h2 : Int) (buf2 : List Byte) (n2 b2 sr2 : Int) (s2 : Sys),
      h + 8 ≤ h2 ∧ h2 + 8 ≤ s.data.length ∧ s2.data = s.data ∧
      wave_chunks swap (fuel + 1) h buf n b sr s = wave_chunks swap fuel h2 buf2 n2 b2 sr2 s2 := by
  rw [wave_chunks]
  by_cases hd : strncmp4 buf 0 str_data = true
  · rw [if_pos hd]
    exact Or.inr (Or.inl rfl)
  · rw [if_neg hd]
    simp only []
    generalize hf : (if strncmp4 buf 0 str_fmt = true then wave_fmt swap h buf s
      else (some (buf, n, b, sr), s)) = f
    have hfd : f.2.data = s.data := by
      rw [← hf]
      split_ifs
      · exact wave_fmt_data swap h buf s
      · rfl
    obtain ⟨fo, fs⟩ := f
    simp only [] at hfd
    cases fo with
    | none => exact Or.inl ⟨_, rfl⟩
    | some v =>
      obtain ⟨buf2, n2, b2, sr2⟩ := v
      simp only []
      generalize hT : (if (h + ((swap4 (load32 buf 4) swap : Nat) : Int) + 8) % 2 = 1 then
          h + ((swap4 (load32 buf 4) swap : Nat) : Int) + 8 + 1
        else h + ((swap4 (load32 buf 4) swap : Nat) : Int) + 8) = T
      have hT8 : h + 8 ≤ T := by
        rw [← hT]
        split_ifs <;> omega
      have hl : fs.lseek T = (T, { fs with pos := T.toNat }) := by
        unfold Sys.lseek
        rw [if_neg (by omega)]
      rw [hl]
      simp only [ne_eq, not_true_eq_false, if_false]
      by_cases hr : (Sys.read { fs with pos := T.toNat } sizeof_wavechunk).1.length
          < sizeof_wavechunk
      · rw [if_pos (by exact_mod_cast hr)]
        exact Or.inl ⟨_, rfl⟩
      · rw [if_neg (by exact_mod_cast hr)]
        have hin := read_full_inside { fs with pos := T.toNat } sizeof_wavechunk (by decide) hr
        simp only [sizeof_wavechunk] at hin
        rw [hfd] at hin
        have hTn : (T.toNat : Int) = T := Int.toNat_of_nonneg (by omega)
        have hlen2 : ((s.data.length : Nat) : Int) < 2147483648 := by
          have : ((2 : Nat) ^ 31 : Nat) = 2147483648 := by norm_num
          omega
        refine Or.inr (Or.inr ⟨toInt32 T, _, n2, b2, sr2, _, ?_, ?_, ?_, rfl⟩)
        · rw [toInt32_eq T (by omega) (by omega)]
          exact hT8
        · rw [toInt32_eq T (by omega) (by omega)]
          omega
        · show (Sys.read { fs with pos := T.toNat } sizeof_wavechunk).2.data = s.data
          unfold Sys.read
          exact hfd

/-- One pass of the loop over the chunks of an AIFF file. -/
theorem aiff_chunks_step (swap : Bool) (fuel : Nat) (h : Int) (buf : List Byte)
    (n b sr : Int) (s : Sys) (h0 : 0 ≤ h) (hlen : s.data.length < 2 ^ 31) :
    (∃ s2, aiff_chunks swap (fuel + 1) h buf n b sr s = Walk.bad s2) ∨
    aiff_chunks swap (fuel + 1) h buf n b sr s = Walk.found h buf n b sr s ∨
    ∃ (h2 : Int) (buf2 : List Byte) (n2 b2 sr2 : Int) (s2 : Sys),
      h + 8 ≤ h2 ∧ h2 + 8 ≤ s.data.length ∧ s2.data = s.data ∧
      aiff_chunks swap (fuel + 1) h buf n b sr s = aiff_chunks swap fuel h2 buf2 n2 b2 sr2 s2 := by
  rw [aiff_chunks]
  by_cases hd : strncmp4 buf 0 str_SSND = true
  · rw [if_pos hd]
    exact Or.inr (Or.inl rfl)
  · rw [if_neg hd]
    simp only []
    generalize hf : (if strncmp4 buf 0 str_COMM = true then aiff_comm swap h buf s
      else (some (buf, n, b, sr), s)) = f
    have hfd : f.2.data = s.data := by
      rw [← hf]
      split_ifs
      · exact aiff_comm_data swap h buf s
      · rfl
    obtain ⟨fo, fs⟩ := f
    simp only [] at hfd
    cases fo with
    | none => exact Or.inl ⟨_, rfl⟩
    | some v =>
      obtain ⟨buf2, n2, b2, sr2⟩ := v
      simp only []
      generalize hT : (if (h + ((swap4 (load32 buf 4) swap : Nat) : Int) + 8) % 2 = 1 then
          h + ((swap4 (load32 buf 4) swap : Nat) : Int) + 8 + 1
        else h + ((swap4 (load32 buf 4) swap : Nat) : Int) + 8) = T
      have hT8 : h + 8 ≤ T := by
        rw [← hT]
        split_ifs <;> omega
      have hl : fs.lseek T = (T, { fs with pos := T.toNat }) := by
        unfold Sys.lseek
        rw [if_neg (by omega)]
      rw [hl]
      simp only [ne_eq, not_true_eq_false, if_false]
      by_cases hr : (Sys.read { fs with pos := T.toNat } sizeof_datachunk).1.length
          < sizeof_datachunk
      · rw [if_pos (by exact_mod_cast hr)]
        exact Or.inl ⟨_, rfl⟩
      · rw [if_neg (by exact_mod_cast hr)]
        have hin := read_full_inside { fs with pos := T.toNat } sizeof_datachunk (by decide) hr
        simp only [sizeof_datachunk] at hin
        rw [hfd] at hin
        have hTn : (T.toNat : Int) = T := Int.toNat_of_nonneg (by omega)
        have hlen2 : ((s.data.length : Nat) : Int) < 2147483648 := by
          have : ((2 : Nat) ^ 31 : Nat) = 2147483648 := by norm_num
          omega
        refine Or.inr (Or.inr ⟨toInt32 T, _, n2, b2, sr2, _, ?_, ?_, ?_, rfl⟩)
        · rw [toInt32_eq T (by omega) (by omega)]
          exact hT8
        · rw [toInt32_eq T (by omega) (by omega)]
          omega
        · show (Sys.read { fs with pos := T.toNat } sizeof_datachunk).2.data = s.data
          unfold Sys.read
          exact hfd

/-- With one pass for every 8 bytes of the file the loop over the chunks of a WAVE file
is not cut off. -/
theorem wave_chunks_total (swap : Bool) : ∀ (fuel : Nat) (h : Int) (buf : List Byte)
    (n b sr : Int) (s : Sys), 0 ≤ h → s.data.length < 2 ^ 31 → h + 8 ≤ s.data.length →
    (s.data.length : Int) < h + 8 * fuel →
    wave_chunks swap fuel h buf n b sr s ≠ Walk.nofuel := by
  intro fuel
  induction fuel with
  | zero =>
    intro h buf n b sr s h0 hlen h8 hf
    exfalso
    simp only [Nat.cast_zero, mul_zero, add_zero] at hf
    omega
  | succ fuel ih =>
    intro h buf n b sr s h0 hlen h8 hf
    rcases wave_chunks_step swap fuel h buf n b sr s h0 hlen with ⟨s2, e⟩ | e |
      ⟨h2, buf2, n2, b2, sr2, s2, a1, a2, a3, e⟩
    · rw [e]; exact fun c => by cases c
    · rw [e]; exact fun c => by cases c
    · rw [e]
      refine ih h2 buf2 n2 b2 sr2 s2 (by omega) (by rw [a3]; exact hlen) (by rw [a3]; exact a2)
        ?_
      rw [a3]
      push_cast at hf
      omega

theorem aiff_chunks_total (swap : Bool) : ∀ (fuel : Nat) (h : Int) (buf : List Byte)
    (n b sr : Int) (s : Sys), 0 ≤ h → s.data.length < 2 ^ 31 → h + 8 ≤ s.data.length →
    (s.data.length : Int) < h + 8 * fuel →
    aiff_chunks swap fuel h buf n b sr s ≠ Walk.nofuel := by
  intro fuel
  induction fuel with
  | zero =>
    intro h buf n b sr s h0 hlen h8 hf
    exfalso
    simp only [Nat.cast_zero, mul_zero, add_zero] at hf
    omega
  | succ fuel ih =>
    intro h buf n b sr s h0 hlen h8 hf
    rcases aiff_chunks_step swap fuel h buf n b sr s h0 hlen with ⟨s2, e⟩ | e |
      ⟨h2, buf2, n2, b2, sr2, s2, a1, a2, a3, e⟩
    · rw [e]; exact fun c => by cases c
    · rw [e]; exact fun c => by cases c
    · rw [e]
      refine ih h2 buf2 n2 b2 sr2 s2 (by omega) (by rw [a3]; exact hlen) (by rw [a3]; exact a2)
        ?_
      rw [a3]
      push_cast at hf
      omega

/-! ### A stream with an odd byte limit -/

theorem odd_wave_open :
    open_soundfile 8 (some { data := odd_wave_file, pos := 0, errno := 0 }) 3
        (readsf_info (readsf_open (readsf_new pd_new_record 1 0) ['f'] 0 0 0 0 []).1) 0
      = some odd_wave_input.opened := by
  decide!

theorem odd_wave_run : ∃ tr, ReadRun (fun _ => True) tr odd_wave_machine :=
  ⟨_, ReadRun.step _
    (readsf_child_main { odd_wave_opened with x := (readsf_start odd_wave_opened.x).1 }
      odd_wave_input) Ev.other _
    (ReadRun.step _ { odd_wave_opened with x := (readsf_start odd_wave_opened.x).1 }
      Ev.other _
      (ReadRun.step _ odd_wave_opened Ev.start _
        (ReadRun.step _
          (readsf_child_main
            { x := (readsf_open (readsf_new pd_new_record 1 0) ['f'] 0 0 0 0 []).1,
              pc := ReadPC.top } odd_wave_input) Ev.other _
          (ReadRun.step _
            { x := (readsf_open (readsf_new pd_new_record 1 0) ['f'] 0 0 0 0 []).1,
              pc := ReadPC.top } Ev.other _
            (ReadRun.step [] { x := readsf_new pd_new_record 1 0, pc := ReadPC.top } _ _
              (ReadRun.new pd_new_record 1 0) trivial
              (ReadStep.open { x := readsf_new pd_new_record 1 0, pc := ReadPC.top } ['f'] 0 0 0
                0 []))
            trivial (ReadStep.child _ odd_wave_input trivial))
          trivial
          (ReadStep.child _ odd_wave_input ⟨8, some { data := odd_wave_file, pos := 0, errno := 0 },
            3, by decide, odd_wave_open⟩))
        trivial (ReadStep.start odd_wave_opened))
      trivial (ReadStep.child _ odd_wave_input trivial))
    trivial
    (ReadStep.child _ odd_wave_input (by
      have h : (readsf_child_main
          { odd_wave_opened with x := (readsf_start odd_wave_opened.x).1 } odd_wave_input).pc
          = ReadPC.reading 262144 255 := by decide!
      rw [h]
      exact Or.inr (by decide)))⟩

/-! ### The ceiling of 64 channels -/

/-- A pass of the flag loop of `soundfiler_read` that goes on has consumed an atom. -/
theorem read_flag_step_shorter (nosym : List Char) (sys_getsr : ℚ) (av : List Atom)
    (st : ReadFlags) (av2 : List Atom) (st2 : ReadFlags)
    (h : read_flag_step nosym sys_getsr av st = ReadFlagStep.next av2 st2) :
    av2.length < av.length := by
  cases av with
  | nil =>
    unfold read_flag_step at h
    cases h
  | cons a rest =>
    unfold read_flag_step at h
    simp only [] at h
    by_cases h0 : (atom_getsymbol nosym a).head? = some '-'
    · rw [if_pos h0] at h
      by_cases h1 : atom_getsymbol nosym a = ['-', 's', 'k', 'i', 'p']
      · rw [if_pos h1] at h
        repeat' split at h
        all_goals first
          | (cases h; done)
          | (cases h
             simp only [List.length_cons]
             omega)
      · rw [if_neg h1] at h
        by_cases h2 : atom_getsymbol nosym a = ['-', 'a', 's', 'c', 'i', 'i']
        · rw [if_pos h2] at h
          cases h
          simp only [List.length_cons]
          omega
        · rw [if_neg h2] at h
          by_cases h3 : atom_getsymbol nosym a = ['-', 'r', 'a', 'w']
          · rw [if_pos h3] at h
            repeat' split at h
            all_goals first
              | (cases h; done)
              | (cases h
                 simp only [List.length_cons]
                 omega)
          · rw [if_neg h3] at h
            by_cases h4 : atom_getsymbol nosym a = ['-', 'r', 'e', 's', 'i', 'z', 'e']
            · rw [if_pos h4] at h
              repeat' split at h
              all_goals first
                | (cases h; done)
                | (cases h
                   simp only [List.length_cons]
                   omega)
            · rw [if_neg h4] at h
              by_cases h5 : atom_getsymbol nosym a = ['-', 'm', 'a', 'x', 's', 'i', 'z', 'e']
              · rw [if_pos h5] at h
                repeat' split at h
                all_goals first
                  | (cases h; done)
                  | (cases h
                     simp only [List.length_cons]
                     omega)
              · rw [if_neg h5] at h
                cases h
    · rw [if_neg h0] at h
      cases h

/-- When the flag loop of `soundfiler_read` comes to atoms at which a pass ends at
`done`, it fails. -/
theorem read_reaches_done (nosym : List Char) (sys_getsr : ℚ) (av : List Atom)
    (st : ReadFlags) (l : List Atom) (st3 : ReadFlags)
    (hr : ReadReaches nosym sys_getsr av st l st3)
    (hu : read_flag_step nosym sys_getsr l st3 = ReadFlagStep.goto_done) (fuel : Nat)
    (hf : av.length ≤ fuel) :
    read_flag_loop nosym sys_getsr fuel av st = none := by
  induction hr generalizing fuel with
  | here av st =>
    cases fuel with
    | zero => unfold read_flag_loop; rw [hu]
    | succ k => unfold read_flag_loop; rw [hu]
  | step av st av2 st2 l st3 hs _ ih =>
    have hlt := read_flag_step_shorter nosym sys_getsr av st av2 st2 hs
    cases fuel with
    | zero => omega
    | succ k =>
      unfold read_flag_loop
      rw [hs]
      exact ih hu k (by omega)

/-- A channel count of 65 or more is below 1 or above 64 as an `int`. -/
theorem d2i_over (c : ℚ) (h : 65 ≤ c) : d2i c < 1 ∨ d2i c > 64 := by
  unfold d2i
  split_ifs with hr
  · right
    unfold truncQ
    rw [if_pos (by linarith)]
    have : (65 : Int) ≤ ⌊c⌋ := by
      rw [Int.le_floor]; push_cast; exact h
    omega
  · left
    norm_num

/-- The flag `-raw` with 65 channels or more ends the pass at `done`. -/
theorem raw_over (nosym : List Char) (sys_getsr : ℚ) (st : ReadFlags) (a1 : Atom) (c : ℚ)
    (a3 a4 : Atom) (rest : List Atom) (h : 65 ≤ c) :
    read_flag_step nosym sys_getsr
      (Atom.symbol ['-', 'r', 'a', 'w'] :: a1 :: Atom.float c :: a3 :: a4 :: rest) st
      = ReadFlagStep.goto_done := by
  have hr : read_raw sys_getsr st a1 (Atom.float c) a3 a4 = none := by
    unfold read_raw
    cases a1 with
    | float hsz =>
      simp only []
      by_cases h1 : d2i hsz < 0
      · rw [if_pos h1]
      · rw [if_neg h1]
        rcases d2i_over c h with h2 | h2
        · rw [if_pos h2]
        · by_cases h3 : d2i c < 1
          · rw [if_pos h3]
          · rw [if_neg h3, if_pos (by unfold MAXSFCHANS; exact_mod_cast h2)]
    | symbol n => rfl
    | other => rfl
  unfold read_flag_step
  simp [atom_getsymbol, hr]

/-- The channel count that `readsf_new` and `writesf_new` settle on. -/
theorem new_sizes_channels (fnchannels fbufsize : ℚ) :
    1 ≤ (new_sizes fnchannels fbufsize).1 ∧ (new_sizes fnchannels fbufsize).1 ≤ 64 := by
  unfold new_sizes MAXSFCHANS
  simp only []
  split_ifs <;> constructor <;> omega
/-! ### Normalisation in single precision -/

/-- A positive number and its rounding: the relative error as two bounds. -/
theorem fround_bounds (p : Nat) (q : ℚ) (hq : 0 < q) :
    q * (1 - 1 / 2 ^ p) ≤ fround p q ∧ fround p q ≤ q * (1 + 1 / 2 ^ p) := by
  have h := fround_err p q
  rw [abs_of_pos hq, abs_le] at h
  obtain ⟨a, b⟩ := h
  constructor
  · have : q * (1 - 1 / 2 ^ p) = q - q / 2 ^ p := by ring
    linarith
  · have : q * (1 + 1 / 2 ^ p) = q + q / 2 ^ p := by ring
    linarith

/-- The normalisation factor for a positive peak: it is positive and within the relative
error `2 ^ (-23)` of `32767 / (32768 * peak)`, and the rounded product of the peak and
the scale factor `ff` is within 1/16 of 32767. -/
theorem normfactor_bounds (peak : ℚ) (hp : 0 < peak) :
    0 < to_float (to_double (32767 / to_double (32768 * peak))) ∧
    |to_float (to_double (32767 / to_double (32768 * peak))) - 32767 / (32768 * peak)|
      ≤ 32767 / (32768 * peak) / 2 ^ 23 ∧
    32767 - 1 / 16
      ≤ to_float (peak * (to_float (to_double (32767 / to_double (32768 * peak))) * 32768)) ∧
    to_float (peak * (to_float (to_double (32767 / to_double (32768 * peak))) * 32768))
      ≤ 32767 + 1 / 16 := by
  simp only [to_float, to_double]
  have hP : (0 : ℚ) < 32768 * peak := by positivity
  obtain ⟨a1, a2⟩ := fround_bounds 53 (32768 * peak) hP
  generalize fround 53 (32768 * peak) = A at a1 a2 ⊢
  have hA : 0 < A := by
    have : (0 : ℚ) < 32768 * peak * (1 - 1 / 2 ^ 53) := by
      apply mul_pos hP
      norm_num
    linarith
  have hC : 0 < 32767 / A := by positivity
  have hCA : 32767 / A * A = 32767 := by field_simp
  have hTP : 32767 / (32768 * peak) * (32768 * peak) = 32767 := by field_simp
  have hT : 0 < 32767 / (32768 * peak) := by positivity
  have c1 : 32767 / A * (1 - 1 / 2 ^ 53) ≤ 32767 / (32768 * peak) := by
    apply le_of_mul_le_mul_right _ hP
    have : 32767 / A * (1 - 1 / 2 ^ 53) * (32768 * peak)
        = 32767 / A * (32768 * peak * (1 - 1 / 2 ^ 53)) := by ring
    have h := mul_le_mul_of_nonneg_left a1 hC.le
    rw [hCA] at h
    rw [this, hTP]
    exact h
  have c2 : 32767 / (32768 * peak) ≤ 32767 / A * (1 + 1 / 2 ^ 53) := by
    apply le_of_mul_le_mul_right _ hP
    have : 32767 / A * (1 + 1 / 2 ^ 53) * (32768 * peak)
        = 32767 / A * (32768 * peak * (1 + 1 / 2 ^ 53)) := by ring
    have h := mul_le_mul_of_nonneg_left a2 hC.le
    rw [hCA] at h
    rw [this, hTP]
    exact h
  obtain ⟨b1, b2⟩ := fround_bounds 53 (32767 / A) hC
  generalize 32767 / A = C at hC c1 c2 b1 b2 ⊢
  generalize fround 53 C = B at b1 b2 ⊢
  have hB : 0 < B := by
    have : (0 : ℚ) < C * (1 - 1 / 2 ^ 53) := by
      apply mul_pos hC
      norm_num
    linarith
  obtain ⟨n1, n2⟩ := fround_bounds 24 B hB
  generalize fround 24 B = nf at n1 n2 ⊢
  have hnf : 0 < nf := by
    have : (0 : ℚ) < B * (1 - 1 / 2 ^ 24) := by
      apply mul_pos hB
      norm_num
    linarith
  generalize 32767 / (32768 * peak) = T at hT hTP c1 c2 ⊢
  norm_num at c1 c2 b1 b2 n1 n2
  have e1 : T * (1 - 1 / 2 ^ 23) ≤ nf := by
    norm_num
    linarith
  have e2 : nf ≤ T * (1 + 1 / 2 ^ 23) := by
    norm_num
    linarith
  have hq : 0 < peak * (nf * 32768) := by positivity
  obtain ⟨f1, f2⟩ := fround_bounds 24 (peak * (nf * 32768)) hq
  have g1 : peak * (T * (1 - 1 / 2 ^ 23)) ≤ peak * nf := mul_le_mul_of_nonneg_left e1 hp.le
  have g2 : peak * nf ≤ peak * (T * (1 + 1 / 2 ^ 23)) := mul_le_mul_of_nonneg_left e2 hp.le
  have hpT : peak * T = 32767 / 32768 := by linarith
  have g3 : peak * (T * (1 - 1 / 2 ^ 23)) = 32767 / 32768 * (1 - 1 / 2 ^ 23) := by
    rw [← hpT]; ring
  have g4 : peak * (T * (1 + 1 / 2 ^ 23)) = 32767 / 32768 * (1 + 1 / 2 ^ 23) := by
    rw [← hpT]; ring
  rw [g3] at g1
  rw [g4] at g2
  have g5 : peak * (nf * 32768) = 32768 * (peak * nf) := by ring
  rw [g5] at f1 f2 ⊢
  generalize fround 24 (32768 * (peak * nf)) = f at f1 f2 ⊢
  generalize peak * nf = u at g1 g2 f1 f2
  norm_num at g1 g2 f1 f2
  refine ⟨hnf, ?_, ?_, ?_⟩
  · rw [abs_le]
    norm_num at e1 e2 ⊢
    constructor <;> linarith
  · linarith
  · linarith

/-- With the normalisation factor of the code a positive sample of magnitude `peak` is
stored as 32766 or 32767, which is its value before the clipping tests; a negative one
is stored as -32767, and is -32767 or -32768 before the clipping tests. -/
theorem normalised_peak_float (x peak : ℚ) (hp : 0 < peak) (hx : |x| = peak) :
    (0 < x →
      (toInt32 (d2i (32768 + to_float
          (x * (to_float (to_double (32767 / to_double (32768 * peak))) * 32768))) - 32768)
          = 32766 ∨
        toInt32 (d2i (32768 + to_float
          (x * (to_float (to_double (32767 / to_double (32768 * peak))) * 32768))) - 32768)
          = 32767) ∧
      xferout_int 32768 x (to_float (to_double (32767 / to_double (32768 * peak))) * 32768)
        = toInt32 (d2i (32768 + to_float
          (x * (to_float (to_double (32767 / to_double (32768 * peak))) * 32768))) - 32768)) ∧
    (x < 0 →
      (toInt32 (d2i (32768 + to_float
          (x * (to_float (to_double (32767 / to_double (32768 * peak))) * 32768))) - 32768)
          = -32767 ∨
        toInt32 (d2i (32768 + to_float
          (x * (to_float (to_double (32767 / to_double (32768 * peak))) * 32768))) - 32768)
          = -32768) ∧
      xferout_int 32768 x (to_float (to_double (32767 / to_double (32768 * peak))) * 32768)
        = -32767) := by
  obtain ⟨_, _, b1, b2⟩ := normfactor_bounds peak hp
  generalize to_float (to_double (32767 / to_double (32768 * peak))) = nf at b1 b2 ⊢
  constructor
  · intro h
    rw [abs_of_pos h] at hx
    subst hx
    generalize hf : to_float (x * (nf * 32768)) = f at b1 b2 ⊢
    have k1 : (32766 : Int) ≤ ⌊f⌋ := by rw [Int.le_floor]; push_cast; linarith
    have k2 : ⌊f⌋ < 32768 := by rw [Int.floor_lt]; push_cast; linarith
    have k3 : d2i (32768 + f) = 32768 + ⌊f⌋ := by
      rw [d2i_floor _ (by linarith) (by linarith)]
      exact Int.floor_int_add 32768 f
    have k4 : toInt32 (32768 + ⌊f⌋ - 32768) = ⌊f⌋ := by
      rw [toInt32_eq _ (by omega) (by omega)]
      omega
    rw [xferout_int_eq 32768 x _ (Or.inl rfl) (by rw [hf]; linarith), hf, k3, k4]
    refine ⟨by omega, ?_⟩
    simp only [max_def, min_def]
    split_ifs <;> omega
  · intro h
    rw [abs_of_neg h] at hx
    have hx2 : x = -peak := by linarith
    subst hx2
    have e : -peak * (nf * 32768) = -(peak * (nf * 32768)) := by ring
    have e2 : to_float (-(peak * (nf * 32768))) = -to_float (peak * (nf * 32768)) :=
      fround_neg 24 _
    rw [xferout_int_eq 32768 _ _ (Or.inl rfl) (by rw [e, e2]; linarith), e, e2]
    generalize to_float (peak * (nf * 32768)) = f at b1 b2 ⊢
    have k0 : ⌊(32768 : ℚ) + -f⌋ = 32768 + ⌊-f⌋ := Int.floor_int_add 32768 (-f)
    have k1 : (-32768 : Int) ≤ ⌊-f⌋ := by rw [Int.le_floor]; push_cast; linarith
    have k2 : ⌊-f⌋ < -32766 := by rw [Int.floor_lt]; push_cast; linarith
    have k3 : d2i (32768 + -f) = 32768 + ⌊-f⌋ := by
      rw [d2i_floor _ (by linarith) (by linarith)]
      exact k0
    have k4 : toInt32 (32768 + ⌊-f⌋ - 32768) = ⌊-f⌋ := by
      rw [toInt32_eq _ (by omega) (by omega)]
      omega
    rw [k3, k4]
    refine ⟨by omega, ?_⟩
    simp only [max_def, min_def]
    split_ifs <;> omega

/-! ## Claims about the header writer and the sample codec -/

/-- C1 (header round trip).  For WAVE (little-endian), AIFF (big-endian) and NeXT in
either byte order, with 1 to 64 channels, 2, 3 or 4 bytes per sample (not 4 for AIFF),
one of the five listed sample rates and at least one frame, the parser in auto-detect
mode (`headersize < 0`, `skipframes = 0`), run on exactly the header bytes that
`create_soundfile` emits, returns the descriptor and reports the same channels, bytes
per sample, sample rate and byte order; the header size it reports is the writer's
`headersize`, which is the number of bytes the writer emitted.  The writer's `swap`
argument is what its callers pass: whether the file's byte order differs from the
host's. -/
theorem C1_header_round_trip (k : Nat) (fd e : Int) (p : SoundfileInfo)
    (filetype bigendian nframes : Int) (channels bps sr : Nat)
    (hp : p.headersize < 0)
    (hfmt : (filetype = FORMAT_WAVE ∧ bigendian = 0) ∨
      (filetype = FORMAT_AIFF ∧ bigendian = 1 ∧ bps ≠ 4) ∨
      (filetype = FORMAT_NEXT ∧ (bigendian = 1 ∨ bigendian = 0)))
    (hc : 1 ≤ channels ∧ channels ≤ 64) (hb : bps = 2 ∨ bps = 3 ∨ bps = 4)
    (hsr : sr = 8000 ∨ sr = 22050 ∨ sr = 44100 ∨ sr = 48000 ∨ sr = 96000)
    (_hn : 1 ≤ nframes) :
    ∃ r, open_soundfile_via_fd (k + 2) fd
        { data := (create_soundfile filetype nframes bps bigendian channels
            (decide (bigendian ≠ garray_ambigendian)) sr).1, pos := 0, errno := e } p 0
          = some r ∧
      r.ret = fd ∧ r.info.channels = channels ∧ r.info.bytespersample = bps ∧
      r.info.samplerate = sr ∧ r.info.bigendian = bigendian ∧
      r.info.headersize = (create_soundfile filetype nframes bps bigendian channels
        (decide (bigendian ≠ garray_ambigendian)) sr).2 ∧
      (create_soundfile filetype nframes bps bigendian channels
        (decide (bigendian ≠ garray_ambigendian)) sr).2
        = ((create_soundfile filetype nframes bps bigendian channels
            (decide (bigendian ≠ garray_ambigendian)) sr).1.length : Nat) := by
  have hsr2 : sr < 2 ^ 31 := by
    rcases hsr with rfl | rfl | rfl | rfl | rfl <;> norm_num
  have ht : decide ((1 : Int) ≠ garray_ambigendian) = true := by decide
  have hf : decide ((0 : Int) ≠ garray_ambigendian) = false := by decide
  rcases hfmt with ⟨rfl, rfl⟩ | ⟨rfl, rfl, h4⟩ | ⟨rfl, rfl | rfl⟩
  · rw [hf]
    exact roundtrip_wave k fd e p nframes channels bps sr hp (by omega) hb hsr2
  · rw [ht]
    exact roundtrip_aiff k fd e p nframes channels bps sr hp (by omega) (by omega) hsr
  · rw [ht]
    exact roundtrip_next (k + 2) fd e p nframes true channels bps sr hp (by omega) hb hsr2
  · rw [hf]
    exact roundtrip_next (k + 2) fd e p nframes false channels bps sr hp (by omega) hb hsr2

/-- A stereo 16-bit AIFF header at 44100 Hz for 100 frames read back by the parser. -/
theorem C1_header_round_trip_witness :
    ∃ r, open_soundfile_via_fd 2 3
        { data := (create_soundfile FORMAT_AIFF 100 (2 : Nat) 1 (2 : Nat)
            (decide ((1 : Int) ≠ garray_ambigendian)) (44100 : Nat)).1, pos := 0, errno := 0 }
          { samplerate := 0, channels := 0, bytespersample := 0, headersize := -1,
            bigendian := 0, bytelimit := 0 } 0
          = some r ∧
      r.ret = 3 ∧ r.info.channels = (2 : Nat) ∧ r.info.bytespersample = (2 : Nat) ∧
      r.info.samplerate = (44100 : Nat) ∧ r.info.bigendian = 1 ∧
      r.info.headersize = (create_soundfile FORMAT_AIFF 100 (2 : Nat) 1 (2 : Nat)
        (decide ((1 : Int) ≠ garray_ambigendian)) (44100 : Nat)).2 ∧
      (create_soundfile FORMAT_AIFF 100 (2 : Nat) 1 (2 : Nat)
        (decide ((1 : Int) ≠ garray_ambigendian)) (44100 : Nat)).2
        = ((create_soundfile FORMAT_AIFF 100 (2 : Nat) 1 (2 : Nat)
            (decide ((1 : Int) ≠ garray_ambigendian)) (44100 : Nat)).1.length : Nat) :=
  C1_header_round_trip 0 3 0
    { samplerate := 0, channels := 0, bytespersample := 0, headersize := -1,
      bigendian := 0, bytelimit := 0 } FORMAT_AIFF 1 100 2 2 44100 (by decide)
    (Or.inr (Or.inl ⟨rfl, rfl, by decide⟩)) (by decide) (by decide) (by decide) (by decide)

/-- C3 (encode value), at an input where the code departs from it.  A one-channel,
one-frame, 16-bit little-endian buffer written from the sample -70000 with
`normalfactor` 1: both encoders leave the bytes FF 7F, the integer +32767, where the
saturated floor of `-70000 * 32768` is -32767, whose bytes are 01 80.  The conversion
`int xx = 32768. + (*fp * ff)` leaves the range of `int` before the clipping tests
run. -/
theorem C3_encode_overflow :
    (List.range 2).map (soundfile_xferout_float 1 (fun _ _ => -70000) (fun _ => 0) 1 0 2 0 1 1
      (fun _ => 0)) = [255, 127] ∧
    (List.range 2).map (soundfile_xferout_sample 1 (fun _ _ => -70000) (fun _ => 0) 1 0 2 0 1 1
      (fun _ => 0)) = [255, 127] ∧
    spec_encode_int 2 (-70000) 1 = -32767 ∧
    bytesOfInt 2 false (spec_encode_int 2 (-70000) 1) = [1, 128] := by
  refine ⟨?_, ?_, ?_, ?_⟩ <;> decide!

/-- C4 (decode value).  For 2 (resp. 3) bytes per sample and both byte orders,
`soundfile_xferin_float` and `soundfile_xferin_sample` decode the sample of channel `i`,
frame `j`, whose bytes start at offset `(j * sfchannels + i) * bps` of the buffer, to
exactly `s / 2^15` (resp. `s / 2^23`), where `s` is the two's-complement signed integer
formed by the sample's bytes read in the selected byte order.  The float decoder stores
it at index `spread * itemsread + j * spread` of output `i` (for a stride `spread` of
at least 1), the sample decoder at index `itemsread + j`. -/
theorem C4_decode_value (sfchannels nvecs : Nat) (vecs : Nat → Nat → ℚ) (itemsread : Nat)
    (buf : Nat → Byte) (nitems bps : Nat) (big : Int) (spread : Nat) (unbits : Nat → ℚ)
    (hb : bps = 2 ∨ bps = 3) (hs : 1 ≤ spread) (i j : Nat) (hi : i < sfchannels)
    (hi2 : i < nvecs) (hj : j < nitems) :
    soundfile_xferin_float sfchannels nvecs vecs itemsread buf nitems bps big spread unbits
        i (spread * itemsread + j * spread)
      = (sampleInt buf ((j * sfchannels + i) * bps) bps (decide (big ≠ 0)) : ℚ)
          / 2 ^ (8 * bps - 1) ∧
    soundfile_xferin_sample sfchannels nvecs vecs itemsread buf nitems bps big unbits
        i (itemsread + j)
      = (sampleInt buf ((j * sfchannels + i) * bps) bps (decide (big ≠ 0)) : ℚ)
          / 2 ^ (8 * bps - 1) := by
  have hb3 : (bps : Int) = 2 ∨ (bps : Int) = 3 ∨ (bps : Int) = 4 := by
    rcases hb with rfl | rfl
    · left; rfl
    · right; left; rfl
  have hoff : i * ((bps : Int)).toNat + j * (((bps : Int)).toNat * sfchannels)
      = (j * sfchannels + i) * bps := by
    rw [Int.toNat_ofNat]; ring
  refine ⟨?_, ?_⟩
  · rw [xferin_float_at _ _ _ _ _ _ _ _ _ _ hb3 hs i j hi hi2 hj, hoff,
      xferin_get_eq _ _ _ _ _ hb]
  · rw [xferin_sample_at _ _ _ _ _ _ _ _ _ hb3 i j hi hi2 hj, hoff,
      xferin_get_eq _ _ _ _ _ hb]

/-- A stereo little-endian 16-bit buffer holding the frames (1, -2) and (256, -32768):
channel 1 of frame 1 decodes to -32768 / 2^15 with both decoders. -/
theorem C4_decode_value_witness :
    soundfile_xferin_float 2 2 (fun _ _ => 0) 0
        (fun k => [1, 0, 254, 255, 0, 1, 0, 128].getD k 0) 2 (2 : Nat) 0 1 (fun _ => 0)
        1 (1 * 0 + 1 * 1)
      = (sampleInt (fun k => [1, 0, 254, 255, 0, 1, 0, 128].getD k 0) ((1 * 2 + 1) * 2) 2
          (decide ((0 : Int) ≠ 0)) : ℚ) / 2 ^ (8 * 2 - 1) ∧
    soundfile_xferin_sample 2 2 (fun _ _ => 0) 0
        (fun k => [1, 0, 254, 255, 0, 1, 0, 128].getD k 0) 2 (2 : Nat) 0 (fun _ => 0)
        1 (0 + 1)
      = (sampleInt (fun k => [1, 0, 254, 255, 0, 1, 0, 128].getD k 0) ((1 * 2 + 1) * 2) 2
          (decide ((0 : Int) ≠ 0)) : ℚ) / 2 ^ (8 * 2 - 1) :=
  C4_decode_value 2 2 (fun _ _ => 0) 0 (fun k => [1, 0, 254, 255, 0, 1, 0, 128].getD k 0) 2 2
    0 1 (fun _ => 0) (by decide) (by decide) 1 1 (by decide) (by decide) (by decide)

/-- C5 (32-bit samples are bit-exact).  For 4 bytes per sample, `normalfactor` 1 and
both byte orders: the four bytes that `soundfile_xferout_float` emits for the sample of
channel `i`, frame `j` are the bytes of its 32-bit pattern `bits x` (the `uint32` member
of the union the source stores the `float` in) in the selected order, and
`soundfile_xferin_float` hands the same 32-bit pattern back to the union when it decodes
those bytes: decoding after encoding is the identity on bit patterns, whatever the
reading `unbits` of a pattern as a `float` is. -/
theorem C5_float_bit_exact (nchannels nvecs : Nat) (vecs vecs0 : Nat → Nat → ℚ)
    (buf : Nat → Byte) (nitems onset itemsread : Nat) (big : Int)
    (spread spread2 : Nat) (bits : ℚ → Nat) (unbits : Nat → ℚ)
    (hs : 1 ≤ spread2) (i j : Nat) (hi : i < nchannels) (hi2 : i < nvecs)
    (hj : j < nitems) :
    (∀ t, t < 4 →
      soundfile_xferout_float nchannels vecs buf nitems onset 4 big 1 spread bits
          ((j * nchannels + i) * 4 + t)
        = (bytesOfInt 4 (decide (big ≠ 0))
            ((bits (vecs i (onset + j * spread)) % 2 ^ 32 : Nat) : Int)).getD t 0) ∧
    soundfile_xferin_float nchannels nvecs vecs0 itemsread
        (soundfile_xferout_float nchannels vecs buf nitems onset 4 big 1 spread bits)
        nitems 4 big spread2 unbits i (spread2 * itemsread + j * spread2)
      = unbits (bits (vecs i (onset + j * spread)) % 2 ^ 32) := by
  have hb3 : (4 : Int) = 2 ∨ (4 : Int) = 3 ∨ (4 : Int) = 4 := Or.inr (Or.inr rfl)
  have hbn : ((4 : Int)).toNat = 4 := rfl
  have hoff : i * 4 + j * (4 * nchannels) = (j * nchannels + i) * 4 := by ring
  have enc : ∀ t, t < 4 →
      soundfile_xferout_float nchannels vecs buf nitems onset 4 big 1 spread bits
          ((j * nchannels + i) * 4 + t)
        = (bytesOfInt 4 (decide (big ≠ 0))
            ((bits (vecs i (onset + j * spread)) % 2 ^ 32 : Nat) : Int)).getD t 0 := by
    intro t ht
    have h := xferout_float_at nchannels vecs buf nitems onset 4 big 1 spread bits hb3 i j t
      hi hj (by rw [hbn]; exact ht)
    rw [hbn, hoff, xferout_bytes4, mul_one] at h
    exact h
  refine ⟨enc, ?_⟩
  rw [xferin_float_at _ _ _ _ _ _ _ _ _ _ hb3 hs i j hi hi2 hj, hbn, hoff]
  exact xferin_get4 _ _ _ _ _ (Nat.mod_lt _ (by norm_num)) enc

/-- One channel, one frame, big-endian, with a pattern function that maps the sample
1/2 to 0x3f000000. -/
theorem C5_float_bit_exact_witness :
    (∀ t, t < 4 →
      soundfile_xferout_float 1 (fun _ _ => 1 / 2) (fun _ => 0) 1 0 4 1 1 1
          (fun _ => 0x3f000000) ((0 * 1 + 0) * 4 + t)
        = (bytesOfInt 4 (decide ((1 : Int) ≠ 0))
            (((fun _ => 0x3f000000) ((fun _ _ => (1 / 2 : ℚ)) 0 (0 + 0 * 1)) % 2 ^ 32 : Nat)
              : Int)).getD t 0) ∧
    soundfile_xferin_float 1 1 (fun _ _ => 0) 0
        (soundfile_xferout_float 1 (fun _ _ => 1 / 2) (fun _ => 0) 1 0 4 1 1 1
          (fun _ => 0x3f000000))
        1 4 1 1 (fun u => u) 0 (1 * 0 + 0 * 1)
      = (fun (u : Nat) => (u : ℚ))
          ((fun _ => 0x3f000000) ((fun _ _ => (1 / 2 : ℚ)) 0 (0 + 0 * 1)) % 2 ^ 32) :=
  C5_float_bit_exact 1 1 (fun _ _ => 1 / 2) (fun _ _ => 0) (fun _ => 0) 1 0 0 1 1 1
    (fun _ => 0x3f000000) (fun u => u) (by decide) 0 0 (by decide) (by decide) (by decide)

/-! ## The claims -/

/-- C6 (format detection).  In auto-detect mode (`headersize < 0`) the parser classifies
the file by the bytes `buf` that its first `read` returns exactly as the specification
says (`.snd` NeXT big-endian, `dns.` NeXT little-endian, `RIFF`+`WAVE` WAVE little-endian,
`FORM`+`AIFF` AIFF big-endian).  For every other prefix, and when fewer bytes could be
read than the fixed part of the detected format has (28 for NeXT, 20 for WAVE and AIFF),
it returns -1 with `errno = EIO` and the caller's record unchanged.  Every call that
returns an answer either returns -1 with the record unchanged, or returns the descriptor
and reports the byte order of the detected format. -/
theorem C6_format_detection (fuel : Nat) (fd : Int) (s : Sys) (p : SoundfileInfo) (skip : Int)
    (hp : p.headersize < 0) (hb : IsBytes s.data) :
    detect_format ((s.data.drop s.pos).take 46) (((s.data.drop s.pos).take 46).length : Nat)
      = spec_classify ((s.data.drop s.pos).take 46) ∧
    (spec_classify ((s.data.drop s.pos).take 46) = none →
      open_soundfile_via_fd fuel fd s p skip =
        some { ret := -1, info := p,
               sys := { data := s.data, pos := s.pos + ((s.data.drop s.pos).take 46).length,
                        errno := EIO } }) ∧
    (∀ f b, spec_classify ((s.data.drop s.pos).take 46) = some (f, b) →
      (f = FORMAT_NEXT ∧ ((s.data.drop s.pos).take 46).length < 28) ∨
        (f ≠ FORMAT_NEXT ∧ ((s.data.drop s.pos).take 46).length < 20) →
      open_soundfile_via_fd fuel fd s p skip =
        some { ret := -1, info := p,
               sys := { data := s.data, pos := s.pos + ((s.data.drop s.pos).take 46).length,
                        errno := EIO } }) ∧
    (∀ r, open_soundfile_via_fd fuel fd s p skip = some r →
      (r.ret = -1 ∧ r.info = p) ∨
      (r.ret = fd ∧
        ∃ f, spec_classify ((s.data.drop s.pos).take 46) = some (f, r.info.bigendian))) := by
  have hd := detect_format_eq_spec _ (isBytes_take_drop s.data hb s.pos 46)
  refine ⟨hd, ?_, ?_, ?_⟩
  · intro hn
    exact open_of_detect_none fuel fd s p skip hp (by rw [hd]; exact hn)
  · intro f b hs hshort
    exact open_of_short fuel fd s p skip hp f b (by rw [hd]; exact hs) hshort
  · intro r hr
    have := open_cases fuel fd s p skip hp r hr
    rw [hd] at this
    exact this

/-- C6, evaluated on a file that holds the four bytes `abcd`: the parser returns -1,
sets `errno` to `EIO` and leaves the record as it was. -/
theorem C6_format_detection_witness :
    open_soundfile_via_fd 1 3 { data := [0x61, 0x62, 0x63, 0x64], pos := 0, errno := 0 }
        { samplerate := 1, channels := 2, bytespersample := 3, headersize := -1,
          bigendian := 4, bytelimit := 5 } 0 =
      some { ret := -1,
             info := { samplerate := 1, channels := 2, bytespersample := 3, headersize := -1,
                       bigendian := 4, bytelimit := 5 },
             sys := { data := [0x61, 0x62, 0x63, 0x64], pos := 4, errno := EIO } } :=
  (C6_format_detection 1 3 { data := [0x61, 0x62, 0x63, 0x64], pos := 0, errno := 0 }
    { samplerate := 1, channels := 2, bytespersample := 3, headersize := -1,
      bigendian := 4, bytelimit := 5 } 0 (by decide) (by unfold IsBytes; decide)).2.1
    (by decide)


/-- C7 (WAVE parse).  For a WAVE file laid out as preamble, chunks, a `fmt ` chunk, chunks,
the `data` chunk (all offsets below `2 ^ 31`), parsed with `skipframes = 0` and enough
fuel for the loop: when the bits-per-sample field of the `fmt ` chunk is 16, 24 or 32
the parser returns the descriptor, the channel count and the sample rate of the `fmt `
chunk (as the `int` they are stored in), bytes per sample 2, 3 or 4, `header_size` equal
to the offset of the first byte after the 8-byte header of the data chunk, and
`byte_limit` equal to the size field of the data chunk; for every other bits-per-sample
value it returns -1 with `errno = EIO` and the record unchanged. -/
theorem C7_wave_parse (fuel : Nat) (fd : Int) (e : Int) (p : SoundfileInfo)
    (riffsize : Nat) (cs1 : List Chunk) (fmt : Chunk) (cs2 : List Chunk) (datasize : Nat)
    (payload : List Byte) (hp : p.headersize < 0)
    (h1 : ∀ c ∈ cs1, c.Other str_data str_fmt) (h2 : ∀ c ∈ cs2, c.Other str_data str_fmt)
    (hfid : fmt.id = str_fmt) (hfb : 16 ≤ fmt.body.length) (hfb2 : fmt.body.length < 2 ^ 32)
    (hds : datasize < 2 ^ 32) (hoff : waveDataOffset cs1 fmt cs2 < 2 ^ 31)
    (hfuel : cs1.length + cs2.length + 2 ≤ fuel) :
    ∃ r, open_soundfile_via_fd fuel fd
        { data := waveFile riffsize cs1 fmt cs2 datasize payload, pos := 0, errno := e } p 0
        = some r ∧
      (load16 fmt.body 14 = 16 ∨ load16 fmt.body 14 = 24 ∨ load16 fmt.body 14 = 32 →
        r.ret = fd ∧ r.info.channels = load16 fmt.body 2 ∧
        r.info.samplerate = toInt32 (load32 fmt.body 4) ∧
        8 * r.info.bytespersample = load16 fmt.body 14 ∧
        r.info.headersize = waveDataOffset cs1 fmt cs2 ∧
        (waveFile riffsize cs1 fmt cs2 datasize payload).drop r.info.headersize.toNat
          = payload ∧
        r.info.bytelimit = datasize ∧ r.info.bigendian = 0) ∧
      (¬ (load16 fmt.body 14 = 16 ∨ load16 fmt.body 14 = 24 ∨ load16 fmt.body 14 = 32) →
        r.ret = -1 ∧ r.sys.errno = EIO ∧ r.info = p) := by
  by_cases hbits : load16 fmt.body 14 = 16 ∨ load16 fmt.body 14 = 24 ∨ load16 fmt.body 14 = 32
  · obtain ⟨k, hk⟩ : ∃ k, fuel = k + 1 + cs2.length + 1 + cs1.length := ⟨fuel - (cs1.length + cs2.length + 2), by omega⟩
    have hb : ∃ b : Int, ((b = 2 ∧ load16 fmt.body 14 = 16) ∨ (b = 3 ∧ load16 fmt.body 14 = 24) ∨
        (b = 4 ∧ load16 fmt.body 14 = 32)) ∧ 8 * b = load16 fmt.body 14 := by
      rcases hbits with h | h | h
      · exact ⟨2, Or.inl ⟨rfl, h⟩, by rw [h]; rfl⟩
      · exact ⟨3, Or.inr (Or.inl ⟨rfl, h⟩), by rw [h]; rfl⟩
      · exact ⟨4, Or.inr (Or.inr ⟨rfl, h⟩), by rw [h]; rfl⟩
    obtain ⟨b, hb, hb8⟩ := hb
    have := wave_parse_ok k fd e p riffsize cs1 fmt cs2 datasize payload hp h1 h2 hfid hfb hfb2
      hds hoff b hb
    rw [← hk] at this
    refine ⟨_, this, ?_, fun h => absurd hbits h⟩
    intro _
    refine ⟨rfl, rfl, rfl, hb8, rfl, ?_, rfl, rfl⟩
    simp only [Int.toNat_ofNat]
    exact waveFile_drop riffsize cs1 fmt cs2 datasize payload
  · obtain ⟨k, hk⟩ : ∃ k, fuel = k + 1 + cs1.length := ⟨fuel - (cs1.length + 1), by omega⟩
    have hn : load16 fmt.body 14 ≠ 16 ∧ load16 fmt.body 14 ≠ 24 ∧ load16 fmt.body 14 ≠ 32 := by
      refine ⟨fun h => hbits (Or.inl h), fun h => hbits (Or.inr (Or.inl h)),
        fun h => hbits (Or.inr (Or.inr h))⟩
    obtain ⟨pos, hbad⟩ := wave_parse_bad k fd e p 0 riffsize cs1 fmt cs2 datasize payload hp h1
      hfid hfb hfb2 hoff hn.1 hn.2.1 hn.2.2
    rw [← hk] at hbad
    exact ⟨_, hbad, fun h => absurd h hbits, fun _ => ⟨rfl, rfl, rfl⟩⟩



/-- C7, evaluated on the 44-byte header of a 2-channel 16-bit 44100 Hz file with a data
chunk of 16 bytes. -/
theorem C7_wave_parse_witness :
    ∃ r, open_soundfile_via_fd 2 3
        { data := waveFile 52 []
            { id := str_fmt,
              body := [1, 0, 2, 0, 0x44, 0xac, 0, 0, 0x10, 0xb1, 2, 0, 4, 0, 16, 0], pad := 0 }
            [] 16 [], pos := 0, errno := 0 }
        { samplerate := 0, channels := 0, bytespersample := 0, headersize := -1,
          bigendian := 0, bytelimit := 0 } 0 = some r ∧
      r.ret = 3 ∧ r.info.channels = 2 ∧ r.info.samplerate = 44100 ∧
      8 * r.info.bytespersample = 16 ∧ r.info.headersize = 44 ∧ r.info.bytelimit = 16 := by
  obtain ⟨r, hr, hok, -⟩ := C7_wave_parse 2 3 0
    { samplerate := 0, channels := 0, bytespersample := 0, headersize := -1,
      bigendian := 0, bytelimit := 0 } 52 []
    { id := str_fmt,
      body := [1, 0, 2, 0, 0x44, 0xac, 0, 0, 0x10, 0xb1, 2, 0, 4, 0, 16, 0], pad := 0 }
    [] 16 [] (by decide) (by simp) (by simp) rfl (by decide) (by decide) (by decide)
    (by decide) (by decide)
  obtain ⟨a1, a2, a3, a4, a5, -, a7, -⟩ := hok (by decide)
  exact ⟨r, hr, a1, a2, a3, a4, a5, a7⟩

/-- C8 (RIFF even padding).  For every WAVE file in which a chunk `c` of odd body size
`n` (with its pad byte) stands among the chunks that precede the `fmt ` chunk — all
offsets below `2 ^ 31`, a `fmt ` chunk with 16, 24 or 32 bits per sample — the chunk takes
`n + 1 + 8` bytes of the file, the parser returns the descriptor and the values of the
`fmt ` chunk, and the bytes of the file from `header_size` on are the audio bytes. -/
theorem C8_riff_even_padding (fuel : Nat) (fd : Int) (e : Int) (p : SoundfileInfo)
    (riffsize : Nat) (cs0 : List Chunk) (c : Chunk) (cs1 : List Chunk) (fmt : Chunk)
    (cs2 : List Chunk) (datasize : Nat) (payload : List Byte) (hp : p.headersize < 0)
    (h0 : ∀ c' ∈ cs0, c'.Other str_data str_fmt) (hc : c.Other str_data str_fmt)
    (hodd : c.body.length % 2 = 1)
    (h1 : ∀ c' ∈ cs1, c'.Other str_data str_fmt) (h2 : ∀ c' ∈ cs2, c'.Other str_data str_fmt)
    (hfid : fmt.id = str_fmt) (hfb : 16 ≤ fmt.body.length) (hfb2 : fmt.body.length < 2 ^ 32)
    (hbits : load16 fmt.body 14 = 16 ∨ load16 fmt.body 14 = 24 ∨ load16 fmt.body 14 = 32)
    (hds : datasize < 2 ^ 32) (hoff : waveDataOffset (cs0 ++ c :: cs1) fmt cs2 < 2 ^ 31)
    (hfuel : (cs0 ++ c :: cs1).length + cs2.length + 2 ≤ fuel) :
    c.riff = c.id ++ (store32 c.body.length ++ (c.body ++ [c.pad])) ∧
    c.riff.length = c.body.length + 1 + 8 ∧
    ∃ r, open_soundfile_via_fd fuel fd
        { data := waveFile riffsize (cs0 ++ c :: cs1) fmt cs2 datasize payload, pos := 0,
          errno := e } p 0 = some r ∧
      r.ret = fd ∧ r.info.channels = load16 fmt.body 2 ∧
      r.info.samplerate = toInt32 (load32 fmt.body 4) ∧
      8 * r.info.bytespersample = load16 fmt.body 14 ∧
      r.info.headersize = waveDataOffset (cs0 ++ c :: cs1) fmt cs2 ∧
      (waveFile riffsize (cs0 ++ c :: cs1) fmt cs2 datasize payload).drop
        r.info.headersize.toNat = payload := by
  have hr1 : c.riff = c.id ++ (store32 c.body.length ++ (c.body ++ [c.pad])) := by
    unfold Chunk.riff Chunk.padding
    rw [if_pos hodd]
  refine ⟨hr1, ?_, ?_⟩
  · rw [c.riff_length hc.1, hodd]; omega
  · have hall : ∀ c' ∈ cs0 ++ c :: cs1, c'.Other str_data str_fmt := by
      intro c' hm
      rcases List.mem_append.1 hm with h | h
      · exact h0 c' h
      · rcases List.mem_cons.1 h with h | h
        · rw [h]; exact hc
        · exact h1 c' h
    obtain ⟨k, hk⟩ : ∃ k, fuel = k + 1 + cs2.length + 1 + (cs0 ++ c :: cs1).length :=
      ⟨fuel - ((cs0 ++ c :: cs1).length + cs2.length + 2), by omega⟩
    have hb : ∃ b : Int, ((b = 2 ∧ load16 fmt.body 14 = 16) ∨ (b = 3 ∧ load16 fmt.body 14 = 24) ∨
        (b = 4 ∧ load16 fmt.body 14 = 32)) ∧ 8 * b = load16 fmt.body 14 := by
      rcases hbits with h | h | h
      · exact ⟨2, Or.inl ⟨rfl, h⟩, by rw [h]; rfl⟩
      · exact ⟨3, Or.inr (Or.inl ⟨rfl, h⟩), by rw [h]; rfl⟩
      · exact ⟨4, Or.inr (Or.inr ⟨rfl, h⟩), by rw [h]; rfl⟩
    obtain ⟨b, hb, hb8⟩ := hb
    have := wave_parse_ok k fd e p riffsize (cs0 ++ c :: cs1) fmt cs2 datasize payload hp hall
      h2 hfid hfb hfb2 hds hoff b hb
    rw [← hk] at this
    refine ⟨_, this, rfl, rfl, rfl, hb8, rfl, ?_⟩
    simp only [Int.toNat_ofNat]
    exact waveFile_drop riffsize (cs0 ++ c :: cs1) fmt cs2 datasize payload

/-- C8, evaluated on a file whose `LIST` chunk of 3 bytes (and a pad byte) stands before
the `fmt ` chunk: the audio bytes start at offset 56 = 12 + (3 + 1 + 8) + 24 + 8. -/
theorem C8_riff_even_padding_witness :
    ∃ r, open_soundfile_via_fd 3 3
        { data := waveFile 64 ([] ++ { id := [0x4c, 0x49, 0x53, 0x54], body := [1, 2, 3], pad := 0 } :: [])
            { id := str_fmt,
              body := [1, 0, 2, 0, 0x44, 0xac, 0, 0, 0x10, 0xb1, 2, 0, 4, 0, 16, 0], pad := 0 }
            [] 4 [9, 9, 9, 9], pos := 0, errno := 0 }
        { samplerate := 0, channels := 0, bytespersample := 0, headersize := -1,
          bigendian := 0, bytelimit := 0 } 0 = some r ∧
      r.ret = 3 ∧ r.info.channels = 2 ∧ r.info.headersize = 56 := by
  obtain ⟨-, -, r, hr, a1, a2, -, -, a5, -⟩ := C8_riff_even_padding 3 3 0
    { samplerate := 0, channels := 0, bytespersample := 0, headersize := -1,
      bigendian := 0, bytelimit := 0 } 64 []
    { id := [0x4c, 0x49, 0x53, 0x54], body := [1, 2, 3], pad := 0 } []
    { id := str_fmt,
      body := [1, 0, 2, 0, 0x44, 0xac, 0, 0, 0x10, 0xb1, 2, 0, 4, 0, 16, 0], pad := 0 }
    [] 4 [9, 9, 9, 9] (by decide) (by simp) (by unfold Chunk.Other; decide) (by decide)
    (by simp) (by simp) rfl (by decide) (by decide) (by decide) (by decide) (by decide)
    (by decide)
  refine ⟨r, hr, a1, a2, ?_⟩
  rw [a5]
  decide


/-- C9 (AIFF parse).  For an AIFF file laid out as preamble, chunks, a `COMM` chunk,
chunks, the `SSND` chunk with its 8-byte inner header (all offsets below `2 ^ 31`),
parsed with `skipframes = 0` and enough fuel for the loop: when the bit depth of the
`COMM` chunk is 16 or 24 the parser returns the descriptor, the channel count of the
`COMM` chunk, bytes per sample 2 or 3, the sample rate that `readaiffsamprate` decodes
from the 80-bit field (converted to `int`), `byte_limit` equal to the `SSND` size field
minus 8 (the subtraction is the unsigned 32-bit one of the code, so it is the size minus
8 whenever the size is at least 8), and `header_size` equal to the offset of the `SSND`
chunk plus 16; for every other bit depth it returns -1 with `errno = EIO` and the record
unchanged. -/
theorem C9_aiff_parse (fuel : Nat) (fd : Int) (e : Int) (p : SoundfileInfo)
    (formsize : Nat) (cs1 : List Chunk) (comm : Chunk) (cs2 : List Chunk) (ssndsize : Nat)
    (rest : List Byte) (hp : p.headersize < 0)
    (h1 : ∀ c ∈ cs1, c.Other str_SSND str_COMM) (h2 : ∀ c ∈ cs2, c.Other str_SSND str_COMM)
    (hcid : comm.id = str_COMM) (hcb : 18 ≤ comm.body.length)
    (hcb2 : comm.body.length < 2 ^ 32) (hds : ssndsize < 2 ^ 32) (hrest : 8 ≤ rest.length)
    (hoff : aiffSsndOffset cs1 comm cs2 + 16 < 2 ^ 31)
    (hfuel : cs1.length + cs2.length + 2 ≤ fuel) :
    ∃ r, open_soundfile_via_fd fuel fd
        { data := aiffFile formsize cs1 comm cs2 ssndsize rest, pos := 0, errno := e } p 0
        = some r ∧
      (be16 comm.body 6 = 16 ∨ be16 comm.body 6 = 24 →
        r.ret = fd ∧ r.info.channels = be16 comm.body 0 ∧
        8 * r.info.bytespersample = be16 comm.body 6 ∧
        r.info.samplerate = d2i (readaiffsamprate comm.body 8 true) ∧
        r.info.bytelimit = toUInt32 ((ssndsize : Int) - 8) ∧
        (8 ≤ ssndsize → r.info.bytelimit = (ssndsize : Int) - 8) ∧
        r.info.headersize = (aiffSsndOffset cs1 comm cs2 : Nat) + 16 ∧
        (aiffFile formsize cs1 comm cs2 ssndsize rest).drop (aiffSsndOffset cs1 comm cs2)
          = str_SSND ++ (store32be ssndsize ++ rest) ∧
        r.info.bigendian = 1) ∧
      (¬ (be16 comm.body 6 = 16 ∨ be16 comm.body 6 = 24) →
        r.ret = -1 ∧ r.sys.errno = EIO ∧ r.info = p) := by
  by_cases hbits : be16 comm.body 6 = 16 ∨ be16 comm.body 6 = 24
  · obtain ⟨k, hk⟩ : ∃ k, fuel = k + 1 + cs2.length + 1 + cs1.length :=
      ⟨fuel - (cs1.length + cs2.length + 2), by omega⟩
    have hb : ∃ b : Int, ((b = 2 ∧ be16 comm.body 6 = 16) ∨ (b = 3 ∧ be16 comm.body 6 = 24)) ∧
        8 * b = be16 comm.body 6 := by
      rcases hbits with h | h
      · exact ⟨2, Or.inl ⟨rfl, h⟩, by rw [h]; rfl⟩
      · exact ⟨3, Or.inr ⟨rfl, h⟩, by rw [h]; rfl⟩
    obtain ⟨b, hb, hb8⟩ := hb
    have := aiff_parse_ok k fd e p formsize cs1 comm cs2 ssndsize rest hp h1 h2 hcid hcb hcb2
      hds hrest hoff b hb
    rw [← hk] at this
    refine ⟨_, this, ?_, fun h => absurd hbits h⟩
    intro _
    refine ⟨rfl, rfl, hb8, rfl, rfl, ?_, ?_, aiffFile_drop formsize cs1 comm cs2 ssndsize rest,
      rfl⟩
    · intro h8
      show ((toUInt32 ((ssndsize : Int) - 8) : Nat) : Int) = (ssndsize : Int) - 8
      unfold toUInt32
      omega
    · show (((aiffSsndOffset cs1 comm cs2 + 16 : Nat)) : Int) = _
      push_cast; rfl
  · obtain ⟨k, hk⟩ : ∃ k, fuel = k + 1 + cs1.length := ⟨fuel - (cs1.length + 1), by omega⟩
    obtain ⟨pos, hbad⟩ := aiff_parse_bad k fd e p 0 formsize cs1 comm cs2 ssndsize rest hp h1
      hcid hcb hcb2 hoff (fun h => hbits (Or.inl h)) (fun h => hbits (Or.inr h))
    rw [← hk] at hbad
    exact ⟨_, hbad, fun h => absurd h hbits, fun _ => ⟨rfl, rfl, rfl⟩⟩

/-- C9, evaluated on the 54-byte header of a 1-channel 24-bit 48000 Hz file with an
`SSND` chunk of size 11. -/
theorem C9_aiff_parse_witness :
    ∃ r, open_soundfile_via_fd 2 3
        { data := aiffFile 49 []
            { id := str_COMM,
              body := [0, 1, 0, 0, 0, 1, 0, 24, 64, 14, 187, 128, 0, 0, 0, 0, 0, 0], pad := 0 }
            [] 11 [0, 0, 0, 0, 0, 0, 0, 0], pos := 0, errno := 0 }
        { samplerate := 0, channels := 0, bytespersample := 0, headersize := -1,
          bigendian := 0, bytelimit := 0 } 0 = some r ∧
      r.ret = 3 ∧ r.info.channels = 1 ∧ 8 * r.info.bytespersample = 24 ∧
      r.info.samplerate = 48000 ∧ r.info.bytelimit = 3 ∧ r.info.headersize = 54 := by
  obtain ⟨r, hr, hok, -⟩ := C9_aiff_parse 2 3 0
    { samplerate := 0, channels := 0, bytespersample := 0, headersize := -1,
      bigendian := 0, bytelimit := 0 } 49 []
    { id := str_COMM,
      body := [0, 1, 0, 0, 0, 1, 0, 24, 64, 14, 187, 128, 0, 0, 0, 0, 0, 0], pad := 0 }
    [] 11 [0, 0, 0, 0, 0, 0, 0, 0] (by decide) (by simp) (by simp) rfl (by decide)
    (by decide) (by decide) (by decide) (by decide) (by decide)
  obtain ⟨a1, a2, a3, a4, -, a6, a7, -, -⟩ := hok (by decide)
  refine ⟨r, hr, a1, a2, a3, ?_, a6 (by decide), a7⟩
  rw [a4]
  decide!



/-- C10 (NeXT parse).  For a file of at least 28 bytes that starts with `.snd` (`big`)
or `dns.` (not `big`), parsed in auto-detect mode with `skipframes = 0`: the onset, format, sample rate and channel fields are read in the byte order
of the magic; for a format code other than 3, 4 and 6 the parser returns -1 with
`errno = EIO` and the record unchanged; whenever it does not return -1 it returns the
descriptor, the code is 3, 4 or 6 with
bytes per sample 2, 3 or 4, `header_size` is the onset field (as the `int` it is stored
in), sample rate and channels are the fields, and `byte_limit` is `0x7fffffff` whatever
the length field holds; and it does succeed for these codes when the onset is below
`2 ^ 31`. -/
theorem C10_next_parse (fuel : Nat) (fd : Int) (data : List Byte) (e : Int)
    (p : SoundfileInfo) (big : Bool) (hp : p.headersize < 0)
    (hl : 28 ≤ data.length)
    (h0 : strncmp4 data 0 (if big then str_snd else str_dns) = true) :
    ∃ r, open_soundfile_via_fd fuel fd { data := data, pos := 0, errno := e } p 0 = some r ∧
      (field32 big data 12 ≠ 3 ∧ field32 big data 12 ≠ 4 ∧ field32 big data 12 ≠ 6 →
        r.ret = -1 ∧ r.sys.errno = EIO ∧ r.info = p) ∧
      (r.ret ≠ -1 →
        r.ret = fd ∧
        ((field32 big data 12 = 3 ∧ r.info.bytespersample = 2) ∨
          (field32 big data 12 = 4 ∧ r.info.bytespersample = 3) ∨
          (field32 big data 12 = 6 ∧ r.info.bytespersample = 4)) ∧
        r.info.headersize = toInt32 (field32 big data 4) ∧
        r.info.samplerate = toInt32 (field32 big data 16) ∧
        r.info.channels = toInt32 (field32 big data 20) ∧
        r.info.bigendian = (if big then 1 else 0) ∧
        r.info.bytelimit = 0x7fffffff) ∧
      (field32 big data 12 = 3 ∨ field32 big data 12 = 4 ∨ field32 big data 12 = 6 →
        field32 big data 4 < 2 ^ 31 →
        r.ret = fd ∧ r.info.headersize = field32 big data 4) := by
  have hparse := next_parse fuel fd data e p 0 big hp hl h0
  have hon := field32_lt big data 4
  have hr1 : -(2 ^ 31) ≤ toInt32 (field32 big data 4) := by unfold toInt32; omega
  have hr2 : toInt32 (field32 big data 4) < 2 ^ 31 := by unfold toInt32; omega
  have hseek := fun (bps : Int) =>
    seek_past_header_int fd p (toInt32 (field32 big data 4)) (if big then 1 else 0)
      (toInt32 (field32 big data 20)) bps 0x7fffffff (toInt32 (field32 big data 16))
      { data := data, pos := (data.take 46).length, errno := 0 } hr1 hr2 (by norm_num)
  by_cases hcode : field32 big data 12 = 3 ∨ field32 big data 12 = 4 ∨ field32 big data 12 = 6
  · rw [if_pos hcode] at hparse
    have hs := hseek (if field32 big data 12 = 3 then 2 else if field32 big data 12 = 4 then 3
      else 4)
    simp only [Nat.cast_ofNat] at hs
    rw [hs] at hparse
    have hbps : (field32 big data 12 = 3 ∧
          (if field32 big data 12 = 3 then (2 : Int) else if field32 big data 12 = 4 then 3
            else 4) = 2) ∨
        (field32 big data 12 = 4 ∧
          (if field32 big data 12 = 3 then (2 : Int) else if field32 big data 12 = 4 then 3
            else 4) = 3) ∨
        (field32 big data 12 = 6 ∧
          (if field32 big data 12 = 3 then (2 : Int) else if field32 big data 12 = 4 then 3
            else 4) = 4) := by
      rcases hcode with h | h | h <;> simp [h]
    by_cases hneg : toInt32 (field32 big data 4) < 0 ∧ toInt32 (field32 big data 4) ≠ -1
    · rw [if_pos hneg] at hparse
      refine ⟨_, hparse, fun h => absurd hcode (fun hc => hc.elim h.1 (fun hc => hc.elim h.2.1 h.2.2)), fun h => absurd rfl h, ?_⟩
      intro _ hlt
      exfalso
      have : toInt32 (field32 big data 4) = field32 big data 4 := toInt32_of_lt _ hlt
      omega
    · rw [if_neg hneg] at hparse
      refine ⟨_, hparse, fun h => absurd hcode (fun hc => hc.elim h.1 (fun hc => hc.elim h.2.1 h.2.2)), ?_, ?_⟩
      · intro _
        exact ⟨rfl, hbps, rfl, rfl, rfl, rfl, rfl⟩
      · intro _ hlt
        exact ⟨rfl, toInt32_of_lt _ hlt⟩
  · rw [if_neg hcode] at hparse
    refine ⟨_, hparse, fun _ => ⟨rfl, rfl, rfl⟩, fun h => absurd rfl h, fun h => absurd h hcode⟩

/-- C10, evaluated on a big-endian NeXT header with onset 28, length `0xFFFFFFFF`,
format 3, 44100 Hz and 2 channels. -/
theorem C10_next_parse_witness :
    ∃ r, open_soundfile_via_fd 0 3
        { data := [0x2e, 0x73, 0x6e, 0x64, 0, 0, 0, 28, 0xff, 0xff, 0xff, 0xff, 0, 0, 0, 3,
            0, 0, 0xac, 0x44, 0, 0, 0, 2, 0, 0, 0, 0], pos := 0, errno := 0 }
        { samplerate := 0, channels := 0, bytespersample := 0, headersize := -1,
          bigendian := 0, bytelimit := 0 } 0 = some r ∧
      r.ret = 3 ∧ r.info.headersize = 28 ∧ r.info.bytelimit = 0x7fffffff := by
  obtain ⟨r, hr, -, h2, h3⟩ := C10_next_parse 0 3
    [0x2e, 0x73, 0x6e, 0x64, 0, 0, 0, 28, 0xff, 0xff, 0xff, 0xff, 0, 0, 0, 3,
      0, 0, 0xac, 0x44, 0, 0, 0, 2, 0, 0, 0, 0] 0
    { samplerate := 0, channels := 0, bytespersample := 0, headersize := -1,
      bigendian := 0, bytelimit := 0 } true (by decide) (by decide) (by decide)
  obtain ⟨a1, a2⟩ := h3 (by decide) (by decide)
  have a3 := (h2 (by rw [a1]; decide)).2.2.2.2.2.2
  exact ⟨r, hr, a1, by rw [a2]; decide, a3⟩


/-! ## Claims about the override path, the 80-bit rate and header emission -/

/-- C11 (raw override byte limit), at an input where the code departs from it.  With
header detection overridden (`headersize = 0`), nothing to skip and the sample rate
44100 in the caller's record, the parser returns the descriptor with `bytelimit` 44100,
not 0x7fffffff: the override branch assigns `bytelimit = p_info->samplerate`. -/
theorem C11_override_bytelimit :
    open_soundfile_via_fd 0 3 { data := List.replicate 100000 0, pos := 0, errno := 0 }
        { samplerate := 44100, channels := 1, bytespersample := 2, headersize := 0,
          bigendian := 0, bytelimit := 0x7fffffff } 0
      = some { ret := 3,
               info := { samplerate := 44100, channels := 1, bytespersample := 2,
                         headersize := 0, bigendian := 0, bytelimit := 44100 },
               sys := { data := List.replicate 100000 0, pos := 0, errno := 0 } } :=
  open_override 0 3 { data := List.replicate 100000 0, pos := 0, errno := 0 }
    { samplerate := 44100, channels := 1, bytespersample := 2, headersize := 0,
      bigendian := 0, bytelimit := 0x7fffffff } (by decide) (by decide) (by decide) (by decide)

/-- C12 (raw override is authoritative).  When `headersize >= 0` on entry the parser
always returns an answer, never touches the bytes of the file and either fails at the
seek (-1, record unchanged) or returns the descriptor with the caller's `headersize`,
`channels`, `bytespersample`, `bigendian` and `samplerate` unchanged; the file offset is
where it was or at the position sought, not after a read.  With nothing to skip and a `headersize`
that fits an `int` the seek succeeds.  The answer is the same whatever the file
contains. -/
theorem C12_override_authoritative (fuel : Nat) (fd : Int) (s : Sys) (p : SoundfileInfo)
    (skip : Int) (hp : 0 ≤ p.headersize) :
    ∃ r, open_soundfile_via_fd fuel fd s p skip = some r ∧ r.sys.data = s.data ∧
      ((r.ret = -1 ∧ r.info = p) ∨
       (r.ret = fd ∧ r.info.headersize = p.headersize ∧ r.info.channels = p.channels ∧
        r.info.bytespersample = p.bytespersample ∧ r.info.bigendian = p.bigendian ∧
        r.info.samplerate = p.samplerate)) ∧
      (r.sys.pos = s.pos ∨ r.sys.pos
          = (toInt64 (p.channels * p.bytespersample * skip + p.headersize)).toNat) ∧
      (skip = 0 → p.headersize < 2 ^ 31 → r.ret = fd) ∧
      (∀ d : List Byte, ∃ r2,
        open_soundfile_via_fd fuel fd { s with data := d } p skip = some r2 ∧
        r2.ret = r.ret ∧ r2.info = r.info ∧ r2.sys.pos = r.sys.pos) := by
  unfold open_soundfile_via_fd
  simp only [if_pos hp]
  refine ⟨_, rfl, ?_, ?_, ?_, ?_, ?_⟩
  · unfold seek_past_header Sys.lseek
    simp only []
    split_ifs <;> rfl
  · unfold seek_past_header Sys.lseek
    simp only []
    split_ifs <;> first
      | (left; exact ⟨rfl, rfl⟩)
      | (right; exact ⟨rfl, rfl, rfl, rfl, rfl, rfl⟩)
  · unfold seek_past_header Sys.lseek
    simp only []
    split_ifs <;> first
      | (left; rfl)
      | (right; rfl)
  · intro h0 h31
    subst h0
    have t1 : toInt64 p.headersize = p.headersize := by
      unfold toInt64
      have h1 : (2 : Int) ^ 63 = 9223372036854775808 := by norm_num
      have h2 : (2 : Int) ^ 64 = 18446744073709551616 := by norm_num
      have h3 : (2 : Int) ^ 31 = 2147483648 := by norm_num
      rw [h3] at h31
      rw [h1, h2]; omega
    unfold seek_past_header Sys.lseek
    simp only [mul_zero, zero_add, t1, if_neg (not_lt.mpr hp), ne_eq, not_true_eq_false,
      if_false]
  · intro d
    refine ⟨_, rfl, ?_, ?_, ?_⟩
    · unfold seek_past_header Sys.lseek
      simp only []
      split_ifs <;> rfl
    · unfold seek_past_header Sys.lseek
      simp only []
      split_ifs <;> rfl
    · unfold seek_past_header Sys.lseek
      simp only []
      split_ifs <;> rfl

/-- A raw stereo 16-bit file with a 4-byte header to skip over. -/
theorem C12_override_authoritative_witness :
    ∃ r, open_soundfile_via_fd 0 3 { data := [1, 2, 3, 4, 5, 6, 7, 8], pos := 0, errno := 0 }
        { samplerate := 44100, channels := 2, bytespersample := 2, headersize := 4,
          bigendian := 1, bytelimit := 0 } 0 = some r ∧
      r.ret = 3 ∧ r.info.headersize = 4 ∧ r.info.channels = 2 ∧ r.info.bytespersample = 2 ∧
      r.info.bigendian = 1 ∧ r.info.samplerate = 44100 := by
  obtain ⟨r, hr, -, hcases, -, hok, -⟩ := C12_override_authoritative 0 3
    { data := [1, 2, 3, 4, 5, 6, 7, 8], pos := 0, errno := 0 }
    { samplerate := 44100, channels := 2, bytespersample := 2, headersize := 4,
      bigendian := 1, bytelimit := 0 } 0 (by decide)
  have hfd := hok rfl (by decide)
  refine ⟨r, hr, hfd, ?_⟩
  rcases hcases with ⟨h1, -⟩ | ⟨-, a, b, c, d, e⟩
  · rw [hfd] at h1; exact absurd h1 (by decide)
  · exact ⟨a, b, c, d, e⟩


/-- C13 (80-bit sample-rate round trip).  For every whole rate `r` with
`1 <= r < 2^31`, `readaiffsamprate` (with the byte swap of a little-endian host) applied
to the ten bytes that `makeaiffsamprate r` writes returns exactly `r`; the bytes hold a
biased exponent `e + 16382`, a mantissa `m` with `2^31 <= m < 2^32` and four zero bytes,
with `r = m * 2^(e - 32)`. -/
theorem C13_samprate_round_trip (r : Nat) (h1 : 1 ≤ r) (h2 : r < 2 ^ 31) :
    readaiffsamprate (makeaiffsamprate (r : ℚ)) 0 true = r ∧
    ∃ m e : Nat, 2 ^ 31 ≤ m ∧ m < 2 ^ 32 ∧
      makeaiffsamprate (r : ℚ) = store16be (e + 16382) ++ store32be m ++ [0, 0, 0, 0] ∧
      (r : ℚ) = (m : ℚ) * (2 : ℚ) ^ ((e : Int) - 32) := by
  have h32 : r < 2 ^ 32 := lt_trans h2 (by norm_num)
  refine ⟨samprate_roundtrip_all r h1 h32, ?_⟩
  obtain ⟨e, he1, he2, hlo, hhi, hbytes⟩ := makeaiffsamprate_nat r h1 h32
  refine ⟨r * 2 ^ (32 - e), e, hlo, hhi, ?_, ?_⟩
  · rw [hbytes]
    have hx : (e + 16382) / 2 ^ 8 % 256 = (e + 16382) / 256 % 256 := by norm_num
    simp only [store16be, store32be, hx, List.cons_append, List.nil_append]
  · have hp : (2 : ℚ) ^ ((e : Int) - 32) = (2 : ℚ) ^ (e : Int) / 2 ^ (32 : Int) :=
      zpow_sub₀ (by norm_num) _ _
    have hq : ((2 : ℚ) ^ (32 - e)) * 2 ^ e = 2 ^ 32 := by
      rw [← pow_add]; congr 1; omega
    rw [hp, zpow_natCast]
    have h32q : (2 : ℚ) ^ (32 : Int) = 2 ^ 32 := by norm_num
    rw [h32q, ← hq]
    push_cast
    field_simp
    ring

/-- The rate 44100. -/
theorem C13_samprate_round_trip_witness :
    readaiffsamprate (makeaiffsamprate ((44100 : Nat) : ℚ)) 0 true = (44100 : Nat) :=
  (C13_samprate_round_trip 44100 (by decide) (by decide)).1


/-- C14 (80-bit read rounding), at an input where the code departs from it.  The ten
bytes 40 0E BB 50 0C 46 95 DD BA F2 are the 80-bit number 48000/1.001 (47952.04...).
The specification's value `floor (m / 2^s) + b` is 47952; `readaiffsamprate` returns
266884395416400, because it loads the mantissa through an `unsigned long` pointer,
eight bytes on this platform, so that bytes 6..9 become the high half of the number it
shifts. -/
theorem C14_read_rounding :
    readaiffsamprate [0x40, 0x0e, 0xbb, 0x50, 0x0c, 0x46, 0x95, 0xdd, 0xba, 0xf2] 0 true
      = 266884395416400 ∧
    spec_readrate [0x40, 0x0e, 0xbb, 0x50, 0x0c, 0x46, 0x95, 0xdd, 0xba, 0xf2] = 47952 := by
  constructor <;> decide!


/-- C15 (WAVE emission) as the claim states it fails at the field of the bytes per
second: for one frame of 63 channels at 3 bytes per sample and 96001 Hz the header holds
18144188 there, not `96001 * 63 * 3 = 18144189`.  The field is computed as
`(int)(samplerate * nchannels * bytespersamp)` with `samplerate` a `float`, and
18144189 is not a `float`. -/
theorem C15_wave_emission_counterexample :
    create_soundfile FORMAT_WAVE (1 : Nat) (3 : Nat) 0 (63 : Nat) false ((96001 : Nat) : ℚ)
      ≠ (spec_wave_header 1 63 3 96001, 44) ∧
    load32 (create_soundfile FORMAT_WAVE (1 : Nat) (3 : Nat) 0 (63 : Nat) false
      ((96001 : Nat) : ℚ)).1 28 = 18144188 ∧
    load32 (spec_wave_header 1 63 3 96001) 28 = 18144189 ∧
    96001 * 63 * 3 = 18144189 := by
  decide!

/-- C15 (WAVE emission), amended.  For every channel count, bytes per sample, sample rate
and frame count whose header fields fit their width, `create_soundfile` with the WAVE
type (little-endian, no byte swap on this host) emits exactly the 44 bytes `RIFF`, size
`n*channels*bps + 36`, `WAVE`, `fmt `, 16, format tag (3 when `bps = 4`, otherwise 1),
channels, rate, the bytes per second as single-precision arithmetic gives them
(`float_byte_rate`: `sr*channels` rounded to 24 significant bits, times `bps`, rounded
again, cut to an integer), `channels*bps`, `8*bps`, `data`, size `n*channels*bps`, every
integer little-endian, and reports the header size 44.  The bytes per second are
`sr*channels*bps` whenever that product is below `2^24`, and then the header is the one
of the specification. -/
theorem C15_wave_emission_amended (n channels bps sr : Nat)
    (hsize : n * channels * bps + 36 < 2 ^ 32) (hch : channels < 2 ^ 16)
    (hsr : sr < 2 ^ 32) (hal : channels * bps < 2 ^ 16) (hbits : 8 * bps < 2 ^ 16) :
    create_soundfile FORMAT_WAVE n bps 0 channels false sr
      = (wave_header_with_rate n channels bps sr (float_byte_rate channels bps sr), 44) ∧
    (wave_header_with_rate n channels bps sr (float_byte_rate channels bps sr)).length = 44 ∧
    (sr * channels * bps < 2 ^ 24 →
      float_byte_rate channels bps sr = sr * channels * bps ∧
      create_soundfile FORMAT_WAVE n bps 0 channels false sr
        = (spec_wave_header n channels bps sr, 44)) := by
  have e0 : ((n : Int) * (channels : Int) * (bps : Int)) = ((n * channels * bps : Nat) : Int) := by
    push_cast; rfl
  have e1 : toInt64 ((n : Int) * (channels : Int) * (bps : Int))
      = ((n * channels * bps : Nat) : Int) := by
    rw [e0]; exact toInt64_of_lt _ (by omega)
  have r1 : toUInt32 (((n * channels * bps : Nat) : Int) + 44 - 8) = n * channels * bps + 36 := by
    have : ((n * channels * bps : Nat) : Int) + 44 - 8
        = ((n * channels * bps + 36 : Nat) : Int) := by
      push_cast; ring
    rw [this]; exact toUInt32_natCast _ hsize
  have r2 : toUInt32 ((n * channels * bps : Nat) : Int) = n * channels * bps :=
    toUInt32_natCast _ (by omega)
  have r3 : toUInt32 (channels : Int) % 2 ^ 16 = channels := by
    rw [toUInt32_natCast _ (by omega)]; exact Nat.mod_eq_of_lt hch
  have r4 : f2u32 (sr : ℚ) = sr := f2u32_natCast sr hsr
  have c1 : to_float (((channels : Int)) : ℚ) = (channels : ℚ) := by
    rw [Int.cast_natCast]; exact to_float_natCast channels (by omega)
  have c2 : to_float (((bps : Int)) : ℚ) = (bps : ℚ) := by
    rw [Int.cast_natCast]; exact to_float_natCast bps (by omega)
  have r5 : toUInt32 (d2i (to_float (to_float ((sr : ℚ) * to_float ((channels : Int) : ℚ))
      * to_float ((bps : Int) : ℚ)))) = float_byte_rate channels bps sr := by
    rw [c1, c2]; rfl
  have e6 : ((channels : Int) * (bps : Int)) = ((channels * bps : Nat) : Int) := by push_cast; rfl
  have r6 : toUInt32 (toInt32 ((channels : Int) * (bps : Int))) % 2 ^ 16 = channels * bps := by
    rw [e6, toInt32_of_lt _ (by omega), toUInt32_natCast _ (by omega)]
    exact Nat.mod_eq_of_lt hal
  have e7 : (8 * (bps : Int)) = ((8 * bps : Nat) : Int) := by push_cast; rfl
  have r7 : toUInt32 (toInt32 (8 * (bps : Int))) % 2 ^ 16 = 8 * bps := by
    rw [e7, toInt32_of_lt _ (by omega), toUInt32_natCast _ (by omega)]
    exact Nat.mod_eq_of_lt hbits
  have r8 : (if (bps : Int) = 4 then WAV_FLOAT else WAV_INT) % 2 ^ 16
      = if bps = 4 then 3 else 1 := by
    by_cases h : bps = 4
    · subst h; rfl
    · have : ¬ ((bps : Int) = 4) := by exact_mod_cast h
      rw [if_neg h, if_neg this]; rfl
  have main : create_soundfile FORMAT_WAVE n bps 0 channels false sr
      = (wave_header_with_rate n channels bps sr (float_byte_rate channels bps sr), 44) := by
    rw [create_wave, e1, r1, r2, r3, r4, r5, r6, r7, r8]
    simp [waveFile, wave_header_with_rate, chunksBytes, Chunk.riff, Chunk.padding, fmtBody,
      store16, store32, str_fmt]
  refine ⟨main, ?_, ?_⟩
  · simp [wave_header_with_rate, store16, store32, str_RIFF, str_WAVE, str_fmt, str_data]
  · intro h24
    have hrate : float_byte_rate channels bps sr = sr * channels * bps := by
      unfold float_byte_rate
      by_cases hb0 : bps = 0
      · subst hb0
        simp [to_float, fround, d2i, truncQ, toUInt32]
      · have hle : sr * channels ≤ sr * channels * bps :=
          Nat.le_mul_of_pos_right _ (Nat.pos_of_ne_zero hb0)
        have k1 : (sr : ℚ) * (channels : ℚ) = ((sr * channels : Nat) : ℚ) := by push_cast; rfl
        have k2 : ((sr * channels : Nat) : ℚ) * (bps : ℚ) = ((sr * channels * bps : Nat) : ℚ) := by
          push_cast; rfl
        rw [k1, to_float_natCast _ (by omega), k2, to_float_natCast _ (by omega),
          d2i_natCast _ (by omega)]
        exact toUInt32_natCast _ (by omega)
    refine ⟨hrate, ?_⟩
    rw [main, hrate]
    rfl

/-- The 44 bytes written for 4 frames of 2 channels at 16 bits and 44100 Hz, with
176400 bytes per second. -/
theorem C15_wave_emission_amended_witness :
    float_byte_rate 2 2 44100 = 44100 * 2 * 2 ∧
    create_soundfile FORMAT_WAVE (4 : Nat) (2 : Nat) 0 (2 : Nat) false ((44100 : Nat) : ℚ)
      = (spec_wave_header 4 2 2 44100, 44) :=
  (C15_wave_emission_amended 4 2 2 44100 (by decide) (by decide) (by decide) (by decide)
    (by decide)).2.2 (by decide)


/-- C16 (AIFF emission scenario), where the code departs from it.  One frame of one
channel at 3 bytes per sample and 48000 Hz: the header is 54 bytes, its `COMM` chunk
reports 1 channel, 1 frame, 24 bits and the 80-bit form of 48000, its `SSND` chunk has
size 3 + 8 and offset and block size 0 — but the `FORM` size field holds 47, not
38 + 8 + 3 = 49: the code adds `sizeof(*aiffhdr) + 4`, which is 44 on this platform, to
the payload size. -/
theorem C16_aiff_emission :
    (create_soundfile FORMAT_AIFF 1 3 1 1 true 48000).2 = 54 ∧
    (create_soundfile FORMAT_AIFF 1 3 1 1 true 48000).1 =
      [0x46, 0x4f, 0x52, 0x4d, 0, 0, 0, 47, 0x41, 0x49, 0x46, 0x46,
       0x43, 0x4f, 0x4d, 0x4d, 0, 0, 0, 18, 0, 1, 0, 0, 0, 1, 0, 24,
       0x40, 0x0e, 0xbb, 0x80, 0, 0, 0, 0, 0, 0,
       0x53, 0x53, 0x4e, 0x44, 0, 0, 0, 11, 0, 0, 0, 0, 0, 0, 0, 0] ∧
    be32 (create_soundfile FORMAT_AIFF 1 3 1 1 true 48000).1 4 = 47 := by
  refine ⟨?_, ?_, ?_⟩ <;> decide!


/-- C17 (write format selection) as the claim states it fails: for the file name `.aif`
(no character before the suffix) the parse succeeds with the WAVE type where the rule of
the claim gives AIFF, and for `x.AIF` it succeeds with the AIFF type where the rule,
which names the lower-case suffixes only, gives WAVE. -/
theorem C17_write_format_counterexample :
    (soundfiler_writeargparse ['f', 'l', 'o', 'a', 't']
      { argv := [Atom.symbol ['.', 'a', 'i', 'f'], Atom.symbol ['t']], filesym := [],
        filetype := 0, bytespersamp := 0, swap := 0, bigendian := 0, normalize := 0,
        onset := 0, nframes := 0, rate := 0 }).1 = 0 ∧
    (soundfiler_writeargparse ['f', 'l', 'o', 'a', 't']
      { argv := [Atom.symbol ['.', 'a', 'i', 'f'], Atom.symbol ['t']], filesym := [],
        filetype := 0, bytespersamp := 0, swap := 0, bigendian := 0, normalize := 0,
        onset := 0, nframes := 0, rate := 0 }).2.1.filetype = FORMAT_WAVE ∧
    spec_name_filetype ['.', 'a', 'i', 'f'] = FORMAT_AIFF ∧
    (soundfiler_writeargparse ['f', 'l', 'o', 'a', 't']
      { argv := [Atom.symbol ['x', '.', 'A', 'I', 'F'], Atom.symbol ['t']], filesym := [],
        filetype := 0, bytespersamp := 0, swap := 0, bigendian := 0, normalize := 0,
        onset := 0, nframes := 0, rate := 0 }).1 = 0 ∧
    (soundfiler_writeargparse ['f', 'l', 'o', 'a', 't']
      { argv := [Atom.symbol ['x', '.', 'A', 'I', 'F'], Atom.symbol ['t']], filesym := [],
        filetype := 0, bytespersamp := 0, swap := 0, bigendian := 0, normalize := 0,
        onset := 0, nframes := 0, rate := 0 }).2.1.filetype = FORMAT_AIFF ∧
    spec_name_filetype ['x', '.', 'A', 'I', 'F'] = FORMAT_WAVE := by
  refine ⟨?_, ?_, ?_, ?_, ?_, ?_⟩ <;> decide!

/-- C17 (write format selection), amended.  On success `soundfiler_writeargparse` has
split its arguments into flags, the file name and the rest, and returns the file type of
the last `-wave`, `-aiff` or `-nextstep` among the flags if there is one; otherwise NeXT
when the file name has a character before a final `.snd`, `.SND`, `.au` or `.AU`,
otherwise AIFF when it has a character before a final `.aif`, `.AIF`, `.aiff` or
`.AIFF`, and WAVE for every other file name. -/
theorem C17_write_format_amended (nosym : List Char) (hn : nosym.head? ≠ some '-')
    (p : WriteArgs) (h : (soundfiler_writeargparse nosym p).1 = 0) :
    ∃ flags, p.argv = flags ++ Atom.symbol (soundfiler_writeargparse nosym p).2.1.filesym
        :: (soundfiler_writeargparse nosym p).2.1.argv ∧
      (soundfiler_writeargparse nosym p).2.1.filetype
        = (if last_format flags < 0
           then name_filetype (soundfiler_writeargparse nosym p).2.1.filesym
           else last_format flags) := by
  obtain ⟨f, av, st, hp, hc⟩ := argparse_zero nosym p h
  obtain ⟨-, a2, a3, a4, -⟩ := (argparse_some nosym p f av st hp).2 hc
  obtain ⟨flags, e1, e2, -⟩ := flag_loop_some nosym hn _ _ _ _ _ hp
  refine ⟨flags, ?_, ?_⟩
  · rw [a2, a3]; exact e1
  · rw [a4, a3, fill_in_filetype_eq, e2]
    rfl

/-- The flag `-aiff` before the file name `take.wav`: the file type is AIFF. -/
theorem C17_write_format_amended_witness :
    ∃ flags, [Atom.symbol ['-', 'a', 'i', 'f', 'f'],
        Atom.symbol ['t', 'a', 'k', 'e', '.', 'w', 'a', 'v'], Atom.symbol ['t']]
      = flags ++ Atom.symbol (soundfiler_writeargparse ['f', 'l', 'o', 'a', 't']
          { argv := [Atom.symbol ['-', 'a', 'i', 'f', 'f'],
              Atom.symbol ['t', 'a', 'k', 'e', '.', 'w', 'a', 'v'], Atom.symbol ['t']],
            filesym := [], filetype := 0, bytespersamp := 0, swap := 0, bigendian := 0,
            normalize := 0, onset := 0, nframes := 0, rate := 0 }).2.1.filesym
        :: (soundfiler_writeargparse ['f', 'l', 'o', 'a', 't']
          { argv := [Atom.symbol ['-', 'a', 'i', 'f', 'f'],
              Atom.symbol ['t', 'a', 'k', 'e', '.', 'w', 'a', 'v'], Atom.symbol ['t']],
            filesym := [], filetype := 0, bytespersamp := 0, swap := 0, bigendian := 0,
            normalize := 0, onset := 0, nframes := 0, rate := 0 }).2.1.argv ∧
      (soundfiler_writeargparse ['f', 'l', 'o', 'a', 't']
          { argv := [Atom.symbol ['-', 'a', 'i', 'f', 'f'],
              Atom.symbol ['t', 'a', 'k', 'e', '.', 'w', 'a', 'v'], Atom.symbol ['t']],
            filesym := [], filetype := 0, bytespersamp := 0, swap := 0, bigendian := 0,
            normalize := 0, onset := 0, nframes := 0, rate := 0 }).2.1.filetype
        = (if last_format flags < 0
           then name_filetype (soundfiler_writeargparse ['f', 'l', 'o', 'a', 't']
          { argv := [Atom.symbol ['-', 'a', 'i', 'f', 'f'],
              Atom.symbol ['t', 'a', 'k', 'e', '.', 'w', 'a', 'v'], Atom.symbol ['t']],
            filesym := [], filetype := 0, bytespersamp := 0, swap := 0, bigendian := 0,
            normalize := 0, onset := 0, nframes := 0, rate := 0 }).2.1.filesym
           else last_format flags) :=
  C17_write_format_amended ['f', 'l', 'o', 'a', 't'] (by decide)
    { argv := [Atom.symbol ['-', 'a', 'i', 'f', 'f'],
        Atom.symbol ['t', 'a', 'k', 'e', '.', 'w', 'a', 'v'], Atom.symbol ['t']],
      filesym := [], filetype := 0, bytespersamp := 0, swap := 0, bigendian := 0,
      normalize := 0, onset := 0, nframes := 0, rate := 0 } (by decide!)

/-- C18 (format, byte order and sample width agree).  `soundfiler_writeargparse`
returns 0 or -1.  Whenever the flag loop stops at a file name with 4 bytes per sample
selected and the resulting format is AIFF, it returns -1, and `soundfiler_dowrite` then
returns 0 without calling `create_soundfile`, whatever its later statements are.  Every
successful parse therefore never has AIFF with 4 bytes per sample, has `bigendian = 0`
when the format is WAVE and `bigendian = 1` when it is AIFF, whatever `-big` or
`-little` flag was given. -/
theorem C18_format_consistency (rest : SoundfileInfo → WriteArgs → DoWriteResult)
    (nosym : List Char) (locals : WriteArgs) (info : SoundfileInfo) (argv : List Atom) :
    ((soundfiler_writeargparse nosym
        { locals with argv := argv, bytespersamp := info.bytespersample,
                      bigendian := info.bigendian }).1 = 0 ∨
     (soundfiler_writeargparse nosym
        { locals with argv := argv, bytespersamp := info.bytespersample,
                      bigendian := info.bigendian }).1 = -1) ∧
    (∀ f av st, parse_flags nosym argv flag_init = some (Atom.symbol f :: av, st) →
      st.bytespersamp = 4 → fill_in_filetype st.filetype f = FORMAT_AIFF →
      (soundfiler_writeargparse nosym
        { locals with argv := argv, bytespersamp := info.bytespersample,
                      bigendian := info.bigendian }).1 = -1 ∧
      soundfiler_dowrite rest nosym locals info argv
        = { ret := 0, info := info, created := false }) ∧
    ((soundfiler_writeargparse nosym
        { locals with argv := argv, bytespersamp := info.bytespersample,
                      bigendian := info.bigendian }).1 = 0 →
      ¬ ((soundfiler_writeargparse nosym
          { locals with argv := argv, bytespersamp := info.bytespersample,
                        bigendian := info.bigendian }).2.1.filetype = FORMAT_AIFF ∧
         (soundfiler_writeargparse nosym
          { locals with argv := argv, bytespersamp := info.bytespersample,
                        bigendian := info.bigendian }).2.1.bytespersamp = 4) ∧
      ((soundfiler_writeargparse nosym
          { locals with argv := argv, bytespersamp := info.bytespersample,
                        bigendian := info.bigendian }).2.1.filetype = FORMAT_WAVE →
        (soundfiler_writeargparse nosym
          { locals with argv := argv, bytespersamp := info.bytespersample,
                        bigendian := info.bigendian }).2.1.bigendian = 0) ∧
      ((soundfiler_writeargparse nosym
          { locals with argv := argv, bytespersamp := info.bytespersample,
                        bigendian := info.bigendian }).2.1.filetype = FORMAT_AIFF →
        (soundfiler_writeargparse nosym
          { locals with argv := argv, bytespersamp := info.bytespersample,
                        bigendian := info.bigendian }).2.1.bigendian = 1)) := by
  generalize hp : ({ locals with
    argv := argv, bytespersamp := info.bytespersample, bigendian := info.bigendian }
      : WriteArgs) = p
  have hargv : p.argv = argv := by rw [← hp]
  refine ⟨?_, ?_, ?_⟩
  · rcases argparse_ret nosym p with h | ⟨h, -⟩
    · left; exact h
    · right; exact h
  · intro f av st hpf h4 hft
    have hpf2 : parse_flags nosym p.argv flag_init = some (Atom.symbol f :: av, st) := by
      rw [hargv]; exact hpf
    have hfail := ((argparse_some nosym p f av st hpf2).1 ⟨h4, hft⟩).1
    refine ⟨hfail, ?_⟩
    apply dowrite_parse_fails
    rw [hp]; exact hfail
  · intro h
    obtain ⟨f, av, st, hpf, hc⟩ := argparse_zero nosym p h
    obtain ⟨-, -, -, a4, a5, a6, -⟩ := (argparse_some nosym p f av st hpf).2 hc
    rw [a4, a5, a6]
    refine ⟨fun hx => hc ⟨hx.2, hx.1⟩, ?_, ?_⟩
    · intro hw
      rw [if_pos hw]
    · intro ha
      have : ¬ (fill_in_filetype st.filetype f = FORMAT_WAVE) := by
        rw [ha]; decide
      rw [if_neg this, if_pos ha]

/-- The arguments `-bytes 4 -aiff x t`: the write routine returns 0 and creates
nothing. -/
theorem C18_format_consistency_witness :
    soundfiler_dowrite (fun info _ => { ret := 1, info := info, created := true })
        ['f', 'l', 'o', 'a', 't']
        { argv := [], filesym := [], filetype := 0, bytespersamp := 0, swap := 0,
          bigendian := 0, normalize := 0, onset := 0, nframes := 0, rate := 0 }
        { samplerate := 0, channels := 0, bytespersample := 0, headersize := -1,
          bigendian := 0, bytelimit := 0 }
        [Atom.symbol ['-', 'b', 'y', 't', 'e', 's'], Atom.float 4,
         Atom.symbol ['-', 'a', 'i', 'f', 'f'], Atom.symbol ['x'], Atom.symbol ['t']]
      = { ret := 0,
          info := { samplerate := 0, channels := 0, bytespersample := 0, headersize := -1,
                    bigendian := 0, bytelimit := 0 },
          created := false } :=
  ((C18_format_consistency (fun info _ => { ret := 1, info := info, created := true })
    ['f', 'l', 'o', 'a', 't']
    { argv := [], filesym := [], filetype := 0, bytespersamp := 0, swap := 0,
      bigendian := 0, normalize := 0, onset := 0, nframes := 0, rate := 0 }
    { samplerate := 0, channels := 0, bytespersample := 0, headersize := -1,
      bigendian := 0, bytelimit := 0 }
    [Atom.symbol ['-', 'b', 'y', 't', 'e', 's'], Atom.float 4,
     Atom.symbol ['-', 'a', 'i', 'f', 'f'], Atom.symbol ['x'], Atom.symbol ['t']]).2.1
    ['x'] [Atom.symbol ['t']]
    { bytespersamp := 4, endianness := -1, filetype := FORMAT_AIFF, normalize := 0,
      onset := 0, nframes := 0x7fffffff, rate := -1 }
    (by decide!) rfl (by decide!)).2

/-- C19 (invalid flag values) as the claim states it fails: `-skip -0.5` carries a
negative number and `-bytes 4.5` a value outside 2..4, and both are accepted, with the
onset 0 and 4 bytes per sample: the tests are made on the values converted to `long`
and `int`. -/
theorem C19_invalid_flags_counterexample :
    (soundfiler_writeargparse ['f', 'l', 'o', 'a', 't']
      { argv := [Atom.symbol ['-', 's', 'k', 'i', 'p'], Atom.float (-1 / 2),
          Atom.symbol ['x'], Atom.symbol ['t']], filesym := [],
        filetype := 0, bytespersamp := 0, swap := 0, bigendian := 0, normalize := 0,
        onset := 7, nframes := 0, rate := 0 }).1 = 0 ∧
    (soundfiler_writeargparse ['f', 'l', 'o', 'a', 't']
      { argv := [Atom.symbol ['-', 's', 'k', 'i', 'p'], Atom.float (-1 / 2),
          Atom.symbol ['x'], Atom.symbol ['t']], filesym := [],
        filetype := 0, bytespersamp := 0, swap := 0, bigendian := 0, normalize := 0,
        onset := 7, nframes := 0, rate := 0 }).2.1.onset = 0 ∧
    (soundfiler_writeargparse ['f', 'l', 'o', 'a', 't']
      { argv := [Atom.symbol ['-', 'b', 'y', 't', 'e', 's'], Atom.float (9 / 2),
          Atom.symbol ['x'], Atom.symbol ['t']], filesym := [],
        filetype := 0, bytespersamp := 0, swap := 0, bigendian := 0, normalize := 0,
        onset := 0, nframes := 0, rate := 0 }).1 = 0 ∧
    (soundfiler_writeargparse ['f', 'l', 'o', 'a', 't']
      { argv := [Atom.symbol ['-', 'b', 'y', 't', 'e', 's'], Atom.float (9 / 2),
          Atom.symbol ['x'], Atom.symbol ['t']], filesym := [],
        filetype := 0, bytespersamp := 0, swap := 0, bigendian := 0, normalize := 0,
        onset := 0, nframes := 0, rate := 0 }).2.1.bytespersamp = 4 := by
  refine ⟨?_, ?_, ?_, ?_⟩ <;> decide!

/-- C19 (invalid flag values), amended.  Whenever the flag loop comes to a `-nframes`
or `-skip` flag with a number that is at most -1, a `-bytes` flag with a number below 2
or at least 5, a `-r` or `-rate` flag with a number that is at most 0, one of these
flags that is not followed by a float, or a symbol that starts with `-` and is not a
flag, `soundfiler_writeargparse` returns -1 with its output parameters untouched, and
`soundfiler_dowrite` returns 0 and never reaches `create_soundfile`. -/
theorem C19_invalid_flags_amended (rest : SoundfileInfo → WriteArgs → DoWriteResult)
    (nosym : List Char) (hn : nosym.head? ≠ some '-') (locals : WriteArgs)
    (info : SoundfileInfo) (argv l : List Atom) (st : FlagState)
    (hr : Reaches nosym argv flag_init l st) (hb : BadFlag l) :
    soundfiler_writeargparse nosym
        { locals with argv := argv, bytespersamp := info.bytespersample,
                      bigendian := info.bigendian }
      = (-1, { locals with argv := argv, bytespersamp := info.bytespersample,
                           bigendian := info.bigendian }, [Msg.argerror]) ∧
    soundfiler_dowrite rest nosym locals info argv
      = { ret := 0, info := info, created := false } := by
  have h := argparse_badflag nosym hn
    { locals with argv := argv, bytespersamp := info.bytespersample,
                  bigendian := info.bigendian } l st hr hb
  refine ⟨h, ?_⟩
  apply dowrite_parse_fails
  rw [h]

/-- The arguments `-wave -nframes -1 x t`: the loop passes `-wave` and comes to
`-nframes -1`. -/
theorem C19_invalid_flags_amended_witness :
    soundfiler_dowrite (fun info _ => { ret := 1, info := info, created := true })
        ['f', 'l', 'o', 'a', 't']
        { argv := [], filesym := [], filetype := 0, bytespersamp := 0, swap := 0,
          bigendian := 0, normalize := 0, onset := 0, nframes := 0, rate := 0 }
        { samplerate := 0, channels := 0, bytespersample := 0, headersize := -1,
          bigendian := 0, bytelimit := 0 }
        [Atom.symbol ['-', 'w', 'a', 'v', 'e'], Atom.symbol ['-', 'n', 'f', 'r', 'a', 'm', 'e', 's'],
         Atom.float (-1), Atom.symbol ['x'], Atom.symbol ['t']]
      = { ret := 0,
          info := { samplerate := 0, channels := 0, bytespersample := 0, headersize := -1,
                    bigendian := 0, bytelimit := 0 },
          created := false } :=
  (C19_invalid_flags_amended (fun info _ => { ret := 1, info := info, created := true })
    ['f', 'l', 'o', 'a', 't'] (by decide)
    { argv := [], filesym := [], filetype := 0, bytespersamp := 0, swap := 0,
      bigendian := 0, normalize := 0, onset := 0, nframes := 0, rate := 0 }
    { samplerate := 0, channels := 0, bytespersample := 0, headersize := -1,
      bigendian := 0, bytelimit := 0 }
    [Atom.symbol ['-', 'w', 'a', 'v', 'e'], Atom.symbol ['-', 'n', 'f', 'r', 'a', 'm', 'e', 's'],
     Atom.float (-1), Atom.symbol ['x'], Atom.symbol ['t']]
    [Atom.symbol ['-', 'n', 'f', 'r', 'a', 'm', 'e', 's'], Atom.float (-1), Atom.symbol ['x'],
     Atom.symbol ['t']]
    { flag_init with filetype := FORMAT_WAVE }
    (Reaches.step _ _ _ _ _ _ (by decide!) (Reaches.here _ _))
    ⟨['-', 'n', 'f', 'r', 'a', 'm', 'e', 's'], [Atom.float (-1), Atom.symbol ['x'],
      Atom.symbol ['t']], rfl, rfl,
      Or.inl ⟨Or.inr rfl, fun f r2 h => by
        simp only [List.cons.injEq, Atom.float.injEq] at h
        rw [← h.1]⟩⟩).2

/-- C20 (a file name that is a flag) as the claim states it fails: with the file name
`skip` the parse returns 0; the code only prints a warning. -/
theorem C20_flag_name_counterexample :
    soundfiler_writeargparse ['f', 'l', 'o', 'a', 't']
      { argv := [Atom.symbol ['s', 'k', 'i', 'p'], Atom.symbol ['t']], filesym := [],
        filetype := 0, bytespersamp := 0, swap := 0, bigendian := 0, normalize := 0,
        onset := 0, nframes := 0, rate := 0 }
      = (0, { argv := [Atom.symbol ['t']], filesym := ['s', 'k', 'i', 'p'],
              filetype := FORMAT_WAVE, bytespersamp := 2, swap := 0, bigendian := 0,
              normalize := 0, onset := 0, nframes := 0x7fffffff, rate := -1 },
         [Msg.looks_like_flag 0]) := by
  decide!

/-- C20 (a file name that is a flag), amended.  When the flag loop ends at a symbol that
is one of the flag names that `file_is_a_flag_name` recognises, without a leading `-`,
`soundfiler_writeargparse` prints the warning; it then succeeds with that file name,
unless the flags before it selected 4 bytes per sample together with the AIFF type, which
is refused for every file name.  And the file name of a successful parse never starts
with `-`, because a symbol that does is taken as a flag by the loop before. -/
theorem C20_flag_name_amended (nosym : List Char) (hn : nosym.head? ≠ some '-')
    (p : WriteArgs) :
    (∀ name av st, parse_flags nosym p.argv flag_init = some (Atom.symbol name :: av, st) →
      name ∈ flag_names →
      Msg.looks_like_flag 0 ∈ (soundfiler_writeargparse nosym p).2.2 ∧
      (¬ (st.bytespersamp = 4 ∧ st.filetype = FORMAT_AIFF) →
        (soundfiler_writeargparse nosym p).1 = 0 ∧
        (soundfiler_writeargparse nosym p).2.1.filesym = name) ∧
      (st.bytespersamp = 4 ∧ st.filetype = FORMAT_AIFF →
        (soundfiler_writeargparse nosym p).1 = -1)) ∧
    ((soundfiler_writeargparse nosym p).1 = 0 →
      (soundfiler_writeargparse nosym p).2.1.filesym.head? ≠ some '-') := by
  constructor
  · intro name av st hpf hmem
    have hall : ∀ x ∈ flag_names, x.head? ≠ some '-' := by decide
    have hw : file_is_a_flag_name name = (1, 0) := by
      unfold file_is_a_flag_name
      have h1 : ¬ (name.head? = some '-') := hall name hmem
      simp only [if_neg h1, if_pos hmem]
    have hfill := fill_in_flag_name st.filetype name hmem
    refine ⟨?_, ?_, ?_⟩
    · by_cases hc : st.bytespersamp = 4 ∧ fill_in_filetype st.filetype name = FORMAT_AIFF
      · unfold soundfiler_writeargparse
        rw [hpf]
        simp only [hw]
        rw [if_pos hc]
        simp
      · obtain ⟨-, -, -, -, -, -, a7⟩ := (argparse_some nosym p name av st hpf).2 hc
        rw [hw] at a7
        exact a7 (by decide)
    · intro hc
      have hc2 : ¬ (st.bytespersamp = 4 ∧ fill_in_filetype st.filetype name = FORMAT_AIFF) := by
        rw [hfill]; exact hc
      obtain ⟨a1, -, a3, -⟩ := (argparse_some nosym p name av st hpf).2 hc2
      exact ⟨a1, a3⟩
    · intro hc
      have hc2 : st.bytespersamp = 4 ∧ fill_in_filetype st.filetype name = FORMAT_AIFF := by
        rw [hfill]; exact hc
      exact ((argparse_some nosym p name av st hpf).1 hc2).1
  · intro h
    obtain ⟨f, av, st, hpf, hc⟩ := argparse_zero nosym p h
    obtain ⟨-, -, a3, -⟩ := (argparse_some nosym p f av st hpf).2 hc
    obtain ⟨flags, -, -, e3⟩ := flag_loop_some nosym hn _ _ _ _ _ hpf
    rw [a3]
    rcases flag_step_done nosym _ _ e3 with h0 | ⟨a, r, h1, h2⟩
    · exact absurd h0 (by simp)
    · simp only [List.cons.injEq] at h1
      rw [← h1.1] at h2
      exact h2

/-- The message `-bytes 4 -aiff skip t`: the warning is printed and the parse fails; and
the message `-bytes 3 rate t`: the warning is printed and the parse succeeds with the
file name `rate`. -/
theorem C20_flag_name_amended_witness :
    (Msg.looks_like_flag 0 ∈ (soundfiler_writeargparse ['f', 'l', 'o', 'a', 't']
      { write_locals with
        argv := [Atom.symbol ['-', 'b', 'y', 't', 'e', 's'], Atom.float 4,
          Atom.symbol ['-', 'a', 'i', 'f', 'f'], Atom.symbol ['s', 'k', 'i', 'p'],
          Atom.symbol ['t']] }).2.2 ∧
     (soundfiler_writeargparse ['f', 'l', 'o', 'a', 't']
      { write_locals with
        argv := [Atom.symbol ['-', 'b', 'y', 't', 'e', 's'], Atom.float 4,
          Atom.symbol ['-', 'a', 'i', 'f', 'f'], Atom.symbol ['s', 'k', 'i', 'p'],
          Atom.symbol ['t']] }).1 = -1) ∧
    (Msg.looks_like_flag 0 ∈ (soundfiler_writeargparse ['f', 'l', 'o', 'a', 't']
      { write_locals with
        argv := [Atom.symbol ['-', 'b', 'y', 't', 'e', 's'], Atom.float 3,
          Atom.symbol ['r', 'a', 't', 'e'], Atom.symbol ['t']] }).2.2 ∧
     (soundfiler_writeargparse ['f', 'l', 'o', 'a', 't']
      { write_locals with
        argv := [Atom.symbol ['-', 'b', 'y', 't', 'e', 's'], Atom.float 3,
          Atom.symbol ['r', 'a', 't', 'e'], Atom.symbol ['t']] }).1 = 0 ∧
     (soundfiler_writeargparse ['f', 'l', 'o', 'a', 't']
      { write_locals with
        argv := [Atom.symbol ['-', 'b', 'y', 't', 'e', 's'], Atom.float 3,
          Atom.symbol ['r', 'a', 't', 'e'], Atom.symbol ['t']] }).2.1.filesym
        = ['r', 'a', 't', 'e']) :=
  ⟨⟨((C20_flag_name_amended ['f', 'l', 'o', 'a', 't'] (by decide)
        { write_locals with
          argv := [Atom.symbol ['-', 'b', 'y', 't', 'e', 's'], Atom.float 4,
            Atom.symbol ['-', 'a', 'i', 'f', 'f'], Atom.symbol ['s', 'k', 'i', 'p'],
            Atom.symbol ['t']] }).1 ['s', 'k', 'i', 'p'] [Atom.symbol ['t']]
        { flag_init with bytespersamp := 4, filetype := FORMAT_AIFF } (by decide!)
        (by decide)).1,
     ((C20_flag_name_amended ['f', 'l', 'o', 'a', 't'] (by decide)
        { write_locals with
          argv := [Atom.symbol ['-', 'b', 'y', 't', 'e', 's'], Atom.float 4,
            Atom.symbol ['-', 'a', 'i', 'f', 'f'], Atom.symbol ['s', 'k', 'i', 'p'],
            Atom.symbol ['t']] }).1 ['s', 'k', 'i', 'p'] [Atom.symbol ['t']]
        { flag_init with bytespersamp := 4, filetype := FORMAT_AIFF } (by decide!)
        (by decide)).2.2 ⟨rfl, rfl⟩⟩,
   ⟨((C20_flag_name_amended ['f', 'l', 'o', 'a', 't'] (by decide)
        { write_locals with
          argv := [Atom.symbol ['-', 'b', 'y', 't', 'e', 's'], Atom.float 3,
            Atom.symbol ['r', 'a', 't', 'e'], Atom.symbol ['t']] }).1 ['r', 'a', 't', 'e']
        [Atom.symbol ['t']] { flag_init with bytespersamp := 3 } (by decide!) (by decide)).1,
    ((C20_flag_name_amended ['f', 'l', 'o', 'a', 't'] (by decide)
        { write_locals with
          argv := [Atom.symbol ['-', 'b', 'y', 't', 'e', 's'], Atom.float 3,
            Atom.symbol ['r', 'a', 't', 'e'], Atom.symbol ['t']] }).1 ['r', 'a', 't', 'e']
        [Atom.symbol ['t']] { flag_init with bytespersamp := 3 } (by decide!)
        (by decide)).2.1 (by decide)⟩⟩



/-! ### Finishing a write -/

/-- C24: when `itemswritten < nframes`, `soundfile_finishwrite` turns the WAVE file that
`create_soundfile` started for `nframes` frames into the file with the header that
`create_soundfile` emits for `itemswritten` frames, the payload untouched; in that header
the RIFF size at offset 4 is `itemswritten * bytesperframe + 36` and the data size at
offset 40 is `itemswritten * bytesperframe` (as 32-bit values in the byte order of the
file). -/
theorem C24_wave_finalisation (nframes itemswritten bps c bigendian : Int) (swap : Bool)
    (sr : ℚ) (payload : List Byte) (pos : Nat) (e : Int)
    (hlt : itemswritten < nframes) (hlo : -2 ^ 31 ≤ c * bps) (hhi : c * bps < 2 ^ 31) :
    (soundfile_finishwrite FORMAT_WAVE nframes itemswritten (toInt32 (c * bps)) swap
        { data := (create_soundfile FORMAT_WAVE nframes bps bigendian c swap sr).1 ++ payload,
          pos := pos, errno := e }).1.data
      = (create_soundfile FORMAT_WAVE itemswritten bps bigendian c swap sr).1 ++ payload ∧
    field32 swap (soundfile_finishwrite FORMAT_WAVE nframes itemswritten (toInt32 (c * bps))
        swap
        { data := (create_soundfile FORMAT_WAVE nframes bps bigendian c swap sr).1 ++ payload,
          pos := pos, errno := e }).1.data 4
      = toUInt32 (itemswritten * toInt32 (c * bps) + 36) ∧
    field32 swap (soundfile_finishwrite FORMAT_WAVE nframes itemswritten (toInt32 (c * bps))
        swap
        { data := (create_soundfile FORMAT_WAVE nframes bps bigendian c swap sr).1 ++ payload,
          pos := pos, errno := e }).1.data 40
      = toUInt32 (itemswritten * toInt32 (c * bps)) := by
  have hcb : toInt32 (c * bps) = c * bps := by
    unfold toInt32
    rw [Int.emod_eq_of_lt (by linarith) (by linarith)]
    ring
  have hd : itemswritten * c * bps = itemswritten * (c * bps) := by ring
  obtain ⟨B, hB, hshape⟩ := wave_header_shape bps bigendian c swap sr
  have hfin := finish_wave nframes itemswritten (c * bps) swap str_RIFF
    (store32 (swap4 (toUInt32 (toInt64 (nframes * c * bps) + 44 - 8)) swap)) B
    (store32 (swap4 (toUInt32 (toInt64 (nframes * c * bps))) swap)) payload pos e hlt rfl
    (store32_length _) hB (store32_length _)
  rw [hcb, hshape nframes, hfin]
  refine ⟨?_, ?_, ?_⟩
  · rw [hshape itemswritten, hd]
  · have h := field32_store32 swap str_RIFF
      (B ++ store32 (swap4 (toUInt32 (toInt64 (itemswritten * (c * bps)))) swap) ++ payload)
      (toUInt32 (toInt64 (itemswritten * (c * bps)) + 44 - 8)) (toUInt32_lt _)
    have e1 : toInt64 (itemswritten * (c * bps)) + 44 - 8
        = toInt64 (itemswritten * (c * bps)) + 36 := by ring
    rw [e1, toUInt32_toInt64] at h
    rw [e1, toUInt32_toInt64]
    simpa [List.append_assoc, str_RIFF] using h
  · have h := field32_store32 swap
      (str_RIFF ++ store32 (swap4 (toUInt32 (toInt64 (itemswritten * (c * bps)) + 44 - 8)) swap)
        ++ B) payload (toUInt32 (toInt64 (itemswritten * (c * bps)))) (toUInt32_lt _)
    have e0 := toUInt32_toInt64 (itemswritten * (c * bps)) 0
    simp only [add_zero] at e0
    rw [e0] at h ⊢
    have hl : (str_RIFF ++ store32 (swap4 (toUInt32 (toInt64 (itemswritten * (c * bps)) + 44 - 8))
        swap) ++ B).length = 40 := by
      simp [str_RIFF, store32_length, hB]
    rw [hl] at h
    simpa [List.append_assoc] using h

theorem C24_wave_finalisation_witness :
    (soundfile_finishwrite FORMAT_WAVE 0x7fffffff 6400 (toInt32 (2 * 2)) false
        { data := (create_soundfile FORMAT_WAVE 0x7fffffff 2 0 2 false 44100).1 ++ [1, 2, 3, 4],
          pos := 48, errno := 0 }).1.data
      = (create_soundfile FORMAT_WAVE 6400 2 0 2 false 44100).1 ++ [1, 2, 3, 4] ∧
    field32 false (soundfile_finishwrite FORMAT_WAVE 0x7fffffff 6400 (toInt32 (2 * 2)) false
        { data := (create_soundfile FORMAT_WAVE 0x7fffffff 2 0 2 false 44100).1 ++ [1, 2, 3, 4],
          pos := 48, errno := 0 }).1.data 4
      = toUInt32 (6400 * toInt32 (2 * 2) + 36) ∧
    field32 false (soundfile_finishwrite FORMAT_WAVE 0x7fffffff 6400 (toInt32 (2 * 2)) false
        { data := (create_soundfile FORMAT_WAVE 0x7fffffff 2 0 2 false 44100).1 ++ [1, 2, 3, 4],
          pos := 48, errno := 0 }).1.data 40
      = toUInt32 (6400 * toInt32 (2 * 2)) :=
  C24_wave_finalisation 0x7fffffff 6400 2 2 0 false 44100 [1, 2, 3, 4] 48 0 (by decide)
    (by decide) (by decide)

/-- C25: `soundfile_finishwrite` on the AIFF file that `create_soundfile` started, with 3
frames of 2 bytes written out of `0x7fffffff`: the frame count at offset 22 becomes the one
`create_soundfile` emits for 3 frames, but the FORM size at offset 4 becomes 44
(`3 * 2 + AIFFHDRSIZE`) where `create_soundfile` emits 50, and the SSND size at offset 42
becomes 6 where `create_soundfile` emits 14 (`3 * 2 + 8`). -/
theorem C25_aiff_finalisation :
    be32 (soundfile_finishwrite FORMAT_AIFF 0x7fffffff 3 2 true
        { data := (create_soundfile FORMAT_AIFF 0x7fffffff 2 1 1 true 44100).1
            ++ [0, 1, 0, 2, 0, 3], pos := 60, errno := 0 }).1.data 22 = 3 ∧
    be32 (create_soundfile FORMAT_AIFF 3 2 1 1 true 44100).1 22 = 3 ∧
    be32 (soundfile_finishwrite FORMAT_AIFF 0x7fffffff 3 2 true
        { data := (create_soundfile FORMAT_AIFF 0x7fffffff 2 1 1 true 44100).1
            ++ [0, 1, 0, 2, 0, 3], pos := 60, errno := 0 }).1.data 4 = 44 ∧
    be32 (create_soundfile FORMAT_AIFF 3 2 1 1 true 44100).1 4 = 50 ∧
    be32 (soundfile_finishwrite FORMAT_AIFF 0x7fffffff 3 2 true
        { data := (create_soundfile FORMAT_AIFF 0x7fffffff 2 1 1 true 44100).1
            ++ [0, 1, 0, 2, 0, 3], pos := 60, errno := 0 }).1.data 42 = 6 ∧
    be32 (create_soundfile FORMAT_AIFF 3 2 1 1 true 44100).1 42 = 14 := by
  decide!

/-- C26, as stated, fails: after 100 blocks of 64 frames of one 4-byte channel the length
field at offset 8 of the finished NeXT file is `0xffffffff`, not `100 * 64 * 1 * 4`. -/
theorem C26_next_length_counterexample :
    load32 (soundfile_finishwrite FORMAT_NEXT 0x7fffffff 6400 (1 * 4) false
        { data := (create_soundfile FORMAT_NEXT 0 4 0 1 false 44100).1
            ++ List.replicate (100 * 64 * 1 * 4) 0,
          pos := 28 + 100 * 64 * 1 * 4, errno := 0 }).1.data 8 = 0xffffffff ∧
    (0xffffffff : Nat) ≠ 100 * 64 * 1 * 4 := by
  obtain ⟨A, R, hA, h⟩ := next_header_shape false 0 4 1 44100
  simp only [Bool.false_eq_true, if_false] at h
  refine ⟨?_, by decide⟩
  have h2 : A ++ store32 0 ++ R ++ List.replicate (100 * 64 * 1 * 4) 0
      = A ++ store32 0 ++ (R ++ List.replicate (100 * 64 * 1 * 4) 0) := by
    simp only [List.append_assoc]
  rw [h, h2, finish_next _ _ _ _ A (store32 0) _ _ _ (by norm_num) hA rfl]
  have := load32_append A ([255, 255, 255, 255] ++ (R ++ List.replicate (100 * 64 * 1 * 4) 0)) 0
  simp only [hA, Nat.add_zero, List.append_assoc] at this ⊢
  rw [this]
  exact load32_store32 0xffffffff _ (by norm_num)

/-- C26, amended: after `soundfile_finishwrite` with `nframes = 0x7fffffff` and
`itemswritten = 6400` the four bytes at offset 8 of the NeXT file that `create_soundfile`
started are `ff ff ff ff`, the length `0xffffffff` in either byte order, for every number
of channels, and the rest of the file is as it was. -/
theorem C26_next_length_amended (big : Bool) (bps channels : Int) (sr : ℚ)
    (payload : List Byte) (pos : Nat) (e : Int) :
    ∃ A R : List Byte, A.length = 8 ∧
      (create_soundfile FORMAT_NEXT 0 bps (if big then 1 else 0) channels big sr).1 ++ payload
        = A ++ [0, 0, 0, 0] ++ R ∧
      (soundfile_finishwrite FORMAT_NEXT 0x7fffffff 6400 (toInt32 (channels * bps)) big
        { data := (create_soundfile FORMAT_NEXT 0 bps (if big then 1 else 0) channels big sr).1
            ++ payload, pos := pos, errno := e }).1.data = A ++ [255, 255, 255, 255] ++ R ∧
      field32 big (soundfile_finishwrite FORMAT_NEXT 0x7fffffff 6400 (toInt32 (channels * bps))
        big
        { data := (create_soundfile FORMAT_NEXT 0 bps (if big then 1 else 0) channels big sr).1
            ++ payload, pos := pos, errno := e }).1.data 8 = 0xffffffff := by
  obtain ⟨A, R, hA, h⟩ := next_header_shape big 0 bps channels sr
  have hfin := finish_next 0x7fffffff 6400 (toInt32 (channels * bps)) big A (store32 0)
    (R ++ payload) pos e (by norm_num) hA rfl
  refine ⟨A, R ++ payload, hA, ?_, ?_, ?_⟩
  · rw [h]; simp [store32]
  · rw [h]; simpa [List.append_assoc] using hfin
  · rw [h]
    have h2 : A ++ store32 0 ++ R ++ payload = A ++ store32 0 ++ (R ++ payload) := by simp
    rw [h2, hfin]
    cases big
    · have := load32_append A ([255, 255, 255, 255] ++ (R ++ payload)) 0
      simp only [hA, Nat.add_zero, List.append_assoc] at this ⊢
      simp only [field32, Bool.false_eq_true, if_false]
      rw [this]
      exact load32_store32 0xffffffff _ (by norm_num)
    · have := be32_append A ([255, 255, 255, 255] ++ (R ++ payload)) 0
      simp only [hA, Nat.add_zero, List.append_assoc] at this ⊢
      simp only [field32, if_true]
      rw [this]
      exact be32_store32be 0xffffffff _ (by norm_num)

/-! ### Writing tables to a file -/

/-- C21: the message `write -skip 2 f.wav a` with the table `a = 0, 1/2, 1/4, 1/8`.  The
routine returns 2, the number of frames the claim gives.  Where a word takes two floats
(`sizeof(t_word)/sizeof(t_sample) = 2`, as on x86-64) the two frames written are
`00 40 00 20`, the elements 1 and 2 of the table, while the elements 2 and 3 that the
claim names encode as `00 20 00 10`; these are what is written where a word takes one
float.  With `-skip 4` nothing is left, 0 is returned and no file is created. -/
theorem C21_frame_clipping :
    (soundfiler_dowrite (dowrite_rest (one_table 2 [0, 1 / 2, 1 / 4, 1 / 8]))
        ['f', 'l', 'o', 'a', 't'] write_locals write_info
        [Atom.symbol ['-', 's', 'k', 'i', 'p'], Atom.float 2,
          Atom.symbol ['f', '.', 'w', 'a', 'v'], Atom.symbol ['a']]).ret = 2 ∧
    (soundfiler_dowrite (dowrite_rest (one_table 2 [0, 1 / 2, 1 / 4, 1 / 8]))
        ['f', 'l', 'o', 'a', 't'] write_locals write_info
        [Atom.symbol ['-', 's', 'k', 'i', 'p'], Atom.float 2,
          Atom.symbol ['f', '.', 'w', 'a', 'v'], Atom.symbol ['a']]).file.drop 44
      = [0, 64, 0, 32] ∧
    xferout_bytes (1 / 2) 2 0 1 (fun _ => 0) ++ xferout_bytes (1 / 4) 2 0 1 (fun _ => 0)
      = [0, 64, 0, 32] ∧
    xferout_bytes (1 / 4) 2 0 1 (fun _ => 0) ++ xferout_bytes (1 / 8) 2 0 1 (fun _ => 0)
      = [0, 32, 0, 16] ∧
    (soundfiler_dowrite (dowrite_rest (one_table 1 [0, 1 / 2, 1 / 4, 1 / 8]))
        ['f', 'l', 'o', 'a', 't'] write_locals write_info
        [Atom.symbol ['-', 's', 'k', 'i', 'p'], Atom.float 2,
          Atom.symbol ['f', '.', 'w', 'a', 'v'], Atom.symbol ['a']]).file.drop 44
      = [0, 32, 0, 16] ∧
    (soundfiler_dowrite (dowrite_rest (one_table 2 [0, 1 / 2, 1 / 4, 1 / 8]))
        ['f', 'l', 'o', 'a', 't'] write_locals write_info
        [Atom.symbol ['-', 's', 'k', 'i', 'p'], Atom.float 4,
          Atom.symbol ['f', '.', 'w', 'a', 'v'], Atom.symbol ['a']]).ret = 0 ∧
    (soundfiler_dowrite (dowrite_rest (one_table 2 [0, 1 / 2, 1 / 4, 1 / 8]))
        ['f', 'l', 'o', 'a', 't'] write_locals write_info
        [Atom.symbol ['-', 's', 'k', 'i', 'p'], Atom.float 4,
          Atom.symbol ['f', '.', 'w', 'a', 'v'], Atom.symbol ['a']]).created = false := by
  decide!

/-- C22 (normalisation) as the claim states it fails: a table whose only sample is the
`float` nearest to 1.3, written at 16 bits.  The peak is that sample, the factor stored
in `normfactor` is not the quotient `32767 / (32768 * peak)` but the `float` nearest to
it, and the sample is encoded as 32766 (bytes FE 7F), not as 32767. -/
theorem C22_normalisation_counterexample :
    dowrite_biggest [[5452595 / 4194304]] 0 1 = 5452595 / 4194304 ∧
    dowrite_normfactor 0 2 (5452595 / 4194304) ≠ 32767 / (32768 * (5452595 / 4194304)) ∧
    xferout_int 32768 (5452595 / 4194304) (dowrite_normfactor 0 2 (5452595 / 4194304) * 32768)
      = 32766 ∧
    (soundfiler_dowrite (dowrite_rest (one_table 2 [5452595 / 4194304]))
      ['f', 'l', 'o', 'a', 't'] write_locals write_info
      [Atom.symbol ['f', '.', 'w', 'a', 'v'], Atom.symbol ['a']]).file.drop 44
      = [0xfe, 0x7f] := by
  decide!

/-- C22 (normalisation), amended.  In `soundfiler_dowrite`, for at least one table and
one frame, the value `peak` found by the search for the biggest sample is the largest
absolute value among the frames `onset`, ..., `onset + nframes - 1` of the tables.  When
`peak > 0` and either `normalize` was set or fewer than 4 bytes per sample are written
and `peak > 1`, `normfactor` is the quotient `32767 / (32768 * peak)` computed in
`double` and rounded to `float`, within the relative error `2^-23` of the quotient;
otherwise it is 1 (for at most 4 bytes per sample, as the parser delivers).  With that
factor a sample of magnitude `peak` is encoded at 16 bits as 32766 or 32767 when it is
positive, which is its value before the two clipping tests, and as -32767 when it is
negative, where the value before the clipping tests is -32767 or -32768.  The rounding
is the one of the hardware for a peak from `2^-100` to `2^100`, where no `float`
overflows or underflows. -/
theorem C22_normalisation_amended (vecs : List (List ℚ))
    (onset nframes normalize bps bigendian : Int) (bits : ℚ → Nat) (hch : 1 ≤ vecs.length)
    (hn : 1 ≤ nframes) (hbps : bps ≤ 4) :
    (∀ i j, i < vecs.length → j < nframes.toNat →
      |(vecs.getD i []).getD (onset.toNat + j) 0| ≤ dowrite_biggest vecs onset nframes) ∧
    (∃ i j, i < vecs.length ∧ j < nframes.toNat ∧
      |(vecs.getD i []).getD (onset.toNat + j) 0| = dowrite_biggest vecs onset nframes) ∧
    (((normalize ≠ 0 ∨ (bps < 4 ∧ dowrite_biggest vecs onset nframes > 1)) ∧
        dowrite_biggest vecs onset nframes > 0) →
      (1 / 2 ^ 100 ≤ dowrite_biggest vecs onset nframes ∧
        dowrite_biggest vecs onset nframes ≤ 2 ^ 100) →
      dowrite_normfactor normalize bps (dowrite_biggest vecs onset nframes)
        = to_float (to_double (32767 / to_double (32768 * dowrite_biggest vecs onset nframes))) ∧
      |dowrite_normfactor normalize bps (dowrite_biggest vecs onset nframes)
          - 32767 / (32768 * dowrite_biggest vecs onset nframes)|
        ≤ 32767 / (32768 * dowrite_biggest vecs onset nframes) / 2 ^ 23) ∧
    (¬ ((normalize ≠ 0 ∨ (bps < 4 ∧ dowrite_biggest vecs onset nframes > 1)) ∧
        dowrite_biggest vecs onset nframes > 0) →
      dowrite_normfactor normalize bps (dowrite_biggest vecs onset nframes) = 1) ∧
    (∀ x : ℚ, 0 < dowrite_biggest vecs onset nframes →
      (1 / 2 ^ 100 ≤ dowrite_biggest vecs onset nframes ∧
        dowrite_biggest vecs onset nframes ≤ 2 ^ 100) →
      |x| = dowrite_biggest vecs onset nframes →
      (0 < x →
        (toInt32 (d2i (32768 + to_float (x * (to_float (to_double
            (32767 / to_double (32768 * dowrite_biggest vecs onset nframes))) * 32768)))
            - 32768) = 32766 ∨
          toInt32 (d2i (32768 + to_float (x * (to_float (to_double
            (32767 / to_double (32768 * dowrite_biggest vecs onset nframes))) * 32768)))
            - 32768) = 32767) ∧
        xferout_int 32768 x (to_float (to_double
            (32767 / to_double (32768 * dowrite_biggest vecs onset nframes))) * 32768)
          = toInt32 (d2i (32768 + to_float (x * (to_float (to_double
            (32767 / to_double (32768 * dowrite_biggest vecs onset nframes))) * 32768)))
            - 32768) ∧
        xferout_bytes x 2 bigendian (to_float (to_double
            (32767 / to_double (32768 * dowrite_biggest vecs onset nframes)))) bits
          = bytesOfInt 2 (decide (bigendian ≠ 0))
              (toInt32 (d2i (32768 + to_float (x * (to_float (to_double
                (32767 / to_double (32768 * dowrite_biggest vecs onset nframes))) * 32768)))
                - 32768))) ∧
      (x < 0 →
        (toInt32 (d2i (32768 + to_float (x * (to_float (to_double
            (32767 / to_double (32768 * dowrite_biggest vecs onset nframes))) * 32768)))
            - 32768) = -32767 ∨
          toInt32 (d2i (32768 + to_float (x * (to_float (to_double
            (32767 / to_double (32768 * dowrite_biggest vecs onset nframes))) * 32768)))
            - 32768) = -32768) ∧
        xferout_int 32768 x (to_float (to_double
            (32767 / to_double (32768 * dowrite_biggest vecs onset nframes))) * 32768)
          = -32767 ∧
        xferout_bytes x 2 bigendian (to_float (to_double
            (32767 / to_double (32768 * dowrite_biggest vecs onset nframes)))) bits
          = bytesOfInt 2 (decide (bigendian ≠ 0)) (-32767))) := by
  obtain ⟨b0, b1, b2⟩ := dowrite_biggest_spec vecs onset nframes
  generalize dowrite_biggest vecs onset nframes = peak at b0 b1 b2 ⊢
  have hn2 : 0 < nframes.toNat := by omega
  have p15 : (2 : ℚ) ^ (8 * 2 - 1) = 32768 := by norm_num
  have q15 : (2 : Int) ^ (8 * 2 - 1) = 32768 := by norm_num
  refine ⟨b1, ?_, ?_, ?_, ?_⟩
  · rcases b2 with h | h
    · refine ⟨0, 0, by omega, hn2, ?_⟩
      have := b1 0 0 (by omega) hn2
      rw [h] at this ⊢
      exact le_antisymm this (abs_nonneg _)
    · exact h
  · rintro ⟨hc, hp⟩ -
    have hnf : dowrite_normfactor normalize bps peak
        = to_float (to_double (32767 / to_double (32768 * peak))) := by
      unfold dowrite_normfactor
      have h4 : bps < 4 ↔ bps ≠ 4 := by omega
      rcases hc with hc | hc
      · simp [hc, hp]
      · have hc2 : bps ≠ 4 ∧ peak > 1 := ⟨h4.mp hc.1, hc.2⟩
        by_cases hz : normalize = 0
        · simp [hz, hc2, hp]
        · simp [hz, hp]
    refine ⟨hnf, ?_⟩
    rw [hnf]
    exact (normfactor_bounds peak hp).2.1
  · intro hc
    unfold dowrite_normfactor
    have h4 : bps < 4 ↔ bps ≠ 4 := by omega
    by_cases hp : peak > 0
    · have hc1 : ¬ (normalize ≠ 0 ∨ (bps < 4 ∧ peak > 1)) := fun h => hc ⟨h, hp⟩
      push_neg at hc1
      obtain ⟨hz, hb⟩ := hc1
      have hb2 : ¬ (bps ≠ 4 ∧ peak > 1) := by
        rintro ⟨h1, h2⟩
        exact absurd h2 (not_lt.mpr (hb (h4.mpr h1)))
      simp [hz, hb2]
    · have hp1 : ¬ (peak > 1) := fun h => hp (by linarith)
      by_cases hz : normalize = 0
      · simp [hz, hp1]
      · simp [hz, hp]
  · intro x hp _ hx
    obtain ⟨n1, n2⟩ := normalised_peak_float x peak hp hx
    have hby := xferout_bytes_eq x 2 bigendian
      (to_float (to_double (32767 / to_double (32768 * peak)))) bits (Or.inl rfl)
    rw [p15, q15] at hby
    simp only [Nat.cast_ofNat] at hby
    constructor
    · intro h
      obtain ⟨m1, m2⟩ := n1 h
      refine ⟨m1, m2, ?_⟩
      rw [hby, m2]
    · intro h
      obtain ⟨m1, m2⟩ := n2 h
      refine ⟨m1, m2, ?_⟩
      rw [hby, m2]

/-- The table `1/2, -2` at 16 bits: the peak 2 is above 1, so the factor is the rounded
quotient `32767/65536`, and the sample -2 is encoded as -32767. -/
theorem C22_normalisation_amended_witness :
    dowrite_normfactor 0 2 (dowrite_biggest [[1 / 2, -2]] 0 2)
      = to_float (to_double (32767 / to_double (32768 * dowrite_biggest [[1 / 2, -2]] 0 2))) ∧
    xferout_int 32768 (-2) (to_float (to_double
        (32767 / to_double (32768 * dowrite_biggest [[1 / 2, -2]] 0 2))) * 32768)
      = -32767 :=
  ⟨((C22_normalisation_amended [[1 / 2, -2]] 0 2 0 2 0 (fun _ => 0) (by decide) (by decide)
      (by decide)).2.2.1 (by decide!) (by decide!)).1,
   ((C22_normalisation_amended [[1 / 2, -2]] 0 2 0 2 0 (fun _ => 0) (by decide) (by decide)
      (by decide)).2.2.2.2 (-2) (by decide!) (by decide!) (by decide!)).2 (by norm_num) |>.2.1⟩

/-! ### Reading a file into tables -/

/-- C23: when `soundfiler_read`, entered with `resize` set (by `-resize` or `-maxsize`),
gets as far as reading the samples, every table named has the same number of words: the
smallest of the bytes that are left in the file behind the place where
`open_soundfile_via_canvas` stopped (after header and skip) divided by
`channels * bytespersample`, of `maxsize`, and of the byte limit divided by
`channels * bytespersample`, in C's arithmetic. -/
theorem C23_resize_length (env : ReadEnv) (fuel : Nat) (file : Option Sys) (fd : Int)
    (info : SoundfileInfo) (resize skipframes maxsize : Int) (av : List Atom)
    (res : ReadResult)
    (hres : soundfiler_read_rest env fuel file fd info resize skipframes maxsize av = some res)
    (hok : res.ok = true) (hresize : resize ≠ 0) :
    ∃ r, open_soundfile fuel file fd info skipframes = some r ∧
      res.sizes.length = av.length ∧
      ∀ v ∈ res.sizes,
        v = min (min (Int.tdiv ((r.sys.data.length : Int) - r.sys.pos)
                  (toInt32 (r.info.channels * r.info.bytespersample))) maxsize)
              (Int.tdiv r.info.bytelimit (toInt32 (r.info.channels * r.info.bytespersample))) := by
  unfold soundfiler_read_rest at hres
  cases ht : read_tables env av 0 resize with
  | done =>
    rw [ht] at hres
    simp only [Option.some.injEq] at hres
    subst hres
    simp at hok
  | ok names sizes finalsize resize2 =>
    rw [ht] at hres
    simp only at hres
    obtain ⟨hnames, hr2⟩ := read_tables_names env av 0 resize names sizes finalsize resize2 ht
    have hr2 := hr2 hresize
    cases ho : open_soundfile fuel file fd info skipframes with
    | none => rw [ho] at hres; simp at hres
    | some r =>
      rw [ho] at hres
      simp only at hres
      refine ⟨r, rfl, ?_⟩
      by_cases hret : r.ret < 0
      · rw [if_pos hret] at hres
        simp only [Option.some.injEq] at hres
        subst hres
        simp at hok
      · rw [if_neg hret] at hres
        by_cases hfs : toInt32 (r.info.channels * r.info.bytespersample) = 0
        · rw [if_pos hfs] at hres; simp at hres
        · rw [if_neg hfs, if_pos hr2] at hres
          by_cases hseek : (r.sys.pos : Int) < 0 ∨ (r.sys.data.length : Int) < 0 ∨
              (r.sys.data.length : Int) < r.sys.pos
          · rw [if_pos hseek] at hres
            simp only [Option.some.injEq] at hres
            subst hres
            simp at hok
          · rw [if_neg hseek] at hres
            generalize hF : (if (if Int.tdiv ((r.sys.data.length : Int) - r.sys.pos)
                  (toInt32 (r.info.channels * r.info.bytespersample)) > maxsize then maxsize
                else Int.tdiv ((r.sys.data.length : Int) - r.sys.pos)
                  (toInt32 (r.info.channels * r.info.bytespersample))) >
                Int.tdiv r.info.bytelimit (toInt32 (r.info.channels * r.info.bytespersample))
              then Int.tdiv r.info.bytelimit (toInt32 (r.info.channels * r.info.bytespersample))
              else (if Int.tdiv ((r.sys.data.length : Int) - r.sys.pos)
                  (toInt32 (r.info.channels * r.info.bytespersample)) > maxsize then maxsize
                else Int.tdiv ((r.sys.data.length : Int) - r.sys.pos)
                  (toInt32 (r.info.channels * r.info.bytespersample)))) = F at hres
            have hFmin : F = min (min (Int.tdiv ((r.sys.data.length : Int) - r.sys.pos)
                  (toInt32 (r.info.channels * r.info.bytespersample))) maxsize)
                (Int.tdiv r.info.bytelimit
                  (toInt32 (r.info.channels * r.info.bytespersample))) := by
              rw [← hF]
              simp only [min_def]
              split_ifs <;> omega
            cases hrs : read_resize env F F names with
            | none =>
              rw [hrs] at hres
              simp only [Option.map_none', Option.some.injEq] at hres
              subst hres
              simp at hok
            | some l =>
              rw [hrs] at hres
              simp only [Option.map_some', Option.some.injEq] at hres
              subst hres
              obtain ⟨h1, h2⟩ := read_resize_sizes env F F names l hrs
              refine ⟨by simp only; rw [h1, hnames], ?_⟩
              intro v hv
              rw [← hFmin]
              exact h2 v hv

theorem C23_resize_length_witness :
    ∃ r, open_soundfile 5
        (some { data := (create_soundfile FORMAT_NEXT 0 2 0 2 false 44100).1
                  ++ List.replicate 22 7, pos := 0, errno := 0 }) 3 write_info 1 = some r ∧
      [(4 : Int), 4].length
        = [Atom.symbol ['a'], Atom.symbol ['b']].length ∧
      ∀ v ∈ [(4 : Int), 4],
        v = min (min (Int.tdiv ((r.sys.data.length : Int) - r.sys.pos)
                  (toInt32 (r.info.channels * r.info.bytespersample))) 1000)
              (Int.tdiv r.info.bytelimit (toInt32 (r.info.channels * r.info.bytespersample))) :=
  C23_resize_length
    { tables := fun n => if n = ['a'] then some 3 else if n = ['b'] then some 100 else none,
      resized := fun _ n => some (if n < 1 then 1 else n) } 5
    (some { data := (create_soundfile FORMAT_NEXT 0 2 0 2 false 44100).1
              ++ List.replicate 22 7, pos := 0, errno := 0 }) 3 write_info 1 1 1000
    [Atom.symbol ['a'], Atom.symbol ['b']]
    { ok := true,
      info := { samplerate := 44100, channels := 2, bytespersample := 2, headersize := 28,
                bigendian := 0, bytelimit := 0x7fffffff - 4 },
      sizes := [4, 4], finalsize := 4 } (by decide!) rfl (by decide)

/-! ### The streaming objects -/

/-- C27, as stated, fails: `readsf_open` without a file name (the empty symbol) returns
at once; on a new object the state stays Idle and no request is made. -/
theorem C27_lifecycle_counterexample :
    (readsf_open (readsf_new pd_new_record 1 0) [] 0 0 0 0 []).1.x_state = STATE_IDLE ∧
    (readsf_open (readsf_new pd_new_record 1 0) [] 0 0 0 0 []).1.x_state ≠ STATE_STARTUP ∧
    (readsf_open (readsf_new pd_new_record 1 0) [] 0 0 0 0 []).1.x_requestcode
      = REQUEST_NOTHING := by
  decide

/-- C27, amended: a streaming object is created Idle; an `open` that is taken up
(`readsf_open` with a file name that is not empty; `writesf_open` once the arguments are
parsed and the child is idle) sets the state Startup, the request `REQUEST_OPEN` and
head = tail = 0; `start` makes the state Stream when it is Startup and leaves it alone
otherwise; `stop` sets the state Idle and the request `REQUEST_CLOSE`.  Hence in every
run of either object a step that enters Stream is a `start` taken in Startup, and among
the events before it there is an `open` that was taken up with no `stop` after it. -/
theorem C27_lifecycle_amended :
    (∀ (x : Readsf) (a b : ℚ), (readsf_new x a b).x_state = STATE_IDLE ∧
      (writesf_new x a b).x_state = STATE_IDLE) ∧
    (∀ (x : Readsf) (filesym : List Char) (o h c b : ℚ) (e : List Char), filesym ≠ [] →
      (readsf_open x filesym o h c b e).1.x_state = STATE_STARTUP ∧
      (readsf_open x filesym o h c b e).1.x_requestcode = REQUEST_OPEN ∧
      (readsf_open x filesym o h c b e).1.x_fifohead = 0 ∧
      (readsf_open x filesym o h c b e).1.x_fifotail = 0) ∧
    (∀ (sr : ℚ) (x : Readsf) (w : WriteArgs) (y : Readsf), writesf_open_set sr x w = some y →
      y.x_state = STATE_STARTUP ∧ y.x_requestcode = REQUEST_OPEN ∧ y.x_fifohead = 0 ∧
      y.x_fifotail = 0) ∧
    (∀ x : Readsf,
      (x.x_state = STATE_STARTUP → (readsf_start x).1.x_state = STATE_STREAM ∧
        (writesf_start x).1.x_state = STATE_STREAM) ∧
      (x.x_state ≠ STATE_STARTUP → (readsf_start x).1 = x ∧ (writesf_start x).1 = x)) ∧
    (∀ x : Readsf,
      (readsf_stop x).x_state = STATE_IDLE ∧ (readsf_stop x).x_requestcode = REQUEST_CLOSE ∧
      (writesf_stop x).x_state = STATE_IDLE ∧ (writesf_stop x).x_requestcode = REQUEST_CLOSE) ∧
    (∀ (P : Readsf → Prop) (tr : List Ev) (m : ReadMachine) (e : Ev) (m2 : ReadMachine),
      ReadRun P tr m → ReadStep m e m2 → m.x.x_state ≠ STATE_STREAM →
      m2.x.x_state = STATE_STREAM →
      e = Ev.start ∧ m.x.x_state = STATE_STARTUP ∧ OpenPending tr) ∧
    (∀ (P : Readsf → Prop) (tr : List Ev) (m : WriteMachine) (e : Ev) (m2 : WriteMachine),
      WriteRun P tr m → WriteStep m e m2 → m.x.x_state ≠ STATE_STREAM →
      m2.x.x_state = STATE_STREAM →
      e = Ev.start ∧ m.x.x_state = STATE_STARTUP ∧ OpenPending tr) := by
  refine ⟨fun x a b => ⟨rfl, rfl⟩, ?_, ?_, ?_, fun x => ⟨rfl, rfl, rfl, rfl⟩, ?_, ?_⟩
  · intro x filesym o h c b e hf
    simp [readsf_open, hf]
  · intro sr x w y hy
    unfold writesf_open_set at hy
    simp only [] at hy
    split_ifs at hy <;>
      (simp only [Option.some.injEq] at hy; subst hy; exact ⟨rfl, rfl, rfl, rfl⟩)
  · intro x
    constructor
    · intro hs
      simp [readsf_start, writesf_start, hs]
    · intro hs
      simp [readsf_start, writesf_start, hs]
  · intro P tr m e m2 hrun hstep h1 h2
    obtain ⟨a, b⟩ := lifeStep_stream _ e _ (readStep_life m e m2 hstep) h1 h2
    exact ⟨a, b, readRun_pending P tr m hrun b⟩
  · intro P tr m e m2 hrun hstep h1 h2
    obtain ⟨a, b⟩ := lifeStep_stream _ e _ (writeStep_life m e m2 hstep) h1 h2
    exact ⟨a, b, writeRun_pending P tr m hrun b⟩

theorem C27_lifecycle_amended_witness :
    Ev.start = Ev.start ∧
    ({ x := (readsf_open (readsf_new pd_new_record 1 0) ['f'] 0 0 0 0 []).1,
       pc := ReadPC.top } : ReadMachine).x.x_state = STATE_STARTUP ∧
    OpenPending ([] ++ [if (['f'] : List Char) = [] then Ev.other else Ev.opened]) :=
  C27_lifecycle_amended.2.2.2.2.2.1 (fun _ => True)
    ([] ++ [if (['f'] : List Char) = [] then Ev.other else Ev.opened])
    { x := (readsf_open (readsf_new pd_new_record 1 0) ['f'] 0 0 0 0 []).1, pc := ReadPC.top }
    Ev.start
    { x := (readsf_start (readsf_open (readsf_new pd_new_record 1 0) ['f'] 0 0 0 0 []).1).1,
      pc := ReadPC.top }
    (ReadRun.step [] { x := readsf_new pd_new_record 1 0, pc := ReadPC.top } _ _
      (ReadRun.new pd_new_record 1 0) trivial
      (ReadStep.open { x := readsf_new pd_new_record 1 0, pc := ReadPC.top } ['f'] 0 0 0 0 []))
    (ReadStep.start _) (by decide) (by decide)

/-- C28: `readsf_open` with a file name, for arguments in the range of the integer types.
The child thread takes the request up with the record `readsf_info` and the onset of the
instance.  In that record the header size is -1 for `headerbytes = 0`, so the parser
detects the format; it is `headerbytes` cut to an integer, at least 0, for a positive
`headerbytes`, and 0 for a negative one, and in both cases the parser takes the override
path, whatever the file holds.  The onset is at least 0, the channel count at least 1 and
the sample size at least 2 bytes. -/
theorem C28_open_arguments (x : Readsf) (filesym : List Char)
    (onsetframes headerbytes channels bytespersamp : ℚ) (endian : List Char) (inp : ReadInput)
    (hname : filesym ≠ []) (ho : onsetframes < 2 ^ 63) (hh : headerbytes < 2 ^ 31)
    (hc : channels < 2 ^ 31) (hb : bytespersamp < 2 ^ 31) :
    ((readsf_child_main
        { x := (readsf_open x filesym onsetframes headerbytes channels bytespersamp endian).1,
          pc := ReadPC.top } inp).pc
      = ReadPC.opening
          (readsf_info
            (readsf_open x filesym onsetframes headerbytes channels bytespersamp endian).1)
          (readsf_open x filesym onsetframes headerbytes channels bytespersamp endian).1.x_onsetframes
      ∨
     (readsf_child_main
        { x := (readsf_open x filesym onsetframes headerbytes channels bytespersamp endian).1,
          pc := ReadPC.top } inp).pc
      = ReadPC.closing
          (readsf_info
            (readsf_open x filesym onsetframes headerbytes channels bytespersamp endian).1)
          (readsf_open x filesym onsetframes headerbytes channels bytespersamp endian).1.x_onsetframes)
    ∧
    (headerbytes = 0 →
      (readsf_info
        (readsf_open x filesym onsetframes headerbytes channels bytespersamp endian).1).headersize
        = -1) ∧
    (0 < headerbytes →
      (readsf_info
        (readsf_open x filesym onsetframes headerbytes channels bytespersamp endian).1).headersize
        = ⌊headerbytes⌋ ∧ (0 : Int) ≤ ⌊headerbytes⌋) ∧
    (headerbytes < 0 →
      (readsf_info
        (readsf_open x filesym onsetframes headerbytes channels bytespersamp endian).1).headersize
        = 0) ∧
    (headerbytes ≠ 0 → ∀ (fuel : Nat) (fd : Int) (s : Sys) (skipframes : Int),
      open_soundfile_via_fd fuel fd s
          (readsf_info
            (readsf_open x filesym onsetframes headerbytes channels bytespersamp endian).1)
          skipframes
        = some (seek_past_header fd
            (readsf_info
              (readsf_open x filesym onsetframes headerbytes channels bytespersamp endian).1)
            skipframes
            (d2i (if headerbytes > 0 then headerbytes else 0))
            (readsf_open x filesym onsetframes headerbytes channels bytespersamp endian).1.x_bigendian
            (readsf_open x filesym onsetframes headerbytes channels bytespersamp endian).1.x_sfchannels
            (readsf_open x filesym onsetframes headerbytes channels bytespersamp
              endian).1.x_bytespersample
            (d2i x.x_samplerate) (d2i x.x_samplerate) { s with errno := 0 })) ∧
    0 ≤ (readsf_open x filesym onsetframes headerbytes channels bytespersamp endian).1.x_onsetframes ∧
    1 ≤ (readsf_open x filesym onsetframes headerbytes channels bytespersamp endian).1.x_sfchannels ∧
    2 ≤ (readsf_open x filesym onsetframes headerbytes channels bytespersamp
          endian).1.x_bytespersample := by
  have hopen : (readsf_open x filesym onsetframes headerbytes channels bytespersamp endian).1 =
      { x with
        x_requestcode := REQUEST_OPEN, x_filename := filesym, x_fifotail := 0,
        x_fifohead := 0,
        x_bigendian :=
          if endian.head? = some 'b' then 1
          else if endian.head? = some 'l' then 0
          else if endian ≠ [] then x.x_bigendian
          else garray_ambigendian,
        x_onsetframes := d2l (if onsetframes > 0 then onsetframes else 0),
        x_skipheaderbytes :=
          d2i (if headerbytes > 0 then headerbytes else (if headerbytes = 0 then -1 else 0)),
        x_sfchannels := d2i (if channels ≥ 1 then channels else 1),
        x_bytespersample := d2i (if bytespersamp > 2 then bytespersamp else 2),
        x_eof := 0, x_fileerror := 0, x_state := STATE_STARTUP } := by
    unfold readsf_open
    rw [if_neg hname]
  rw [hopen]
  have hneg1 : d2i (-1) = -1 := by decide!
  have hzero : d2i 0 = 0 := by decide!
  refine ⟨?_, ?_, ?_, ?_, ?_, ?_, ?_, ?_⟩
  · simp only [readsf_child_main, REQUEST_OPEN, REQUEST_NOTHING]
    by_cases hfd : x.x_fd ≥ 0
    · right
      simp [hfd, readsf_info]
    · left
      simp [hfd, readsf_info]
  · intro h0
    simp only [readsf_info, h0, lt_irrefl, gt_iff_lt, if_false, if_true]
    exact hneg1
  · intro hp
    have hfl : (0 : Int) ≤ ⌊headerbytes⌋ := Int.floor_nonneg.mpr (le_of_lt hp)
    refine ⟨?_, hfl⟩
    simp only [readsf_info, gt_iff_lt, hp, if_true]
    exact d2i_floor headerbytes (le_of_lt hp) hh
  · intro hn
    have h1 : ¬ (headerbytes > 0) := by
      intro h; linarith
    have h2 : ¬ (headerbytes = 0) := ne_of_lt hn
    simp only [readsf_info, h1, h2, if_false]
    exact hzero
  · intro hne fuel fd s skipframes
    have hsz : (0 : Int) ≤ d2i (if headerbytes > 0 then headerbytes
        else (if headerbytes = 0 then -1 else 0)) ∧
        d2i (if headerbytes > 0 then headerbytes else (if headerbytes = 0 then -1 else 0))
          = d2i (if headerbytes > 0 then headerbytes else 0) := by
      by_cases hp : headerbytes > 0
      · simp only [hp, if_true]
        rw [d2i_floor headerbytes (le_of_lt hp) hh]
        exact ⟨Int.floor_nonneg.mpr (le_of_lt hp), trivial⟩
      · simp only [hp, hne, if_false]
        rw [hzero]
        exact ⟨le_refl _, trivial⟩
    unfold open_soundfile_via_fd
    simp only [readsf_info]
    rw [if_pos hsz.1, hsz.2]
  · show 0 ≤ d2l (if onsetframes > 0 then onsetframes else 0)
    by_cases hp : onsetframes > 0
    · rw [if_pos hp, d2l_floor onsetframes (le_of_lt hp) ho]
      exact Int.floor_nonneg.mpr (le_of_lt hp)
    · rw [if_neg hp]
      decide!
  · show 1 ≤ d2i (if channels ≥ 1 then channels else 1)
    by_cases hp : channels ≥ 1
    · rw [if_pos hp, d2i_floor channels (le_trans (by norm_num) hp) hc]
      rw [Int.le_floor]; push_cast; exact hp
    · rw [if_neg hp]
      decide!
  · show 2 ≤ d2i (if bytespersamp > 2 then bytespersamp else 2)
    by_cases hp : bytespersamp > 2
    · rw [if_pos hp, d2i_floor bytespersamp (le_trans (by norm_num) (le_of_lt hp)) hb]
      rw [Int.le_floor]; push_cast; exact le_of_lt hp
    · rw [if_neg hp]
      decide!

theorem C28_open_arguments_witness :
    (readsf_info (readsf_open (readsf_new pd_new_record 1 0) ['f'] (-3) (-1) 0 1 []).1).headersize
      = 0 ∧
    0 ≤ (readsf_open (readsf_new pd_new_record 1 0) ['f'] (-3) (-1) 0 1 []).1.x_onsetframes ∧
    1 ≤ (readsf_open (readsf_new pd_new_record 1 0) ['f'] (-3) (-1) 0 1 []).1.x_sfchannels ∧
    2 ≤ (readsf_open (readsf_new pd_new_record 1 0) ['f'] (-3) (-1) 0 1 []).1.x_bytespersample :=
  ⟨(C28_open_arguments (readsf_new pd_new_record 1 0) ['f'] (-3) (-1) 0 1 []
      { opened := { ret := 0, info := write_info, sys := { data := [], pos := 0, errno := 0 } },
        sysrtn := 0, errno := 0 }
      (by decide) (by norm_num) (by norm_num) (by norm_num) (by norm_num)).2.2.2.1
      (by norm_num),
   (C28_open_arguments (readsf_new pd_new_record 1 0) ['f'] (-3) (-1) 0 1 []
      { opened := { ret := 0, info := write_info, sys := { data := [], pos := 0, errno := 0 } },
        sysrtn := 0, errno := 0 }
      (by decide) (by norm_num) (by norm_num) (by norm_num) (by norm_num)).2.2.2.2.2⟩

/-- C29, as stated, fails: after `readsf_new` and an `open` with a file name the child
thread has not yet set the size of the FIFO; `x_fifosize` is still 0 and the head, 0, is
not below it. -/
theorem C29_cursor_range_counterexample :
    ReadRun BlockSane [Ev.opened]
      { x := (readsf_open (readsf_new pd_new_record 1 0) ['f'] 0 0 0 0 []).1,
        pc := ReadPC.top } ∧
    (readsf_open (readsf_new pd_new_record 1 0) ['f'] 0 0 0 0 []).1.x_fifohead = 0 ∧
    (readsf_open (readsf_new pd_new_record 1 0) ['f'] 0 0 0 0 []).1.x_fifosize = 0 ∧
    ¬ (0 ≤ (readsf_open (readsf_new pd_new_record 1 0) ['f'] 0 0 0 0 []).1.x_fifohead ∧
       (readsf_open (readsf_new pd_new_record 1 0) ['f'] 0 0 0 0 []).1.x_fifohead
        < (readsf_open (readsf_new pd_new_record 1 0) ['f'] 0 0 0 0 []).1.x_fifosize) := by
  refine ⟨?_, by decide, by decide, by decide⟩
  exact ReadRun.step [] { x := readsf_new pd_new_record 1 0, pc := ReadPC.top } _ _
    (ReadRun.new pd_new_record 1 0) (by unfold BlockSane; decide!)
    (ReadStep.open { x := readsf_new pd_new_record 1 0, pc := ReadPC.top } ['f'] 0 0 0 0 [])

/-- C29, amended: in every state that a `readsf~` or a `writesf~` object reaches from its
creation through methods and steps of the child thread, taken from states in which the
block of one tick has a sane size, head and tail are at least 0, they are below
`x_fifosize` whenever that is positive, and both are 0 as long as `x_fifosize` is 0 (from
the creation until the FIFO is sized). -/
theorem C29_cursor_range_amended :
    (∀ (tr : List Ev) (m : ReadMachine), ReadRun BlockSane tr m → CursorsOK m.x) ∧
    (∀ (tr : List Ev) (m : WriteMachine), WriteRun BlockSane tr m → CursorsOK m.x) := by
  constructor
  · intro tr m h
    obtain ⟨_, hf, hh, ht, _, _⟩ := readRun_inv tr m h
    exact cursors_of_inv m.x hf.1 hh ht
  · intro tr m h
    obtain ⟨_, hf, hh, ht, _⟩ := writeRun_inv tr m h
    exact cursors_of_inv m.x hf.1 hh ht

theorem C29_cursor_range_amended_witness :
    CursorsOK
      (readsf_child_main
        (readsf_child_main
          { x := (readsf_open (readsf_new pd_new_record 1 0) ['f'] 0 0 0 0 []).1,
            pc := ReadPC.top } small_next_input) small_next_input).x :=
  C29_cursor_range_amended.1 _ _
    (ReadRun.step _
      (readsf_child_main
        { x := (readsf_open (readsf_new pd_new_record 1 0) ['f'] 0 0 0 0 []).1,
          pc := ReadPC.top } small_next_input) Ev.other _
      (ReadRun.step _
        { x := (readsf_open (readsf_new pd_new_record 1 0) ['f'] 0 0 0 0 []).1,
          pc := ReadPC.top } Ev.other _
        (ReadRun.step [] { x := readsf_new pd_new_record 1 0, pc := ReadPC.top } _ _
          (ReadRun.new pd_new_record 1 0) (by unfold BlockSane; decide!)
          (ReadStep.open { x := readsf_new pd_new_record 1 0, pc := ReadPC.top } ['f'] 0 0 0 0 []))
        (by unfold BlockSane; decide!)
        (ReadStep.child _ small_next_input trivial))
      (by unfold BlockSane; decide!)
      (ReadStep.child _ small_next_input
        ⟨5, some { data := small_next_file, pos := 0, errno := 0 }, 3, by decide, by decide!⟩))

/-- C30: the producer never advances the head onto the tail.  In every state that a
`readsf~` object reaches with its child thread at the top of the read loop, an undisturbed
refill (the step that decides to read and the step that takes the result of `read`) that
moves the head leaves it different from the tail; with the request code still
`REQUEST_BUSY` and no end of file, the step waits instead of reading when the tail is 0
and at most `READSIZE` bytes remain up to the end of the buffer, and when the head is
below the tail and fewer than `READSIZE` bytes lie between them, not counting the one
kept free.  In every state that a `writesf~` object reaches while streaming,
`writesf_perform` stores a block only when the free room is at least the block and one
byte more, and the head then differs from the tail. -/
theorem C30_fifo_never_full :
    (∀ (tr : List Ev) (m : ReadMachine) (inp1 inp2 : ReadInput),
      ReadRun BlockSane tr m → m.pc = ReadPC.loop →
      ReadInputOK (readsf_child_main m inp1).pc inp2 →
      (readsf_child_main (readsf_child_main m inp1) inp2).x.x_fifohead ≠ m.x.x_fifohead →
      (readsf_child_main (readsf_child_main m inp1) inp2).x.x_fifohead
        ≠ (readsf_child_main (readsf_child_main m inp1) inp2).x.x_fifotail) ∧
    (∀ (tr : List Ev) (m : ReadMachine) (inp : ReadInput),
      ReadRun BlockSane tr m → m.pc = ReadPC.loop →
      m.x.x_requestcode = REQUEST_BUSY → m.x.x_eof = 0 →
      ((m.x.x_fifohead ≥ m.x.x_fifotail ∧ m.x.x_fifotail = 0 ∧
          m.x.x_fifosize - m.x.x_fifohead ≤ READSIZE) ∨
        (m.x.x_fifohead < m.x.x_fifotail ∧
          m.x.x_fifotail - m.x.x_fifohead - 1 < READSIZE)) →
      readsf_child_main m inp = m) ∧
    (∀ (tr : List Ev) (m : WriteMachine) (y : Readsf) (frames : Int),
      WriteRun BlockSane tr m → BlockSane m.x → m.x.x_state = STATE_STREAM →
      writesf_perform m.x = Perform.done y frames →
      m.x.x_sfchannels * m.x.x_vecsize * m.x.x_bytespersample + 1
          ≤ (if m.x.x_fifotail - m.x.x_fifohead ≤ 0 then
              m.x.x_fifotail - m.x.x_fifohead + m.x.x_fifosize
            else m.x.x_fifotail - m.x.x_fifohead) ∧
        y.x_fifohead ≠ y.x_fifotail ∧ y.x_fifotail = m.x.x_fifotail) := by
  refine ⟨?_, ?_, ?_⟩
  · intro tr m inp1 inp2 hrun hpc hin hne
    have hi := readRun_inv tr m hrun
    obtain ⟨x, pc⟩ := m
    simp only [] at hpc
    subst hpc
    exact refill_not_full x inp1 inp2 hi hin hne
  · intro tr m inp hrun hpc hreq heof h
    have hi := readRun_inv tr m hrun
    obtain ⟨x, pc⟩ := m
    simp only [] at hpc
    subst hpc
    exact refill_refused x inp hi hreq heof h
  · intro tr m y frames hrun hs hst hp
    obtain ⟨hb, hf, hh, ht, _⟩ := writeRun_inv tr m hrun
    exact store_not_full m.x y frames hb hf hh ht hs hst hp

theorem C30_fifo_never_full_witness :
    (readsf_child_main (readsf_child_main small_next_machine small_next_input)
        small_next_input).x.x_fifohead = 8 ∧
    (readsf_child_main (readsf_child_main small_next_machine small_next_input)
        small_next_input).x.x_fifohead
      ≠ (readsf_child_main (readsf_child_main small_next_machine small_next_input)
        small_next_input).x.x_fifotail :=
  ⟨by decide!,
    C30_fifo_never_full.1 _ small_next_machine small_next_input small_next_input
      small_next_run (by decide!)
      (by rw [small_next_reading]; exact Or.inr (by decide))
      (by decide!)⟩

/-- C31: for 1 to 64 channels, 2 to 4 bytes per sample and a buffer of 262144 to 16777216
bytes, the child thread of `readsf~` (when `open_soundfile` has succeeded and the request
still stands) and `writesf_open` both set `x_fifosize` to
`bufsize - bufsize mod (bytespersample * channels * 128)`; that value is positive, at
most `bufsize`, a multiple of `bytespersample * channels * 128`, and so a multiple of
`bytespersample * channels * vecsize` for every `vecsize` that divides 128. -/
theorem C31_fifo_size (bufsize ch bps : Int) (hc1 : 1 ≤ ch) (hc2 : ch ≤ 64) (hb1 : 2 ≤ bps)
    (hb2 : bps ≤ 4) (hs1 : 262144 ≤ bufsize) (hs2 : bufsize ≤ 16777216) :
    (∀ (x : Readsf) (info : SoundfileInfo) (onsetframes : Int) (inp : ReadInput),
      x.x_bufsize = bufsize → x.x_requestcode = REQUEST_BUSY → 0 ≤ inp.opened.ret →
      inp.opened.info.channels = ch → inp.opened.info.bytespersample = bps →
      (readsf_child_main { x := x, pc := ReadPC.opening info onsetframes } inp).x.x_fifosize
        = bufsize - bufsize % (bps * ch * 128)) ∧
    (∀ (sys_getsr : ℚ) (x : Readsf) (w : WriteArgs),
      x.x_bufsize = bufsize → x.x_sfchannels = ch →
      (if w.bytespersamp > 2 then w.bytespersamp else 2) = bps →
      1 ≤ x.x_vecsize → x.x_vecsize ≤ 128 →
      ∃ y, writesf_open_set sys_getsr x w = some y ∧
        y.x_fifosize = bufsize - bufsize % (bps * ch * 128)) ∧
    0 < bufsize - bufsize % (bps * ch * 128) ∧
    bufsize - bufsize % (bps * ch * 128) ≤ bufsize ∧
    (bps * ch * 128) ∣ (bufsize - bufsize % (bps * ch * 128)) ∧
    (∀ vecsize : Int, vecsize ∣ 128 →
      (bps * ch * vecsize) ∣ (bufsize - bufsize % (bps * ch * 128))) := by
  obtain ⟨e1, e2, e3⟩ := fifosize_eq bufsize ch bps hc1 hc2 hb1 hb2 hs1 hs2
  obtain ⟨f1, f2, f3, f4⟩ := fifosize_blocks bufsize ch bps hc1 hc2 hb1 hb2 hs1
  rw [e1] at e3
  refine ⟨?_, ?_, f1, f2, f3, f4⟩
  · intro x info onsetframes inp hbuf hreq hret hch hbps
    simp only [readsf_child_main]
    rw [if_neg (not_lt.mpr hret), if_neg (not_not.mpr hreq)]
    simp only [hch, hbps, hbuf, e1, e3]
    rw [if_neg e2]
    split_ifs <;> rfl
  · intro sys_getsr x w hbuf hch hbps hv1 hv2
    have hp1 : 2 ≤ bps * ch := by nlinarith
    have hp2 : bps * ch ≤ 256 := by nlinarith
    have hd : toInt32 (toInt32 (toInt32 (16 * bps) * ch) * x.x_vecsize) ≠ 0 := by
      have a1 : 16 * bps * ch = 16 * (bps * ch) := by ring
      have a2 : 32 ≤ 16 * bps * ch * x.x_vecsize := by nlinarith
      have a3 : 16 * bps * ch * x.x_vecsize ≤ 4096 * 128 := by nlinarith
      rw [toInt32_eq (16 * bps) (by omega) (by omega),
        toInt32_eq (16 * bps * ch) (by omega) (by omega),
        toInt32_eq _ (by omega) (by omega)]
      omega
    unfold writesf_open_set
    simp only [hbps, hch, hbuf, e1, e3]
    rw [if_neg e2, if_neg hd]
    exact ⟨_, rfl, rfl⟩

/-- A stereo 16-bit stream with the default buffer of two channels: 524288 bytes, a
multiple of 512. -/
theorem C31_fifo_size_witness :
    (0 : Int) < 524288 - 524288 % (2 * 2 * 128) ∧
    ((2 : Int) * 2 * 64) ∣ (524288 - 524288 % (2 * 2 * 128)) :=
  ⟨(C31_fifo_size 524288 2 2 (by decide) (by decide) (by decide) (by decide) (by decide)
      (by decide)).2.2.1,
    (C31_fifo_size 524288 2 2 (by decide) (by decide) (by decide) (by decide) (by decide)
      (by decide)).2.2.2.2.2 64 ⟨2, by decide⟩⟩

/-- C32: a mono 16-bit stream with a FIFO of 262144 bytes.  The child thread of `readsf~`
sets the period to 64 at the vector size 128, which is `262144 / (16 * 2 * 1 * 128)`, and
`writesf_open` does the same; `writesf_dsp` at the vector size 64 sets 128, which is
`262144 / (16 * 2 * 1 * 64)`.  But `readsf_dsp` at the vector size 64 sets 2048, which is
`262144 / (2 * 1 * 64)`: its divisor lacks the factor 16. -/
theorem C32_signal_period :
    small_next_machine.x.x_fifosize = 262144 ∧
    small_next_machine.x.x_sigperiod = 64 ∧
    Int.tdiv 262144 (16 * 2 * 1 * 128) = 64 ∧
    (writesf_open_set 44100 (writesf_new pd_new_record 1 0) write_locals).map
        (fun y => (y.x_fifosize, y.x_sigperiod)) = some (262144, 64) ∧
    ((writesf_open_set 44100 (writesf_new pd_new_record 1 0) write_locals).bind
        (fun y => writesf_dsp y 64 44100)).map (fun y => (y.x_fifosize, y.x_sigperiod))
      = some (262144, 128) ∧
    Int.tdiv 262144 (16 * 2 * 1 * 64) = 128 ∧
    (readsf_dsp small_next_machine.x 64).map (fun y => (y.x_fifosize, y.x_sigperiod))
      = some (262144, 2048) ∧
    Int.tdiv 262144 (2 * 1 * 64) = 2048 := by
  refine ⟨?_, ?_, ?_, ?_, ?_, ?_, ?_, ?_⟩ <;> decide!

/-- C33: a mono 16-bit WAVE file whose data chunk is 255 bytes long, so that
`open_soundfile` gives the byte limit 255, played by a new `readsf~` object with the
vector size 128.  The child thread places 255 bytes in the FIFO and sets `x_eof`.  The
first call of `readsf_perform` then decodes a whole block of 128 frames, the 256 bytes
from the tail on, and the second call decodes another 128 frames and leaves the state
Stream; the byte limit allows `255 / (1 * 2) = 127` frames.  The test for a short FIFO is
`x_fifohead < x_fifotail + wantbytes - 1`, which lets a block pass that lacks one byte and
moves the tail beyond the head. -/
theorem C33_byte_limit :
    open_soundfile 8 (some { data := odd_wave_file, pos := 0, errno := 0 }) 3
        (readsf_info (readsf_open (readsf_new pd_new_record 1 0) ['f'] 0 0 0 0 []).1) 0
      = some odd_wave_input.opened ∧
    odd_wave_input.opened.info.bytelimit = 255 ∧
    (∃ tr, ReadRun (fun _ => True) tr odd_wave_machine) ∧
    (odd_wave_machine.x.x_fifohead, odd_wave_machine.x.x_fifotail,
      odd_wave_machine.x.x_bytelimit, odd_wave_machine.x.x_eof,
      odd_wave_machine.x.x_state) = (255, 0, 0, 1, STATE_STREAM) ∧
    (readsf_perform odd_wave_machine.x).result.map
        (fun r => (r.2, r.1.x_fifohead, r.1.x_fifotail, r.1.x_state))
      = some (128, 255, 256, STATE_STREAM) ∧
    ((readsf_perform odd_wave_machine.x).result.bind
        (fun r => (readsf_perform r.1).result)).map
        (fun r => (r.2, r.1.x_fifohead, r.1.x_fifotail, r.1.x_state))
      = some (128, 255, 512, STATE_STREAM) ∧
    Int.tdiv 255 (1 * 2) = 127 := by
  refine ⟨odd_wave_open, rfl, odd_wave_run, ?_, ?_, ?_, ?_⟩ <;> decide!

/-- C34 (the ceiling of 64 channels) as the claim states it fails for `-raw`: the message
`-raw 0 64.5 2 l f a` names more than 64 channels, and `soundfiler_read` goes on to open
the file and to read it with 64 channels.  The channel count is assigned to an `int`
before it is compared with 64. -/
theorem C34_channel_ceiling_counterexample :
    soundfiler_read four_word_tables 3
        (fun _ => some (Sys.mk (List.replicate 128 0) 0 0)) 3 ['f', 'l', 'o', 'a', 't'] 44100
        [Atom.symbol ['-', 'r', 'a', 'w'], Atom.float 0, Atom.float (129 / 2), Atom.float 2,
          Atom.symbol ['l'], Atom.symbol ['f'], Atom.symbol ['a']]
      = ReadOutcome.binary (some (ReadResult.mk true
          { samplerate := 44100, channels := 64, bytespersample := 2, headersize := 0,
            bigendian := 0, bytelimit := 44100 } [4] 4)) ∧
    (64 : ℚ) < 129 / 2 := by
  constructor
  · decide!
  · norm_num

/-- C34 (the ceiling of 64 channels), amended.  `soundfiler_dowrite` returns 0 without
calling `create_soundfile` when more than 64 atoms are left behind the file name.
`soundfiler_read` jumps to `done` before it comes to the tables and to the file when more
than 64 atoms are left behind the file name, and when its flag loop comes to a flag
`-raw` that names 65 channels or more.  `readsf_new` and `writesf_new` settle on a channel
count from 1 to 64, whatever the argument. -/
theorem C34_channel_ceiling_amended :
    (∀ (env : WriteEnv) (nosym : List Char) (locals : WriteArgs) (info : SoundfileInfo)
        (argv : List Atom),
      64 < (soundfiler_writeargparse nosym
        { locals with argv := argv, bytespersamp := info.bytespersample,
                      bigendian := info.bigendian }).2.1.argv.length →
      (soundfiler_dowrite (dowrite_rest env) nosym locals info argv).ret = 0 ∧
      (soundfiler_dowrite (dowrite_rest env) nosym locals info argv).created = false) ∧
    (∀ (env : ReadEnv) (fuel : Nat) (files : List Char → Option Sys) (fd : Int)
        (nosym : List Char) (sys_getsr : ℚ) (argv av : List Atom) (st : ReadFlags),
      read_flags nosym sys_getsr argv = some (av, st) → 64 + 1 < av.length →
      soundfiler_read env fuel files fd nosym sys_getsr argv = ReadOutcome.done) ∧
    (∀ (env : ReadEnv) (fuel : Nat) (files : List Char → Option Sys) (fd : Int)
        (nosym : List Char) (sys_getsr : ℚ) (argv : List Atom) (st : ReadFlags) (a1 : Atom)
        (c : ℚ) (a3 a4 : Atom) (rest : List Atom),
      ReadReaches nosym sys_getsr argv read_flag_init
        (Atom.symbol ['-', 'r', 'a', 'w'] :: a1 :: Atom.float c :: a3 :: a4 :: rest) st →
      65 ≤ c →
      soundfiler_read env fuel files fd nosym sys_getsr argv = ReadOutcome.done) ∧
    (∀ (x : Readsf) (fnchannels fbufsize : ℚ),
      1 ≤ (readsf_new x fnchannels fbufsize).x_noutlets ∧
      (readsf_new x fnchannels fbufsize).x_noutlets ≤ 64 ∧
      1 ≤ (writesf_new x fnchannels fbufsize).x_sfchannels ∧
      (writesf_new x fnchannels fbufsize).x_sfchannels ≤ 64) := by
  refine ⟨?_, ?_, ?_, ?_⟩
  · intro env nosym locals info argv h
    unfold soundfiler_dowrite
    simp only []
    split_ifs with hp
    · exact ⟨rfl, rfl⟩
    · unfold dowrite_rest
      simp only []
      have h65 : ¬ (((soundfiler_writeargparse nosym
          { locals with argv := argv, bytespersamp := info.bytespersample,
                        bigendian := info.bigendian }).2.1.argv.length : Nat) : Int) < 1 := by
        omega
      have h64 : (((soundfiler_writeargparse nosym
          { locals with argv := argv, bytespersamp := info.bytespersample,
                        bigendian := info.bigendian }).2.1.argv.length : Nat) : Int)
          > (MAXSFCHANS : Int) := by
        unfold MAXSFCHANS
        omega
      rw [if_neg h65, if_pos h64]
      exact ⟨rfl, rfl⟩
  · intro env fuel files fd nosym sys_getsr argv av st hf hlen
    unfold soundfiler_read
    rw [hf]
    simp only []
    rw [if_neg (by omega), if_pos (by unfold MAXSFCHANS; push_cast; omega)]
  · intro env fuel files fd nosym sys_getsr argv st a1 c a3 a4 rest hr hc
    unfold soundfiler_read read_flags
    rw [read_reaches_done nosym sys_getsr _ _ _ _ hr
      (raw_over nosym sys_getsr st a1 c a3 a4 rest hc) _ (le_refl _)]
  · intro x fnchannels fbufsize
    obtain ⟨h1, h2⟩ := new_sizes_channels fnchannels fbufsize
    exact ⟨h1, h2, h1, h2⟩

/-- A write message with 65 tables is refused. -/
theorem C34_channel_ceiling_amended_witness :
    (soundfiler_dowrite (dowrite_rest (one_table 2 [0])) ['f', 'l', 'o', 'a', 't'] write_locals
        write_info write_65_tables).ret = 0 ∧
    (soundfiler_dowrite (dowrite_rest (one_table 2 [0])) ['f', 'l', 'o', 'a', 't'] write_locals
        write_info write_65_tables).created = false :=
  C34_channel_ceiling_amended.1 (one_table 2 [0]) ['f', 'l', 'o', 'a', 't'] write_locals write_info
    write_65_tables (by decide!)

/-- C35: `open_soundfile_via_fd` in auto-detect mode accepts a 16-bit WAVE file whose
format chunk gives 0 channels, and one that gives 65: it returns the descriptor with
`channels` 0 and 65.  With 0 channels the frame size `channels * bytespersample` is 0:
`soundfiler_read` then divides by zero, and so does the child thread of `readsf~` when it
sets the size of the FIFO. -/
theorem C35_channel_range :
    (open_soundfile_via_fd 4 3 (wave_with_channels 0 [1, 0, 2, 0]) auto_info 0).map
        (fun r => (r.ret, r.info.channels, r.info.bytespersample)) = some (3, 0, 2) ∧
    (open_soundfile_via_fd 4 3 (wave_with_channels 65 [1, 0, 2, 0]) auto_info 0).map
        (fun r => (r.ret, r.info.channels, r.info.bytespersample)) = some (3, 65, 2) ∧
    soundfiler_read_rest four_word_tables 4 (some (wave_with_channels 0 [1, 0, 2, 0])) 3
        auto_info 0 0 0x7fffffff [Atom.symbol ['a']] = none ∧
    (∀ r, open_soundfile_via_fd 4 3 (wave_with_channels 0 [1, 0, 2, 0]) auto_info 0 = some r →
      (readsf_child_main
        { x := { (readsf_open (readsf_new pd_new_record 1 0) ['f'] 0 0 0 0 []).1 with
                 x_requestcode := REQUEST_BUSY },
          pc := ReadPC.opening auto_info 0 }
        { opened := r, sysrtn := 0, errno := 0 }).pc = ReadPC.crashed) := by
  refine ⟨by decide!, by decide!, by decide!, ?_⟩
  intro r hr
  have h : open_soundfile_via_fd 4 3 (wave_with_channels 0 [1, 0, 2, 0]) auto_info 0
      = some { ret := 3,
               info := { samplerate := 44100, channels := 0, bytespersample := 2,
                         headersize := 44, bigendian := 0, bytelimit := 0 },
               sys := { data := (wave_with_channels 0 [1, 0, 2, 0]).data, pos := 44,
                        errno := 0 } } := by
    decide!
  rw [h] at hr
  injection hr with hr
  subst hr
  decide!

/-- C36: a call of the decoders with one channel in the file, two vectors holding 7
everywhere, `itemsread = 4` and a block of two frames (1/2 and 1/4).  The decoded channel
is written at the indices 4 and 5 of vector 0.  Of the surplus vector 1 the indices 0 and
1 are set to zero, which lie outside the block, and the indices 4 and 5 of the block keep
the value 7: the loop that zeroes starts at `vecs[i]`, not at `vecs[i] + itemsread`. -/
theorem C36_surplus_zeroing :
    (List.range 7).map (soundfile_xferin_float 1 2 (fun _ _ => 7) 4
        (fun k => [0, 64, 0, 32].getD k 0) 2 2 0 1 (fun _ => 0) 0)
      = [7, 7, 7, 7, 1 / 2, 1 / 4, 7] ∧
    (List.range 7).map (soundfile_xferin_float 1 2 (fun _ _ => 7) 4
        (fun k => [0, 64, 0, 32].getD k 0) 2 2 0 1 (fun _ => 0) 1)
      = [0, 0, 7, 7, 7, 7, 7] ∧
    (List.range 7).map (soundfile_xferin_sample 1 2 (fun _ _ => 7) 4
        (fun k => [0, 64, 0, 32].getD k 0) 2 2 0 (fun _ => 0) 0)
      = [7, 7, 7, 7, 1 / 2, 1 / 4, 7] ∧
    (List.range 7).map (soundfile_xferin_sample 1 2 (fun _ _ => 7) 4
        (fun k => [0, 64, 0, 32].getD k 0) 2 2 0 (fun _ => 0) 1)
      = [0, 0, 7, 7, 7, 7, 7] := by
  refine ⟨?_, ?_, ?_, ?_⟩ <;> decide!

/-- C37: for every file shorter than `2^31` bytes `open_soundfile_via_fd` returns, with
one pass of the loop over the chunks for every 8 bytes of the file at most.  A pass of
the loop of a WAVE or AIFF file that does not end the walk (at `badheader` or at the
chunk with the samples) goes on with a chunk offset that is at least 8 bytes further on
and whose chunk header lies inside the file. -/
theorem C37_chunk_walk_terminates :
    (∀ (fuel : Nat) (fd : Int) (s : Sys) (p_info : SoundfileInfo) (skipframes : Int),
      s.data.length < 2 ^ 31 → s.data.length ≤ 8 * fuel →
      ∃ r, open_soundfile_via_fd fuel fd s p_info skipframes = some r) ∧
    (∀ (swap : Bool) (fuel : Nat) (h : Int) (buf : List Byte) (n b sr : Int) (s : Sys),
      0 ≤ h → s.data.length < 2 ^ 31 →
      (∃ s2, wave_chunks swap (fuel + 1) h buf n b sr s = Walk.bad s2) ∨
      wave_chunks swap (fuel + 1) h buf n b sr s = Walk.found h buf n b sr s ∨
      ∃ (h2 : Int) (buf2 : List Byte) (n2 b2 sr2 : Int) (s2 : Sys),
        h + 8 ≤ h2 ∧ h2 + 8 ≤ s.data.length ∧ s2.data = s.data ∧
        wave_chunks swap (fuel + 1) h buf n b sr s
          = wave_chunks swap fuel h2 buf2 n2 b2 sr2 s2) ∧
    (∀ (swap : Bool) (fuel : Nat) (h : Int) (buf : List Byte) (n b sr : Int) (s : Sys),
      0 ≤ h → s.data.length < 2 ^ 31 →
      (∃ s2, aiff_chunks swap (fuel + 1) h buf n b sr s = Walk.bad s2) ∨
      aiff_chunks swap (fuel + 1) h buf n b sr s = Walk.found h buf n b sr s ∨
      ∃ (h2 : Int) (buf2 : List Byte) (n2 b2 sr2 : Int) (s2 : Sys),
        h + 8 ≤ h2 ∧ h2 + 8 ≤ s.data.length ∧ s2.data = s.data ∧
        aiff_chunks swap (fuel + 1) h buf n b sr s
          = aiff_chunks swap fuel h2 buf2 n2 b2 sr2 s2) := by
  refine ⟨?_, wave_chunks_step, aiff_chunks_step⟩
  intro fuel fd s p_info skipframes hlen hfuel
  unfold open_soundfile_via_fd
  simp only []
  by_cases hh : p_info.headersize ≥ 0
  · rw [if_pos hh]
    exact ⟨_, rfl⟩
  · rw [if_neg hh]
    have hbl : (Sys.read { s with errno := 0 } READHDRSIZE).1.length ≤ s.data.length := by
      unfold Sys.read
      simp only [List.length_take, List.length_drop]
      omega
    have hdata : (Sys.read { s with errno := 0 } READHDRSIZE).2.data = s.data := rfl
    cases hdet : detect_format (Sys.read { s with errno := 0 } READHDRSIZE).1
        ((Sys.read { s with errno := 0 } READHDRSIZE).1.length : Int) with
    | none => exact ⟨_, rfl⟩
    | some fb =>
      obtain ⟨format, bigendian⟩ := fb
      simp only []
      by_cases hn : format = FORMAT_NEXT
      · rw [if_pos hn]
        split_ifs <;> exact ⟨_, rfl⟩
      · rw [if_neg hn]
        by_cases hw : format = FORMAT_WAVE
        · rw [if_pos hw]
          by_cases h20 : ((Sys.read { s with errno := 0 } READHDRSIZE).1.length : Int) < 20
          · rw [if_pos h20]
            exact ⟨_, rfl⟩
          · rw [if_neg h20]
            have ht := wave_chunks_total (decide (bigendian ≠ garray_ambigendian)) fuel 12
              (memcpy (Sys.read { s with errno := 0 } READHDRSIZE).1 0
                (((Sys.read { s with errno := 0 } READHDRSIZE).1.drop 12).take sizeof_wavechunk))
              1 2 44100 (Sys.read { s with errno := 0 } READHDRSIZE).2 (by norm_num)
              (by rw [hdata]; exact hlen) (by rw [hdata]; omega) (by rw [hdata]; omega)
            revert ht
            cases wave_chunks (decide (bigendian ≠ garray_ambigendian)) fuel 12
              (memcpy (Sys.read { s with errno := 0 } READHDRSIZE).1 0
                (((Sys.read { s with errno := 0 } READHDRSIZE).1.drop 12).take sizeof_wavechunk))
              1 2 44100 (Sys.read { s with errno := 0 } READHDRSIZE).2 with
            | nofuel => intro ht; exact absurd rfl ht
            | bad s2 => intro _; exact ⟨_, rfl⟩
            | found h2 buf2 n2 b2 sr2 s2 => intro _; exact ⟨_, rfl⟩
        · rw [if_neg hw]
          by_cases h20 : ((Sys.read { s with errno := 0 } READHDRSIZE).1.length : Int) < 20
          · rw [if_pos h20]
            exact ⟨_, rfl⟩
          · rw [if_neg h20]
            have ht := aiff_chunks_total (decide (bigendian ≠ garray_ambigendian)) fuel 12
              (memcpy (Sys.read { s with errno := 0 } READHDRSIZE).1 0
                (((Sys.read { s with errno := 0 } READHDRSIZE).1.drop 12).take sizeof_datachunk))
              1 2 44100 (Sys.read { s with errno := 0 } READHDRSIZE).2 (by norm_num)
              (by rw [hdata]; exact hlen) (by rw [hdata]; omega) (by rw [hdata]; omega)
            revert ht
            cases aiff_chunks (decide (bigendian ≠ garray_ambigendian)) fuel 12
              (memcpy (Sys.read { s with errno := 0 } READHDRSIZE).1 0
                (((Sys.read { s with errno := 0 } READHDRSIZE).1.drop 12).take sizeof_datachunk))
              1 2 44100 (Sys.read { s with errno := 0 } READHDRSIZE).2 with
            | nofuel => intro ht; exact absurd rfl ht
            | bad s2 => intro _; exact ⟨_, rfl⟩
            | found h2 buf2 n2 b2 sr2 s2 => intro _; exact ⟨_, rfl⟩

/-- The WAVE file of 48 bytes that `create_soundfile` starts, with four bytes of samples,
is parsed with six passes at hand. -/
theorem C37_chunk_walk_terminates_witness :
    ∃ r, open_soundfile_via_fd 6 3 (wave_with_channels 1 [1, 0, 2, 0]) auto_info 0 = some r :=
  C37_chunk_walk_terminates.1 6 3 (wave_with_channels 1 [1, 0, 2, 0]) auto_info 0
    (by decide!) (by decide!)

/-- C38: for 2 or 3 bytes per sample, either byte order and `normalfactor` 1, encoding
with `soundfile_xferout_float` what `soundfile_xferin_float` decoded from a buffer of
byte values gives the bytes of the buffer back, sample by sample, except where the sample
is the most negative integer `-2^(8n-1)`: there the bytes of `-(2^(8n-1) - 1)` are
stored. -/
theorem C38_reencode_lossless (nch : Nat) (vecs0 : Nat → Nat → ℚ) (buf buf0 : Nat → Byte)
    (nitems itemsread bps : Nat) (big : Int) (spread : Nat) (bits : ℚ → Nat)
    (unbits : Nat → ℚ) (hb : bps = 2 ∨ bps = 3) (hs : 1 ≤ spread)
    (hbytes : ∀ k, buf k < 256) (i j t : Nat) (hi : i < nch) (hj : j < nitems)
    (ht : t < bps) :
    soundfile_xferout_float nch
        (soundfile_xferin_float nch nch vecs0 itemsread buf nitems bps big spread unbits)
        buf0 nitems (spread * itemsread) bps big 1 spread bits ((j * nch + i) * bps + t)
      = if sampleInt buf ((j * nch + i) * bps) bps (decide (big ≠ 0)) = -(2 ^ (8 * bps - 1))
        then (bytesOfInt bps (decide (big ≠ 0)) (-(2 ^ (8 * bps - 1) - 1))).getD t 0
        else buf ((j * nch + i) * bps + t) := by
  have hb3 : (bps : Int) = 2 ∨ (bps : Int) = 3 ∨ (bps : Int) = 4 := by
    rcases hb with rfl | rfl
    · left; rfl
    · right; left; rfl
  have hoff : i * ((bps : Int)).toNat + j * (((bps : Int)).toNat * nch)
      = (j * nch + i) * bps := by
    rw [Int.toNat_ofNat]; ring
  obtain ⟨r1, r2⟩ := sampleInt_range buf ((j * nch + i) * bps) bps (decide (big ≠ 0)) hb
  have hdec : soundfile_xferin_float nch nch vecs0 itemsread buf nitems bps big spread unbits
      i (spread * itemsread + j * spread)
      = (sampleInt buf ((j * nch + i) * bps) bps (decide (big ≠ 0)) : ℚ)
          / 2 ^ (8 * bps - 1) := by
    rw [xferin_float_at _ _ _ _ _ _ _ _ _ _ hb3 hs i j hi hi hj, hoff,
      xferin_get_eq _ _ _ _ _ hb]
  have hpos : (0 : ℚ) < 2 ^ (8 * bps - 1) := by positivity
  have e : (sampleInt buf ((j * nch + i) * bps) bps (decide (big ≠ 0)) : ℚ)
      / 2 ^ (8 * bps - 1) * 1 * 2 ^ (8 * bps - 1)
      = ((sampleInt buf ((j * nch + i) * bps) bps (decide (big ≠ 0)) : Int) : ℚ) := by
    field_simp
  have hlo : -(2 ^ 31 : ℚ) ≤ soundfile_xferin_float nch nch vecs0 itemsread buf nitems bps big
      spread unbits i (spread * itemsread + j * spread) * 1 * 2 ^ (8 * bps - 1) := by
    rw [hdec, e]
    have : -(2 ^ 31 : Int) ≤ sampleInt buf ((j * nch + i) * bps) bps (decide (big ≠ 0)) := by
      rcases hb with rfl | rfl <;> norm_num at r1 ⊢ <;> omega
    exact_mod_cast this
  have hrep : to_float (soundfile_xferin_float nch nch vecs0 itemsread buf nitems bps big
      spread unbits i (spread * itemsread + j * spread) * 1 * 2 ^ (8 * bps - 1))
      = soundfile_xferin_float nch nch vecs0 itemsread buf nitems bps big
        spread unbits i (spread * itemsread + j * spread) * 1 * 2 ^ (8 * bps - 1) := by
    rw [hdec, e]
    have : |sampleInt buf ((j * nch + i) * bps) bps (decide (big ≠ 0))| ≤ 2 ^ 24 := by
      rw [abs_le]
      rcases hb with rfl | rfl <;> norm_num at r1 r2 ⊢ <;> omega
    exact fround_int 24 _ this (by norm_num)
  rw [(xferout_spec_in_range nch _ buf0 nitems (spread * itemsread) bps big 1 spread bits hb
    i j t hi hj ht hlo hrep).1, hdec, spec_encode_decoded bps _ r1 r2]
  split_ifs with h
  · rfl
  · exact bytesOfInt_sampleInt buf _ bps _ hb hbytes t ht

/-- A little-endian 16-bit buffer with the samples 1 and -32768: the first comes back as
it was, the second as -32767. -/
theorem C38_reencode_lossless_witness :
    soundfile_xferout_float 1
        (soundfile_xferin_float 1 1 (fun _ _ => 0) 0 (fun k => [1, 0, 0, 128].getD k 0) 2
          (2 : Nat) 0 1 (fun _ => 0))
        (fun _ => 0) 2 (1 * 0) (2 : Nat) 0 1 1 (fun _ => 0) ((1 * 1 + 0) * 2 + 1)
      = 128 :=
  (C38_reencode_lossless 1 (fun _ _ => 0) (fun k => [1, 0, 0, 128].getD k 0) (fun _ => 0) 2 0
    2 0 1 (fun _ => 0) (fun _ => 0) (by decide) (by decide)
    (by
      intro k
      rcases Nat.lt_or_ge k 4 with h | h
      · show [1, 0, 0, 128].getD k 0 < 256
        interval_cases k <;> decide
      · show [1, 0, 0, 128].getD k 0 < 256
        rw [List.getD_eq_default [1, 0, 0, 128] 0 (by simpa using h)]; decide)
    0 1 1 (by decide) (by decide) (by decide)).trans (by decide!)

/-- C39: `soundfiler_writeargparse` returns 0 or -1, and whenever it returns -1 every
output parameter (the argument cursor, the file name, the file type, the sample size, the
swap flag, the byte order, `normalize`, `onset`, `nframes` and the rate) holds what it
held on entry. -/
theorem C39_parse_atomic (nosym : List Char) (p : WriteArgs) :
    ((soundfiler_writeargparse nosym p).1 = 0 ∨ (soundfiler_writeargparse nosym p).1 = -1) ∧
    ((soundfiler_writeargparse nosym p).1 = -1 → (soundfiler_writeargparse nosym p).2.1 = p) := by
  unfold soundfiler_writeargparse
  split
  · exact ⟨Or.inr rfl, fun _ => rfl⟩
  · exact ⟨Or.inr rfl, fun _ => rfl⟩
  · simp only []
    split_ifs <;> simp
  · exact ⟨Or.inr rfl, fun _ => rfl⟩

/-- A message without a file name is refused, and the output parameters are as before. -/
theorem C39_parse_atomic_witness :
    (soundfiler_writeargparse ['f', 'l', 'o', 'a', 't'] write_locals).1 = -1 ∧
    (soundfiler_writeargparse ['f', 'l', 'o', 'a', 't'] write_locals).2.1 = write_locals :=
  ⟨by decide!, (C39_parse_atomic ['f', 'l', 'o', 'a', 't'] write_locals).2 (by decide!)⟩

/-- C40: when `itemswritten >= nframes`, `soundfile_finishwrite` does nothing for any file
type: the file, its offset and `errno` are as before and nothing is printed, so a NeXT
file keeps the length field 0 that `create_soundfile` wrote.  When
`itemswritten < nframes` and the file holds the fields of its type, the file keeps its
length and every byte outside those fields (offsets 4 and 40 for WAVE; 22, 4 and 42 for
AIFF; 8 for NeXT; none for another type). -/
theorem C40_finish_noop :
    (∀ (filetype nframes itemswritten bytesperframe : Int) (swap : Bool) (s : Sys),
      nframes ≤ itemswritten →
      soundfile_finishwrite filetype nframes itemswritten bytesperframe swap s = (s, [])) ∧
    (∀ (big : Bool) (n itemswritten bps c bytesperframe : Int) (sr : ℚ) (payload : List Byte)
        (pos : Nat) (e : Int), n ≤ itemswritten →
      field32 big (soundfile_finishwrite FORMAT_NEXT n itemswritten bytesperframe big
        { data := (create_soundfile FORMAT_NEXT n bps (if big then 1 else 0) c big sr).1
            ++ payload, pos := pos, errno := e }).1.data 8 = 0) ∧
    (∀ (filetype nframes itemswritten bytesperframe : Int) (swap : Bool) (s : Sys),
      itemswritten < nframes →
      (∀ o ∈ finish_offsets filetype, o + 4 ≤ s.data.length) →
      (soundfile_finishwrite filetype nframes itemswritten bytesperframe swap s).1.data.length
          = s.data.length ∧
      ∀ i, (∀ o ∈ finish_offsets filetype, i < o ∨ o + 4 ≤ i) →
        (soundfile_finishwrite filetype nframes itemswritten bytesperframe swap
            s).1.data.getD i 0 = s.data.getD i 0) := by
  have noop : ∀ (filetype nframes itemswritten bytesperframe : Int) (swap : Bool) (s : Sys),
      nframes ≤ itemswritten →
      soundfile_finishwrite filetype nframes itemswritten bytesperframe swap s = (s, []) := by
    intro filetype nframes itemswritten bytesperframe swap s h
    unfold soundfile_finishwrite
    rw [if_neg (not_lt.mpr h)]
  refine ⟨noop, ?_, ?_⟩
  · intro big n itemswritten bps c bytesperframe sr payload pos e h
    rw [noop _ _ _ _ _ _ h]
    obtain ⟨A, R, hA, hs⟩ := next_header_shape big n bps c sr
    show field32 big ((create_soundfile FORMAT_NEXT n bps (if big then 1 else 0) c big sr).1
      ++ payload) 8 = 0
    rw [hs]
    simp only [List.append_assoc]
    have b : ∀ k, k < 4 → byteAt (A ++ (store32 0 ++ (R ++ payload))) (8 + k) = 0 := by
      intro k hk
      unfold byteAt
      rw [List.getD_eq_getElem?_getD, List.getElem?_append_right (by omega), hA]
      have : 8 + k - 8 = k := by omega
      rw [this]
      interval_cases k <;> simp [store32]
    have b0 := b 0 (by norm_num)
    have b1 := b 1 (by norm_num)
    have b2 := b 2 (by norm_num)
    have b3 := b 3 (by norm_num)
    simp only [Nat.add_zero, Nat.reduceAdd] at b0 b1 b2 b3
    cases big <;> simp [field32, be32, load32, b0, b1, b2, b3]
  · intro filetype nframes itemswritten bytesperframe swap s hlt hlen
    exact finish_frame filetype nframes itemswritten bytesperframe swap s hlt hlen

/-- A WAVE file of one frame that was started for two frames: byte 44, the first byte of
the payload, is left alone. -/
theorem C40_finish_noop_witness :
    (soundfile_finishwrite FORMAT_WAVE 2 1 2 false
        { data := (create_soundfile FORMAT_WAVE 2 2 0 1 false 44100).1 ++ [1, 2],
          pos := 46, errno := 0 }).1.data.length = 46 ∧
    (soundfile_finishwrite FORMAT_WAVE 2 1 2 false
        { data := (create_soundfile FORMAT_WAVE 2 2 0 1 false 44100).1 ++ [1, 2],
          pos := 46, errno := 0 }).1.data.getD 44 0 = 1 :=
  ⟨((C40_finish_noop.2.2 FORMAT_WAVE 2 1 2 false
        { data := (create_soundfile FORMAT_WAVE 2 2 0 1 false 44100).1 ++ [1, 2],
          pos := 46, errno := 0 } (by decide) (by decide!)).1).trans (by decide!),
    ((C40_finish_noop.2.2 FORMAT_WAVE 2 1 2 false
        { data := (create_soundfile FORMAT_WAVE 2 2 0 1 false 44100).1 ++ [1, 2],
          pos := 46, errno := 0 } (by decide) (by decide!)).2 44 (by decide)).trans
      (by decide!)⟩

end Soundfile
